import Mathlib

/-!
# elfpatcher: rewriting the DT_NEEDED entries of ELF files

A shallow embedding of `src/elfparser/elfmod.c` (the in-memory library), of
`src/elfpatcher64.c` (the file-descriptor based patcher), of `src/elfpatcher.c`
(its dispatcher) and of the address translation of `src/elfpatcher32.c`.

Modelling conventions
* a byte is a `Nat` below 256, a buffer is a `List Nat`;
* a pointer is the absolute address it holds (a `Nat`, `0` is `NULL`); the
  memory the library touches is the private mapping of the file and, once the
  image has grown, the heap buffer that `calloc` returned;
* an access outside these two blocks is undefined behaviour in C; the model
  returns `none` for it;
* the host is little-endian (the library reads the structures through pointer
  casts and never swaps bytes);
* `size_t` arithmetic is exact: sizes stay far below `2 ^ 64` for a file that
  could be mapped; the pointer arithmetic of `relocate_pointers`, which the
  source does on `uint64_t`, wraps at `2 ^ 64`;
* a C string argument is the list of its bytes before the terminator.
-/

namespace ElfMod

/-! ## Constants and structure layouts of `<elf.h>` -/

def DT_NULL : Nat := 0
def DT_NEEDED : Nat := 1
def DT_STRTAB : Nat := 5
def DT_STRSZ : Nat := 10
def SHT_STRTAB : Nat := 3
def SHT_DYNAMIC : Nat := 6
def SHN_UNDEF : Nat := 0
def EI_CLASS : Nat := 4
def ELFCLASS32 : Nat := 1
def ELFCLASS64 : Nat := 2
/-- The four magic bytes `0x7f 'E' 'L' 'F'`. -/
def ELFMAG : List Nat := [0x7f, 0x45, 0x4c, 0x46]

/-- The name `.dynstr` as bytes. -/
def dynstr_name : List Nat := [0x2e, 0x64, 0x79, 0x6e, 0x73, 0x74, 0x72]

/-- Field offsets and sizes that depend on the ELF class
(`Elf64_*` when `is64`, `Elf32_*` otherwise). -/
structure Layout where
  word : Nat          -- size of an address-sized field
  dyn_size : Nat      -- sizeof(ElfN_Dyn); d_tag at 0, d_val at `word`
  shdr_size : Nat     -- sizeof(ElfN_Shdr)
  sh_name : Nat
  sh_type : Nat
  sh_addr : Nat
  sh_offset : Nat
  sh_size : Nat
  e_phoff : Nat
  e_shoff : Nat
  e_phnum : Nat
  e_shnum : Nat
  e_shstrndx : Nat
  deriving DecidableEq, Repr

def layout64 : Layout :=
  { word := 8, dyn_size := 16, shdr_size := 64, sh_name := 0, sh_type := 4,
    sh_addr := 16, sh_offset := 24, sh_size := 32,
    e_phoff := 32, e_shoff := 40, e_phnum := 56, e_shnum := 60, e_shstrndx := 62 }

def layout32 : Layout :=
  { word := 4, dyn_size := 8, shdr_size := 40, sh_name := 0, sh_type := 4,
    sh_addr := 12, sh_offset := 16, sh_size := 20,
    e_phoff := 28, e_shoff := 32, e_phnum := 44, e_shnum := 48, e_shstrndx := 50 }

def layout (is64 : Bool) : Layout := if is64 then layout64 else layout32

/-! ## The context and the memory it points into -/

/-- The `ElfContext` of `elfmod.h`. Pointer fields hold addresses; the unions
`ehdr32/ehdr64`, `phdr32/phdr64`, `shdr32/shdr64`, `dyn32/dyn64` are one field
each. `mapped` is the content of the mapping at `mapped_data`, `extended` the
content of the heap buffer at `extended_data` (live while `is_expanded`).
`filename` plays no part in any operation and is left out. -/
structure ElfContext where
  mapped_data : Nat
  mapped : List Nat
  file_size : Nat
  ehdr : Nat
  phdr : Nat
  shdr : Nat
  dyn_section_idx : Nat
  dyn_count : Nat
  dyn : Nat
  dynstr : Nat
  dynstr_size : Nat
  dynstr_idx : Nat
  e_ident : Nat
  is_64bit : Bool
  section_count : Nat
  program_header_count : Nat
  shstrtab : Nat
  is_expanded : Bool
  original_size : Nat
  extended_data : Nat
  extended : List Nat
  extended_size : Nat
  deriving DecidableEq, Repr

/-- The context after `memset(ctx, 0, sizeof(ElfContext))`, nothing mapped. -/
def zeroed : ElfContext :=
  { mapped_data := 0, mapped := [], file_size := 0, ehdr := 0, phdr := 0, shdr := 0,
    dyn_section_idx := 0, dyn_count := 0, dyn := 0, dynstr := 0, dynstr_size := 0,
    dynstr_idx := 0, e_ident := 0, is_64bit := false, section_count := 0,
    program_header_count := 0, shstrtab := 0, is_expanded := false, original_size := 0,
    extended_data := 0, extended := [], extended_size := 0 }

/-- The bytes from address `a` up to the end of the block that holds `a`;
`none` when `a` lies in neither block. -/
def region (ctx : ElfContext) (a : Nat) : Option (List Nat) :=
  if ctx.is_expanded = true ∧ ctx.extended_data ≤ a ∧
      a < ctx.extended_data + ctx.extended.length then
    some (ctx.extended.drop (a - ctx.extended_data))
  else if ctx.mapped_data ≤ a ∧ a < ctx.mapped_data + ctx.mapped.length then
    some (ctx.mapped.drop (a - ctx.mapped_data))
  else none

/-- Read `n` bytes at address `a`. -/
def readBytes (ctx : ElfContext) (a n : Nat) : Option (List Nat) :=
  (region ctx a).bind fun l => if n ≤ l.length then some (l.take n) else none

/-- Little-endian value of a byte list. -/
def leNat : List Nat → Nat
  | [] => 0
  | b :: bs => b + 256 * leNat bs

/-- The `n` little-endian bytes of `v` (truncating, as a store to an `n`-byte field does). -/
def leBytes : Nat → Nat → List Nat
  | 0, _ => []
  | n + 1, v => v % 256 :: leBytes n (v / 256)

/-- Read an `n`-byte unsigned integer at address `a`. -/
def readLE (ctx : ElfContext) (a n : Nat) : Option Nat :=
  (readBytes ctx a n).map leNat

/-- Replace the bytes of `l` from index `off` on by `bs`. -/
def splice (l : List Nat) (off : Nat) (bs : List Nat) : List Nat :=
  l.take off ++ bs ++ l.drop (off + bs.length)

/-- Write the bytes `bs` at address `a`; `none` when they do not fit in the
block that holds `a`. -/
def writeBytes (ctx : ElfContext) (a : Nat) (bs : List Nat) : Option ElfContext :=
  if ctx.is_expanded = true ∧ ctx.extended_data ≤ a ∧
      a < ctx.extended_data + ctx.extended.length then
    if a + bs.length ≤ ctx.extended_data + ctx.extended.length then
      some { ctx with extended := splice ctx.extended (a - ctx.extended_data) bs }
    else none
  else if ctx.mapped_data ≤ a ∧ a < ctx.mapped_data + ctx.mapped.length then
    if a + bs.length ≤ ctx.mapped_data + ctx.mapped.length then
      some { ctx with mapped := splice ctx.mapped (a - ctx.mapped_data) bs }
    else none
  else none

/-- Store `v` into an `n`-byte integer field at address `a`. -/
def writeLE (ctx : ElfContext) (a n v : Nat) : Option ElfContext :=
  writeBytes ctx a (leBytes n v)

/-- The C string that starts a byte list: the bytes before the first NUL;
`none` when the list ends before a NUL is met. -/
def cstrFrom : List Nat → Option (List Nat)
  | [] => none
  | b :: bs => if b = 0 then some [] else (cstrFrom bs).map (b :: ·)

/-- The C string at address `a` (what `strdup`, `strlen` read). -/
def cstr (ctx : ElfContext) (a : Nat) : Option (List Nat) :=
  (region ctx a).bind cstrFrom

/-- Does `strcmp` of the C string starting the byte list with the C string `s`
return 0: bytes are compared until they differ or the terminator is reached. -/
def strcmpFrom : List Nat → List Nat → Option Bool
  | [], _ => none
  | b :: _, [] => some (b = 0)
  | b :: bs, c :: cs =>
    if b = c then (if b = 0 then some true else strcmpFrom bs cs) else some false

/-- Whether `strcmp(a, s) == 0` for the pointer `a`. -/
def strcmp_eq (ctx : ElfContext) (a : Nat) (s : List Nat) : Option Bool :=
  (region ctx a).bind fun l => strcmpFrom l s

/-- The bytes `strcpy(dst, s)` writes: the string and its terminator. -/
def strcpy (ctx : ElfContext) (dst : Nat) (s : List Nat) : Option ElfContext :=
  writeBytes ctx dst (s ++ [0])

/-! ## Accessors for the structures in the image -/

/-- Address of `dyn[i]`. -/
def dyn_addr (ctx : ElfContext) (i : Nat) : Nat :=
  ctx.dyn + i * (layout ctx.is_64bit).dyn_size

/-- The field `dyn[i].d_tag`. -/
def dyn_tag (ctx : ElfContext) (i : Nat) : Option Nat :=
  readLE ctx (dyn_addr ctx i) (layout ctx.is_64bit).word

/-- The field `dyn[i].d_un.d_val`. -/
def dyn_val (ctx : ElfContext) (i : Nat) : Option Nat :=
  readLE ctx (dyn_addr ctx i + (layout ctx.is_64bit).word) (layout ctx.is_64bit).word

/-- Address of `shdr[i]`. -/
def shdr_addr (ctx : ElfContext) (i : Nat) : Nat :=
  ctx.shdr + i * (layout ctx.is_64bit).shdr_size

def sh_name (ctx : ElfContext) (i : Nat) : Option Nat :=
  readLE ctx (shdr_addr ctx i + (layout ctx.is_64bit).sh_name) 4

def sh_type (ctx : ElfContext) (i : Nat) : Option Nat :=
  readLE ctx (shdr_addr ctx i + (layout ctx.is_64bit).sh_type) 4

def sh_addr (ctx : ElfContext) (i : Nat) : Option Nat :=
  readLE ctx (shdr_addr ctx i + (layout ctx.is_64bit).sh_addr) (layout ctx.is_64bit).word

def sh_offset (ctx : ElfContext) (i : Nat) : Option Nat :=
  readLE ctx (shdr_addr ctx i + (layout ctx.is_64bit).sh_offset) (layout ctx.is_64bit).word

def sh_size (ctx : ElfContext) (i : Nat) : Option Nat :=
  readLE ctx (shdr_addr ctx i + (layout ctx.is_64bit).sh_size) (layout ctx.is_64bit).word

/-- The header field `e_phoff`, read through `ctx.ehdr`. -/
def e_phoff (ctx : ElfContext) : Option Nat :=
  readLE ctx (ctx.ehdr + (layout ctx.is_64bit).e_phoff) (layout ctx.is_64bit).word

def e_shoff (ctx : ElfContext) : Option Nat :=
  readLE ctx (ctx.ehdr + (layout ctx.is_64bit).e_shoff) (layout ctx.is_64bit).word

def e_phnum (ctx : ElfContext) : Option Nat :=
  readLE ctx (ctx.ehdr + (layout ctx.is_64bit).e_phnum) 2

def e_shnum (ctx : ElfContext) : Option Nat :=
  readLE ctx (ctx.ehdr + (layout ctx.is_64bit).e_shnum) 2

def e_shstrndx (ctx : ElfContext) : Option Nat :=
  readLE ctx (ctx.ehdr + (layout ctx.is_64bit).e_shstrndx) 2

/-! ## Results -/

/-- What a call of the library leaves behind: the returned status, the context,
and the message handed to `set_error` during the call (`none` when `set_error`
was not called, so that the error buffer is as before). -/
structure Outcome where
  ret : Int
  ctx : ElfContext
  err : Option String
  deriving DecidableEq, Repr

/-- What `elf_get_needed_libs` returns: the array (`none` is `NULL`), the value
stored in `*count`, and the message handed to `set_error`, if any. -/
structure NeededLibs where
  libs : Option (List (List Nat))
  count : Nat
  err : Option String
  deriving DecidableEq, Repr

/-! ## elf_load -/

/-- `MAP_FAILED`, that is `(void *) -1`. -/
def MAP_FAILED : Nat := 2 ^ 64 - 1

/-- The magic check of `elf_load`, with the short-circuit evaluation of `||`:
`true` when some byte differs from the expected one. -/
def magic_differs (ctx : ElfContext) : List Nat → Nat → Option Bool
  | [], _ => some false
  | m :: ms, k =>
    (readLE ctx (ctx.e_ident + k) 1).bind fun b =>
      if b ≠ m then some true else magic_differs ctx ms (k + 1)

/-- The loop of `elf_load` over the section headers, from index `i`, with
`fuel` iterations left (`fuel = section_count - i`). -/
def section_loop : Nat → Nat → ElfContext → Option ElfContext
  | 0, _, ctx => some ctx
  | fuel + 1, i, ctx =>
    (sh_name ctx i).bind fun nm =>
    (sh_type ctx i).bind fun type =>
    (sh_offset ctx i).bind fun offset =>
    (sh_size ctx i).bind fun size =>
    let name := ctx.shstrtab + nm
    let ctx1 : ElfContext :=
      if type = SHT_DYNAMIC then
        { ctx with dyn := ctx.mapped_data + offset,
                   dyn_count := size / (layout ctx.is_64bit).dyn_size,
                   dyn_section_idx := i }
      else ctx
    if type = SHT_STRTAB then
      (strcmp_eq ctx1 name dynstr_name).bind fun same =>
        if same then
          section_loop fuel (i + 1)
            { ctx1 with dynstr := ctx1.mapped_data + offset, dynstr_size := size,
                        dynstr_idx := i }
        else section_loop fuel (i + 1) ctx1
    else section_loop fuel (i + 1) ctx1

/-- `elf_load` on a file with content `file` that `mmap` places at address
`base` (non-zero). Opening, `fstat` and `strdup` are taken to succeed; `mmap`
fails on an empty file. -/
def elf_load (file : List Nat) (base : Nat) : Option Outcome :=
  let ctx0 : ElfContext :=
    { zeroed with file_size := file.length, original_size := file.length }
  if file.length = 0 then
    some ⟨-1, { ctx0 with mapped_data := MAP_FAILED }, some "Failed to map file: %s"⟩
  else
    let ctx1 : ElfContext := { ctx0 with mapped_data := base, mapped := file, e_ident := base }
    (magic_differs ctx1 ELFMAG 0).bind fun bad =>
    if bad then some ⟨-1, zeroed, some "Not a valid ELF file"⟩
    else
      (readLE ctx1 (ctx1.e_ident + EI_CLASS) 1).bind fun cls =>
      let ctx2 : ElfContext := { ctx1 with is_64bit := decide (cls = ELFCLASS64), ehdr := base }
      (e_phoff ctx2).bind fun phoff =>
      (e_shoff ctx2).bind fun shoff =>
      (e_shnum ctx2).bind fun shnum =>
      (e_phnum ctx2).bind fun phnum =>
      let ctx3 : ElfContext :=
        { ctx2 with phdr := base + phoff, shdr := base + shoff,
                    section_count := shnum, program_header_count := phnum }
      (e_shstrndx ctx3).bind fun strndx =>
      (if strndx ≠ SHN_UNDEF then
          (sh_offset ctx3 strndx).map fun o => { ctx3 with shstrtab := base + o }
        else some ctx3).bind fun ctx4 =>
      (section_loop ctx4.section_count 0 ctx4).bind fun ctx5 =>
      if ctx5.dynstr = 0 ∨ ctx5.dyn = 0 ∨ ctx5.dyn_count = 0 then
        some ⟨-1, zeroed, some "Could not find dynamic section or dynamic string table"⟩
      else some ⟨0, ctx5, none⟩

/-! ## elf_get_needed_libs -/

/-- The counting loop of `elf_get_needed_libs` from index `i` with `fuel`
iterations left and `needed_count` so far. -/
def count_loop (ctx : ElfContext) : Nat → Nat → Nat → Option Nat
  | 0, _, needed_count => some needed_count
  | fuel + 1, i, needed_count =>
    (dyn_tag ctx i).bind fun tag =>
      if tag = DT_NEEDED then count_loop ctx fuel (i + 1) (needed_count + 1)
      else if tag = DT_NULL then some needed_count
      else count_loop ctx fuel (i + 1) needed_count

/-- The filling loop of `elf_get_needed_libs`; `acc` is `needed_libs[0 .. idx)`. -/
def fill_loop (ctx : ElfContext) (needed_count : Nat) :
    Nat → Nat → List (List Nat) → Option (List (List Nat))
  | 0, _, acc => some acc
  | fuel + 1, i, acc =>
    if acc.length < needed_count then
      (dyn_tag ctx i).bind fun tag =>
        if tag = DT_NEEDED then
          (dyn_val ctx i).bind fun d_val =>
          (cstr ctx (ctx.dynstr + d_val)).bind fun lib_name =>
            fill_loop ctx needed_count fuel (i + 1) (acc ++ [lib_name])
        else if tag = DT_NULL then some acc
        else fill_loop ctx needed_count fuel (i + 1) acc
    else some acc

/-- `elf_get_needed_libs`; the allocations of the result are taken to succeed. -/
def elf_get_needed_libs (ctx : ElfContext) : Option NeededLibs :=
  (count_loop ctx ctx.dyn_count 0 0).bind fun needed_count =>
    if needed_count = 0 then some ⟨none, 0, none⟩
    else
      (fill_loop ctx needed_count ctx.dyn_count 0 []).map fun needed_libs =>
        ⟨some needed_libs, needed_count, none⟩

/-! ## relocate_pointers, expand_dynstr -/

/-- Addition of `uintptr`-sized values. -/
def add64 (a b : Nat) : Nat := (a + b) % 2 ^ 64

/-- Subtraction of `uint64_t` values. -/
def sub64 (a b : Nat) : Nat := (a % 2 ^ 64 + 2 ^ 64 - b % 2 ^ 64) % 2 ^ 64

/-- `relocate_pointers`: every pointer is rebased from `ctx.mapped_data` to `new_data`. -/
def relocate_pointers (ctx : ElfContext) (new_data : Nat) : Option ElfContext :=
  let base_offset := ctx.mapped_data
  let new_base := new_data
  let ctx1 : ElfContext := { ctx with ehdr := new_data }
  (e_phnum ctx1).bind fun phnum =>
  (if phnum > 0 then
      (e_phoff ctx1).map fun o => { ctx1 with phdr := add64 new_base o }
    else some ctx1).bind fun ctx2 =>
  (e_shoff ctx2).bind fun shoff =>
  let ctx3 : ElfContext := { ctx2 with shdr := add64 new_base shoff }
  let ctx4 : ElfContext :=
    if ctx3.dyn ≠ 0 then { ctx3 with dyn := add64 new_base (sub64 ctx3.dyn base_offset) }
    else ctx3
  let ctx5 : ElfContext :=
    if ctx4.shstrtab ≠ 0 then
      { ctx4 with shstrtab := add64 new_base (sub64 ctx4.shstrtab base_offset) }
    else ctx4
  let ctx6 : ElfContext :=
    if ctx5.dynstr ≠ 0 then
      { ctx5 with dynstr := add64 new_base (sub64 ctx5.dynstr base_offset) }
    else ctx5
  some ctx6

/-- The padding of `expand_dynstr` up to a multiple of 16. -/
def padding (file_size : Nat) : Nat :=
  if 16 - file_size % 16 = 16 then 0 else 16 - file_size % 16

/-- `expand_dynstr`; `alloc` is what `calloc` returns (`none` is `NULL`). -/
def expand_dynstr (ctx : ElfContext) (additional_size : Nat) (alloc : Option Nat) :
    Option Outcome :=
  if additional_size = 0 then some ⟨-1, ctx, none⟩
  else
    (sh_offset ctx ctx.dynstr_idx).bind fun _dynstr_offset =>
    (sh_size ctx ctx.dynstr_idx).bind fun _dynstr_size =>
    (sh_addr ctx ctx.dynstr_idx).bind fun _dynstr_addr =>
    let new_size := ctx.file_size + padding ctx.file_size + additional_size
    match alloc with
    | none => some ⟨-1, ctx, some "Memory allocation failed for expanded file"⟩
    | some new_data =>
      (readBytes ctx (if ctx.is_expanded then ctx.extended_data else ctx.mapped_data)
          ctx.file_size).bind fun content =>
      let ctx1 : ElfContext :=
        { ctx with is_expanded := true, extended_data := new_data,
                   extended := content ++ List.replicate (new_size - ctx.file_size) 0,
                   extended_size := new_size }
      (relocate_pointers ctx1 new_data).bind fun ctx2 =>
      (sh_size ctx2 ctx2.dynstr_idx).bind fun size =>
      (writeLE ctx2 (shdr_addr ctx2 ctx2.dynstr_idx + (layout ctx2.is_64bit).sh_size)
          (layout ctx2.is_64bit).word (size + additional_size)).bind fun ctx3 =>
      some ⟨0, { ctx3 with file_size := new_size,
                           dynstr_size := ctx3.dynstr_size + additional_size }, none⟩

/-! ## elf_replace_needed_lib -/

/-- The search loop of `elf_replace_needed_lib`: the `(dynamic_index,
string_offset)` of the first `DT_NEEDED` entry whose name is `old_lib`. -/
def find_loop (ctx : ElfContext) (old_lib : List Nat) : Nat → Nat → Option (Option (Nat × Nat))
  | 0, _ => some none
  | fuel + 1, i =>
    (dyn_tag ctx i).bind fun tag =>
      if tag = DT_NEEDED then
        (dyn_val ctx i).bind fun str_idx =>
          if str_idx < ctx.dynstr_size then
            (strcmp_eq ctx (ctx.dynstr + str_idx) old_lib).bind fun same =>
              if same then some (some (i, str_idx)) else find_loop ctx old_lib fuel (i + 1)
          else find_loop ctx old_lib fuel (i + 1)
      else if tag = DT_NULL then some none
      else find_loop ctx old_lib fuel (i + 1)

/-- `elf_replace_needed_lib`; `alloc` is what `calloc` returns if the grow path
calls it. -/
def elf_replace_needed_lib (ctx : ElfContext) (old_lib new_lib : List Nat)
    (alloc : Option Nat) : Option Outcome :=
  (find_loop ctx old_lib ctx.dyn_count 0).bind fun found =>
  match found with
  | none => some ⟨-1, ctx, some "Library not found in DT_NEEDED: %s"⟩
  | some (dynamic_index, string_offset) =>
    let old_len := old_lib.length
    let new_len := new_lib.length
    if new_len ≤ old_len then
      (strcpy ctx (ctx.dynstr + string_offset) new_lib).bind fun ctx1 =>
        some ⟨0, ctx1, none⟩
    else
      (expand_dynstr ctx (new_len + 1) alloc).bind fun e =>
      if e.ret ≠ 0 then some ⟨-1, e.ctx, some "Failed to expand dynamic string table"⟩
      else
        let ctx1 := e.ctx
        (sh_offset ctx1 ctx1.dynstr_idx).bind fun _dynstr_offset =>
        let orig_dynstr_size := ctx1.dynstr_size - (new_len + 1)
        let new_offset := orig_dynstr_size
        if new_offset + new_len ≥ ctx1.dynstr_size then
          some ⟨-1, ctx1, some "String offset calculation error"⟩
        else
          (strcpy ctx1 (ctx1.dynstr + new_offset) new_lib).bind fun ctx2 =>
          (writeLE ctx2 (dyn_addr ctx2 dynamic_index + (layout ctx2.is_64bit).word)
              (layout ctx2.is_64bit).word new_offset).bind fun ctx3 =>
          some ⟨0, ctx3, none⟩

/-! ## elf_save -/

/-- The pointer `data_to_write` of `elf_save`. -/
def data_to_write (ctx : ElfContext) : Nat :=
  if ctx.is_expanded then ctx.extended_data else ctx.mapped_data

/-- The length `size_to_write` of `elf_save`. -/
def size_to_write (ctx : ElfContext) : Nat :=
  if ctx.is_expanded then ctx.extended_size else ctx.file_size

/-- `elf_save`: the bytes handed to `write`, which is taken to succeed and to
write them all (only then does `elf_save` return 0). -/
def elf_save (ctx : ElfContext) : Option (List Nat) :=
  readBytes ctx (data_to_write ctx) (size_to_write ctx)

end ElfMod

namespace ElfMod

/-! ## Notions used to state the properties -/

/-- The scalar fields of a context: the context without the content of the two
memory blocks. Two contexts with the same `scalars` hold the same pointers,
sizes and flags. -/
def scalars (ctx : ElfContext) : ElfContext := { ctx with mapped := [], extended := [] }

/-- A C string: no NUL among its bytes, every byte below 256. -/
def CStr (s : List Nat) : Prop := ∀ b ∈ s, 0 < b ∧ b < 256

instance (s : List Nat) : Decidable (CStr s) := by unfold CStr; infer_instance

/-- The `n` dynamic entries from index `i` on, as `(d_tag, d_val)` pairs. -/
def read_table (ctx : ElfContext) : Nat → Nat → Option (List (Nat × Nat))
  | 0, _ => some []
  | n + 1, i =>
    (dyn_tag ctx i).bind fun t =>
    (dyn_val ctx i).bind fun v =>
    (read_table ctx n (i + 1)).map fun es => (t, v) :: es

/-- All `dyn_count` entries of the dynamic table. -/
def dyn_table (ctx : ElfContext) : Option (List (Nat × Nat)) :=
  read_table ctx ctx.dyn_count 0

/-- The entries that precede the first `DT_NULL` entry. -/
def spec_live (es : List (Nat × Nat)) : List (Nat × Nat) :=
  es.takeWhile fun e => e.1 ≠ DT_NULL

/-- The `d_val` of the live entries tagged `DT_NEEDED`, in table order. -/
def spec_needed_offsets (es : List (Nat × Nat)) : List Nat :=
  ((spec_live es).filter fun e => e.1 = DT_NEEDED).map Prod.snd

/-- The C strings at `dynstr + v` for the offsets `v`, in order. -/
def resolve_all (ctx : ElfContext) : List Nat → Option (List (List Nat))
  | [] => some []
  | v :: vs =>
    (cstr ctx (ctx.dynstr + v)).bind fun s => (resolve_all ctx vs).map fun ss => s :: ss

/-- What the specification asks of the enumerator, for the dynamic table `es`:
the names of the live `DT_NEEDED` entries, in order and with duplicates; an
empty result with count 0 and no error when there is none. -/
def spec_needed_libs (ctx : ElfContext) (es : List (Nat × Nat)) : Option NeededLibs :=
  (resolve_all ctx (spec_needed_offsets es)).map fun names =>
    match names with
    | [] => ⟨none, 0, none⟩
    | _ :: _ => ⟨some names, names.length, none⟩

/-- The string at offset `v` of the string table ends inside the table. -/
def string_inside (ctx : ElfContext) (v : Nat) : Prop :=
  match cstr ctx (ctx.dynstr + v) with
  | some s => v + s.length < ctx.dynstr_size
  | none => False

instance (ctx : ElfContext) (v : Nat) : Decidable (string_inside ctx v) := by
  unfold string_inside; split <;> infer_instance

/-- The mapping and the heap buffer are distinct allocations. -/
def blocks_apart (ctx : ElfContext) : Prop :=
  ctx.is_expanded = true →
    ctx.extended_data + ctx.extended.length ≤ ctx.mapped_data ∨
    ctx.mapped_data + ctx.mapped.length ≤ ctx.extended_data

instance (ctx : ElfContext) : Decidable (blocks_apart ctx) := by
  unfold blocks_apart; infer_instance

/-- A well-formed image, as far as the rewriting of names is concerned: the
two memory blocks are apart, the dynamic table and the string table do not
overlap, the dynamic table can be read, and every `DT_NEEDED` entry before the
terminator designates a NUL-terminated string that lies inside the string
table. -/
def WellFormed (ctx : ElfContext) : Prop :=
  blocks_apart ctx ∧
  (ctx.dyn + ctx.dyn_count * (layout ctx.is_64bit).dyn_size ≤ ctx.dynstr ∨
    ctx.dynstr + ctx.dynstr_size ≤ ctx.dyn) ∧
  match dyn_table ctx with
  | some es => ∀ v ∈ spec_needed_offsets es, string_inside ctx v
  | none => False

instance (ctx : ElfContext) : Decidable (WellFormed ctx) := by
  unfold WellFormed; split <;> infer_instance

/-- Address of the field `sh_size` of the section header of `.dynstr`. -/
def dynstr_sh_size_addr (ctx : ElfContext) : Nat :=
  shdr_addr ctx ctx.dynstr_idx + (layout ctx.is_64bit).sh_size

/-- An image as `elf_load` leaves it and that can grow by `n` bytes into a
buffer that `calloc` places at `new_data`:
* it has not grown yet, `file_size` is the size of the mapping, which holds at
  least an ELF header, both tables are non-empty, and both blocks lie in the
  64-bit address space;
* `shdr` is where the header field `e_shoff` says, and the section header of
  `.dynstr`, the dynamic table and the string table lie inside the mapping;
* the new string offset fits a `d_val`;
* the dynamic table overlaps neither the `sh_size` field of the header of
  `.dynstr` nor the `n` bytes that follow the string table, and that `sh_size`
  field does not overlap the string table. -/
def Growable (ctx : ElfContext) (n new_data : Nat) : Prop :=
  ctx.is_expanded = false ∧
  ctx.file_size = ctx.mapped.length ∧
  64 ≤ ctx.mapped.length ∧
  0 < ctx.dyn_count ∧
  0 < ctx.dynstr_size ∧
  0 < ctx.mapped_data ∧
  ctx.mapped_data + ctx.mapped.length ≤ 2 ^ 64 ∧
  0 < new_data ∧
  new_data + (ctx.mapped.length + 16 + n) ≤ 2 ^ 64 ∧
  ctx.mapped_data ≤ ctx.shdr ∧
  readLE ctx (ctx.mapped_data + (layout ctx.is_64bit).e_shoff) (layout ctx.is_64bit).word =
    some (ctx.shdr - ctx.mapped_data) ∧
  shdr_addr ctx (ctx.dynstr_idx + 1) ≤ ctx.mapped_data + ctx.mapped.length ∧
  ctx.mapped_data ≤ ctx.dyn ∧
  dyn_addr ctx ctx.dyn_count ≤ ctx.mapped_data + ctx.mapped.length ∧
  ctx.mapped_data ≤ ctx.dynstr ∧
  ctx.dynstr + ctx.dynstr_size ≤ ctx.mapped_data + ctx.mapped.length ∧
  ctx.dynstr_size + n < 256 ^ (layout ctx.is_64bit).word ∧
  (dynstr_sh_size_addr ctx + (layout ctx.is_64bit).word ≤ ctx.dyn ∨
    dyn_addr ctx ctx.dyn_count ≤ dynstr_sh_size_addr ctx) ∧
  (ctx.dynstr + ctx.dynstr_size + n ≤ ctx.dyn ∨
    dyn_addr ctx ctx.dyn_count ≤ ctx.dynstr + ctx.dynstr_size) ∧
  (dynstr_sh_size_addr ctx + (layout ctx.is_64bit).word ≤ ctx.dynstr ∨
    ctx.dynstr + ctx.dynstr_size ≤ dynstr_sh_size_addr ctx)

instance (ctx : ElfContext) (n new_data : Nat) : Decidable (Growable ctx n new_data) := by
  unfold Growable; infer_instance

end ElfMod


/-! # The file-descriptor based patcher (`src/elfpatcher64.c`)

The file is a list of bytes. Every `read` and `write` of the source but the
first `read` of `patch64` is preceded by an `lseek` to an absolute offset, so
the model passes offsets explicitly. `off_t` offsets are taken to stay below
`2 ^ 63`. A result `none` of `patch64` stands for behaviour that depends on
uninitialised or out-of-bounds memory. A `memcpy` that passes the end of the
block `newtab` is undefined behaviour as well; the model marks such a run with
the flag `overflow` of the result and records what a build without checks
leaves, so that the effect of the overflow can be shown, and the properties
that the source guarantees are stated for the results with `overflow = false`. -/

namespace ElfPatcher

open ElfMod (leNat leBytes DT_NULL DT_NEEDED DT_STRTAB DT_STRSZ ELFMAG)

def PT_LOAD : Nat := 1
def PT_DYNAMIC : Nat := 2
def EI_DATA : Nat := 5
def ELFDATA2LSB : Nat := 1

/-- The entry type `DynEntryInfo64` of the source: `tag` is the 32-bit
pattern of the `Elf64_Sword`, `val` an `Elf64_Word`, `val_offset` the file
offset of `d_un.d_val`. -/
structure DynEntryInfo64 where
  tag : Nat
  val : Nat
  val_offset : Nat
  deriving DecidableEq, Repr

/-- Byte swap of an `n`-byte value. -/
def bswap (n x : Nat) : Nat := leNat (leBytes n x).reverse

/-- `be32toh` on a little-endian host; the argument is converted to `uint32_t`. -/
def be32toh (x : Nat) : Nat := bswap 4 (x % 2 ^ 32)

/-- `be64toh` (and `htobe64`) on a little-endian host. -/
def be64toh (x : Nat) : Nat := bswap 8 (x % 2 ^ 64)

/-- `to_host64`: parameter and result are `uint32_t`. -/
def to_host64 (x : Nat) (swap : Bool) : Nat :=
  (if swap then be64toh (x % 2 ^ 32) else x % 2 ^ 32) % 2 ^ 32

/-- `to_file64`: parameter and result are `uint32_t`. -/
def to_file64 (x : Nat) (swap : Bool) : Nat :=
  (if swap then be64toh (x % 2 ^ 32) else x % 2 ^ 32) % 2 ^ 32

/-- `lseek(fd, off, SEEK_SET)` followed by a `read` of `n` bytes that returns `n`;
`none` when the seek fails or fewer bytes are read. -/
def read_at (file : List Nat) (off n : Nat) : Option (List Nat) :=
  if off < 2 ^ 63 ∧ off + n ≤ file.length then some ((file.drop off).take n) else none

/-- `lseek(fd, off, SEEK_SET)` followed by `write(fd, bs, len)`: the bytes replace
the content from `off` on and extend the file where they reach past its end. -/
def write_at (file : List Nat) (off : Nat) (bs : List Nat) : List Nat :=
  let padded := file ++ List.replicate (off - file.length) 0
  padded.take off ++ bs ++ padded.drop (off + bs.length)

/-- The loop of `collect_dyn_entries`; `arr` holds `arr[0 .. cnt)`. The result
`none` is the `NULL` returned when a read fails. -/
def collect_loop (file : List Nat) (dyn_off dyn_size : Nat) (swap : Bool) :
    Nat → Nat → List DynEntryInfo64 → Option (List DynEntryInfo64)
  | 0, _, arr => some arr
  | fuel + 1, cur, arr =>
    if cur < dyn_off + dyn_size then
      match read_at file cur 16 with
      | none => none
      | some d =>
        let tag := to_host64 (leNat (d.take 8)) swap
        let val := to_host64 (leNat (d.drop 8)) swap
        let arr1 := arr ++ [⟨tag, val, cur + 8⟩]
        if tag = DT_NULL then some arr1
        else collect_loop file dyn_off dyn_size swap fuel (cur + 16) arr1
    else some arr

/-- `collect_dyn_entries`: the entries up to and including the first `DT_NULL`
(`*out_count` is the length of the result); `calloc` is taken to succeed. The
loop runs at most `dyn_size / 16 + 1` times. The array `arr` has
`dyn_size / 16` elements; an entry that the loop stores behind its end, when
`dyn_size` is not a multiple of 16, is kept in the result. -/
def collect_dyn_entries (file : List Nat) (dyn_off dyn_size : Nat) (swap : Bool) :
    Option (List DynEntryInfo64) :=
  collect_loop file dyn_off dyn_size swap (dyn_size / 16 + 1) dyn_off []

/-- The fields of the ELF header that `patch64` uses, read in host order. -/
structure Ehdr where
  e_ident : List Nat
  e_phoff : Nat
  e_phentsize : Nat
  e_phnum : Nat
  deriving DecidableEq, Repr

/-- Decode the 64 bytes of an `Elf64_Ehdr`. -/
def decode_ehdr (b : List Nat) : Ehdr :=
  { e_ident := b.take 16,
    e_phoff := leNat ((b.drop 32).take 8),
    e_phentsize := leNat ((b.drop 54).take 2),
    e_phnum := leNat ((b.drop 56).take 2) }

/-- The loop of `find_dynamic_segment` from index `i`: `(p_offset, p_filesz)` of
the first `PT_DYNAMIC` header, `p_filesz` truncated to an `Elf64_Word`. -/
def find_dynamic_loop (file : List Nat) (eh : Ehdr) (swap : Bool) :
    Nat → Nat → Option (Nat × Nat)
  | 0, _ => none
  | fuel + 1, i =>
    match read_at file (eh.e_phoff + i * eh.e_phentsize) 56 with
    | none => none
    | some ph =>
      let p_type := leNat (ph.take 4)
      let p_offset := leNat ((ph.drop 8).take 8)
      let p_filesz := leNat ((ph.drop 32).take 8)
      let p_type := if swap then be32toh p_type else p_type
      let p_offset := if swap then be32toh p_offset else p_offset
      let p_filesz := if swap then be32toh p_filesz else p_filesz
      if p_type = PT_DYNAMIC then some (p_offset, p_filesz % 2 ^ 32)
      else find_dynamic_loop file eh swap fuel (i + 1)

/-- `find_dynamic_segment`; `none` is `FALSE`. -/
def find_dynamic_segment (file : List Nat) (eh : Ehdr) (swap : Bool) : Option (Nat × Nat) :=
  find_dynamic_loop file eh swap eh.e_phnum 0

/-- An `off_t` from its 64-bit pattern. -/
def to_off_t (x : Nat) : Int :=
  if x % 2 ^ 64 < 2 ^ 63 then (x % 2 ^ 64 : Nat) else ((x % 2 ^ 64 : Nat) : Int) - 2 ^ 64

/-- The loop of `vaddr_to_offset` from index `i`, for the value `vaddr` of the
parameter (a `uint32_t`, promoted to 64 bits in the comparisons and in the
difference; the sum `p_vaddr + p_memsz` wraps at 64 bits). -/
def vaddr_loop (file : List Nat) (eh : Ehdr) (vaddr : Nat) (swap : Bool) : Nat → Nat → Int
  | 0, _ => -1
  | fuel + 1, i =>
    match read_at file (eh.e_phoff + i * eh.e_phentsize) 56 with
    | none => -1
    | some ph =>
      let p_type := leNat (ph.take 4)
      let p_offset := leNat ((ph.drop 8).take 8)
      let p_vaddr := leNat ((ph.drop 16).take 8)
      let p_memsz := leNat ((ph.drop 40).take 8)
      let p_type := if swap then be32toh p_type else p_type
      let p_vaddr := if swap then be32toh p_vaddr else p_vaddr
      let p_memsz := if swap then be32toh p_memsz else p_memsz
      let p_offset := if swap then be32toh p_offset else p_offset
      if p_type = PT_LOAD ∧ vaddr ≥ p_vaddr ∧ vaddr < (p_vaddr + p_memsz) % 2 ^ 64 then
        to_off_t (p_offset + (vaddr - p_vaddr))
      else vaddr_loop file eh vaddr swap fuel (i + 1)

/-- `vaddr_to_offset`. The parameter `vaddr` is a `uint32_t`: the call converts
its argument to 32 bits, and the loop compares and subtracts the converted
value. -/
def vaddr_to_offset (file : List Nat) (eh : Ehdr) (vaddr : Nat) (swap : Bool) : Int :=
  vaddr_loop file eh (vaddr % 2 ^ 32) swap eh.e_phnum 0

/-- The name the byte-wise read loop of `patch64` collects in `orig`: at most
255 bytes, up to a NUL or the end of the file. -/
def read_name (file : List Nat) (name_off : Nat) : List Nat :=
  ((file.drop name_off).take 255).takeWhile fun b => b ≠ 0

/-- `snprintf(buf, 512, "%s%s", pfx, orig)`: at most 511 bytes are kept. -/
def snprintf512 (pfx orig : List Nat) : List Nat := (pfx ++ orig).take 511

/-- Step 6 of `patch64`: the sum `total_extra`. -/
def total_extra (file : List Nat) (strtab_off : Nat) (pfx : List Nat) :
    List DynEntryInfo64 → Nat
  | [] => 0
  | d :: ds =>
    if d.tag ≠ DT_NEEDED then total_extra file strtab_off pfx ds
    else
      let len := (read_name file (strtab_off + d.val)).length
      let newlen := pfx.length + len + 1
      (if newlen > len + 1 then newlen - (len + 1) else 0) +
        total_extra file strtab_off pfx ds

/-- The in-place branch of `patch64` (`total_extra == 0`). -/
def patch_in_place (strtab_off : Nat) (pfx : List Nat) :
    List DynEntryInfo64 → List Nat → List Nat
  | [], file => file
  | d :: ds, file =>
    if d.tag ≠ DT_NEEDED then patch_in_place strtab_off pfx ds file
    else
      let name_off := strtab_off + d.val
      let orig := read_name file name_off
      let len := orig.length
      let buf := snprintf512 pfx orig
      let buflen := buf.length + 1
      let pad := if buflen < len + 1 then len + 1 - buflen else 0
      patch_in_place strtab_off pfx ds
        (write_at file name_off (buf ++ [0] ++ List.replicate pad 0))

/-- `memcpy(newtab + pos, bs, len)` into the block `newtab` of fixed size. The
copy is defined when `pos + len` does not exceed the size of the block; then
the first component is the block after the copy and the second is `false`.
The second component is `true` when the copy passes the end of the block,
which is undefined behaviour; the first component then holds the bytes that
fall inside the block, as a build without checks leaves them when it goes on. -/
def memcpy_into (newtab : List Nat) (pos : Nat) (bs : List Nat) : List Nat × Bool :=
  let fit := bs.take (newtab.length - pos)
  (newtab.take pos ++ fit ++ newtab.drop (pos + fit.length),
    decide (newtab.length < pos + bs.length))

/-- The state of the loop that fills `newtab` in the grow branch. -/
structure Grow where
  newtab : List Nat
  write_ptr : Nat
  dyn : List DynEntryInfo64     -- the entries, with the `val` assigned so far
  overflow : Bool
  deriving DecidableEq, Repr

/-- The loop over the entries in the grow branch of `patch64`; `old` is the old
string table. `none`: `strlen(orig)` runs past the end of `old`. -/
def grow_loop (old pfx : List Nat) : List DynEntryInfo64 → Grow → Option Grow
  | [], g => some g
  | d :: ds, g =>
    if d.tag ≠ DT_NEEDED then grow_loop old pfx ds { g with dyn := g.dyn ++ [d] }
    else
      match ElfMod.cstrFrom (old.drop d.val) with
      | none => none
      | some orig =>
        let orig_len := orig.length + 1
        let buf := snprintf512 pfx orig
        let buflen := buf.length + 1
        if buflen ≤ orig_len then
          let w := memcpy_into g.newtab d.val (buf ++ [0] ++ List.replicate (orig_len - buflen) 0)
          grow_loop old pfx ds
            { g with newtab := w.1, dyn := g.dyn ++ [d], overflow := g.overflow || w.2 }
        else
          let w := memcpy_into g.newtab g.write_ptr (buf ++ [0])
          grow_loop old pfx ds
            { newtab := w.1, write_ptr := g.write_ptr + buflen,
              dyn := g.dyn ++ [{ d with val := g.write_ptr % 2 ^ 32 }],
              overflow := g.overflow || w.2 }

/-- The final loop of the grow branch: the low four bytes of every `d_val` are
written back, `DT_STRTAB` and `DT_STRSZ` with their new values. -/
def write_back (new_strtab_vaddr new_size : Nat) (swap : Bool) :
    List DynEntryInfo64 → List Nat → List Nat
  | [], file => file
  | d :: ds, file =>
    let newval := d.val
    let newval := if d.tag = DT_STRTAB then new_strtab_vaddr else newval
    let newval := if d.tag = DT_STRSZ then new_size % 2 ^ 32 else newval
    let on_disk := to_file64 newval swap
    write_back new_strtab_vaddr new_size swap ds (write_at file d.val_offset (leBytes 4 on_disk))

/-- The last `DT_STRTAB` / `DT_STRSZ` value among the entries (step 4). -/
def last_val (tag : Nat) : List DynEntryInfo64 → Nat → Nat
  | [], acc => acc
  | d :: ds, acc => last_val tag ds (if d.tag = tag then d.val else acc)

/-- What `patch64` leaves: its return value, the file, and whether a `memcpy`
wrote past the end of `newtab`. A run with `overflow = true` has undefined
behaviour: `ret` and `file` then describe what a build without checks leaves
when it goes on (the `free` of the damaged block may as well abort it), and
the source guarantees nothing about them. -/
structure Patched where
  ret : Bool
  file : List Nat
  overflow : Bool
  deriving DecidableEq, Repr

/-- `patch64` on a descriptor whose file offset is `pos`. In the grow branch
the result is `none` when the old string table cannot be read in full or a
`strlen` leaves it; the bytes of `newtab` that `malloc` leaves uninitialised
stand as zeros, and the `overflow` flag records a `memcpy` that passes the end
of `newtab` (undefined behaviour, see `memcpy_into` and `Patched`): what the
source guarantees is stated for the results with `overflow = false`. -/
def patch64 (file : List Nat) (pos : Nat) (pfx : List Nat) : Option Patched :=
  let failed : Option Patched := some ⟨false, file, false⟩
  let hdr := (file.drop pos).take 64
  if hdr.length ≠ 64 ∨ hdr.take 4 ≠ ELFMAG then failed
  else
    let eh := decode_ehdr hdr
    let swap : Bool := decide ((eh.e_ident.drop EI_DATA).head? ≠ some ELFDATA2LSB)
    match find_dynamic_segment file eh swap with
    | none => failed
    | some (dyn_off, dyn_size) =>
      match collect_dyn_entries file dyn_off dyn_size swap with
      | none => failed
      | some dyn =>
        let strtab_vaddr := last_val DT_STRTAB dyn 0
        let strtab_size := last_val DT_STRSZ dyn 0
        if strtab_vaddr = 0 ∨ strtab_size = 0 then failed
        else
          let strtab_off := vaddr_to_offset file eh strtab_vaddr swap
          if strtab_off < 0 then failed
          else
            let strtab_off := strtab_off.toNat
            let extra := total_extra file strtab_off pfx dyn
            if extra = 0 then
              some ⟨true, patch_in_place strtab_off pfx dyn file, false⟩
            else
              match read_at file strtab_off strtab_size with
              | none => none
              | some old =>
                let new_size := strtab_size + extra
                let newtab := old ++ List.replicate extra 0
                match grow_loop old pfx dyn ⟨newtab, strtab_size, [], false⟩ with
                | none => none
                | some g =>
                  let eof := file.length
                  let file1 := write_at file eof g.newtab
                  let new_strtab_vaddr :=
                    (((strtab_vaddr : Int) + ((eof : Int) - (strtab_off : Int))) % 2 ^ 32).toNat
                  some ⟨true, write_back new_strtab_vaddr new_size swap g.dyn file1, g.overflow⟩

end ElfPatcher
/-! # Concrete files

Small 64-bit little-endian shared objects, assembled field by field: the ELF
header, a `PT_LOAD` header that maps the whole file at virtual address 0, a
`PT_DYNAMIC` header, then the sections `.dynstr` (offset 176), `.text`,
`.dynamic`, `.shstrtab` and the section header table (null section, `.dynstr`,
`.text`, `.dynamic`, `.shstrtab`). -/

namespace Sample

open ElfMod ElfPatcher

/-- Bytes of an ASCII string. -/
def ascii (s : String) : List Nat := s.toList.map Char.toNat

/-- An `Elf64_Ehdr` with two program headers at offset 64. -/
def ehdr64 (e_shoff e_shnum e_shstrndx : Nat) : List Nat :=
  ELFMAG ++ [ELFCLASS64, ELFDATA2LSB, 1, 0] ++ List.replicate 8 0 ++
  leBytes 2 3 ++ leBytes 2 62 ++ leBytes 4 1 ++ leBytes 8 0 ++
  leBytes 8 64 ++ leBytes 8 e_shoff ++ leBytes 4 0 ++
  leBytes 2 64 ++ leBytes 2 56 ++ leBytes 2 2 ++
  leBytes 2 64 ++ leBytes 2 e_shnum ++ leBytes 2 e_shstrndx

/-- An `Elf64_Phdr` with `p_paddr = p_vaddr` and `p_memsz = p_filesz`. -/
def phdr64 (p_type p_offset p_vaddr p_filesz : Nat) : List Nat :=
  leBytes 4 p_type ++ leBytes 4 6 ++ leBytes 8 p_offset ++ leBytes 8 p_vaddr ++
  leBytes 8 p_vaddr ++ leBytes 8 p_filesz ++ leBytes 8 p_filesz ++ leBytes 8 8

/-- An `Elf64_Shdr`. -/
def shdr64 (name type addr offset size : Nat) : List Nat :=
  leBytes 4 name ++ leBytes 4 type ++ leBytes 8 2 ++ leBytes 8 addr ++
  leBytes 8 offset ++ leBytes 8 size ++ leBytes 4 0 ++ leBytes 4 0 ++
  leBytes 8 1 ++ leBytes 8 0

/-- An `Elf64_Dyn`. -/
def dyn64 (tag val : Nat) : List Nat := leBytes 8 tag ++ leBytes 8 val

/-- The `DT_NEEDED` entries for the string offsets `vs`. -/
def needed (vs : List Nat) : List Nat := (vs.map fun v => dyn64 DT_NEEDED v).flatten

/-- The section name table: `.dynstr` at 1, `.dynamic` at 9, `.shstrtab` at 18,
`.text` at 28. -/
def shstrtab : List Nat :=
  [0] ++ ascii ".dynstr" ++ [0] ++ ascii ".dynamic" ++ [0] ++ ascii ".shstrtab" ++ [0] ++
  ascii ".text" ++ [0]

/-- The file with string table `dynstr`, section `.text` and the dynamic table
`head, DT_STRTAB, DT_STRSZ, tail`. `textFirst` tells whether `.text` comes
before `.dynamic` in the file (`true`) or after it. -/
def build (dynstr text head tail : List Nat) (textFirst : Bool) : List Nat :=
  let o_dynstr := 176
  let dynamic := head ++ dyn64 DT_STRTAB o_dynstr ++ dyn64 DT_STRSZ dynstr.length ++ tail
  let o_a := o_dynstr + dynstr.length
  let o_text := if textFirst then o_a else o_a + dynamic.length
  let o_dynamic := if textFirst then o_a + text.length else o_a
  let o_shstrtab := o_a + text.length + dynamic.length
  let o_shdr := o_shstrtab + shstrtab.length
  ehdr64 o_shdr 5 4 ++
  phdr64 PT_LOAD 0 0 (o_shdr + 5 * 64) ++
  phdr64 PT_DYNAMIC o_dynamic o_dynamic dynamic.length ++
  dynstr ++
  (if textFirst then text ++ dynamic else dynamic ++ text) ++
  shstrtab ++
  shdr64 0 0 0 0 0 ++
  shdr64 1 SHT_STRTAB o_dynstr o_dynstr dynstr.length ++
  shdr64 28 1 o_text o_text text.length ++
  shdr64 9 SHT_DYNAMIC o_dynamic o_dynamic dynamic.length ++
  shdr64 18 SHT_STRTAB 0 o_shstrtab shstrtab.length

/-- Sixteen bytes of code (`nop`). -/
def text16 : List Nat := List.replicate 16 0x90

/-- The string table `\0libc.so.6\0libm.so.6\0` padded to 24 bytes. -/
def dynstr_cm : List Nat :=
  [0] ++ ascii "libc.so.6" ++ [0] ++ ascii "libm.so.6" ++ [0, 0, 0, 0]

/-- A shared object that needs `libc.so.6` and `libm.so.6`; `.dynstr` is followed
by `.text`, then `.dynamic`. -/
def file_text_first : List Nat :=
  build dynstr_cm text16 (needed [1, 11]) (dyn64 DT_NULL 0) true

/-- The same shared object with `.dynamic` directly behind `.dynstr`. -/
def file_dynamic_first : List Nat :=
  build dynstr_cm text16 (needed [1, 11]) (dyn64 DT_NULL 0) false

/-- A shared object with a `DT_NEEDED` entry after the terminator: its dynamic
table is `NEEDED libc.so.6, STRTAB, STRSZ, NULL, NEEDED libm.so.6`. -/
def file_after_null : List Nat :=
  build dynstr_cm text16 (needed [1]) (dyn64 DT_NULL 0 ++ needed [11]) true

/-- A file whose `.dynstr` section is the 11 bytes `\0libc.so.6\0` and whose
second `DT_NEEDED` entry has `d_val = 11`, the first byte after the section,
where the next section holds the bytes `libm.so.6\0`. -/
def file_outside : List Nat :=
  build ([0] ++ ascii "libc.so.6" ++ [0])
    (ascii "libm.so.6" ++ [0] ++ List.replicate 6 0x90) (needed [1, 11]) (dyn64 DT_NULL 0) true

/-- A file whose three `DT_NEEDED` entries all name `libc.so.6`: the first
and the third through string offset 1, the second through string offset 11. -/
def file_duplicates : List Nat :=
  build ([0] ++ ascii "libc.so.6" ++ [0] ++ ascii "libc.so.6" ++ [0, 0, 0, 0])
    text16 (needed [1, 11, 1]) (dyn64 DT_NULL 0) true

/-- The string table `\0libc.so.6\0libm.so.6\0libdl.so.2\0`, 32 bytes. -/
def strtab_cmd : List Nat :=
  [0] ++ ascii "libc.so.6" ++ [0] ++ ascii "libm.so.6" ++ [0] ++ ascii "libdl.so.2" ++ [0]

/-- A shared object that needs `libc.so.6`, `libm.so.6` and `libdl.so.2`. -/
def file_three : List Nat :=
  build strtab_cmd text16 (needed [1, 11, 21]) (dyn64 DT_NULL 0) true

/-- The context `elf_load` leaves for `file` mapped at `base` (the zeroed
context when the model of `elf_load` yields nothing). -/
def loaded (file : List Nat) (base : Nat) : ElfContext :=
  match elf_load file base with
  | some o => o.ctx
  | none => zeroed

def ctx_text_first : ElfContext := loaded file_text_first 0x10000
def ctx_dynamic_first : ElfContext := loaded file_dynamic_first 0x10000
def ctx_after_null : ElfContext := loaded file_after_null 0x10000
def ctx_outside : ElfContext := loaded file_outside 0x10000
def ctx_duplicates : ElfContext := loaded file_duplicates 0x10000

/-- The outcome of a call of `elf_replace_needed_lib` (the failure outcome on
the zeroed context when the model yields nothing). -/
def replaced (ctx : ElfContext) (old_lib new_lib : List Nat) (alloc : Option Nat) : Outcome :=
  match elf_replace_needed_lib ctx old_lib new_lib alloc with
  | some o => o
  | none => ⟨-1, zeroed, none⟩

/-- The file `patch64` leaves (the input file when the model yields nothing). -/
def patched (file : List Nat) (pos : Nat) (pfx : List Nat) : Patched :=
  match patch64 file pos pfx with
  | some p => p
  | none => ⟨false, file, false⟩

/-- The offsets, counted from `i`, at which two buffers differ (over their
common length). -/
def differing : List Nat → List Nat → Nat → List Nat
  | a :: as, b :: bs, i =>
    if a = b then differing as bs (i + 1) else i :: differing as bs (i + 1)
  | _, _, _ => []

def libc : List Nat := ascii "libc.so.6"
def libm : List Nat := ascii "libm.so.6"
def libdl : List Nat := ascii "libdl.so.2"
def libcustom : List Nat := ascii "libcustom.so"
def libmath : List Nat := ascii "libmath.so.6"
def ld_so : List Nat := ascii "ld.so"
def opt_libs : List Nat := ascii "/opt/libs/"

end Sample

/-! # The dispatcher (`src/elfpatcher.c`) and the 32-bit patcher (`src/elfpatcher32.c`)

`elfpatcher32.c` reads the structures of the file straight into host
structures and never swaps bytes; the host is little-endian. -/

namespace ElfPatcher

open ElfMod (leNat leBytes ELFMAG EI_CLASS ELFCLASS32 ELFCLASS64)

/-- An `Elf32_Phdr`, the fields the patcher uses. -/
structure Phdr32 where
  p_type : Nat
  p_offset : Nat
  p_vaddr : Nat
  p_paddr : Nat
  p_filesz : Nat
  p_memsz : Nat
  deriving DecidableEq, Repr

/-- Decode the 32 bytes of an `Elf32_Phdr`. -/
def decode_phdr32 (b : List Nat) : Phdr32 :=
  { p_type := leNat (b.take 4),
    p_offset := leNat ((b.drop 4).take 4),
    p_vaddr := leNat ((b.drop 8).take 4),
    p_paddr := leNat ((b.drop 12).take 4),
    p_filesz := leNat ((b.drop 16).take 4),
    p_memsz := leNat ((b.drop 20).take 4) }

/-- The array `program_tables` of `collect_dt_needed` and `write_dt_neededs`:
`e_phnum` headers read in one `read` at `e_phoff`. `none` when the read is
short, which leaves a part of the array uninitialised. -/
def read_program_tables (file : List Nat) (e_phoff e_phnum : Nat) : Option (List Phdr32) :=
  if e_phnum = 0 then some []
  else
    (read_at file e_phoff (e_phnum * 32)).map fun bs =>
      (List.range e_phnum).map fun i => decode_phdr32 ((bs.drop (i * 32)).take 32)

/-- The first loop of `collect_dt_needed` and `write_dt_neededs`:
`pt_dynamic_locinfo` as `(offset, size)`, `(0, 0)` without a `PT_DYNAMIC` header. -/
def pt_dynamic_locinfo : List Phdr32 → Nat × Nat
  | [] => (0, 0)
  | ph :: phs =>
    if ph.p_type = PT_DYNAMIC then (ph.p_offset, ph.p_filesz) else pt_dynamic_locinfo phs

/-- The loop of `collect_dt_needed` (lines 111-120) and of `write_dt_neededs`
(lines 204-213) that computes `string_table_offset` from the `DT_STRTAB`
address `va`; the arithmetic is that of `Elf32_Addr` and `Elf32_Off`. The
result 0 makes both functions fail. -/
def string_table_offset (va : Nat) : List Phdr32 → Nat
  | [] => 0
  | ph :: phs =>
    if ph.p_type = PT_LOAD ∧ va ≥ ph.p_paddr ∧ va < (ph.p_paddr + ph.p_memsz) % 2 ^ 32 then
      (ph.p_offset + (va + 2 ^ 32 - ph.p_vaddr) % 2 ^ 32) % 2 ^ 32
    else string_table_offset va phs

/-- `patch32` on a descriptor of `file`: it rewinds the descriptor and reads the
header at offset 0. `collect_dt_needed` returns `NULL`, and `patch32` FALSE,
when there is no `PT_DYNAMIC` header with a non-zero offset and size, or when
the segment is shorter than one entry and nothing can be read at its offset.
In every other case line 79 allocates `size / sizeof(Elf32_Dyn)` bytes for the
array `dynamic_entries`, line 81 reads up to `size` bytes into it and the
loop of line 86 reads `size / sizeof(Elf32_Dyn)` entries from it: an access
outside the allocation, for which the model has no result (`none`). -/
def patch32 (file : List Nat) (_pfx : List Nat) : Option Patched :=
  let failed : Option Patched := some ⟨false, file, false⟩
  match read_at file 0 52 with
  | none => failed
  | some header =>
    let e_phoff := leNat ((header.drop 28).take 4)
    let e_phnum := leNat ((header.drop 44).take 2)
    match read_program_tables file e_phoff e_phnum with
    | none => none
    | some program_tables =>
      let loc := pt_dynamic_locinfo program_tables
      if loc.2 = 0 ∨ loc.1 = 0 then failed
      else if loc.2 < 8 ∧ file.length ≤ loc.1 then failed
      else none

/-- `patch_auto` on an existing, writable file: it reads `sizeof(Elf32_Ehdr)`,
that is 52, bytes, which leaves the descriptor at offset 52, checks the magic
and hands the descriptor to `patch32` or `patch64`. -/
def patch_auto (file : List Nat) (pfx : List Nat) : Option Patched :=
  let failed : Option Patched := some ⟨false, file, false⟩
  let eh := file.take 52
  if eh.length ≠ 52 ∨ eh.take 4 ≠ ELFMAG then failed
  else if (eh.drop EI_CLASS).head? = some ELFCLASS32 then patch32 file pfx
  else if (eh.drop EI_CLASS).head? = some ELFCLASS64 then patch64 file 52 pfx
  else failed

/-! ## Notions used to state the properties of the patcher -/

/-- An `Elf64_Phdr`, the fields that the address translation uses. -/
structure Phdr where
  p_type : Nat
  p_offset : Nat
  p_vaddr : Nat
  p_memsz : Nat
  deriving DecidableEq, Repr

/-- The `n` program headers from index `i` on, as `vaddr_to_offset` reads
them in a file whose header is `eh`: header `k` lies at `e_phoff + k *
e_phentsize`; its fields are those of the file when `swap` is false (a
little-endian file) and pass through `be32toh` otherwise. `none` when one of
the headers is not inside the file. -/
def phdr_table_from (file : List Nat) (eh : Ehdr) (swap : Bool) :
    Nat → Nat → Option (List Phdr)
  | 0, _ => some []
  | n + 1, i =>
    (read_at file (eh.e_phoff + i * eh.e_phentsize) 56).bind fun ph =>
    (phdr_table_from file eh swap n (i + 1)).map fun phs =>
      let f := fun x => if swap then be32toh x else x
      { p_type := f (leNat (ph.take 4)), p_offset := f (leNat ((ph.drop 8).take 8)),
        p_vaddr := f (leNat ((ph.drop 16).take 8)),
        p_memsz := f (leNat ((ph.drop 40).take 8)) } :: phs

/-- The program header table of the file. -/
def phdr_table (file : List Nat) (eh : Ehdr) (swap : Bool) : Option (List Phdr) :=
  phdr_table_from file eh swap eh.e_phnum 0

/-- The header `ph` is a `PT_LOAD` header whose range of virtual addresses
`[p_vaddr, p_vaddr + p_memsz)` contains `vaddr`. -/
def loads (vaddr : Nat) (ph : Phdr) : Prop :=
  ph.p_type = PT_LOAD ∧ ph.p_vaddr ≤ vaddr ∧ vaddr < ph.p_vaddr + ph.p_memsz

instance (vaddr : Nat) (ph : Phdr) : Decidable (loads vaddr ph) := by
  unfold loads; infer_instance

/-- The translation the specification asks for: the file offset of `vaddr` in
the first `PT_LOAD` header that contains it, -1 when there is none. -/
def spec_vaddr_to_offset (phs : List Phdr) (vaddr : Nat) : Int :=
  match phs.find? fun ph => decide (loads vaddr ph) with
  | some ph => ((ph.p_offset + (vaddr - ph.p_vaddr) : Nat) : Int)
  | none => -1

end ElfPatcher

namespace ElfMod

/-! ## Images, and the section header table as `elf_load` reads it -/

/-- The contexts the library produces: what `elf_load` returns with status 0,
and what a call of `elf_replace_needed_lib` leaves of such a context. -/
inductive Image : ElfContext → Prop
  | load (file : List Nat) (base : Nat) (o : Outcome) :
      elf_load file base = some o → o.ret = 0 → Image o.ctx
  | replace (ctx : ElfContext) (old_lib new_lib : List Nat) (alloc : Option Nat) (o : Outcome) :
      Image ctx → elf_replace_needed_lib ctx old_lib new_lib alloc = some o → Image o.ctx

/-- The buffer that holds the image: the mapping, or the heap buffer once the
image has grown. -/
def image_buffer (ctx : ElfContext) : List Nat :=
  if ctx.is_expanded then ctx.extended else ctx.mapped

/-- The sizes of the context agree with the buffer that holds the image, which
is not empty. -/
def Consistent (ctx : ElfContext) : Prop :=
  if ctx.is_expanded = true then
    ctx.extended_size = ctx.extended.length ∧ ctx.file_size = ctx.extended_size ∧
      0 < ctx.extended.length
  else ctx.file_size = ctx.mapped.length ∧ 0 < ctx.mapped.length

instance (ctx : ElfContext) : Decidable (Consistent ctx) := by
  unfold Consistent; infer_instance

/-- The `n`-byte little-endian integer at offset `k` of a file. -/
def file_le (file : List Nat) (k n : Nat) : Option Nat :=
  if k < file.length ∧ k + n ≤ file.length then some (leNat ((file.drop k).take n)) else none

/-- The pointers `p` and `p'` are both `NULL`, or they designate the same offset
from `b` and from `b'`. -/
def same_pointer (b b' p p' : Nat) : Prop :=
  (p = 0 ∧ p' = 0) ∨ ∃ k, p = b + k ∧ p' = b' + k

/-- The contexts `c` and `c'` describe the same file, mapped at two addresses,
in the same way: the pointers of the one are those of the other, moved from
the one mapping to the other, and the remaining fields agree. -/
def Rebased (c c' : ElfContext) : Prop :=
  c.is_expanded = false ∧ c'.is_expanded = false ∧ c'.mapped = c.mapped ∧
  c'.is_64bit = c.is_64bit ∧ c'.section_count = c.section_count ∧
  c'.dyn_count = c.dyn_count ∧ c'.dynstr_size = c.dynstr_size ∧
  (∃ k, c.shdr = c.mapped_data + k ∧ c'.shdr = c'.mapped_data + k) ∧
  same_pointer c.mapped_data c'.mapped_data c.shstrtab c'.shstrtab ∧
  same_pointer c.mapped_data c'.mapped_data c.dyn c'.dyn ∧
  same_pointer c.mapped_data c'.mapped_data c.dynstr c'.dynstr

/-- The context `elf_load` has set up when it enters its loop over the section
headers, for a non-empty file whose magic has been checked. -/
def elf_load_headers (file : List Nat) (base : Nat) : Option ElfContext :=
  let ctx1 : ElfContext :=
    { zeroed with file_size := file.length, original_size := file.length,
                  mapped_data := base, mapped := file, e_ident := base }
  (readLE ctx1 (ctx1.e_ident + EI_CLASS) 1).bind fun cls =>
  let ctx2 : ElfContext := { ctx1 with is_64bit := decide (cls = ELFCLASS64), ehdr := base }
  (e_phoff ctx2).bind fun phoff =>
  (e_shoff ctx2).bind fun shoff =>
  (e_shnum ctx2).bind fun shnum =>
  (e_phnum ctx2).bind fun phnum =>
  let ctx3 : ElfContext :=
    { ctx2 with phdr := base + phoff, shdr := base + shoff,
                section_count := shnum, program_header_count := phnum }
  (e_shstrndx ctx3).bind fun strndx =>
  if strndx ≠ SHN_UNDEF then
    (sh_offset ctx3 strndx).map fun o => { ctx3 with shstrtab := base + o }
  else some ctx3

/-- The context without the six fields that the loop of `elf_load` over the
section headers assigns. -/
def without_views (ctx : ElfContext) : ElfContext :=
  { ctx with dyn := 0, dyn_count := 0, dyn_section_idx := 0,
             dynstr := 0, dynstr_size := 0, dynstr_idx := 0 }

/-- The context of `elf_load_headers` for a file mapped at `b`, from the values
of the header fields; `shstrtab` is the offset of the section name table
(`none` for `e_shstrndx = SHN_UNDEF`). -/
def header_context (file : List Nat) (b cls phoff shoff shnum phnum : Nat)
    (shstrtab : Option Nat) : ElfContext :=
  { zeroed with file_size := file.length, original_size := file.length,
                mapped_data := b, mapped := file, e_ident := b,
                is_64bit := decide (cls = ELFCLASS64), ehdr := b,
                phdr := b + phoff, shdr := b + shoff,
                section_count := shnum, program_header_count := phnum,
                shstrtab := match shstrtab with
                  | some o => b + o
                  | none => 0 }

/-- The values of the header fields that `elf_load_headers` reads in a file. -/
def header_fields (file : List Nat) (cls phoff shoff shnum phnum : Nat)
    (shstrtab : Option Nat) : Prop :=
  file_le file EI_CLASS 1 = some cls ∧
  file_le file (layout (decide (cls = ELFCLASS64))).e_phoff
    (layout (decide (cls = ELFCLASS64))).word = some phoff ∧
  file_le file (layout (decide (cls = ELFCLASS64))).e_shoff
    (layout (decide (cls = ELFCLASS64))).word = some shoff ∧
  file_le file (layout (decide (cls = ELFCLASS64))).e_shnum 2 = some shnum ∧
  file_le file (layout (decide (cls = ELFCLASS64))).e_phnum 2 = some phnum ∧
  ∃ strndx, file_le file (layout (decide (cls = ELFCLASS64))).e_shstrndx 2 = some strndx ∧
    if strndx ≠ SHN_UNDEF then
      ∃ o, shstrtab = some o ∧
        file_le file
          (shoff + (strndx * (layout (decide (cls = ELFCLASS64))).shdr_size +
            (layout (decide (cls = ELFCLASS64))).sh_offset))
          (layout (decide (cls = ELFCLASS64))).word = some o
    else shstrtab = none

/-- The name of section `i`: the C string at `shstrtab + sh_name`. -/
def section_name (ctx : ElfContext) (i : Nat) : Option (List Nat) :=
  (sh_name ctx i).bind fun nm => cstr ctx (ctx.shstrtab + nm)

/-- Section `i` has type `SHT_STRTAB` and its name is exactly `.dynstr`. -/
def is_dynstr (ctx : ElfContext) (i : Nat) : Prop :=
  sh_type ctx i = some SHT_STRTAB ∧ section_name ctx i = some dynstr_name

instance (ctx : ElfContext) (i : Nat) : Decidable (is_dynstr ctx i) := by
  unfold is_dynstr; infer_instance

/-- The number of entries of section `i` read as a dynamic table. -/
def section_entries (ctx : ElfContext) (i : Nat) : Option Nat :=
  (sh_size ctx i).map fun size => size / (layout ctx.is_64bit).dyn_size

/-- Every section header lies inside the image, and the name of every section
of type `SHT_STRTAB` is a NUL-terminated string of the image. -/
def sections_readable (ctx : ElfContext) : Prop :=
  ∀ i < ctx.section_count,
    (sh_name ctx i).isSome ∧ (sh_type ctx i).isSome ∧ (sh_offset ctx i).isSome ∧
    (sh_size ctx i).isSome ∧
    (sh_type ctx i = some SHT_STRTAB → (section_name ctx i).isSome)

instance (ctx : ElfContext) : Decidable (sections_readable ctx) := by
  unfold sections_readable; infer_instance

/-- The dynamic-entry view of `ctx1` is that of `ctx0`, or it is the content
of the last section of type `SHT_DYNAMIC` among the sections from index `i` on
of the image `hc`. -/
def selected_dynamic (hc : ElfContext) (i : Nat) (ctx0 ctx1 : ElfContext) : Prop :=
  (ctx1.dyn = ctx0.dyn ∧ ctx1.dyn_count = ctx0.dyn_count ∧
    ctx1.dyn_section_idx = ctx0.dyn_section_idx ∧
    ∀ k, i ≤ k → k < hc.section_count → sh_type hc k ≠ some SHT_DYNAMIC) ∨
  ∃ k off size, i ≤ k ∧ k < hc.section_count ∧ sh_type hc k = some SHT_DYNAMIC ∧
    sh_offset hc k = some off ∧ sh_size hc k = some size ∧
    ctx1.dyn = hc.mapped_data + off ∧
    ctx1.dyn_count = size / (layout hc.is_64bit).dyn_size ∧ ctx1.dyn_section_idx = k ∧
    ∀ m, k < m → m < hc.section_count → sh_type hc m ≠ some SHT_DYNAMIC

/-- The string-table view of `ctx1` is that of `ctx0`, or it is the content of
the last section named `.dynstr` of type `SHT_STRTAB` among the sections from
index `i` on of the image `hc`. -/
def selected_dynstr (hc : ElfContext) (i : Nat) (ctx0 ctx1 : ElfContext) : Prop :=
  (ctx1.dynstr = ctx0.dynstr ∧ ctx1.dynstr_size = ctx0.dynstr_size ∧
    ctx1.dynstr_idx = ctx0.dynstr_idx ∧
    ∀ k, i ≤ k → k < hc.section_count → ¬ is_dynstr hc k) ∨
  ∃ k off size, i ≤ k ∧ k < hc.section_count ∧ is_dynstr hc k ∧
    sh_offset hc k = some off ∧ sh_size hc k = some size ∧
    ctx1.dynstr = hc.mapped_data + off ∧ ctx1.dynstr_size = size ∧ ctx1.dynstr_idx = k ∧
    ∀ m, k < m → m < hc.section_count → ¬ is_dynstr hc m

end ElfMod

/-! # More concrete files

32-bit little-endian objects (ELF header, a `PT_LOAD` and a `PT_DYNAMIC`
header at offset 52, `.dynstr` at offset 116, `.dynamic`, `.shstrtab`, four
section headers), a 64-bit shared object without section header table, and a
file that is not an ELF file. -/

namespace Sample

open ElfMod ElfPatcher

/-- An `Elf32_Ehdr` with class byte `cls` and two program headers at offset 52. -/
def ehdr32 (cls e_shoff e_shnum e_shstrndx : Nat) : List Nat :=
  ELFMAG ++ [cls, ELFDATA2LSB, 1, 0] ++ List.replicate 8 0 ++
  leBytes 2 3 ++ leBytes 2 3 ++ leBytes 4 1 ++ leBytes 4 0 ++
  leBytes 4 52 ++ leBytes 4 e_shoff ++ leBytes 4 0 ++
  leBytes 2 52 ++ leBytes 2 32 ++ leBytes 2 2 ++
  leBytes 2 40 ++ leBytes 2 e_shnum ++ leBytes 2 e_shstrndx

/-- An `Elf32_Phdr` with `p_memsz = p_filesz`. -/
def phdr32 (p_type p_offset p_vaddr p_paddr p_filesz : Nat) : List Nat :=
  leBytes 4 p_type ++ leBytes 4 p_offset ++ leBytes 4 p_vaddr ++ leBytes 4 p_paddr ++
  leBytes 4 p_filesz ++ leBytes 4 p_filesz ++ leBytes 4 6 ++ leBytes 4 4

/-- An `Elf32_Shdr`. -/
def shdr32 (name type addr offset size : Nat) : List Nat :=
  leBytes 4 name ++ leBytes 4 type ++ leBytes 4 2 ++ leBytes 4 addr ++
  leBytes 4 offset ++ leBytes 4 size ++ leBytes 4 0 ++ leBytes 4 0 ++
  leBytes 4 1 ++ leBytes 4 0

/-- An `Elf32_Dyn`. -/
def dyn32 (tag val : Nat) : List Nat := leBytes 4 tag ++ leBytes 4 val

/-- The 32-bit object with class byte `cls`, loaded at virtual address `vaddr`
(`p_paddr` is `paddr`), with string table `dynstr` and the dynamic table
`DT_NEEDED` for each offset of `vs`, `DT_STRTAB`, `DT_STRSZ`, `DT_NULL`. -/
def build32 (cls vaddr paddr : Nat) (dynstr : List Nat) (vs : List Nat) : List Nat :=
  let o_dynstr := 116
  let dynamic := (vs.map fun v => dyn32 DT_NEEDED v).flatten ++
    dyn32 DT_STRTAB (vaddr + o_dynstr) ++ dyn32 DT_STRSZ dynstr.length ++ dyn32 DT_NULL 0
  let o_dynamic := o_dynstr + dynstr.length
  let o_shstrtab := o_dynamic + dynamic.length
  let o_shdr := o_shstrtab + shstrtab.length
  ehdr32 cls o_shdr 4 3 ++
  phdr32 PT_LOAD 0 vaddr paddr (o_shdr + 4 * 40) ++
  phdr32 PT_DYNAMIC o_dynamic (vaddr + o_dynamic) (paddr + o_dynamic) dynamic.length ++
  dynstr ++ dynamic ++ shstrtab ++
  shdr32 0 0 0 0 0 ++
  shdr32 1 SHT_STRTAB (vaddr + o_dynstr) o_dynstr dynstr.length ++
  shdr32 9 SHT_DYNAMIC (vaddr + o_dynamic) o_dynamic dynamic.length ++
  shdr32 18 SHT_STRTAB 0 o_shstrtab shstrtab.length

/-- A 32-bit shared object that needs `libc.so.6` and `libm.so.6`, with the
class byte `cls` in its identification. -/
def file32 (cls : Nat) : List Nat := build32 cls 0 0 dynstr_cm [1, 11]

/-- A 32-bit executable linked at `0x08048000` whose `PT_LOAD` header has
`p_paddr = 0`. -/
def file32_paddr : List Nat := build32 ELFCLASS32 0x08048000 0 dynstr_cm [1, 11]

/-- A 64-bit shared object without section header table (`e_shoff`, `e_shnum`
and `e_shstrndx` are 0): header, `PT_LOAD` and `PT_DYNAMIC` headers, the string
table at offset 176 and the dynamic table `NEEDED libc.so.6, NEEDED libm.so.6,
STRTAB, STRSZ, NULL` at offset 200. -/
def file_no_sections : List Nat :=
  let dynamic := needed [1, 11] ++ dyn64 DT_STRTAB 176 ++ dyn64 DT_STRSZ 24 ++ dyn64 DT_NULL 0
  ehdr64 0 0 0 ++
  phdr64 PT_LOAD 0 0 (200 + dynamic.length) ++
  phdr64 PT_DYNAMIC 200 200 dynamic.length ++
  dynstr_cm ++ dynamic

/-- A shell script. -/
def not_elf : List Nat :=
  ascii "#!/bin/sh\n# a shell script: the four magic bytes are missing\nexit 0\n"

/-- The result of `patch_auto` (failure on the input file when the model
yields nothing). -/
def patched_auto (file : List Nat) (pfx : List Nat) : Patched :=
  match patch_auto file pfx with
  | some p => p
  | none => ⟨false, file, false⟩

/-- The context `elf_load` has set up for `file` when it enters its loop over
the section headers (the zeroed context when the model yields nothing). -/
def headers (file : List Nat) (base : Nat) : ElfContext :=
  match elf_load_headers file base with
  | some c => c
  | none => zeroed

/-- The image of `file_text_first` mapped above 4 GiB. -/
def ctx_high : ElfContext := loaded file_text_first 0x7f0000000000

/-- The image of `file_text_first` after `libc.so.6` has been replaced by the
longer `libcustom.so`, with the grown buffer at `0x20000`. -/
def ctx_grown : ElfContext := (replaced ctx_text_first libc libcustom (some 0x20000)).ctx

end Sample

/-! # The loops of the 32-bit patcher (`src/elfpatcher32.c`)

`collect_dt_needed` and `write_dt_neededs` read the `PT_DYNAMIC` segment into
the array `dynamic_entries`, for which lines 79 and 177 allocate
`size / sizeof(Elf32_Dyn)` bytes instead of entries, so that neither function
has a defined result as a whole (see `patch32`). Their loops are modelled on
the content of the arrays: `dynamic_entries` is the list of the
`size / sizeof(Elf32_Dyn)` entries that the loops read, as an array with room
for them holds them after the `read` of lines 81 and 179. The calls of
`printf` are left out. The byte that `insert_at_replace_old` leaves
uninitialised behind the copied name stands as the terminator. -/

namespace ElfPatcher

open ElfMod (leNat leBytes cstrFrom splice DT_NULL DT_NEEDED DT_STRTAB DT_STRSZ)

/-- An `Elf32_Dyn`: `d_tag` is the 32-bit pattern of the `Elf32_Sword`. -/
structure Dyn32 where
  d_tag : Nat
  d_val : Nat
  deriving DecidableEq, Repr

/-- Decode the 8 bytes of an `Elf32_Dyn`. -/
def decode_dyn32 (b : List Nat) : Dyn32 :=
  { d_tag := leNat (b.take 4), d_val := leNat ((b.drop 4).take 4) }

/-- The entries `dynamic_entries[0 .. size / sizeof(Elf32_Dyn))` after the
`read` of `size` bytes at `offset`; `none` when the read is short. -/
def dynamic_entries (file : List Nat) (offset size : Nat) : Option (List Dyn32) :=
  (read_at file offset size).map fun bs =>
    (List.range (size / 8)).map fun i => decode_dyn32 ((bs.drop (i * 8)).take 8)

/-- The type `Elf32_DtNeeded`: an entry and the name `strdup` has copied. -/
structure Elf32_DtNeeded where
  entry : Dyn32
  library : List Nat
  deriving DecidableEq, Repr

/-- What the loop of lines 86-99 of `collect_dt_needed` computes:
`*dt_needed_size` and `string_table_locinfo`. -/
structure Located32 where
  dt_needed_size : Nat
  virtual_address : Nat
  size : Nat
  deriving DecidableEq, Repr

/-- The loop of lines 86-99 of `collect_dt_needed` over all entries of the
array: the `switch` on `d_tag`. -/
def locate_loop : List Dyn32 → Located32 → Located32
  | [], s => s
  | dynamic_entry :: rest, s =>
    locate_loop rest
      (if dynamic_entry.d_tag = DT_NEEDED then { s with dt_needed_size := s.dt_needed_size + 1 }
       else if dynamic_entry.d_tag = DT_STRTAB then
         { s with virtual_address := dynamic_entry.d_val }
       else if dynamic_entry.d_tag = DT_STRSZ then { s with size := dynamic_entry.d_val }
       else s)

/-- The loop of lines 134-142 of `collect_dt_needed`: every entry tagged
`DT_NEEDED` with the copy of the string at `string_table + d_val`. `none` when
`strdup` runs past the end of `string_table`. -/
def dt_neededs_loop (string_table : List Nat) : List Dyn32 → Option (List Elf32_DtNeeded)
  | [] => some []
  | dynamic_entry :: rest =>
    if dynamic_entry.d_tag = DT_NEEDED then
      (cstrFrom (string_table.drop dynamic_entry.d_val)).bind fun library =>
        (dt_neededs_loop string_table rest).map fun ds => ⟨dynamic_entry, library⟩ :: ds
    else dt_neededs_loop string_table rest

/-- `collect_dt_needed` from line 83 on, for the content of the arrays
`program_tables` and `dynamic_entries`: the array it returns (its length is
`*dt_needed_size`); the inner `none` is `NULL`, the outer `none` stands for a
short read of the string table or a `strdup` that leaves it. -/
def collect_dt_needed (file : List Nat) (program_tables : List Phdr32)
    (dynamic_entries : List Dyn32) : Option (Option (List Elf32_DtNeeded)) :=
  let s := locate_loop dynamic_entries ⟨0, 0, 0⟩
  if s.dt_needed_size = 0 then some none
  else if s.size = 0 ∨ s.virtual_address = 0 then some none
  else
    let off := string_table_offset s.virtual_address program_tables
    if off = 0 then some none
    else
      match read_at file off s.size with
      | none => none
      | some string_table => (dt_neededs_loop string_table dynamic_entries).map some

/-- What the loop of lines 184-195 of `write_dt_neededs` computes:
`string_table_locinfo` and the index of the entry `strsz_entry` points to. -/
structure Strsz32 where
  virtual_address : Nat
  size : Nat
  strsz_entry : Option Nat
  deriving DecidableEq, Repr

/-- The loop of lines 184-195 of `write_dt_neededs`, from index `i`. -/
def strsz_loop : List Dyn32 → Nat → Strsz32 → Strsz32
  | [], _, s => s
  | dynamic_entry :: rest, i, s =>
    strsz_loop rest (i + 1)
      (if dynamic_entry.d_tag = DT_STRTAB then { s with virtual_address := dynamic_entry.d_val }
       else if dynamic_entry.d_tag = DT_STRSZ then
         { s with size := dynamic_entry.d_val, strsz_entry := some i }
       else s)

/-- The state of the loop of lines 232-249 of `write_dt_neededs`. -/
structure Rewrite32 where
  string_table : List Nat
  dynamic_entries : List Dyn32
  size : Nat                    -- string_table_locinfo.size, an Elf32_Word
  deriving DecidableEq, Repr

/-- `entries[i].d_un.d_val = v`; `none` when `i` is outside the array. -/
def set_d_val (entries : List Dyn32) (i v : Nat) : Option (List Dyn32) :=
  match entries[i]? with
  | none => none
  | some e => some (entries.set i { e with d_val := v % 2 ^ 32 })

/-- The loop of lines 232-249 of `write_dt_neededs` from index `i` of
`dt_neededs`: `insert_at_replace_old` with position 0 returns the bytes of
`library`, `strcpy` puts them and a terminator at `string_table + d_val`, and
the new value goes to `dynamic_entries[i]`, the entry whose index in the
dynamic table is the index `i` of the name in `dt_neededs` (the test of line
234 always holds). `none` when a `strlen` or the `strcpy` leaves
`string_table`. -/
def rewrite_loop (virtual_address : Nat) :
    List Elf32_DtNeeded → Nat → Rewrite32 → Option Rewrite32
  | [], _, st => some st
  | dt_needed :: rest, i, st =>
    let library_len := dt_needed.library.length + 1
    match cstrFrom (st.string_table.drop dt_needed.entry.d_val) with
    | none => none
    | some current =>
      let current_len := current.length
      if dt_needed.entry.d_val + library_len ≤ st.string_table.length then
        let string_table :=
          splice st.string_table dt_needed.entry.d_val (dt_needed.library ++ [0])
        match set_d_val st.dynamic_entries i
            (virtual_address + (st.size + 2 ^ 64 - library_len + current_len) % 2 ^ 64) with
        | none => none
        | some entries =>
          rewrite_loop virtual_address rest (i + 1)
            ⟨string_table, entries, (st.size + library_len) % 2 ^ 32⟩
      else none

/-- The content of the array `dynamic_entries` that line 262 of
`write_dt_neededs` writes back over the `PT_DYNAMIC` segment, for the content
of the arrays `program_tables` and `dynamic_entries` after the reads and for
the argument `dt_neededs`; the inner `none` is the return of FALSE at line
199 or 217. -/
def write_dt_neededs_entries (file : List Nat) (program_tables : List Phdr32)
    (dynamic_entries : List Dyn32) (dt_neededs : List Elf32_DtNeeded) :
    Option (Option (List Dyn32)) :=
  let s := strsz_loop dynamic_entries 0 ⟨0, 0, none⟩
  if s.size = 0 ∨ s.virtual_address = 0 then some none
  else
    let off := string_table_offset s.virtual_address program_tables
    if off = 0 then some none
    else
      match read_at file off s.size with
      | none => none
      | some string_table =>
        match rewrite_loop s.virtual_address dt_neededs 0
            ⟨string_table, dynamic_entries, s.size⟩ with
        | none => none
        | some st =>
          match s.strsz_entry with
          | none => none
          | some j => (set_d_val st.dynamic_entries j st.size).map some

end ElfPatcher

/-! # Concrete inputs for the 32-bit loops, the byte order and a second growth -/

namespace Sample

open ElfMod ElfPatcher

/-- The 32-bit object of `build32` with the bytes `dynamic` as its dynamic
table (at offset 140 behind a string table of 24 bytes). -/
def build32_dyn (cls vaddr paddr : Nat) (dynstr dynamic : List Nat) : List Nat :=
  let o_dynstr := 116
  let o_dynamic := o_dynstr + dynstr.length
  let o_shstrtab := o_dynamic + dynamic.length
  let o_shdr := o_shstrtab + shstrtab.length
  ehdr32 cls o_shdr 4 3 ++
  phdr32 PT_LOAD 0 vaddr paddr (o_shdr + 4 * 40) ++
  phdr32 PT_DYNAMIC o_dynamic (vaddr + o_dynamic) (paddr + o_dynamic) dynamic.length ++
  dynstr ++ dynamic ++ shstrtab ++
  shdr32 0 0 0 0 0 ++
  shdr32 1 SHT_STRTAB (vaddr + o_dynstr) o_dynstr dynstr.length ++
  shdr32 9 SHT_DYNAMIC (vaddr + o_dynamic) o_dynamic dynamic.length ++
  shdr32 18 SHT_STRTAB 0 o_shstrtab shstrtab.length

/-- A 32-bit shared object with a `DT_NEEDED` entry behind the terminator: its
dynamic table is `NEEDED libc.so.6, STRTAB, STRSZ, NULL, NEEDED libm.so.6`. -/
def file32_after_null : List Nat :=
  build32_dyn ELFCLASS32 0 0 dynstr_cm
    (dyn32 DT_NEEDED 1 ++ dyn32 DT_STRTAB 116 ++ dyn32 DT_STRSZ 24 ++ dyn32 DT_NULL 0 ++
      dyn32 DT_NEEDED 11)

/-- The tag `DT_INIT` of `<elf.h>`. -/
def DT_INIT : Nat := 12

/-- A 32-bit shared object whose dynamic table starts with an entry of another
tag: `INIT 0x100, NEEDED libc.so.6, STRTAB, STRSZ, NULL`. -/
def file32_init_first : List Nat :=
  build32_dyn ELFCLASS32 0 0 dynstr_cm
    (dyn32 DT_INIT 0x100 ++ dyn32 DT_NEEDED 1 ++ dyn32 DT_STRTAB 116 ++ dyn32 DT_STRSZ 24 ++
      dyn32 DT_NULL 0)

/-- The `n` big-endian bytes of `v`. -/
def beBytes (n v : Nat) : List Nat := (leBytes n v).reverse

/-- An `Elf64_Dyn` of a big-endian file. -/
def dyn64_be (tag val : Nat) : List Nat := beBytes 8 tag ++ beBytes 8 val

/-- The dynamic segment of a big-endian 64-bit file:
`NEEDED 1, STRTAB 176, STRSZ 24, NULL`. -/
def dynamic_be : List Nat :=
  dyn64_be DT_NEEDED 1 ++ dyn64_be DT_STRTAB 176 ++ dyn64_be DT_STRSZ 24 ++ dyn64_be DT_NULL 0

/-- The data encoding `ELFDATA2MSB` of `<elf.h>`. -/
def ELFDATA2MSB : Nat := 2

/-- An `Elf64_Ehdr` of a big-endian file with two program headers at offset 64
and no section header table. -/
def ehdr64_be : List Nat :=
  ELFMAG ++ [ELFCLASS64, ELFDATA2MSB, 1, 0] ++ List.replicate 8 0 ++
  beBytes 2 3 ++ beBytes 2 21 ++ beBytes 4 1 ++ beBytes 8 0 ++
  beBytes 8 64 ++ beBytes 8 0 ++ beBytes 4 0 ++
  beBytes 2 64 ++ beBytes 2 56 ++ beBytes 2 2 ++
  beBytes 2 64 ++ beBytes 2 0 ++ beBytes 2 0

/-- An `Elf64_Phdr` of a big-endian file. -/
def phdr64_be (p_type p_offset p_vaddr p_filesz : Nat) : List Nat :=
  beBytes 4 p_type ++ beBytes 4 6 ++ beBytes 8 p_offset ++ beBytes 8 p_vaddr ++
  beBytes 8 p_vaddr ++ beBytes 8 p_filesz ++ beBytes 8 p_filesz ++ beBytes 8 8

/-- A big-endian 64-bit shared object: header, `PT_LOAD` and `PT_DYNAMIC`
headers, the string table at offset 176 and the dynamic segment `dynamic_be`
at offset 200. -/
def file_big_endian : List Nat :=
  ehdr64_be ++ phdr64_be PT_LOAD 0 0 264 ++ phdr64_be PT_DYNAMIC 200 200 64 ++
  dynstr_cm ++ dynamic_be

/-- The image of `file_text_first`, mapped at `0x30000`, after `libc.so.6` has
been replaced by the longer `libcustom.so` with the grown buffer at `0x20000`,
below the mapping. -/
def ctx_low : ElfContext :=
  (replaced (loaded file_text_first 0x30000) libc libcustom (some 0x20000)).ctx

end Sample

/-! # The capacity of the entry array of `collect_dyn_entries`, names that fit the
buffer `orig` of `patch64` -/

namespace ElfPatcher

open ElfMod (cstrFrom)

/-- The variable `max` of `collect_dyn_entries`: the number of elements of the
array `arr` that `calloc` allocates, `dyn_size / sizeof(Elf64_Dyn)`. -/
def max_entries (dyn_size : Nat) : Nat := dyn_size / 16

/-- The string at offset `o` of the file has its terminator inside the file
and is at most `n` bytes long. -/
def name_within (file : List Nat) (o n : Nat) : Prop :=
  match cstrFrom (file.drop o) with
  | some s => s.length ≤ n
  | none => False

instance (file : List Nat) (o n : Nat) : Decidable (name_within file o n) := by
  unfold name_within; split <;> infer_instance

end ElfPatcher

/-! # Concrete files for the capacity of the entry array and for long names -/

namespace Sample

open ElfMod ElfPatcher

/-- The file `file_no_sections` with a `PT_DYNAMIC` header whose `p_filesz` is
72: the size ends in the middle of the fifth entry, the terminator. -/
def file_short_dynamic : List Nat :=
  let dynamic := needed [1, 11] ++ dyn64 DT_STRTAB 176 ++ dyn64 DT_STRSZ 24 ++ dyn64 DT_NULL 0
  ehdr64 0 0 0 ++
  phdr64 PT_LOAD 0 0 (200 + dynamic.length) ++
  phdr64 PT_DYNAMIC 200 200 72 ++
  dynstr_cm ++ dynamic

/-- A library name of 300 bytes. -/
def long_name : List Nat := ascii "lib" ++ List.replicate 294 0x61 ++ ascii ".so"

/-- A shared object that needs the library `long_name`: its string table is
`\0`, the name, `\0` and two bytes of padding (304 bytes). -/
def file_long_name : List Nat :=
  build ([0] ++ long_name ++ [0, 0, 0]) text16 (needed [1]) (dyn64 DT_NULL 0) true

end Sample

/-! # Concrete files for the address translation, and a prefix long enough for
the copies of the grow path of `patch64` to stay inside the new table -/

namespace Sample

open ElfMod ElfPatcher

/-- Header and program headers of a file whose `PT_LOAD` segment holds the
addresses `[0x100000000, 0x100001000)`, above 4 GiB, at file offset `0x1000`. -/
def file_segment_high : List Nat :=
  ehdr64 0 0 0 ++ phdr64 PT_LOAD 0x1000 0x100000000 0x1000 ++ phdr64 PT_DYNAMIC 0 0 0

/-- Header and program headers of a file whose `PT_LOAD` header has
`p_vaddr = 0x1000` and `p_memsz = 2 ^ 64 - 0x800`: the sum of the two wraps
to `0x800`. -/
def file_segment_wraps : List Nat :=
  ehdr64 0 0 0 ++ phdr64 PT_LOAD 0 0x1000 (2 ^ 64 - 0x800) ++ phdr64 PT_DYNAMIC 0 0 0

/-- Header and program headers of a file whose `PT_LOAD` header for the
addresses `[0, 674)` has `p_offset = 2 ^ 64 - 177`. -/
def file_segment_far : List Nat :=
  ehdr64 0 0 0 ++ phdr64 PT_LOAD (2 ^ 64 - 177) 0 674 ++ phdr64 PT_DYNAMIC 0 0 0

/-- A directory name of 512 bytes: `/`, 510 times `a`, `/`. -/
def long_dir : List Nat := ascii "/" ++ List.replicate 510 0x61 ++ ascii "/"

/-- A 64-bit object without section header table, linked at address `v`: the
`PT_LOAD` segment maps the file (264 bytes) at `v`, the string table
`\0libc.so.6\0libm.so.6\0\0\0\0` lies at offset 176 (address `v + 176`) and the
dynamic table `NEEDED libc.so.6, STRTAB, STRSZ, NULL` at offset 200. -/
def object_at (v : Nat) : List Nat :=
  let dynamic := needed [1] ++ dyn64 DT_STRTAB (v + 176) ++ dyn64 DT_STRSZ 24 ++
    dyn64 DT_NULL 0
  ehdr64 0 0 0 ++
  phdr64 PT_LOAD 0 v (200 + dynamic.length) ++
  phdr64 PT_DYNAMIC 200 (v + 200) dynamic.length ++
  dynstr_cm ++ dynamic

/-- A shared object (linked at address 0) that needs `libc.so.6`. -/
def file_one_needed : List Nat := object_at 0

/-- An object that needs `libc.so.6` and is linked just below 4 GiB, at
`0xFFFFFF00`: its string table has the address `0xFFFFFFB0`. -/
def file_high_address : List Nat := object_at 0xFFFFFF00

end Sample

namespace ElfMod

/-! ## Lists of bytes -/

theorem splice_length (l : List Nat) (o : Nat) (bs : List Nat) (h : o + bs.length ≤ l.length) :
    (splice l o bs).length = l.length := by
  simp [splice]
  omega

theorem splice_getElem? (l : List Nat) (o : Nat) (bs : List Nat) (j : Nat)
    (h : o + bs.length ≤ l.length) :
    (splice l o bs)[j]? = if o ≤ j ∧ j < o + bs.length then bs[j - o]? else l[j]? := by
  unfold splice
  have hto : (l.take o).length = o := by simp; omega
  by_cases h1 : j < o
  · rw [List.append_assoc, List.getElem?_append_left (by omega), List.getElem?_take_of_lt h1,
      if_neg (by omega)]
  · by_cases h2 : j < o + bs.length
    · rw [List.append_assoc, List.getElem?_append_right (by omega), hto,
        List.getElem?_append_left (by omega), if_pos (by omega)]
    · rw [List.getElem?_append_right (by simp; omega), if_neg (by omega)]
      simp only [List.length_append, hto, List.getElem?_drop]
      have : o + bs.length + (j - (o + bs.length)) = j := by omega
      rw [this]

theorem take_drop_splice_disjoint (l : List Nat) (o : Nat) (bs : List Nat) (k n : Nat)
    (h : o + bs.length ≤ l.length) (hd : k + n ≤ o ∨ o + bs.length ≤ k) :
    ((splice l o bs).drop k).take n = (l.drop k).take n := by
  apply List.ext_getElem?
  intro j
  simp only [List.getElem?_take, List.getElem?_drop]
  split
  · rw [splice_getElem? l o bs (k + j) h]
    have : ¬ (o ≤ k + j ∧ k + j < o + bs.length) := by omega
    simp [this]
  · rfl

theorem take_drop_splice_same (l : List Nat) (o : Nat) (bs : List Nat)
    (h : o + bs.length ≤ l.length) :
    ((splice l o bs).drop o).take bs.length = bs := by
  apply List.ext_getElem?
  intro j
  simp only [List.getElem?_take, List.getElem?_drop]
  split
  · rw [splice_getElem? l o bs (o + j) h]
    have : (o ≤ o + j ∧ o + j < o + bs.length) := by omega
    simp [this]
  · rename_i hj
    rw [List.getElem?_eq_none (by omega)]

theorem splice_self (l : List Nat) (o : Nat) (bs : List Nat)
    (h : (l.drop o).take bs.length = bs) (hlen : o + bs.length ≤ l.length) :
    splice l o bs = l := by
  apply List.ext_getElem?
  intro j
  rw [splice_getElem? l o bs j hlen]
  split
  · rename_i hj
    have h2 : ((l.drop o).take bs.length)[j - o]? = bs[j - o]? := by rw [h]
    rw [List.getElem?_take_of_lt (by omega), List.getElem?_drop] at h2
    rw [← h2]
    congr 1
    omega
  · rfl

/-! ## Reading and writing the memory of a context -/

theorem writeBytes_scalars {ctx ctx' : ElfContext} {a : Nat} {bs : List Nat}
    (h : writeBytes ctx a bs = some ctx') : scalars ctx' = scalars ctx := by
  unfold writeBytes at h
  split at h
  · split at h
    · cases h; rfl
    · cases h
  · split at h
    · split at h
      · cases h; rfl
      · cases h
    · cases h

theorem writeBytes_lengths {ctx ctx' : ElfContext} {a : Nat} {bs : List Nat}
    (h : writeBytes ctx a bs = some ctx') :
    ctx'.mapped.length = ctx.mapped.length ∧ ctx'.extended.length = ctx.extended.length := by
  unfold writeBytes at h
  split at h
  · split at h
    · cases h
      refine ⟨rfl, ?_⟩
      exact splice_length _ _ _ (by omega)
    · cases h
  · split at h
    · split at h
      · cases h
        refine ⟨?_, rfl⟩
        exact splice_length _ _ _ (by omega)
      · cases h
    · cases h

theorem readBytes_writeBytes_same {ctx ctx' : ElfContext} {a : Nat} {bs : List Nat}
    (h : writeBytes ctx a bs = some ctx') : readBytes ctx' a bs.length = some bs := by
  unfold writeBytes at h
  split at h
  · rename_i hin
    split at h
    · rename_i hfit
      cases h
      have hl : (splice ctx.extended (a - ctx.extended_data) bs).length = ctx.extended.length :=
        splice_length _ _ _ (by omega)
      simp only [readBytes, region, hl, hin, and_self, if_true, Option.some_bind,
        List.length_drop]
      rw [if_pos (by omega), take_drop_splice_same _ _ _ (by omega)]
    · cases h
  · rename_i hout
    split at h
    · rename_i hin
      split at h
      · rename_i hfit
        cases h
        have hl : (splice ctx.mapped (a - ctx.mapped_data) bs).length = ctx.mapped.length :=
          splice_length _ _ _ (by omega)
        simp only [readBytes, region, hl, hin, hout, and_self, if_true, if_false,
          Option.some_bind, List.length_drop]
        rw [if_pos (by omega), take_drop_splice_same _ _ _ (by omega)]
      · cases h
    · cases h

theorem readBytes_writeBytes_disjoint {ctx ctx' : ElfContext} {a : Nat} {bs : List Nat}
    (h : writeBytes ctx a bs = some ctx') (b n : Nat)
    (hd : b + n ≤ a ∨ a + bs.length ≤ b) : readBytes ctx' b n = readBytes ctx b n := by
  unfold writeBytes at h
  split at h
  · rename_i hin
    split at h
    · rename_i hfit
      cases h
      have hl : (splice ctx.extended (a - ctx.extended_data) bs).length = ctx.extended.length :=
        splice_length _ _ _ (by omega)
      simp only [readBytes, region, hl]
      split
      · rename_i hb
        simp only [Option.some_bind, List.length_drop, hl]
        split
        · rw [take_drop_splice_disjoint _ _ _ _ _ (by omega) (by omega)]
        · rfl
      · rfl
    · cases h
  · rename_i hout
    split at h
    · rename_i hin
      split at h
      · rename_i hfit
        cases h
        have hl : (splice ctx.mapped (a - ctx.mapped_data) bs).length = ctx.mapped.length :=
          splice_length _ _ _ (by omega)
        simp only [readBytes, region, hl]
        split
        · rfl
        · split
          · rename_i hb
            simp only [Option.some_bind, List.length_drop, hl]
            split
            · rw [take_drop_splice_disjoint _ _ _ _ _ (by omega) (by omega)]
            · rfl
          · rfl
      · cases h
    · cases h

theorem readBytes_length {ctx : ElfContext} {a n : Nat} {bs : List Nat}
    (h : readBytes ctx a n = some bs) : bs.length = n := by
  unfold readBytes at h
  cases hr : region ctx a with
  | none => simp [hr] at h
  | some l =>
    simp only [hr, Option.some_bind] at h
    split at h
    · cases h
      simp; omega
    · cases h

theorem writeBytes_of_readBytes {ctx : ElfContext} {a n : Nat} {old : List Nat}
    (h : readBytes ctx a n = some old) (bs : List Nat) (hl : bs.length ≤ n) :
    ∃ ctx', writeBytes ctx a bs = some ctx' := by
  unfold readBytes region at h
  unfold writeBytes
  split at h
  · rename_i hin
    simp only [Option.some_bind, List.length_drop] at h
    split at h
    · rw [if_pos hin, if_pos (by omega)]
      exact ⟨_, rfl⟩
    · cases h
  · rename_i hout
    split at h
    · rename_i hin
      simp only [Option.some_bind, List.length_drop] at h
      split at h
      · rw [if_neg hout, if_pos hin, if_pos (by omega)]
        exact ⟨_, rfl⟩
      · cases h
    · simp at h

theorem writeBytes_self {ctx : ElfContext} {a : Nat} {bs : List Nat}
    (h : readBytes ctx a bs.length = some bs) : writeBytes ctx a bs = some ctx := by
  unfold readBytes region at h
  unfold writeBytes
  split at h
  · rename_i hin
    simp only [Option.some_bind, List.length_drop] at h
    split at h
    · rename_i hfit
      rw [if_pos hin, if_pos (by omega)]
      simp only [Option.some.injEq] at h
      rw [splice_self _ _ _ h (by omega)]
    · cases h
  · rename_i hout
    split at h
    · rename_i hin
      simp only [Option.some_bind, List.length_drop] at h
      split at h
      · rename_i hfit
        rw [if_neg hout, if_pos hin, if_pos (by omega)]
        simp only [Option.some.injEq] at h
        rw [splice_self _ _ _ h (by omega)]
      · cases h
    · simp at h

end ElfMod

namespace ElfMod

/-! ## C strings in memory -/

theorem cstrFrom_take : ∀ (l s : List Nat), cstrFrom l = some s →
    l.take (s.length + 1) = s ++ [0] ∧ (∀ b ∈ s, b ≠ 0) := by
  intro l
  induction l with
  | nil => intro s h; simp [cstrFrom] at h
  | cons b bs ih =>
    intro s h
    simp only [cstrFrom] at h
    split at h
    · rename_i hb
      cases h
      simp [hb]
    · rename_i hb
      cases hr : cstrFrom bs with
      | none => simp [hr] at h
      | some t =>
        simp only [hr, Option.map_some', Option.some.injEq] at h
        subst h
        obtain ⟨h1, h2⟩ := ih t hr
        refine ⟨by simp [h1], ?_⟩
        intro c hc
        simp only [List.mem_cons] at hc
        rcases hc with rfl | hc
        · exact hb
        · exact h2 c hc

theorem cstrFrom_of_take : ∀ (s l : List Nat), (∀ b ∈ s, b ≠ 0) →
    l.take (s.length + 1) = s ++ [0] → cstrFrom l = some s := by
  intro s
  induction s with
  | nil =>
    intro l _ h
    cases l with
    | nil => simp at h
    | cons b bs =>
      simp at h
      simp [cstrFrom, h]
  | cons c cs ih =>
    intro l hnz h
    cases l with
    | nil => simp at h
    | cons b bs =>
      simp only [List.length_cons, List.take_succ_cons, List.cons_append, List.cons.injEq] at h
      obtain ⟨rfl, h⟩ := h
      have hb : b ≠ 0 := hnz b (by simp)
      simp only [cstrFrom, hb, if_false]
      rw [ih bs (fun x hx => hnz x (by simp [hx])) h]
      rfl

theorem strcmpFrom_of_cstrFrom : ∀ (l t s : List Nat), cstrFrom l = some t →
    (∀ b ∈ s, b ≠ 0) → strcmpFrom l s = some (decide (t = s)) := by
  intro l
  induction l with
  | nil => intro t s h; simp [cstrFrom] at h
  | cons b bs ih =>
    intro t s h hnz
    simp only [cstrFrom] at h
    split at h
    · rename_i hb
      cases h
      subst hb
      cases s with
      | nil => simp [strcmpFrom]
      | cons c cs =>
        have hc : c ≠ 0 := hnz c (by simp)
        simp [strcmpFrom, Ne.symm hc]
    · rename_i hb
      cases hr : cstrFrom bs with
      | none => simp [hr] at h
      | some t' =>
        simp only [hr, Option.map_some', Option.some.injEq] at h
        subst h
        cases s with
        | nil => simp [strcmpFrom, hb]
        | cons c cs =>
          simp only [strcmpFrom]
          by_cases hbc : b = c
          · subst hbc
            rw [if_pos rfl, if_neg hb, ih t' cs hr (fun x hx => hnz x (by simp [hx]))]
            simp
          · rw [if_neg hbc]
            simp [hbc]

theorem cstrFrom_of_strcmpFrom : ∀ (l s : List Nat), (∀ b ∈ s, b ≠ 0) →
    strcmpFrom l s = some true → cstrFrom l = some s := by
  intro l
  induction l with
  | nil => intro s _ h; simp [strcmpFrom] at h
  | cons b bs ih =>
    intro s hnz h
    cases s with
    | nil =>
      simp [strcmpFrom] at h
      simp [cstrFrom, h]
    | cons c cs =>
      have hc : c ≠ 0 := hnz c (by simp)
      simp only [strcmpFrom] at h
      split at h
      · rename_i hbc
        subst hbc
        rw [if_neg hc] at h
        simp only [cstrFrom, hc, if_false]
        rw [ih cs (fun x hx => hnz x (by simp [hx])) h]
        rfl
      · cases h

theorem cstr_iff_readBytes (ctx : ElfContext) (a : Nat) (s : List Nat) (hnz : ∀ b ∈ s, b ≠ 0) :
    cstr ctx a = some s ↔ readBytes ctx a (s.length + 1) = some (s ++ [0]) := by
  unfold cstr readBytes
  cases hr : region ctx a with
  | none => simp
  | some l =>
    simp only [Option.some_bind]
    constructor
    · intro h
      obtain ⟨h1, _⟩ := cstrFrom_take l s h
      have hlen : s.length + 1 ≤ l.length := by
        have := congrArg List.length h1
        simp at this
        omega
      rw [if_pos hlen, h1]
    · intro h
      split at h
      · simp only [Option.some.injEq] at h
        exact cstrFrom_of_take s l hnz h
      · cases h

theorem cstr_nonzero {ctx : ElfContext} {a : Nat} {s : List Nat} (h : cstr ctx a = some s) :
    ∀ b ∈ s, b ≠ 0 := by
  unfold cstr at h
  cases hr : region ctx a with
  | none => simp [hr] at h
  | some l =>
    simp only [hr, Option.some_bind] at h
    exact (cstrFrom_take l s h).2

theorem strcmp_eq_of_cstr {ctx : ElfContext} {a : Nat} {t : List Nat} (s : List Nat)
    (h : cstr ctx a = some t) (hnz : ∀ b ∈ s, b ≠ 0) :
    strcmp_eq ctx a s = some (decide (t = s)) := by
  unfold cstr at h
  unfold strcmp_eq
  cases hr : region ctx a with
  | none => simp [hr] at h
  | some l =>
    simp only [hr, Option.some_bind] at h ⊢
    exact strcmpFrom_of_cstrFrom l t s h hnz

theorem cstr_of_strcmp_eq {ctx : ElfContext} {a : Nat} {s : List Nat}
    (hnz : ∀ b ∈ s, b ≠ 0) (h : strcmp_eq ctx a s = some true) : cstr ctx a = some s := by
  unfold cstr
  unfold strcmp_eq at h
  cases hr : region ctx a with
  | none => simp [hr] at h
  | some l =>
    simp only [hr, Option.some_bind] at h ⊢
    exact cstrFrom_of_strcmpFrom l s hnz h

theorem CStr.nonzero {s : List Nat} (h : CStr s) : ∀ b ∈ s, b ≠ 0 := by
  intro b hb
  have := (h b hb).1
  omega

end ElfMod

namespace ElfMod

/-! ## elf_get_needed_libs against the enumerator of the specification -/

theorem spec_needed_offsets_cons_needed (v : Nat) (es : List (Nat × Nat)) :
    spec_needed_offsets ((DT_NEEDED, v) :: es) = v :: spec_needed_offsets es := by
  simp [spec_needed_offsets, spec_live, DT_NEEDED, DT_NULL]

theorem spec_needed_offsets_cons_null (v : Nat) (es : List (Nat × Nat)) :
    spec_needed_offsets ((DT_NULL, v) :: es) = [] := by
  simp [spec_needed_offsets, spec_live]

theorem spec_needed_offsets_cons_other (t v : Nat) (es : List (Nat × Nat))
    (h1 : t ≠ DT_NEEDED) (h0 : t ≠ DT_NULL) :
    spec_needed_offsets ((t, v) :: es) = spec_needed_offsets es := by
  simp [spec_needed_offsets, spec_live, h1, h0]

theorem read_table_succ (ctx : ElfContext) (n i : Nat) (es : List (Nat × Nat))
    (h : read_table ctx (n + 1) i = some es) :
    ∃ t v es', dyn_tag ctx i = some t ∧ dyn_val ctx i = some v ∧
      read_table ctx n (i + 1) = some es' ∧ es = (t, v) :: es' := by
  simp only [read_table] at h
  cases ht : dyn_tag ctx i with
  | none => simp [ht] at h
  | some t =>
    cases hv : dyn_val ctx i with
    | none => simp [ht, hv] at h
    | some v =>
      cases hr : read_table ctx n (i + 1) with
      | none => simp [ht, hv, hr] at h
      | some es' =>
        simp [ht, hv, hr] at h
        exact ⟨t, v, es', rfl, rfl, rfl, h.symm⟩

theorem count_loop_eq (ctx : ElfContext) :
    ∀ (n i acc : Nat) (es : List (Nat × Nat)), read_table ctx n i = some es →
      count_loop ctx n i acc = some (acc + (spec_needed_offsets es).length) := by
  intro n
  induction n with
  | zero =>
    intro i acc es h
    simp [read_table] at h
    subst h
    simp [count_loop, spec_needed_offsets, spec_live]
  | succ n ih =>
    intro i acc es h
    obtain ⟨t, v, es', ht, _, hr, rfl⟩ := read_table_succ ctx n i es h
    simp only [count_loop, ht, Option.some_bind]
    by_cases h1 : t = DT_NEEDED
    · subst h1
      rw [if_pos rfl, ih (i + 1) (acc + 1) es' hr, spec_needed_offsets_cons_needed]
      simp; omega
    · rw [if_neg h1]
      by_cases h0 : t = DT_NULL
      · subst h0
        rw [if_pos rfl, spec_needed_offsets_cons_null]
        simp
      · rw [if_neg h0, ih (i + 1) acc es' hr, spec_needed_offsets_cons_other t v es' h1 h0]

theorem fill_loop_eq (ctx : ElfContext) (nc : Nat) :
    ∀ (n i : Nat) (acc : List (List Nat)) (es : List (Nat × Nat)),
      read_table ctx n i = some es →
      acc.length + (spec_needed_offsets es).length ≤ nc →
      fill_loop ctx nc n i acc =
        (resolve_all ctx (spec_needed_offsets es)).map fun names => acc ++ names := by
  intro n
  induction n with
  | zero =>
    intro i acc es h _
    simp [read_table] at h
    subst h
    simp [fill_loop, spec_needed_offsets, spec_live, resolve_all]
  | succ n ih =>
    intro i acc es h hle
    obtain ⟨t, v, es', ht, hv, hr, rfl⟩ := read_table_succ ctx n i es h
    simp only [fill_loop]
    by_cases h1 : t = DT_NEEDED
    · subst h1
      rw [spec_needed_offsets_cons_needed] at hle ⊢
      simp only [List.length_cons] at hle
      rw [if_pos (by omega)]
      simp only [ht, hv, Option.some_bind, if_pos, resolve_all]
      cases hs : cstr ctx (ctx.dynstr + v) with
      | none => simp
      | some s =>
        simp only [Option.some_bind]
        rw [ih (i + 1) (acc ++ [s]) es' hr (by simp; omega)]
        cases resolve_all ctx (spec_needed_offsets es') <;> simp
    · by_cases h0 : t = DT_NULL
      · subst h0
        rw [spec_needed_offsets_cons_null]
        simp only [ht, Option.some_bind, if_neg h1, if_pos, resolve_all]
        split <;> simp
      · rw [spec_needed_offsets_cons_other t v es' h1 h0] at hle ⊢
        simp only [ht, Option.some_bind, if_neg h1, if_neg h0]
        split
        · exact ih (i + 1) acc es' hr hle
        · rename_i hlt
          have hnil : spec_needed_offsets es' = [] := by
            apply List.eq_nil_of_length_eq_zero
            omega
          simp [hnil, resolve_all]

theorem resolve_all_length (ctx : ElfContext) :
    ∀ (vs : List Nat) (names : List (List Nat)), resolve_all ctx vs = some names →
      names.length = vs.length := by
  intro vs
  induction vs with
  | nil =>
    intro names h
    simp [resolve_all] at h
    subst h
    rfl
  | cons v vs ih =>
    intro names h
    simp only [resolve_all] at h
    cases hs : cstr ctx (ctx.dynstr + v) with
    | none => simp [hs] at h
    | some s =>
      cases hr : resolve_all ctx vs with
      | none => simp [hs, hr] at h
      | some ss =>
        simp [hs, hr] at h
        subst h
        simp [ih ss hr]

end ElfMod

namespace ElfMod

/-! ## The search loop of elf_replace_needed_lib -/

theorem find_loop_some (ctx : ElfContext) (old : List Nat) (hnz : ∀ b ∈ old, b ≠ 0) :
    ∀ (n i k v : Nat), find_loop ctx old n i = some (some (k, v)) →
      i ≤ k ∧ k < i + n ∧ dyn_tag ctx k = some DT_NEEDED ∧ dyn_val ctx k = some v ∧
      v < ctx.dynstr_size ∧ cstr ctx (ctx.dynstr + v) = some old := by
  intro n
  induction n with
  | zero => intro i k v h; simp [find_loop] at h
  | succ n ih =>
    intro i k v h
    have step : ∀ (h' : find_loop ctx old n (i + 1) = some (some (k, v))),
        i ≤ k ∧ k < i + (n + 1) ∧ dyn_tag ctx k = some DT_NEEDED ∧ dyn_val ctx k = some v ∧
        v < ctx.dynstr_size ∧ cstr ctx (ctx.dynstr + v) = some old := by
      intro h'
      obtain ⟨h1, h2, h3⟩ := ih (i + 1) k v h'
      exact ⟨by omega, by omega, h3⟩
    simp only [find_loop] at h
    cases ht : dyn_tag ctx i with
    | none => simp [ht] at h
    | some t =>
      simp only [ht, Option.some_bind] at h
      split at h
      · rename_i ht1
        subst ht1
        cases hv : dyn_val ctx i with
        | none => simp [hv] at h
        | some w =>
          simp only [hv, Option.some_bind] at h
          split at h
          · rename_i hlt
            cases hc : strcmp_eq ctx (ctx.dynstr + w) old with
            | none => simp [hc] at h
            | some same =>
              simp only [hc, Option.some_bind] at h
              cases same with
              | true =>
                simp only [if_true, Option.some.injEq, Prod.mk.injEq] at h
                obtain ⟨rfl, rfl⟩ := h
                exact ⟨le_refl _, by omega, ht, hv, hlt, cstr_of_strcmp_eq hnz hc⟩
              | false =>
                simp only [Bool.false_eq_true, if_false] at h
                exact step h
          · exact step h
      · split at h
        · simp at h
        · exact step h

theorem find_loop_none (ctx : ElfContext) (old : List Nat) (hnz : ∀ b ∈ old, b ≠ 0) :
    ∀ (n i : Nat) (es : List (Nat × Nat)), read_table ctx n i = some es →
      (∀ v ∈ spec_needed_offsets es, v < ctx.dynstr_size →
        ∃ t, cstr ctx (ctx.dynstr + v) = some t ∧ t ≠ old) →
      find_loop ctx old n i = some none := by
  intro n
  induction n with
  | zero => intro i es _ _; simp [find_loop]
  | succ n ih =>
    intro i es h hall
    obtain ⟨t, v, es', ht, hv, hr, rfl⟩ := read_table_succ ctx n i es h
    simp only [find_loop, ht, Option.some_bind]
    by_cases h1 : t = DT_NEEDED
    · subst h1
      rw [spec_needed_offsets_cons_needed] at hall
      have hrest := ih (i + 1) es' hr (fun w hw => hall w (by simp [hw]))
      simp only [if_true, hv, Option.some_bind]
      split
      · rename_i hlt
        obtain ⟨s, hs, hne⟩ := hall v (by simp) hlt
        rw [strcmp_eq_of_cstr old hs hnz]
        simp [hne, hrest]
      · exact hrest
    · rw [if_neg h1]
      by_cases h0 : t = DT_NULL
      · rw [if_pos h0]
      · rw [if_neg h0]
        rw [spec_needed_offsets_cons_other t v es' h1 h0] at hall
        exact ih (i + 1) es' hr hall

theorem find_loop_exists (ctx : ElfContext) (old : List Nat) (hnz : ∀ b ∈ old, b ≠ 0) :
    ∀ (n i : Nat) (es : List (Nat × Nat)), read_table ctx n i = some es →
      (∀ v ∈ spec_needed_offsets es, v < ctx.dynstr_size →
        ∃ t, cstr ctx (ctx.dynstr + v) = some t) →
      (∃ v ∈ spec_needed_offsets es, v < ctx.dynstr_size ∧
        cstr ctx (ctx.dynstr + v) = some old) →
      ∃ k v, find_loop ctx old n i = some (some (k, v)) := by
  intro n
  induction n with
  | zero =>
    intro i es h _ hex
    simp [read_table] at h
    subst h
    simp [spec_needed_offsets, spec_live] at hex
  | succ n ih =>
    intro i es h hall hex
    obtain ⟨t, v, es', ht, hv, hr, rfl⟩ := read_table_succ ctx n i es h
    simp only [find_loop, ht, Option.some_bind]
    by_cases h1 : t = DT_NEEDED
    · subst h1
      rw [spec_needed_offsets_cons_needed] at hall hex
      simp only [if_true, hv, Option.some_bind]
      have hrest : (∃ w ∈ spec_needed_offsets es', w < ctx.dynstr_size ∧
          cstr ctx (ctx.dynstr + w) = some old) →
          ∃ k v, find_loop ctx old n (i + 1) = some (some (k, v)) :=
        ih (i + 1) es' hr (fun w hw => hall w (by simp [hw]))
      split
      · rename_i hlt
        obtain ⟨s, hs⟩ := hall v (by simp) hlt
        rw [strcmp_eq_of_cstr old hs hnz]
        by_cases hso : s = old
        · simp [hso]
        · simp only [hso, decide_False, Option.some_bind, Bool.false_eq_true, if_false]
          apply hrest
          obtain ⟨w, hw, hwlt, hwc⟩ := hex
          simp only [List.mem_cons] at hw
          rcases hw with rfl | hw
          · rw [hs] at hwc
            exact absurd (Option.some.inj hwc) hso
          · exact ⟨w, hw, hwlt, hwc⟩
      · rename_i hge
        apply hrest
        obtain ⟨w, hw, hwlt, hwc⟩ := hex
        simp only [List.mem_cons] at hw
        rcases hw with rfl | hw
        · exact absurd hwlt hge
        · exact ⟨w, hw, hwlt, hwc⟩
    · rw [if_neg h1]
      by_cases h0 : t = DT_NULL
      · subst h0
        rw [spec_needed_offsets_cons_null] at hex
        simp at hex
      · rw [if_neg h0]
        rw [spec_needed_offsets_cons_other t v es' h1 h0] at hall hex
        exact ih (i + 1) es' hr hall hex

theorem resolve_all_mem (ctx : ElfContext) :
    ∀ (vs : List Nat) (names : List (List Nat)), resolve_all ctx vs = some names →
      ∀ v ∈ vs, ∃ t ∈ names, cstr ctx (ctx.dynstr + v) = some t := by
  intro vs
  induction vs with
  | nil => intro names _ v hv; simp at hv
  | cons w ws ih =>
    intro names h v hv
    simp only [resolve_all] at h
    cases hs : cstr ctx (ctx.dynstr + w) with
    | none => simp [hs] at h
    | some s =>
      cases hr : resolve_all ctx ws with
      | none => simp [hs, hr] at h
      | some ss =>
        simp [hs, hr] at h
        subst h
        simp only [List.mem_cons] at hv
        rcases hv with rfl | hv
        · exact ⟨s, by simp, hs⟩
        · obtain ⟨t, ht, hc⟩ := ih ss hr v hv
          exact ⟨t, by simp [ht], hc⟩

end ElfMod

namespace ElfMod

/-! ## Facts that only depend on the scalar fields -/

theorem dyn_addr_congr {a b : ElfContext} (h : scalars a = scalars b) (i : Nat) :
    dyn_addr a i = dyn_addr b i := by
  have h1 : a.dyn = b.dyn := by
    have e := congrArg ElfContext.dyn h; exact e
  have h2 : a.is_64bit = b.is_64bit := by
    have e := congrArg ElfContext.is_64bit h; exact e
  simp [dyn_addr, h1, h2]

theorem size_to_write_congr {a b : ElfContext} (h : scalars a = scalars b) :
    size_to_write a = size_to_write b := by
  have h1 : a.is_expanded = b.is_expanded := by
    have e := congrArg ElfContext.is_expanded h; exact e
  have h2 : a.extended_size = b.extended_size := by
    have e := congrArg ElfContext.extended_size h; exact e
  have h3 : a.file_size = b.file_size := by
    have e := congrArg ElfContext.file_size h; exact e
  simp [size_to_write, h1, h2, h3]

theorem data_to_write_congr {a b : ElfContext} (h : scalars a = scalars b) :
    data_to_write a = data_to_write b := by
  have h1 : a.is_expanded = b.is_expanded := by
    have e := congrArg ElfContext.is_expanded h; exact e
  have h2 : a.extended_data = b.extended_data := by
    have e := congrArg ElfContext.extended_data h; exact e
  have h3 : a.mapped_data = b.mapped_data := by
    have e := congrArg ElfContext.mapped_data h; exact e
  simp [data_to_write, h1, h2, h3]

/-- Whether a read succeeds, and how many bytes it yields, depends on the
scalar fields and on the lengths of the blocks only. -/
theorem readBytes_length_congr {a b : ElfContext} (h : scalars a = scalars b)
    (hm : a.mapped.length = b.mapped.length) (he : a.extended.length = b.extended.length)
    (p n : Nat) :
    (readBytes a p n).map List.length = (readBytes b p n).map List.length := by
  have h1 : a.is_expanded = b.is_expanded := by
    have e := congrArg ElfContext.is_expanded h; exact e
  have h2 : a.extended_data = b.extended_data := by
    have e := congrArg ElfContext.extended_data h; exact e
  have h3 : a.mapped_data = b.mapped_data := by
    have e := congrArg ElfContext.mapped_data h; exact e
  simp only [readBytes, region, h1, h2, h3, hm, he]
  split
  · simp only [Option.some_bind, List.length_drop, hm, he]
    split <;> simp [hm, he]
  · split
    · simp only [Option.some_bind, List.length_drop, hm, he]
      split <;> simp [hm, he]
    · rfl

theorem find_loop_mem (ctx : ElfContext) (old : List Nat) :
    ∀ (n i k v : Nat) (es : List (Nat × Nat)), read_table ctx n i = some es →
      find_loop ctx old n i = some (some (k, v)) → v ∈ spec_needed_offsets es := by
  intro n
  induction n with
  | zero => intro i k v es _ h; simp [find_loop] at h
  | succ n ih =>
    intro i k v es hes h
    obtain ⟨t, w, es', ht, hw, hr, rfl⟩ := read_table_succ ctx n i es hes
    simp only [find_loop, ht, Option.some_bind] at h
    by_cases h1 : t = DT_NEEDED
    · subst h1
      rw [spec_needed_offsets_cons_needed]
      simp only [if_true, hw, Option.some_bind] at h
      split at h
      · cases hc : strcmp_eq ctx (ctx.dynstr + w) old with
        | none => simp [hc] at h
        | some same =>
          simp only [hc, Option.some_bind] at h
          cases same with
          | true =>
            simp only [if_true, Option.some.injEq, Prod.mk.injEq] at h
            simp [h.2]
          | false =>
            simp only [Bool.false_eq_true, if_false] at h
            exact List.mem_cons_of_mem _ (ih (i + 1) k v es' hr h)
      · exact List.mem_cons_of_mem _ (ih (i + 1) k v es' hr h)
    · rw [if_neg h1] at h
      by_cases h0 : t = DT_NULL
      · rw [if_pos h0] at h
        simp at h
      · rw [if_neg h0] at h
        rw [spec_needed_offsets_cons_other t w es' h1 h0]
        exact ih (i + 1) k v es' hr h

theorem string_inside_elim {ctx : ElfContext} {v : Nat} (h : string_inside ctx v) :
    ∃ s, cstr ctx (ctx.dynstr + v) = some s ∧ v + s.length < ctx.dynstr_size := by
  unfold string_inside at h
  split at h
  · rename_i s hs
    exact ⟨s, hs, h⟩
  · exact absurd h id

theorem WellFormed.elim {ctx : ElfContext} (h : WellFormed ctx) :
    (ctx.dyn + ctx.dyn_count * (layout ctx.is_64bit).dyn_size ≤ ctx.dynstr ∨
      ctx.dynstr + ctx.dynstr_size ≤ ctx.dyn) ∧
    ∃ es, dyn_table ctx = some es ∧ ∀ v ∈ spec_needed_offsets es, string_inside ctx v := by
  obtain ⟨_, h1, h2⟩ := h
  refine ⟨h1, ?_⟩
  split at h2
  · rename_i es hes
    exact ⟨es, hes, h2⟩
  · exact absurd h2 id

/-- A dynamic entry read after a write that stays inside the string table. -/
theorem dyn_field_after_write {ctx ctx' : ElfContext} {a : Nat} {bs : List Nat}
    (hw : writeBytes ctx a bs = some ctx')
    (hdis : ctx.dyn + ctx.dyn_count * (layout ctx.is_64bit).dyn_size ≤ ctx.dynstr ∨
      ctx.dynstr + ctx.dynstr_size ≤ ctx.dyn)
    (ha : ctx.dynstr ≤ a) (hb : a + bs.length ≤ ctx.dynstr + ctx.dynstr_size)
    (k : Nat) (hk : k < ctx.dyn_count) :
    dyn_tag ctx' k = dyn_tag ctx k ∧ dyn_val ctx' k = dyn_val ctx k := by
  have hs := writeBytes_scalars hw
  have h64 : ctx'.is_64bit = ctx.is_64bit := by
    have e := congrArg ElfContext.is_64bit hs; exact e
  have hdyn : ctx'.dyn = ctx.dyn := by
    have e := congrArg ElfContext.dyn hs; exact e
  unfold dyn_tag dyn_val readLE dyn_addr
  rw [h64, hdyn]
  constructor
  · rw [readBytes_writeBytes_disjoint hw]
    cases h : ctx.is_64bit <;> simp only [h, layout, layout64, layout32] at hdis ⊢ <;>
      simp at hdis ⊢ <;> omega
  · rw [readBytes_writeBytes_disjoint hw]
    cases h : ctx.is_64bit <;> simp only [h, layout, layout64, layout32] at hdis ⊢ <;>
      simp at hdis ⊢ <;> omega

end ElfMod

namespace ElfMod

/-! ## relocate_pointers and expand_dynstr: what they leave alone -/

theorem relocate_pointers_frame {ctx ctx' : ElfContext} {new_data : Nat}
    (h : relocate_pointers ctx new_data = some ctx') :
    ∃ e p s d st ds, ctx' =
      { ctx with ehdr := e, phdr := p, shdr := s, dyn := d, shstrtab := st, dynstr := ds } := by
  unfold relocate_pointers at h
  simp only [Option.bind_eq_some] at h
  obtain ⟨phnum, _, ctx2, h2, shoff, _, h6⟩ := h
  have hc2 : ∃ p, ctx2 = { ctx with ehdr := new_data, phdr := p } := by
    split at h2
    · simp only [Option.map_eq_some'] at h2
      obtain ⟨o, _, rfl⟩ := h2
      exact ⟨_, rfl⟩
    · cases h2
      exact ⟨_, rfl⟩
  obtain ⟨p, rfl⟩ := hc2
  simp only [Option.some.injEq] at h6
  subst h6
  split_ifs <;> exact ⟨_, _, _, _, _, _, rfl⟩

theorem expand_dynstr_sizes {ctx : ElfContext} {add : Nat} {alloc : Option Nat} {e : Outcome}
    (h : expand_dynstr ctx add alloc = some e) :
    (e.ret = -1 ∧ e.ctx = ctx) ∨
    (e.ret = 0 ∧ e.ctx.is_expanded = true ∧
      e.ctx.extended_size = ctx.file_size + padding ctx.file_size + add ∧
      e.ctx.file_size = ctx.file_size + padding ctx.file_size + add) := by
  unfold expand_dynstr at h
  split at h
  · cases h
    exact Or.inl ⟨rfl, rfl⟩
  · simp only [Option.bind_eq_some] at h
    obtain ⟨_, _, _, _, _, _, h⟩ := h
    cases alloc with
    | none =>
      cases h
      exact Or.inl ⟨rfl, rfl⟩
    | some new_data =>
      simp only [Option.bind_eq_some] at h
      obtain ⟨content, _, ctx2, h2, size, _, ctx3, h3, h4⟩ := h
      obtain ⟨e1, p1, s1, d1, st1, ds1, rfl⟩ := relocate_pointers_frame h2
      have hs := writeBytes_scalars h3
      have hexp : ctx3.is_expanded = true := by
        have e := congrArg ElfContext.is_expanded hs; exact e
      have hsz : ctx3.extended_size = ctx.file_size + padding ctx.file_size + add := by
        have e := congrArg ElfContext.extended_size hs; exact e
      cases h4
      exact Or.inr ⟨rfl, hexp, hsz, rfl⟩

end ElfMod

namespace ElfMod

/-! ## Reads at a known offset of a block -/

theorem readBytes_extended (c : ElfContext) (off m : Nat) (hx : c.is_expanded = true)
    (hfit : off + m ≤ c.extended.length) (hm : 0 < m) :
    readBytes c (c.extended_data + off) m = some ((c.extended.drop off).take m) := by
  unfold readBytes region
  rw [if_pos ⟨hx, by omega, by omega⟩]
  simp only [Option.some_bind, List.length_drop, Nat.add_sub_cancel_left]
  rw [if_pos (by omega)]

theorem readBytes_mapped (c : ElfContext) (off m : Nat) (hx : c.is_expanded = false)
    (hfit : off + m ≤ c.mapped.length) (hm : 0 < m) :
    readBytes c (c.mapped_data + off) m = some ((c.mapped.drop off).take m) := by
  unfold readBytes region
  rw [if_neg (by simp [hx]), if_pos ⟨by omega, by omega⟩]
  simp only [Option.some_bind, List.length_drop, Nat.add_sub_cancel_left]
  rw [if_pos (by omega)]

theorem readBytes_mapped_bounds {c : ElfContext} {a m : Nat} {bs : List Nat}
    (hx : c.is_expanded = false) (h : readBytes c a m = some bs) :
    c.mapped_data ≤ a ∧ a - c.mapped_data + m ≤ c.mapped.length ∧
      a < c.mapped_data + c.mapped.length := by
  unfold readBytes region at h
  rw [if_neg (by simp [hx])] at h
  split at h
  · rename_i hin
    simp only [Option.some_bind, List.length_drop] at h
    split at h
    · exact ⟨hin.1, by omega, hin.2⟩
    · cases h
  · simp at h

theorem readBytes_pos_of_some {c : ElfContext} {a m : Nat} {bs : List Nat}
    (h : readBytes c a m = some bs) : ∃ l, region c a = some l := by
  unfold readBytes at h
  cases hr : region c a with
  | none => simp [hr] at h
  | some l => exact ⟨l, rfl⟩

theorem leNat_leBytes (n v : Nat) : leNat (leBytes n v) = v % 256 ^ n := by
  induction n generalizing v with
  | zero => simp [leBytes, leNat, Nat.mod_one]
  | succ n ih =>
    simp only [leBytes, leNat, ih]
    rw [Nat.pow_succ, Nat.mul_comm (256 ^ n) 256, Nat.mod_mul]

theorem leBytes_length (n v : Nat) : (leBytes n v).length = n := by
  induction n generalizing v with
  | zero => rfl
  | succ n ih => simp [leBytes, ih]

theorem take_drop_append_left (l z : List Nat) (off m : Nat) (h : off + m ≤ l.length) :
    ((l ++ z).drop off).take m = (l.drop off).take m := by
  rw [List.drop_append_of_le_length (by omega), List.take_append_of_le_length (by simp; omega)]

end ElfMod

namespace ElfMod

/-! ## The grow path of elf_replace_needed_lib on a freshly loaded image -/

theorem layout_facts (b : Bool) :
    0 < (layout b).word ∧ (layout b).word ≤ 8 ∧ (layout b).dyn_size = 2 * (layout b).word ∧
    (layout b).e_phnum + 2 ≤ 64 ∧ (layout b).e_phoff + (layout b).word ≤ 64 ∧
    (layout b).e_shoff + (layout b).word ≤ 64 ∧
    (layout b).sh_size + (layout b).word ≤ (layout b).shdr_size ∧
    (layout b).sh_offset + (layout b).word ≤ (layout b).shdr_size ∧
    (layout b).sh_addr + (layout b).word ≤ (layout b).shdr_size := by
  cases b <;> decide

theorem readBytes_mapped_at {c : ElfContext} {a m : Nat} (hx : c.is_expanded = false)
    (h1 : c.mapped_data ≤ a) (h2 : a + m ≤ c.mapped_data + c.mapped.length) (hm : 0 < m) :
    readBytes c a m = some ((c.mapped.drop (a - c.mapped_data)).take m) := by
  have := readBytes_mapped c (a - c.mapped_data) m hx (by omega) hm
  rwa [show c.mapped_data + (a - c.mapped_data) = a by omega] at this

theorem readBytes_extended_at {c : ElfContext} {a m : Nat} (hx : c.is_expanded = true)
    (h1 : c.extended_data ≤ a) (h2 : a + m ≤ c.extended_data + c.extended.length)
    (hm : 0 < m) :
    readBytes c a m = some ((c.extended.drop (a - c.extended_data)).take m) := by
  have := readBytes_extended c (a - c.extended_data) m hx (by omega) hm
  rwa [show c.extended_data + (a - c.extended_data) = a by omega] at this

theorem padding_le (n : Nat) : padding n ≤ 15 := by
  unfold padding
  split <;> omega

/-- `relocate_pointers` on a context whose heap buffer holds at least an ELF
header: it succeeds, and the three pointers that matter are rebased. -/
theorem relocate_pointers_ok (c : ElfContext) (hx : c.is_expanded = true)
    (hL : 64 ≤ c.extended.length) :
    ∃ c', relocate_pointers c c.extended_data = some c' ∧
      (∃ e p s d st ds, c' =
        { c with ehdr := e, phdr := p, shdr := s, dyn := d, shstrtab := st, dynstr := ds }) ∧
      (∀ shoff, readLE c (c.extended_data + (layout c.is_64bit).e_shoff)
          (layout c.is_64bit).word = some shoff → c'.shdr = add64 c.extended_data shoff) ∧
      c'.dyn = (if c.dyn ≠ 0 then add64 c.extended_data (sub64 c.dyn c.mapped_data)
        else c.dyn) ∧
      c'.dynstr = (if c.dynstr ≠ 0 then add64 c.extended_data (sub64 c.dynstr c.mapped_data)
        else c.dynstr) := by
  obtain ⟨hw0, hw8, _, hphnum, hphoff, hshoff, _⟩ := layout_facts c.is_64bit
  have r1 : ∃ x, e_phnum { c with ehdr := c.extended_data } = some x := by
    unfold e_phnum readLE
    rw [readBytes_extended_at (c := { c with ehdr := c.extended_data }) hx
      (Nat.le_add_right _ _) (by simp only; omega) (by omega)]
    exact ⟨_, rfl⟩
  have r2 : ∃ x, e_phoff { c with ehdr := c.extended_data } = some x := by
    unfold e_phoff readLE
    rw [readBytes_extended_at (c := { c with ehdr := c.extended_data }) hx
      (Nat.le_add_right _ _) (by simp only; omega) (by simp only; omega)]
    exact ⟨_, rfl⟩
  have r3 : ∃ x, readLE c (c.extended_data + (layout c.is_64bit).e_shoff)
      (layout c.is_64bit).word = some x := by
    unfold readLE
    rw [readBytes_extended_at hx (Nat.le_add_right _ _) (by omega) (by omega)]
    exact ⟨_, rfl⟩
  obtain ⟨phnum, hphn⟩ := r1
  obtain ⟨phoff, hpho⟩ := r2
  obtain ⟨shoff, hsho⟩ := r3
  have hc2 : ∃ p, (if phnum > 0 then
        (e_phoff { c with ehdr := c.extended_data }).map fun o =>
          ({ c with ehdr := c.extended_data, phdr := add64 c.extended_data o } : ElfContext)
      else some { c with ehdr := c.extended_data }) =
      some { c with ehdr := c.extended_data, phdr := p } := by
    split
    · exact ⟨_, by rw [hpho]; rfl⟩
    · exact ⟨c.phdr, rfl⟩
  obtain ⟨p, hp⟩ := hc2
  have hsh : e_shoff { c with ehdr := c.extended_data, phdr := p } = some shoff := hsho
  unfold relocate_pointers
  simp only [hphn, Option.some_bind, hp, hsh]
  refine ⟨_, rfl, ?_, ?_, ?_, ?_⟩
  · split_ifs <;> exact ⟨_, _, _, _, _, _, rfl⟩
  · intro s hs
    rw [hsho] at hs
    cases hs
    split_ifs <;> rfl
  · split_ifs <;> rfl
  · split_ifs <;> rfl

/-- A read in the fresh heap buffer returns what the mapping holds at the
same offset. -/
theorem readBytes_copy (ctx c1 : ElfContext) (z : List Nat)
    (hx : ctx.is_expanded = false) (h1 : c1.is_expanded = true)
    (h2 : c1.extended = ctx.mapped ++ z) (off m : Nat) (hm : 0 < m)
    (hfit : off + m ≤ ctx.mapped.length) :
    readBytes c1 (c1.extended_data + off) m = readBytes ctx (ctx.mapped_data + off) m := by
  rw [readBytes_extended c1 off m h1 (by rw [h2, List.length_append]; omega) hm,
    readBytes_mapped ctx off m hx hfit hm, h2, take_drop_append_left _ _ _ _ hfit]

theorem expand_dynstr_grow {ctx : ElfContext} {n nd : Nat} (hn : 0 < n)
    (hg : Growable ctx n nd) :
    ∃ c, expand_dynstr ctx n (some nd) = some ⟨0, c, none⟩ ∧
      c.is_expanded = true ∧ c.extended_data = nd ∧
      c.extended.length = ctx.mapped.length + padding ctx.mapped.length + n ∧
      c.is_64bit = ctx.is_64bit ∧ c.dyn_count = ctx.dyn_count ∧
      c.dynstr_idx = ctx.dynstr_idx ∧
      c.dyn = nd + (ctx.dyn - ctx.mapped_data) ∧
      c.dynstr = nd + (ctx.dynstr - ctx.mapped_data) ∧
      c.shdr = nd + (ctx.shdr - ctx.mapped_data) ∧
      c.dynstr_size = ctx.dynstr_size + n ∧
      (∀ off m, 0 < m → off + m ≤ ctx.mapped.length →
        (ctx.mapped_data + off + m ≤ dynstr_sh_size_addr ctx ∨
          dynstr_sh_size_addr ctx + (layout ctx.is_64bit).word ≤ ctx.mapped_data + off) →
        readBytes c (nd + off) m = readBytes ctx (ctx.mapped_data + off) m) := by
  obtain ⟨hx, hfs, hL, hcnt, hssz, hmd, hmdL, hnd, hndL, hshdr, heshoff, hshdrfit, hdyn,
    hdynfit, hdynstr, hdynstrfit, hval, hFD, hWD, hFS⟩ := hg
  obtain ⟨hw0, hw8, hdsz, hphnum, hphoff, hshoff, hf_size, hf_off, hf_addr⟩ :=
    layout_facts ctx.is_64bit
  have hpad := padding_le ctx.mapped.length
  unfold shdr_addr at hshdrfit
  rw [Nat.add_mul, Nat.one_mul] at hshdrfit
  unfold dyn_addr at hdynfit
  -- the three reads before the allocation
  have p1 : ∃ x, sh_offset ctx ctx.dynstr_idx = some x := by
    unfold sh_offset readLE shdr_addr
    rw [readBytes_mapped_at hx (by omega) (by omega) hw0]
    exact ⟨_, rfl⟩
  have p2 : ∃ x, sh_size ctx ctx.dynstr_idx = some x := by
    unfold sh_size readLE shdr_addr
    rw [readBytes_mapped_at hx (by omega) (by omega) hw0]
    exact ⟨_, rfl⟩
  have p3 : ∃ x, sh_addr ctx ctx.dynstr_idx = some x := by
    unfold sh_addr readLE shdr_addr
    rw [readBytes_mapped_at hx (by omega) (by omega) hw0]
    exact ⟨_, rfl⟩
  obtain ⟨x1, hx1⟩ := p1
  obtain ⟨x2, hx2⟩ := p2
  obtain ⟨x3, hx3⟩ := p3
  have hcontent : readBytes ctx (if ctx.is_expanded = true then ctx.extended_data
      else ctx.mapped_data) ctx.file_size = some ctx.mapped := by
    rw [if_neg (by simp [hx]), hfs,
      readBytes_mapped_at hx (le_refl _) (by omega) (by omega)]
    simp
  -- the context after the copy
  let c1 : ElfContext :=
    { ctx with is_expanded := true, extended_data := nd,
               extended := ctx.mapped ++
                 List.replicate (ctx.file_size + padding ctx.file_size + n - ctx.file_size) 0,
               extended_size := ctx.file_size + padding ctx.file_size + n }
  have hc1len : c1.extended.length = ctx.mapped.length + padding ctx.mapped.length + n := by
    simp only [c1, List.length_append, List.length_replicate, hfs]
    omega
  have hcopy : ∀ off m, 0 < m → off + m ≤ ctx.mapped.length →
      readBytes c1 (nd + off) m = readBytes ctx (ctx.mapped_data + off) m :=
    fun off m hm hfit => readBytes_copy ctx c1 _ hx rfl rfl off m hm hfit
  obtain ⟨c2, hrel, ⟨e, p, s, d, st, ds, hframe⟩, hshdr2, hdyn2, hdynstr2⟩ :=
    relocate_pointers_ok c1 rfl (by rw [hc1len]; omega)
  have hc2shdr : c2.shdr = nd + (ctx.shdr - ctx.mapped_data) := by
    have h1 : readLE c1 (nd + (layout ctx.is_64bit).e_shoff) (layout ctx.is_64bit).word =
        some (ctx.shdr - ctx.mapped_data) := by
      unfold readLE
      rw [hcopy _ _ hw0 (by omega)]
      exact heshoff
    rw [hshdr2 _ h1]
    unfold add64
    show (nd + (ctx.shdr - ctx.mapped_data)) % 2 ^ 64 = _
    omega
  have hc2dyn : c2.dyn = nd + (ctx.dyn - ctx.mapped_data) := by
    rw [hdyn2]
    show (if ctx.dyn ≠ 0 then add64 nd (sub64 ctx.dyn ctx.mapped_data) else ctx.dyn) = _
    rw [if_pos (by omega)]
    unfold add64 sub64
    omega
  have hc2dynstr : c2.dynstr = nd + (ctx.dynstr - ctx.mapped_data) := by
    rw [hdynstr2]
    show (if ctx.dynstr ≠ 0 then add64 nd (sub64 ctx.dynstr ctx.mapped_data)
      else ctx.dynstr) = _
    rw [if_pos (by omega)]
    unfold add64 sub64
    omega
  have hc2x : c2.is_expanded = true := by rw [hframe]
  have hc2nd : c2.extended_data = nd := by rw [hframe]
  have hc2ext : c2.extended = c1.extended := by rw [hframe]
  have hc264 : c2.is_64bit = ctx.is_64bit := by rw [hframe]
  have hc2idx : c2.dynstr_idx = ctx.dynstr_idx := by rw [hframe]
  have hc2cnt : c2.dyn_count = ctx.dyn_count := by rw [hframe]
  have hc2ssz : c2.dynstr_size = ctx.dynstr_size := by rw [hframe]
  have hc2read : ∀ a m, readBytes c2 a m = readBytes c1 a m := by
    intro a m
    rw [hframe]
    rfl
  -- the size field of the header of .dynstr in the new buffer
  have hFaddr : shdr_addr c2 c2.dynstr_idx + (layout c2.is_64bit).sh_size =
      nd + (dynstr_sh_size_addr ctx - ctx.mapped_data) := by
    unfold shdr_addr dynstr_sh_size_addr shdr_addr
    rw [hc2shdr, hc264, hc2idx]
    omega
  have hFfit : dynstr_sh_size_addr ctx - ctx.mapped_data + (layout ctx.is_64bit).word ≤
      ctx.mapped.length := by
    unfold dynstr_sh_size_addr shdr_addr
    omega
  have q1 : ∃ x, readBytes c2 (nd + (dynstr_sh_size_addr ctx - ctx.mapped_data))
      (layout ctx.is_64bit).word = some x := by
    rw [hc2read, hcopy _ _ hw0 hFfit,
      readBytes_mapped ctx _ _ hx hFfit hw0]
    exact ⟨_, rfl⟩
  obtain ⟨szb, hszb⟩ := q1
  have hsz : sh_size c2 c2.dynstr_idx = some (leNat szb) := by
    unfold sh_size readLE
    rw [hFaddr, hc264, hszb]
    rfl
  obtain ⟨c3, hw3⟩ := writeBytes_of_readBytes hszb
    (leBytes (layout ctx.is_64bit).word (leNat szb + n)) (by rw [leBytes_length])
  have hwle : writeLE c2 (shdr_addr c2 c2.dynstr_idx + (layout c2.is_64bit).sh_size)
      (layout c2.is_64bit).word (leNat szb + n) = some c3 := by
    unfold writeLE
    rw [hFaddr, hc264]
    exact hw3
  have hs3 := writeBytes_scalars hw3
  have hl3 := writeBytes_lengths hw3
  have f_x : c3.is_expanded = true := by
    have e1 := congrArg ElfContext.is_expanded hs3; exact e1.trans hc2x
  have f_nd : c3.extended_data = nd := by
    have e1 := congrArg ElfContext.extended_data hs3; exact e1.trans hc2nd
  have f_64 : c3.is_64bit = ctx.is_64bit := by
    have e1 := congrArg ElfContext.is_64bit hs3; exact e1.trans hc264
  have f_cnt : c3.dyn_count = ctx.dyn_count := by
    have e1 := congrArg ElfContext.dyn_count hs3; exact e1.trans hc2cnt
  have f_idx : c3.dynstr_idx = ctx.dynstr_idx := by
    have e1 := congrArg ElfContext.dynstr_idx hs3; exact e1.trans hc2idx
  have f_dyn : c3.dyn = nd + (ctx.dyn - ctx.mapped_data) := by
    have e1 := congrArg ElfContext.dyn hs3; exact e1.trans hc2dyn
  have f_dynstr : c3.dynstr = nd + (ctx.dynstr - ctx.mapped_data) := by
    have e1 := congrArg ElfContext.dynstr hs3; exact e1.trans hc2dynstr
  have f_shdr : c3.shdr = nd + (ctx.shdr - ctx.mapped_data) := by
    have e1 := congrArg ElfContext.shdr hs3; exact e1.trans hc2shdr
  have f_ssz : c3.dynstr_size = ctx.dynstr_size := by
    have e1 := congrArg ElfContext.dynstr_size hs3; exact e1.trans hc2ssz
  have f_len : c3.extended.length = ctx.mapped.length + padding ctx.mapped.length + n := by
    rw [hl3.2, hc2ext, hc1len]
  refine ⟨{ c3 with file_size := ctx.file_size + padding ctx.file_size + n,
                    dynstr_size := c3.dynstr_size + n }, ?_, f_x, f_nd, f_len, f_64, f_cnt,
    f_idx, f_dyn, f_dynstr, f_shdr, by simp only [f_ssz], ?_⟩
  · unfold expand_dynstr
    rw [if_neg (by omega)]
    simp only [hx1, hx2, hx3, Option.some_bind, hcontent]
    show (relocate_pointers c1 nd).bind _ = _
    have hrel' : relocate_pointers c1 nd = some c2 := hrel
    rw [hrel']
    simp only [Option.some_bind, hsz, hwle]
  · intro off m hm hfit hdisj
    have hFge : ctx.mapped_data ≤ dynstr_sh_size_addr ctx := by
      unfold dynstr_sh_size_addr shdr_addr
      omega
    show readBytes c3 (nd + off) m = _
    rw [readBytes_writeBytes_disjoint hw3 _ _ (by rw [leBytes_length]; omega), hc2read,
      hcopy off m hm hfit]

end ElfMod

namespace ElfMod

theorem dyn_entry_le (ctx : ElfContext) {j n : Nat} (h : j < n) :
    j * (layout ctx.is_64bit).dyn_size + (layout ctx.is_64bit).dyn_size ≤
      n * (layout ctx.is_64bit).dyn_size := by
  have := Nat.mul_le_mul_right (layout ctx.is_64bit).dyn_size (Nat.succ_le_of_lt h)
  rwa [Nat.succ_mul] at this

/-- Reads of the context after the three writes of the grow path (the size
field at `fa`, the string at `wa`, the value at `va`), away from them. -/
theorem readBytes_after_three {c c4 c5 : ElfContext} {wa va : Nat} {ws vs : List Nat}
    (hw4 : writeBytes c wa ws = some c4) (hw5 : writeBytes c4 va vs = some c5)
    (a m : Nat) (hW : a + m ≤ wa ∨ wa + ws.length ≤ a)
    (hV : a + m ≤ va ∨ va + vs.length ≤ a) :
    readBytes c5 a m = readBytes c a m := by
  rw [readBytes_writeBytes_disjoint hw5 _ _ hV, readBytes_writeBytes_disjoint hw4 _ _ hW]

/-- The grow path on a freshly loaded image whose dynamic table is not hit by
the bytes written: the call returns 0, entry `k` is repointed to the old end of
the string table where `new` now stands, every other dynamic entry and every
byte of the old string table read as before. -/
theorem replace_grow {ctx : ElfContext} {old new : List Nat} {nd k v : Nat}
    (hg : Growable ctx (new.length + 1) nd)
    (hdis : ctx.dyn + ctx.dyn_count * (layout ctx.is_64bit).dyn_size ≤ ctx.dynstr ∨
      ctx.dynstr + ctx.dynstr_size ≤ ctx.dyn)
    (hf : find_loop ctx old ctx.dyn_count 0 = some (some (k, v)))
    (hold : ∀ b ∈ old, b ≠ 0) (hnew : ∀ b ∈ new, b ≠ 0) (hlen : old.length < new.length) :
    ∃ ctx', elf_replace_needed_lib ctx old new (some nd) = some ⟨0, ctx', none⟩ ∧
      ctx'.is_64bit = ctx.is_64bit ∧ ctx'.dyn_count = ctx.dyn_count ∧
      ctx'.dyn = nd + (ctx.dyn - ctx.mapped_data) ∧
      ctx'.dynstr = nd + (ctx.dynstr - ctx.mapped_data) ∧
      ctx'.dynstr_size = ctx.dynstr_size + (new.length + 1) ∧
      dyn_tag ctx' k = some DT_NEEDED ∧ dyn_val ctx' k = some ctx.dynstr_size ∧
      cstr ctx' (ctx'.dynstr + ctx.dynstr_size) = some new ∧
      (∀ j, j < ctx.dyn_count → j ≠ k →
        dyn_tag ctx' j = dyn_tag ctx j ∧ dyn_val ctx' j = dyn_val ctx j) ∧
      (∀ w m, 0 < m → w + m ≤ ctx.dynstr_size →
        readBytes ctx' (ctx'.dynstr + w) m = readBytes ctx (ctx.dynstr + w) m) := by
  obtain ⟨_, hk0, htag, hval, _, _⟩ := find_loop_some ctx old hold ctx.dyn_count 0 k v hf
  have hk : k < ctx.dyn_count := by omega
  clear hk0
  obtain ⟨c, hexp, c_x, c_nd, c_len, c_64, c_cnt, c_idx, c_dyn, c_dynstr, c_shdr, c_ssz,
    c_read⟩ := expand_dynstr_grow (Nat.succ_pos _) hg
  obtain ⟨hx, hfs, hL, hcnt, hssz, hmd, hmdL, hnd, hndL, hshdr, heshoff, hshdrfit, hdyn,
    hdynfit, hdynstr, hdynstrfit, hfit, hFD, hWD, hFS⟩ := hg
  obtain ⟨hw0, hw8, hdsz, hphnum, hphoff, hshoff, hf_size, hf_off, hf_addr⟩ :=
    layout_facts ctx.is_64bit
  have hpad := padding_le ctx.mapped.length
  -- offsets inside the mapping
  obtain ⟨H, hH⟩ : ∃ H, ctx.shdr = ctx.mapped_data + H :=
    ⟨ctx.shdr - ctx.mapped_data, by omega⟩
  obtain ⟨D, hD⟩ : ∃ D, ctx.dyn = ctx.mapped_data + D :=
    ⟨ctx.dyn - ctx.mapped_data, by omega⟩
  obtain ⟨S, hS⟩ : ∃ S, ctx.dynstr = ctx.mapped_data + S :=
    ⟨ctx.dynstr - ctx.mapped_data, by omega⟩
  unfold dynstr_sh_size_addr at hFD hFS c_read
  unfold shdr_addr at hshdrfit hFD hFS c_read
  unfold dyn_addr at hdynfit hFD hWD
  rw [Nat.add_mul, Nat.one_mul, hH] at hshdrfit
  rw [hD] at hdynfit hFD hWD hdis
  rw [hS] at hdynstrfit hWD hFS hdis
  rw [hH] at hFD hFS c_read
  rw [hD, Nat.add_sub_cancel_left] at c_dyn
  rw [hS, Nat.add_sub_cancel_left] at c_dynstr
  rw [hH, Nat.add_sub_cancel_left] at c_shdr
  rw [hD, hS, Nat.add_sub_cancel_left, Nat.add_sub_cancel_left]
  clear hshdr hdyn hdynstr heshoff hmd hphnum hphoff hshoff hf_addr hval hfs
  have hkle := dyn_entry_le ctx hk
  -- the read of sh_offset after the expansion
  have q1 : ∃ x, sh_offset c c.dynstr_idx = some x := by
    unfold sh_offset readLE shdr_addr
    rw [c_64, c_idx, c_shdr, readBytes_extended_at c_x
      (by clear hFD hWD hFS hdis; omega) (by clear hFD hWD hFS hdis; omega) hw0]
    exact ⟨_, rfl⟩
  obtain ⟨x1, hx1⟩ := q1
  -- strcpy
  have hWread : ∃ bs, readBytes c (c.dynstr + ctx.dynstr_size) (new.length + 1) = some bs := by
    rw [readBytes_extended_at c_x (by clear hFD hWD hFS hdis; omega)
      (by clear hFD hWD hFS hdis; omega) (by omega)]
    exact ⟨_, rfl⟩
  obtain ⟨_, hWread⟩ := hWread
  obtain ⟨c4, hw4⟩ := writeBytes_of_readBytes hWread (new ++ [0]) (by simp)
  have hs4 := writeBytes_scalars hw4
  have c4_64 : c4.is_64bit = ctx.is_64bit := by
    have e1 := congrArg ElfContext.is_64bit hs4; exact e1.trans c_64
  have c4_dyn : c4.dyn = nd + D := by
    have e1 := congrArg ElfContext.dyn hs4; exact e1.trans c_dyn
  have c4_x : c4.is_expanded = true := by
    have e1 := congrArg ElfContext.is_expanded hs4; exact e1.trans c_x
  have c4_nd : c4.extended_data = nd := by
    have e1 := congrArg ElfContext.extended_data hs4; exact e1.trans c_nd
  have c4_len : c4.extended.length =
      ctx.mapped.length + padding ctx.mapped.length + (new.length + 1) := by
    rw [(writeBytes_lengths hw4).2, c_len]
  -- the store to d_val
  have hVread : ∃ bs, readBytes c4 (dyn_addr c4 k + (layout c4.is_64bit).word)
      (layout c4.is_64bit).word = some bs := by
    unfold dyn_addr
    rw [c4_64, c4_dyn, readBytes_extended_at c4_x (by clear hFD hWD hFS hdis; omega)
      (by clear hFD hWD hFS hdis; omega) hw0]
    exact ⟨_, rfl⟩
  obtain ⟨_, hVread⟩ := hVread
  obtain ⟨c5, hw5⟩ := writeBytes_of_readBytes hVread
    (leBytes (layout c4.is_64bit).word ctx.dynstr_size) (by rw [leBytes_length])
  have hs5 := (writeBytes_scalars hw5).trans hs4
  have c5_64 : c5.is_64bit = ctx.is_64bit := by
    have e1 := congrArg ElfContext.is_64bit hs5; exact e1.trans c_64
  have c5_dyn : c5.dyn = nd + D := by
    have e1 := congrArg ElfContext.dyn hs5; exact e1.trans c_dyn
  have c5_dynstr : c5.dynstr = nd + S := by
    have e1 := congrArg ElfContext.dynstr hs5; exact e1.trans c_dynstr
  have c5_cnt : c5.dyn_count = ctx.dyn_count := by
    have e1 := congrArg ElfContext.dyn_count hs5; exact e1.trans c_cnt
  have c5_ssz : c5.dynstr_size = ctx.dynstr_size + (new.length + 1) := by
    have e1 := congrArg ElfContext.dynstr_size hs5; exact e1.trans c_ssz
  have hva : dyn_addr c4 k + (layout c4.is_64bit).word =
      nd + D + k * (layout ctx.is_64bit).dyn_size + (layout ctx.is_64bit).word := by
    unfold dyn_addr
    rw [c4_64, c4_dyn]
  rw [hva, c4_64] at hw5
  rw [c_dynstr] at hw4
  have hvl : (leBytes (layout ctx.is_64bit).word ctx.dynstr_size).length =
      (layout ctx.is_64bit).word := leBytes_length _ _
  have hwl : (new ++ [0]).length = new.length + 1 := by simp
  -- reads of the final context away from the three writes
  have hread : ∀ off m, 0 < m → off + m ≤ ctx.mapped.length →
      (off + m ≤ H + ctx.dynstr_idx * (layout ctx.is_64bit).shdr_size +
          (layout ctx.is_64bit).sh_size ∨
        H + ctx.dynstr_idx * (layout ctx.is_64bit).shdr_size +
          (layout ctx.is_64bit).sh_size + (layout ctx.is_64bit).word ≤ off) →
      (off + m ≤ S + ctx.dynstr_size ∨ S + ctx.dynstr_size + (new.length + 1) ≤ off) →
      (off + m ≤ D + k * (layout ctx.is_64bit).dyn_size + (layout ctx.is_64bit).word ∨
        D + k * (layout ctx.is_64bit).dyn_size + 2 * (layout ctx.is_64bit).word ≤ off) →
      readBytes c5 (nd + off) m = readBytes ctx (ctx.mapped_data + off) m := by
    intro off m hm hfit1 hF hW hV
    rw [readBytes_after_three hw4 hw5 _ _
        (by rw [hwl]; clear * - hW; omega)
        (by rw [hvl]; clear * - hV; omega),
      c_read off m hm hfit1 (by clear * - hF; omega)]
  have hentry : ∀ j, j < ctx.dyn_count → j ≠ k →
      dyn_tag c5 j = dyn_tag ctx j ∧ dyn_val c5 j = dyn_val ctx j := by
    intro j hj hjk
    have hjle := dyn_entry_le ctx hj
    have hsep : j * (layout ctx.is_64bit).dyn_size + (layout ctx.is_64bit).dyn_size ≤
          k * (layout ctx.is_64bit).dyn_size ∨
        k * (layout ctx.is_64bit).dyn_size + (layout ctx.is_64bit).dyn_size ≤
          j * (layout ctx.is_64bit).dyn_size := by
      rcases Nat.lt_or_gt_of_ne hjk with h | h
      · exact Or.inl (dyn_entry_le ctx h)
      · exact Or.inr (dyn_entry_le ctx h)
    unfold dyn_tag dyn_val readLE dyn_addr
    rw [c5_64, c5_dyn, hD]
    constructor
    · have e := hread (D + j * (layout ctx.is_64bit).dyn_size)
        (layout ctx.is_64bit).word hw0 (by clear * - hjle hdsz hdynfit hw0; omega)
        (by clear * - hFD hjle hdsz hw0; omega) (by clear * - hWD hjle hdsz hw0; omega)
        (by clear * - hsep hdsz hw0; omega)
      rw [Nat.add_assoc nd, e, Nat.add_assoc]
    · have e := hread (D + j * (layout ctx.is_64bit).dyn_size + (layout ctx.is_64bit).word)
        (layout ctx.is_64bit).word hw0 (by clear * - hjle hdsz hdynfit hw0; omega)
        (by clear * - hFD hjle hdsz hw0; omega) (by clear * - hWD hjle hdsz hw0; omega)
        (by clear * - hsep hdsz hw0; omega)
      rw [Nat.add_assoc nd, Nat.add_assoc nd, e, Nat.add_assoc, Nat.add_assoc, Nat.add_assoc]
  refine ⟨c5, ?_, c5_64, c5_cnt, c5_dyn, c5_dynstr, c5_ssz, ?_, ?_, ?_, hentry, ?_⟩
  · unfold elf_replace_needed_lib
    simp only [hf, Option.some_bind]
    rw [if_neg (by clear * - hlen; omega)]
    simp only [hexp, Option.some_bind, hx1]
    rw [if_neg (by decide), if_neg (by rw [c_ssz]; clear * - hssz; omega)]
    have e1 : c.dynstr_size - (new.length + 1) = ctx.dynstr_size := by
      rw [c_ssz]; simp
    have e2 : writeBytes c (c.dynstr + ctx.dynstr_size) (new ++ [0]) = some c4 := by
      rw [c_dynstr]; exact hw4
    have e3 : writeBytes c4 (dyn_addr c4 k + (layout c4.is_64bit).word)
        (leBytes (layout c4.is_64bit).word ctx.dynstr_size) = some c5 := by
      rw [hva, c4_64]; exact hw5
    simp only [e1, strcpy, e2, Option.some_bind, writeLE, e3]
  · -- the tag of entry k
    unfold dyn_tag readLE dyn_addr
    rw [c5_64, c5_dyn]
    have e := hread (D + k * (layout ctx.is_64bit).dyn_size)
      (layout ctx.is_64bit).word hw0 (by clear * - hkle hdsz hdynfit hw0; omega)
      (by clear * - hFD hkle hdsz hw0; omega) (by clear * - hWD hkle hdsz hw0; omega)
      (by clear * - hw0; omega)
    rw [Nat.add_assoc nd, e]
    unfold dyn_tag readLE dyn_addr at htag
    rw [hD, Nat.add_assoc] at htag
    exact htag
  · -- the value of entry k
    have e := readBytes_writeBytes_same hw5
    rw [hvl] at e
    unfold dyn_val readLE dyn_addr
    rw [c5_64, c5_dyn, e]
    simp only [Option.map_some', leNat_leBytes]
    rw [Nat.mod_eq_of_lt (by clear * - hfit; omega)]
  · -- the new string
    rw [c5_dynstr, cstr_iff_readBytes _ _ _ hnew,
      readBytes_writeBytes_disjoint hw5 _ _
        (by rw [hvl]; clear * - hWD hkle hdsz hw0; omega)]
    have e := readBytes_writeBytes_same hw4
    rw [hwl] at e
    exact e
  · -- the old string table
    intro w m hm hwm
    rw [c5_dynstr]
    have e := hread (S + w) m hm (by clear * - hwm hdynstrfit; omega)
      (by clear * - hFS hwm; omega) (by clear * - hwm; omega)
      (by clear * - hdis hkle hdsz hwm hw0; omega)
    rw [Nat.add_assoc nd, e, Nat.add_assoc]

end ElfMod

namespace ElfMod

/-! ## Strings that do not overlap -/

theorem take_drop_take_drop (l : List Nat) (p n i m : Nat) (h : i + m ≤ n) :
    (((l.drop p).take n).drop i).take m = (l.drop (p + i)).take m := by
  rw [List.drop_take, List.take_take, List.drop_drop, Nat.min_eq_left (by omega)]

/-- A part of a successful read is a successful read. -/
theorem readBytes_sub {ctx : ElfContext} (hb : blocks_apart ctx) {a n : Nat} {l : List Nat}
    (h : readBytes ctx a n = some l) (i m : Nat) (him : i + m ≤ n) (hm : 0 < m) :
    readBytes ctx (a + i) m = some ((l.drop i).take m) := by
  unfold blocks_apart at hb
  unfold readBytes region at h ⊢
  split at h
  · rename_i hin
    obtain ⟨hx, hin1, hin2⟩ := hin
    simp only [Option.some_bind, List.length_drop] at h
    split at h
    · rename_i hfit
      simp only [Option.some.injEq] at h
      subst h
      rw [if_pos ⟨hx, by omega, by omega⟩]
      simp only [Option.some_bind, List.length_drop]
      rw [if_pos (by omega), take_drop_take_drop _ _ _ _ _ him,
        show a + i - ctx.extended_data = a - ctx.extended_data + i by omega]
    · cases h
  · rename_i hout
    split at h
    · rename_i hin
      obtain ⟨hin1, hin2⟩ := hin
      simp only [Option.some_bind, List.length_drop] at h
      split at h
      · rename_i hfit
        simp only [Option.some.injEq] at h
        subst h
        have hout' : ¬ (ctx.is_expanded = true ∧ ctx.extended_data ≤ a + i ∧
            a + i < ctx.extended_data + ctx.extended.length) := by
          intro hc
          obtain ⟨hc1, hc2, hc3⟩ := hc
          have := hb hc1
          omega
        rw [if_neg hout', if_pos ⟨by omega, by omega⟩]
        simp only [Option.some_bind, List.length_drop]
        rw [if_pos (by omega), take_drop_take_drop _ _ _ _ _ him,
          show a + i - ctx.mapped_data = a - ctx.mapped_data + i by omega]
      · cases h
    · simp at h

/-- Two different addresses that hold the same C string hold it in disjoint
byte ranges. -/
theorem cstr_same_apart_lt {ctx : ElfContext} (hb : blocks_apart ctx) {a b : Nat}
    {s : List Nat} (ha : cstr ctx a = some s) (hbs : cstr ctx b = some s) (hab : a < b) :
    a + s.length + 1 ≤ b := by
  by_contra hcon
  have hnz := cstr_nonzero ha
  have ra := (cstr_iff_readBytes ctx a s hnz).1 ha
  have rb := (cstr_iff_readBytes ctx b s hnz).1 hbs
  have e1 := readBytes_sub hb ra s.length 1 (by omega) (by omega)
  have e2 := readBytes_sub hb rb (a + s.length - b) 1 (by omega) (by omega)
  rw [show b + (a + s.length - b) = a + s.length by omega, e1] at e2
  simp only [Option.some.injEq] at e2
  have hlt : a + s.length - b < s.length := by omega
  have e3 := congrArg (fun l : List Nat => l[0]?) e2
  simp only [List.getElem?_take, List.getElem?_drop, Nat.add_zero] at e3
  rw [if_pos (by omega), List.getElem?_append_right (le_refl _),
    List.getElem?_append_left hlt, List.getElem?_eq_getElem hlt] at e3
  simp only [Nat.sub_self, List.getElem?_cons_zero, Nat.lt_one_iff, if_true,
    Option.some.injEq] at e3
  exact hnz _ (List.getElem_mem hlt) e3.symm

theorem cstr_same_apart {ctx : ElfContext} (hb : blocks_apart ctx) {a b : Nat}
    {s : List Nat} (ha : cstr ctx a = some s) (hbs : cstr ctx b = some s) (hab : a ≠ b) :
    a + s.length + 1 ≤ b ∨ b + s.length + 1 ≤ a := by
  rcases Nat.lt_or_gt_of_ne hab with h | h
  · exact Or.inl (cstr_same_apart_lt hb ha hbs h)
  · exact Or.inr (cstr_same_apart_lt hb hbs ha h)

/-- The entry the search returns is the first that matches. -/
theorem find_loop_first (ctx : ElfContext) (old : List Nat) (hnz : ∀ b ∈ old, b ≠ 0) :
    ∀ (n i k v : Nat), find_loop ctx old n i = some (some (k, v)) →
      ∀ j, i ≤ j → j < k → ∀ w, dyn_tag ctx j = some DT_NEEDED → dyn_val ctx j = some w →
        w < ctx.dynstr_size → cstr ctx (ctx.dynstr + w) ≠ some old := by
  intro n
  induction n with
  | zero => intro i k v h; simp [find_loop] at h
  | succ n ih =>
    intro i k v h j hij hjk w htj hvj hw hc
    have step : find_loop ctx old n (i + 1) = some (some (k, v)) → i < j → False := by
      intro h' hlt
      exact ih (i + 1) k v h' j (by omega) hjk w htj hvj hw hc
    simp only [find_loop] at h
    cases ht : dyn_tag ctx i with
    | none => simp [ht] at h
    | some t =>
      simp only [ht, Option.some_bind] at h
      by_cases hji : j = i
      · subst hji
        rw [htj] at ht
        cases ht
        simp only [if_true, hvj, Option.some_bind, if_pos hw] at h
        rw [strcmp_eq_of_cstr old hc hnz] at h
        simp only [decide_True, Option.some_bind, if_true, Option.some.injEq,
          Prod.mk.injEq] at h
        omega
      · have hlt : i < j := by omega
        split at h
        · cases hv : dyn_val ctx i with
          | none => simp [hv] at h
          | some u =>
            simp only [hv, Option.some_bind] at h
            split at h
            · cases hcmp : strcmp_eq ctx (ctx.dynstr + u) old with
              | none => simp [hcmp] at h
              | some same =>
                simp only [hcmp, Option.some_bind] at h
                cases same with
                | true =>
                  simp only [if_true, Option.some.injEq, Prod.mk.injEq] at h
                  omega
                | false =>
                  simp only [Bool.false_eq_true, if_false] at h
                  exact step h hlt
            · exact step h hlt
        · split at h
          · simp at h
          · exact step h hlt

end ElfMod

namespace Sample

open ElfMod

/-- `replaced` is the outcome of the call whenever the model yields one. -/
theorem replaced_eq (ctx : ElfContext) (old new : List Nat) (alloc : Option Nat)
    (h : (elf_replace_needed_lib ctx old new alloc).isSome = true) :
    elf_replace_needed_lib ctx old new alloc = some (replaced ctx old new alloc) := by
  unfold replaced
  cases hr : elf_replace_needed_lib ctx old new alloc with
  | none => rw [hr] at h; cases h
  | some o => rfl

end Sample


namespace ElfPatcher

open ElfMod (ELFMAG EI_CLASS ELFCLASS32 ELFCLASS64)

/-! ## patch_auto -/

/-- `patch64` returns FALSE, and leaves the file alone, when the four bytes at
the offset of the descriptor are not the magic. -/
theorem patch64_no_magic (file pfx : List Nat) (pos : Nat)
    (h : (file.drop pos).take 4 ≠ ELFMAG) :
    patch64 file pos pfx = some ⟨false, file, false⟩ := by
  unfold patch64
  have h4 : ((file.drop pos).take 64).take 4 = (file.drop pos).take 4 := by
    rw [List.take_take]; rfl
  simp only [h4]
  rw [if_pos (Or.inr h)]

/-- On a file that starts with the magic and has the class byte `ELFCLASS64`,
`patch_auto` is `patch64` with the descriptor at offset 52. -/
theorem patch_auto_class64 (file pfx : List Nat) (hlen : 52 ≤ file.length)
    (hmag : file.take 4 = ELFMAG) (hcls : (file.drop EI_CLASS).head? = some ELFCLASS64) :
    patch_auto file pfx = patch64 file 52 pfx := by
  unfold patch_auto
  have h1 : (file.take 52).length = 52 := by simp; omega
  have h2 : (file.take 52).take 4 = file.take 4 := by rw [List.take_take]; rfl
  have h3 : ((file.take 52).drop EI_CLASS).head? = (file.drop EI_CLASS).head? := by
    rw [List.drop_take]
    cases hd : file.drop EI_CLASS with
    | nil => simp
    | cons a t => simp [EI_CLASS]
  simp only [h1, h2, h3, hmag, hcls]
  simp [ELFCLASS32, ELFCLASS64]

/-- A file without the magic: `patch_auto` returns FALSE and leaves it alone. -/
theorem patch_auto_no_magic (file pfx : List Nat) (h : file.take 4 ≠ ELFMAG) :
    patch_auto file pfx = some ⟨false, file, false⟩ := by
  unfold patch_auto
  have h2 : (file.take 52).take 4 = file.take 4 := by rw [List.take_take]; rfl
  simp only [h2]
  rw [if_pos (Or.inr h)]

end ElfPatcher

namespace ElfMod

/-! ## elf_load: the magic check -/

theorem readLE_byte (c : ElfContext) (k : Nat) (hx : c.is_expanded = false)
    (hk : k < c.mapped.length) :
    readLE c (c.mapped_data + k) 1 = (c.mapped.drop k).head? := by
  unfold readLE
  rw [readBytes_mapped c k 1 hx (by omega) (by omega)]
  cases hd : c.mapped.drop k with
  | nil =>
    have := congrArg List.length hd
    simp at this
    omega
  | cons x t => simp [leNat]

theorem magic_differs_eq (c : ElfContext) (hx : c.is_expanded = false)
    (he : c.e_ident = c.mapped_data) :
    ∀ (ms : List Nat) (k : Nat), k + ms.length ≤ c.mapped.length →
      magic_differs c ms k = some (decide ((c.mapped.drop k).take ms.length ≠ ms)) := by
  intro ms
  induction ms with
  | nil => intro k _; simp [magic_differs]
  | cons m ms ih =>
    intro k hk
    simp only [List.length_cons] at hk
    unfold magic_differs
    rw [he, readLE_byte c k hx (by omega)]
    cases hd : c.mapped.drop k with
    | nil =>
      have := congrArg List.length hd
      simp at this
      omega
    | cons x t =>
      have ht : t = c.mapped.drop (k + 1) := by
        have := congrArg List.tail hd
        simpa [List.tail_drop] using this.symm
      simp only [List.head?_cons, Option.some_bind, List.length_cons, List.take_succ_cons]
      by_cases hxm : x = m
      · subst hxm
        rw [if_neg (by simp), ih (k + 1) (by omega), ← ht]
        simp
      · rw [if_pos hxm]
        simp [hxm]

/-- A file of at least four bytes that does not start with the magic:
`elf_load` fails and leaves a zeroed context. -/
theorem elf_load_no_magic (file : List Nat) (base : Nat) (hlen : 4 ≤ file.length)
    (hm : file.take 4 ≠ ELFMAG) :
    elf_load file base = some ⟨-1, zeroed, some "Not a valid ELF file"⟩ := by
  unfold elf_load
  have h0 : file.length ≠ 0 := by omega
  simp only [h0, if_false]
  rw [magic_differs_eq _ rfl rfl ELFMAG 0 (by simpa [ELFMAG] using hlen)]
  simp only [List.drop_zero, Option.some_bind]
  have : (List.take ELFMAG.length file ≠ ELFMAG) := by simpa [ELFMAG] using hm
  simp [this]

/-- A file that starts with the magic passes the magic check. -/
theorem magic_differs_ok (file : List Nat) (c : ElfContext)
    (hx : c.is_expanded = false) (he : c.e_ident = c.mapped_data) (hf : c.mapped = file)
    (hm : file.take 4 = ELFMAG) : magic_differs c ELFMAG 0 = some false := by
  have hlen : 4 ≤ file.length := by
    have := congrArg List.length hm
    simp [ELFMAG] at this
    omega
  rw [magic_differs_eq c hx he ELFMAG 0 (by simpa [ELFMAG, hf] using hlen)]
  simp [hf]
  simpa [ELFMAG] using hm

end ElfMod
namespace ElfMod

/-! ## elf_load: a byte that differs from the magic -/

/-- The magic check finds a byte of the file that differs from the expected
one, when the bytes before it are inside the file. -/
theorem magic_differs_mismatch (c : ElfContext) (hx : c.is_expanded = false)
    (he : c.e_ident = c.mapped_data) :
    ∀ (ms : List Nat) (k : Nat),
      (∃ i b, (c.mapped.drop k)[i]? = some b ∧ ms[i]? ≠ some b ∧ i < ms.length) →
      magic_differs c ms k = some true := by
  intro ms
  induction ms with
  | nil =>
    intro k h
    obtain ⟨i, b, _, _, hi⟩ := h
    simp at hi
  | cons m ms ih =>
    intro k h
    obtain ⟨i, b, hb, hne, hi⟩ := h
    have hk : k < c.mapped.length := by
      by_contra hc
      rw [List.drop_eq_nil_of_le (by omega)] at hb
      simp at hb
    unfold magic_differs
    rw [he, readLE_byte c k hx hk]
    cases hd : c.mapped.drop k with
    | nil =>
      have := congrArg List.length hd
      simp at this
      omega
    | cons x t =>
      have ht : t = c.mapped.drop (k + 1) := by
        have := congrArg List.tail hd
        simpa [List.tail_drop] using this.symm
      simp only [List.head?_cons, Option.some_bind]
      by_cases hxm : x = m
      · subst hxm
        rw [if_neg (by simp)]
        rw [hd] at hb
        cases i with
        | zero =>
          simp only [List.getElem?_cons_zero] at hb hne
          exact absurd hb hne
        | succ j =>
          simp only [List.getElem?_cons_succ, List.length_cons] at hb hne hi
          rw [ht] at hb
          exact ih (k + 1) ⟨j, b, hb, hne, by omega⟩
      · rw [if_pos hxm]

/-- A file in which one of the first four bytes differs from the byte of the
magic at its position: `elf_load` fails and leaves a zeroed context. -/
theorem elf_load_mismatch (file : List Nat) (base i b : Nat) (hi : i < 4)
    (hb : file[i]? = some b) (hne : ELFMAG[i]? ≠ some b) :
    elf_load file base = some ⟨-1, zeroed, some "Not a valid ELF file"⟩ := by
  have h0 : file.length ≠ 0 := by
    intro h
    rw [List.length_eq_zero] at h
    subst h
    simp at hb
  unfold elf_load
  simp only [h0, if_false]
  rw [magic_differs_mismatch _ rfl rfl ELFMAG 0
    ⟨i, b, by simpa using hb, hne, by simpa [ELFMAG] using hi⟩]
  simp

/-- A file of at least four bytes that does not start with the magic has a
byte that differs from the magic among its first four. -/
theorem mismatch_of_take (file : List Nat) (hlen : 4 ≤ file.length)
    (hm : file.take 4 ≠ ELFMAG) :
    ∃ i b, i < 4 ∧ file[i]? = some b ∧ ELFMAG[i]? ≠ some b := by
  by_contra hc
  apply hm
  apply List.ext_getElem?
  intro i
  by_cases hi : i < 4
  · rw [List.getElem?_take, if_pos hi]
    cases hb : file[i]? with
    | none =>
      have := List.getElem?_eq_none_iff.mp hb
      omega
    | some b =>
      by_contra hne
      exact hc ⟨i, b, hi, hb, fun h => hne h.symm⟩
  · rw [List.getElem?_take, if_neg hi]
    have : ELFMAG.length ≤ i := by simp [ELFMAG]; omega
    exact (List.getElem?_eq_none_iff.mpr this).symm

end ElfMod


namespace ElfMod

/-! ## elf_load: the loop over the section headers -/

theorem region_congr {a b : ElfContext} (h : without_views a = without_views b) (x : Nat) :
    region a x = region b x := by
  have h1 : a.mapped_data = b.mapped_data := by
    have e := congrArg ElfContext.mapped_data h; exact e
  have h2 : a.mapped = b.mapped := by
    have e := congrArg ElfContext.mapped h; exact e
  have h3 : a.is_expanded = b.is_expanded := by
    have e := congrArg ElfContext.is_expanded h; exact e
  have h4 : a.extended_data = b.extended_data := by
    have e := congrArg ElfContext.extended_data h; exact e
  have h5 : a.extended = b.extended := by
    have e := congrArg ElfContext.extended h; exact e
  unfold region
  rw [h1, h2, h3, h4, h5]

theorem readLE_congr {a b : ElfContext} (h : without_views a = without_views b) (x n : Nat) :
    readLE a x n = readLE b x n := by
  unfold readLE readBytes
  rw [region_congr h]

theorem shdr_addr_congr {a b : ElfContext} (h : without_views a = without_views b) (i : Nat) :
    shdr_addr a i = shdr_addr b i := by
  have h1 : a.shdr = b.shdr := by
    have e := congrArg ElfContext.shdr h; exact e
  have h2 : a.is_64bit = b.is_64bit := by
    have e := congrArg ElfContext.is_64bit h; exact e
  unfold shdr_addr
  rw [h1, h2]

theorem is_64bit_congr {a b : ElfContext} (h : without_views a = without_views b) :
    a.is_64bit = b.is_64bit := by
  have e := congrArg ElfContext.is_64bit h; exact e

theorem sh_name_congr {a b : ElfContext} (h : without_views a = without_views b) (i : Nat) :
    sh_name a i = sh_name b i := by
  unfold sh_name
  rw [shdr_addr_congr h, is_64bit_congr h, readLE_congr h]

theorem sh_type_congr {a b : ElfContext} (h : without_views a = without_views b) (i : Nat) :
    sh_type a i = sh_type b i := by
  unfold sh_type
  rw [shdr_addr_congr h, is_64bit_congr h, readLE_congr h]

theorem sh_offset_congr {a b : ElfContext} (h : without_views a = without_views b) (i : Nat) :
    sh_offset a i = sh_offset b i := by
  unfold sh_offset
  rw [shdr_addr_congr h, is_64bit_congr h, readLE_congr h]

theorem sh_size_congr {a b : ElfContext} (h : without_views a = without_views b) (i : Nat) :
    sh_size a i = sh_size b i := by
  unfold sh_size
  rw [shdr_addr_congr h, is_64bit_congr h, readLE_congr h]

theorem strcmp_eq_congr {a b : ElfContext} (h : without_views a = without_views b)
    (x : Nat) (s : List Nat) : strcmp_eq a x s = strcmp_eq b x s := by
  unfold strcmp_eq
  rw [region_congr h]

theorem dynstr_name_nonzero : ∀ b ∈ dynstr_name, b ≠ 0 := by decide

/-- What the header part of `elf_load` leaves in the fields of the views and of
the mapping. -/
theorem elf_load_headers_init {file : List Nat} {base : Nat} {hc : ElfContext}
    (h : elf_load_headers file base = some hc) :
    hc.dyn = 0 ∧ hc.dyn_count = 0 ∧ hc.dynstr = 0 ∧ hc.mapped = file ∧
    hc.mapped_data = base ∧ hc.is_expanded = false ∧ hc.file_size = file.length := by
  unfold elf_load_headers at h
  simp only [Option.bind_eq_some] at h
  obtain ⟨cls, _, phoff, _, shoff, _, shnum, _, phnum, _, strndx, _, h⟩ := h
  split at h
  · simp only [Option.map_eq_some'] at h
    obtain ⟨o, _, rfl⟩ := h
    exact ⟨rfl, rfl, rfl, rfl, rfl, rfl, rfl⟩
  · cases h
    exact ⟨rfl, rfl, rfl, rfl, rfl, rfl, rfl⟩

/-- After the magic check `elf_load` is its header part, the loop over the
section headers and the final test. -/
theorem elf_load_eq (file : List Nat) (base : Nat) (hm : file.take 4 = ELFMAG) :
    elf_load file base =
      (elf_load_headers file base).bind fun ctx4 =>
      (section_loop ctx4.section_count 0 ctx4).bind fun ctx5 =>
      if ctx5.dynstr = 0 ∨ ctx5.dyn = 0 ∨ ctx5.dyn_count = 0 then
        some ⟨-1, zeroed, some "Could not find dynamic section or dynamic string table"⟩
      else some ⟨0, ctx5, none⟩ := by
  have hlen : file.length ≠ 0 := by
    have := congrArg List.length hm
    simp [ELFMAG] at this
    omega
  unfold elf_load elf_load_headers
  simp only [hlen, if_false]
  rw [magic_differs_ok file _ rfl rfl rfl hm]
  simp only [Option.some_bind, Option.bind_assoc]
  rfl

/-- What the loop over the section headers selects, whenever it returns. -/
theorem section_loop_spec (hc : ElfContext) :
    ∀ (fuel i : Nat) (ctx ctx' : ElfContext), i + fuel = hc.section_count →
      without_views ctx = without_views hc →
      section_loop fuel i ctx = some ctx' →
      without_views ctx' = without_views hc ∧
        selected_dynamic hc i ctx ctx' ∧ selected_dynstr hc i ctx ctx' := by
  intro fuel
  induction fuel with
  | zero =>
    intro i ctx ctx' hi hw h
    simp only [section_loop, Option.some.injEq] at h
    subst h
    refine ⟨hw, Or.inl ⟨rfl, rfl, rfl, ?_⟩, Or.inl ⟨rfl, rfl, rfl, ?_⟩⟩
    · intro k h1 h2; omega
    · intro k h1 h2; omega
  | succ fuel ih =>
    intro i ctx ctx' hi hw h
    have hin : i < hc.section_count := by omega
    have h64 := is_64bit_congr hw
    have hmd : ctx.mapped_data = hc.mapped_data := by
      have e := congrArg ElfContext.mapped_data hw; exact e
    have hst : ctx.shstrtab = hc.shstrtab := by
      have e := congrArg ElfContext.shstrtab hw; exact e
    unfold section_loop at h
    rw [sh_name_congr hw, sh_type_congr hw, sh_offset_congr hw, sh_size_congr hw] at h
    simp only [Option.bind_eq_some] at h
    obtain ⟨nm, hnm, ty, hty, off, hoff, sz, hsz, h⟩ := h
    -- the context after the test for SHT_DYNAMIC
    obtain ⟨ctx1, hctx1, hw1, hd1, hs1⟩ :
        ∃ ctx1 : ElfContext,
          (if ty = SHT_DYNAMIC then
            { ctx with dyn := ctx.mapped_data + off,
                       dyn_count := sz / (layout ctx.is_64bit).dyn_size,
                       dyn_section_idx := i }
          else ctx) = ctx1 ∧ without_views ctx1 = without_views hc ∧
          ((ty ≠ SHT_DYNAMIC ∧ ctx1.dyn = ctx.dyn ∧ ctx1.dyn_count = ctx.dyn_count ∧
              ctx1.dyn_section_idx = ctx.dyn_section_idx) ∨
            (ty = SHT_DYNAMIC ∧ ctx1.dyn = hc.mapped_data + off ∧
              ctx1.dyn_count = sz / (layout hc.is_64bit).dyn_size ∧
              ctx1.dyn_section_idx = i)) ∧
          (ctx1.dynstr = ctx.dynstr ∧ ctx1.dynstr_size = ctx.dynstr_size ∧
            ctx1.dynstr_idx = ctx.dynstr_idx) := by
      by_cases hdy : ty = SHT_DYNAMIC
      · refine ⟨_, rfl, ?_, ?_, ?_⟩
        · rw [if_pos hdy]; exact hw
        · rw [if_pos hdy]
          exact Or.inr ⟨hdy, by rw [← hmd], by rw [← h64], rfl⟩
        · rw [if_pos hdy]; exact ⟨rfl, rfl, rfl⟩
      · refine ⟨_, rfl, ?_, ?_, ?_⟩
        · rw [if_neg hdy]; exact hw
        · rw [if_neg hdy]
          exact Or.inl ⟨hdy, rfl, rfl, rfl⟩
        · rw [if_neg hdy]; exact ⟨rfl, rfl, rfl⟩
    rw [hctx1] at h
    have hmd1 : ctx1.mapped_data = hc.mapped_data := by
      have e := congrArg ElfContext.mapped_data hw1; exact e
    -- the dynamic view after the rest of the loop
    have hdyn : ∀ ctx2 : ElfContext,
        (ctx2.dyn = ctx1.dyn ∧ ctx2.dyn_count = ctx1.dyn_count ∧
          ctx2.dyn_section_idx = ctx1.dyn_section_idx) →
        selected_dynamic hc (i + 1) ctx2 ctx' → selected_dynamic hc i ctx ctx' := by
      intro ctx2 h2 hsel
      rcases hsel with ⟨e1, e2, e3, hno⟩ | ⟨k, o, s, hk1, hk2, hk⟩
      · rcases hd1 with ⟨hne, d1, d2, d3⟩ | ⟨heq, d1, d2, d3⟩
        · refine Or.inl ⟨by rw [e1, h2.1, d1], by rw [e2, h2.2.1, d2],
            by rw [e3, h2.2.2, d3], ?_⟩
          intro k hk1 hk2
          by_cases hki : k = i
          · subst hki
            rw [hty]
            simpa using hne
          · exact hno k (by omega) hk2
        · refine Or.inr ⟨i, off, sz, le_refl _, hin, by rw [hty, heq], hoff, hsz,
            by rw [e1, h2.1, d1], by rw [e2, h2.2.1, d2], by rw [e3, h2.2.2, d3], ?_⟩
          intro m hm1 hm2
          exact hno m (by omega) hm2
      · exact Or.inr ⟨k, o, s, by omega, hk2, hk⟩
    -- the string-table view when section `i` is not selected
    have hkeep : ¬ is_dynstr hc i → ∀ ctx2 : ElfContext,
        (ctx2.dynstr = ctx1.dynstr ∧ ctx2.dynstr_size = ctx1.dynstr_size ∧
          ctx2.dynstr_idx = ctx1.dynstr_idx) →
        selected_dynstr hc (i + 1) ctx2 ctx' → selected_dynstr hc i ctx ctx' := by
      intro hisd ctx2 h2 hss
      rcases hss with ⟨e1, e2, e3, hno⟩ | ⟨k, o, s, hk1, hk2, hk⟩
      · refine Or.inl ⟨by rw [e1, h2.1, hs1.1], by rw [e2, h2.2.1, hs1.2.1],
          by rw [e3, h2.2.2, hs1.2.2], ?_⟩
        intro k hk1 hk2
        by_cases hki : k = i
        · subst hki; exact hisd
        · exact hno k (by omega) hk2
      · exact Or.inr ⟨k, o, s, by omega, hk2, hk⟩
    by_cases hstr : ty = SHT_STRTAB
    · rw [if_pos hstr] at h
      simp only [Option.bind_eq_some] at h
      obtain ⟨same, hsame, h⟩ := h
      rw [strcmp_eq_congr hw1, hst] at hsame
      cases same with
      | true =>
        simp only [if_true] at h
        have hcs := cstr_of_strcmp_eq dynstr_name_nonzero hsame
        have hisd : is_dynstr hc i := by
          refine ⟨by rw [hty, hstr], ?_⟩
          unfold section_name
          rw [hnm]
          exact hcs
        obtain ⟨hw', hsd, hss⟩ := ih (i + 1)
          { ctx1 with dynstr := ctx1.mapped_data + off, dynstr_size := sz, dynstr_idx := i }
          ctx' (by omega) hw1 h
        refine ⟨hw', hdyn _ ⟨rfl, rfl, rfl⟩ hsd, ?_⟩
        rcases hss with ⟨e1, e2, e3, hno⟩ | ⟨k, o, s, hk1, hk2, hk⟩
        · refine Or.inr ⟨i, off, sz, le_refl _, hin, hisd, hoff, hsz,
            by rw [e1, ← hmd1], by rw [e2], by rw [e3], ?_⟩
          intro m hm1 hm2
          exact hno m (by omega) hm2
        · exact Or.inr ⟨k, o, s, by omega, hk2, hk⟩
      | false =>
        simp only [Bool.false_eq_true, if_false] at h
        have hisd : ¬ is_dynstr hc i := by
          intro hd
          have hcs : cstr hc (hc.shstrtab + nm) = some dynstr_name := by
            have := hd.2
            unfold section_name at this
            rw [hnm] at this
            exact this
          rw [strcmp_eq_of_cstr dynstr_name hcs dynstr_name_nonzero] at hsame
          simp at hsame
        obtain ⟨hw', hsd, hss⟩ := ih (i + 1) ctx1 ctx' (by omega) hw1 h
        exact ⟨hw', hdyn _ ⟨rfl, rfl, rfl⟩ hsd, hkeep hisd _ ⟨rfl, rfl, rfl⟩ hss⟩
    · rw [if_neg hstr] at h
      have hisd : ¬ is_dynstr hc i := by
        intro hd
        rw [hd.1] at hty
        exact hstr (Option.some.inj hty).symm
      obtain ⟨hw', hsd, hss⟩ := ih (i + 1) ctx1 ctx' (by omega) hw1 h
      exact ⟨hw', hdyn _ ⟨rfl, rfl, rfl⟩ hsd, hkeep hisd _ ⟨rfl, rfl, rfl⟩ hss⟩

/-- The loop over the section headers returns when the headers and the names
it reads are inside the image. -/
theorem section_loop_total (hc : ElfContext) (hr : sections_readable hc) :
    ∀ (fuel i : Nat) (ctx : ElfContext), i + fuel = hc.section_count →
      without_views ctx = without_views hc →
      ∃ ctx', section_loop fuel i ctx = some ctx' := by
  intro fuel
  induction fuel with
  | zero => intro i ctx _ _; exact ⟨ctx, rfl⟩
  | succ fuel ih =>
    intro i ctx hi hw
    have hin : i < hc.section_count := by omega
    obtain ⟨r1, r2, r3, r4, r5⟩ := hr i hin
    obtain ⟨nm, hnm⟩ := Option.isSome_iff_exists.mp r1
    obtain ⟨ty, hty⟩ := Option.isSome_iff_exists.mp r2
    obtain ⟨off, hoff⟩ := Option.isSome_iff_exists.mp r3
    obtain ⟨sz, hsz⟩ := Option.isSome_iff_exists.mp r4
    have hst : ctx.shstrtab = hc.shstrtab := by
      have e := congrArg ElfContext.shstrtab hw; exact e
    unfold section_loop
    rw [sh_name_congr hw, sh_type_congr hw, sh_offset_congr hw, sh_size_congr hw,
      hnm, hty, hoff, hsz]
    simp only [Option.some_bind]
    obtain ⟨ctx1, hctx1, hw1⟩ :
        ∃ ctx1 : ElfContext,
          (if ty = SHT_DYNAMIC then
            { ctx with dyn := ctx.mapped_data + off,
                       dyn_count := sz / (layout ctx.is_64bit).dyn_size,
                       dyn_section_idx := i }
          else ctx) = ctx1 ∧ without_views ctx1 = without_views hc := by
      refine ⟨_, rfl, ?_⟩
      split
      · exact hw
      · exact hw
    rw [hctx1]
    by_cases hstr : ty = SHT_STRTAB
    · rw [if_pos hstr]
      obtain ⟨t, ht⟩ := Option.isSome_iff_exists.mp (r5 (by rw [hty, hstr]))
      have hcs : cstr hc (hc.shstrtab + nm) = some t := by
        unfold section_name at ht
        rw [hnm] at ht
        exact ht
      rw [strcmp_eq_congr hw1, hst, strcmp_eq_of_cstr dynstr_name hcs dynstr_name_nonzero]
      simp only [Option.some_bind]
      split
      · exact ih (i + 1) _ (by omega) hw1
      · exact ih (i + 1) _ (by omega) hw1
    · rw [if_neg hstr]
      exact ih (i + 1) _ (by omega) hw1

/-- A file without section headers (`e_shnum = 0`) is rejected. -/
theorem elf_load_no_sections (file : List Nat) (base : Nat) (hc : ElfContext)
    (hm : file.take 4 = ELFMAG) (hh : elf_load_headers file base = some hc)
    (h0 : hc.section_count = 0) :
    elf_load file base =
      some ⟨-1, zeroed, some "Could not find dynamic section or dynamic string table"⟩ := by
  obtain ⟨_, _, hs0, _⟩ := elf_load_headers_init hh
  rw [elf_load_eq file base hm, hh]
  simp only [Option.some_bind, h0, section_loop]
  rw [if_pos (Or.inl hs0)]

end ElfMod

namespace ElfPatcher

open ElfMod (leNat)

/-! ## vaddr_to_offset -/

theorem to_off_t_small (x : Nat) (h : x < 2 ^ 63) : to_off_t x = (x : Int) := by
  unfold to_off_t
  have h1 : x % 2 ^ 64 = x := Nat.mod_eq_of_lt (by omega)
  rw [h1, if_pos h]

theorem spec_vaddr_to_offset_cons (ph : Phdr) (phs : List Phdr) (vaddr : Nat) :
    spec_vaddr_to_offset (ph :: phs) vaddr =
      if loads vaddr ph then ((ph.p_offset + (vaddr - ph.p_vaddr) : Nat) : Int)
      else spec_vaddr_to_offset phs vaddr := by
  unfold spec_vaddr_to_offset
  by_cases h : loads vaddr ph
  · simp [List.find?_cons, h]
  · simp [List.find?_cons, h]

/-- The loop of `vaddr_to_offset` computes the translation of the
specification when the ranges of the `PT_LOAD` headers do not wrap. -/
theorem vaddr_loop_spec (file : List Nat) (eh : Ehdr) (vaddr : Nat) (swap : Bool) :
    ∀ (n i : Nat) (phs : List Phdr), phdr_table_from file eh swap n i = some phs →
      (∀ ph ∈ phs, ph.p_type = PT_LOAD →
        ph.p_vaddr + ph.p_memsz < 2 ^ 64 ∧ ph.p_offset + ph.p_memsz < 2 ^ 63) →
      vaddr_loop file eh vaddr swap n i = spec_vaddr_to_offset phs vaddr := by
  intro n
  induction n with
  | zero =>
    intro i phs h _
    simp only [phdr_table_from, Option.some.injEq] at h
    subst h
    rfl
  | succ n ih =>
    intro i phs h hr
    unfold phdr_table_from at h
    simp only [Option.bind_eq_some, Option.map_eq_some'] at h
    obtain ⟨ph, hph, rest, hrest, rfl⟩ := h
    unfold vaddr_loop
    rw [hph, spec_vaddr_to_offset_cons]
    have hr0 := hr _ (List.mem_cons_self _ _)
    have hrr : ∀ q ∈ rest, q.p_type = PT_LOAD →
        q.p_vaddr + q.p_memsz < 2 ^ 64 ∧ q.p_offset + q.p_memsz < 2 ^ 63 :=
      fun q hq => hr q (List.mem_cons_of_mem _ hq)
    have hih := ih (i + 1) rest hrest hrr
    unfold loads
    cases swap
    · simp only [Bool.false_eq_true, if_false, ge_iff_le] at hr0 hih ⊢
      by_cases hty : leNat (List.take 4 ph) = PT_LOAD
      · have hr1 := hr0 hty
        rw [Nat.mod_eq_of_lt hr1.1]
        split
        · exact to_off_t_small _ (by omega)
        · exact hih
      · rw [if_neg (fun hc => hty hc.1), if_neg (fun hc => hty hc.1)]
        exact hih
    · simp only [if_true, ge_iff_le] at hr0 hih ⊢
      by_cases hty : be32toh (leNat (List.take 4 ph)) = PT_LOAD
      · have hr1 := hr0 hty
        rw [Nat.mod_eq_of_lt hr1.1]
        split
        · exact to_off_t_small _ (by omega)
        · exact hih
      · rw [if_neg (fun hc => hty hc.1), if_neg (fun hc => hty hc.1)]
        exact hih

theorem spec_vaddr_to_offset_first (vaddr : Nat) :
    ∀ (pre : List Phdr) (ph : Phdr) (post : List Phdr), (∀ q ∈ pre, ¬ loads vaddr q) →
      loads vaddr ph →
      spec_vaddr_to_offset (pre ++ ph :: post) vaddr =
        ((ph.p_offset + (vaddr - ph.p_vaddr) : Nat) : Int) := by
  intro pre
  induction pre with
  | nil =>
    intro ph post _ h
    rw [List.nil_append, spec_vaddr_to_offset_cons, if_pos h]
  | cons q pre ih =>
    intro ph post hpre h
    rw [List.cons_append, spec_vaddr_to_offset_cons, if_neg (hpre q (List.mem_cons_self _ _))]
    exact ih ph post (fun r hr => hpre r (List.mem_cons_of_mem _ hr)) h

theorem spec_vaddr_to_offset_none (vaddr : Nat) :
    ∀ (phs : List Phdr), spec_vaddr_to_offset phs vaddr = -1 ↔ ∀ ph ∈ phs, ¬ loads vaddr ph := by
  intro phs
  induction phs with
  | nil => simp [spec_vaddr_to_offset]
  | cons q phs ih =>
    rw [spec_vaddr_to_offset_cons]
    by_cases h : loads vaddr q
    · rw [if_pos h]
      constructor
      · intro h1
        omega
      · intro h1
        exact absurd h (h1 q (List.mem_cons_self _ _))
    · rw [if_neg h, ih]
      constructor
      · intro h1 ph hph
        rcases List.mem_cons.mp hph with rfl | hm
        · exact h
        · exact h1 ph hm
      · intro h1 ph hph
        exact h1 ph (List.mem_cons_of_mem _ hph)

end ElfPatcher

namespace ElfPatcher

open ElfMod (leNat leBytes splice DT_NULL DT_NEEDED DT_STRTAB DT_STRSZ ELFMAG)

/-! ## The grow path of patch64 -/

theorem write_at_inside (file : List Nat) (off : Nat) (bs : List Nat)
    (h : off + bs.length ≤ file.length) : write_at file off bs = splice file off bs := by
  unfold write_at splice
  have : off - file.length = 0 := by omega
  simp [this]

theorem write_at_end (file bs : List Nat) : write_at file file.length bs = file ++ bs := by
  unfold write_at
  simp

theorem memcpy_into_length (newtab : List Nat) (pos : Nat) (bs : List Nat) :
    (memcpy_into newtab pos bs).1.length = newtab.length := by
  unfold memcpy_into
  simp only [List.length_append, List.length_take, List.length_drop]
  omega

/-- The loop that fills `newtab` keeps the size of `newtab`, and the tag and
the `val_offset` of every entry. -/
theorem grow_loop_spec (old pfx : List Nat) :
    ∀ (ds : List DynEntryInfo64) (g g' : Grow), grow_loop old pfx ds g = some g' →
      g'.newtab.length = g.newtab.length ∧
      ∃ ds', g'.dyn = g.dyn ++ ds' ∧
        List.Forall₂ (fun a b => a.tag = b.tag ∧ a.val_offset = b.val_offset) ds ds' := by
  intro ds
  induction ds with
  | nil =>
    intro g g' h
    simp only [grow_loop, Option.some.injEq] at h
    subst h
    exact ⟨rfl, [], by simp, List.Forall₂.nil⟩
  | cons d ds ih =>
    intro g g' h
    unfold grow_loop at h
    split at h
    · obtain ⟨h1, ds', h2, h3⟩ := ih _ _ h
      refine ⟨h1, d :: ds', ?_, List.Forall₂.cons ⟨rfl, rfl⟩ h3⟩
      rw [h2]
      simp
    · split at h
      · cases h
      · simp only at h
        split at h
        · obtain ⟨h1, ds', h2, h3⟩ := ih _ _ h
          refine ⟨?_, d :: ds', ?_, List.Forall₂.cons ⟨rfl, rfl⟩ h3⟩
          · rw [h1]
            exact memcpy_into_length _ _ _
          · rw [h2]
            simp
        · obtain ⟨h1, ds', h2, h3⟩ := ih _ _ h
          refine ⟨?_, { d with val := g.write_ptr % 2 ^ 32 } :: ds', ?_,
            List.Forall₂.cons ⟨rfl, rfl⟩ h3⟩
          · rw [h1]
            exact memcpy_into_length _ _ _
          · rw [h2]
            simp

/-- The entries `collect_dyn_entries` returns lie inside the file, and their
`d_val` fields do not overlap. -/
theorem collect_loop_spec (file : List Nat) (dyn_off dyn_size : Nat) (swap : Bool) :
    ∀ (fuel cur : Nat) (arr res : List DynEntryInfo64),
      collect_loop file dyn_off dyn_size swap fuel cur arr = some res →
      (∀ d ∈ arr, d.val_offset + 8 ≤ cur ∧ d.val_offset + 8 ≤ file.length) →
      List.Pairwise (fun a b => a.val_offset + 4 ≤ b.val_offset) arr →
      (∀ d ∈ res, d.val_offset + 8 ≤ file.length) ∧
      List.Pairwise (fun a b => a.val_offset + 4 ≤ b.val_offset) res := by
  intro fuel
  induction fuel with
  | zero =>
    intro cur arr res h ha hp
    simp only [collect_loop, Option.some.injEq] at h
    subst h
    exact ⟨fun d hd => (ha d hd).2, hp⟩
  | succ fuel ih =>
    intro cur arr res h ha hp
    unfold collect_loop at h
    split at h
    · cases hr : read_at file cur 16 with
      | none => rw [hr] at h; cases h
      | some d =>
        rw [hr] at h
        simp only at h
        have hcur : cur + 16 ≤ file.length := by
          unfold read_at at hr
          split at hr
          · rename_i hc; exact hc.2
          · cases hr
        have ha' : ∀ e ∈ arr ++ [(⟨to_host64 (leNat (d.take 8)) swap,
            to_host64 (leNat (d.drop 8)) swap, cur + 8⟩ : DynEntryInfo64)],
            e.val_offset + 8 ≤ cur + 16 ∧ e.val_offset + 8 ≤ file.length := by
          intro e he
          rcases List.mem_append.mp he with h1 | h1
          · have := ha e h1
            exact ⟨by omega, this.2⟩
          · simp only [List.mem_singleton] at h1
            subst h1
            exact ⟨by simp, by simp; omega⟩
        have hp' : List.Pairwise (fun a b => a.val_offset + 4 ≤ b.val_offset)
            (arr ++ [(⟨to_host64 (leNat (d.take 8)) swap,
              to_host64 (leNat (d.drop 8)) swap, cur + 8⟩ : DynEntryInfo64)]) := by
          rw [List.pairwise_append]
          refine ⟨hp, List.pairwise_singleton _ _, ?_⟩
          intro a ha1 b hb
          simp only [List.mem_singleton] at hb
          subst hb
          have := ha a ha1
          simp only
          omega
        split at h
        · simp only [Option.some.injEq] at h
          subst h
          exact ⟨fun e he => (ha' e he).2, hp'⟩
        · exact ih _ _ _ h ha' hp'
    · simp only [Option.some.injEq] at h
      subst h
      exact ⟨fun d hd => (ha d hd).2, hp⟩

/-- The value the final loop of the grow branch writes for an entry. -/
theorem write_back_spec (v s : Nat) (swap : Bool) :
    ∀ (es : List DynEntryInfo64) (file : List Nat),
      List.Pairwise (fun a b => a.val_offset + 4 ≤ b.val_offset) es →
      (∀ d ∈ es, d.val_offset + 4 ≤ file.length) →
      (write_back v s swap es file).length = file.length ∧
      (∀ d ∈ es, ((write_back v s swap es file).drop d.val_offset).take 4 =
        leBytes 4 (to_file64
          (if d.tag = DT_STRSZ then s % 2 ^ 32
            else if d.tag = DT_STRTAB then v else d.val) swap)) ∧
      (∀ off n, (∀ d ∈ es, off + n ≤ d.val_offset ∨ d.val_offset + 4 ≤ off) →
        ((write_back v s swap es file).drop off).take n = (file.drop off).take n) := by
  intro es
  induction es with
  | nil =>
    intro file _ _
    exact ⟨rfl, fun d hd => absurd hd (List.not_mem_nil _), fun _ _ _ => rfl⟩
  | cons d ds ih =>
    intro file hp hb
    rw [List.pairwise_cons] at hp
    have hd := hb d (List.mem_cons_self _ _)
    have hlen4 : ∀ x, (leBytes 4 x).length = 4 := fun x => ElfMod.leBytes_length 4 x
    unfold write_back
    simp only
    generalize hnv : (if d.tag = DT_STRSZ then s % 2 ^ 32
      else if d.tag = DT_STRTAB then v else d.val) = nv at *
    rw [write_at_inside _ _ _ (by rw [hlen4]; exact hd)]
    have hl1 : (splice file d.val_offset (leBytes 4 (to_file64 nv swap))).length = file.length :=
      ElfMod.splice_length _ _ _ (by rw [hlen4]; exact hd)
    obtain ⟨i1, i2, i3⟩ := ih (splice file d.val_offset (leBytes 4 (to_file64 nv swap))) hp.2
      (fun e he => by rw [hl1]; exact hb e (List.mem_cons_of_mem _ he))
    refine ⟨by rw [i1, hl1], ?_, ?_⟩
    · intro e he
      rcases List.mem_cons.mp he with rfl | he'
      · rw [i3 e.val_offset 4 (fun x hx => Or.inl (hp.1 x hx))]
        have := ElfMod.take_drop_splice_same file e.val_offset (leBytes 4 (to_file64 nv swap))
          (by rw [hlen4]; exact hd)
        rw [hlen4] at this
        rw [this, ← hnv]
      · exact i2 e he'
    · intro off n hdis
      rw [i3 off n (fun e he => hdis e (List.mem_cons_of_mem _ he))]
      exact ElfMod.take_drop_splice_disjoint file d.val_offset _ off n
        (by rw [hlen4]; exact hd)
        (by rw [hlen4]; exact hdis d (List.mem_cons_self _ _))

end ElfPatcher

namespace ElfPatcher

open ElfMod (leNat leBytes splice DT_NULL DT_NEEDED DT_STRTAB DT_STRSZ ELFMAG)

theorem new_vaddr_eq (a e o : Nat) (h : o ≤ e) :
    ((((a : Int) + ((e : Int) - (o : Int))) % 2 ^ 32).toNat) = (a + (e - o)) % 2 ^ 32 := by
  omega

theorem forall2_val_offset :
    ∀ (ds ds' : List DynEntryInfo64),
      List.Forall₂ (fun a b => a.tag = b.tag ∧ a.val_offset = b.val_offset) ds ds' →
      ds'.map DynEntryInfo64.val_offset = ds.map DynEntryInfo64.val_offset := by
  intro ds ds' h
  induction h with
  | nil => rfl
  | cons hab _ ih => simp [ih, hab.2]

theorem forall2_mem :
    ∀ (ds ds' : List DynEntryInfo64),
      List.Forall₂ (fun a b => a.tag = b.tag ∧ a.val_offset = b.val_offset) ds ds' →
      ∀ d ∈ ds, ∃ d' ∈ ds', d.tag = d'.tag ∧ d.val_offset = d'.val_offset := by
  intro ds ds' h
  induction h with
  | nil => intro d hd; cases hd
  | cons hab _ ih =>
    intro d hd
    rcases List.mem_cons.mp hd with rfl | hd'
    · exact ⟨_, List.mem_cons_self _ _, hab⟩
    · obtain ⟨d', h1, h2⟩ := ih d hd'
      exact ⟨d', List.mem_cons_of_mem _ h1, h2⟩

/-- The grow path of `patch64`: the file it leaves. `dyn` are the collected
entries, `va`, `sz` the last `DT_STRTAB` and `DT_STRSZ` values among them. -/
theorem patch64_grow (file pfx : List Nat) (pos dyn_off dyn_size strtab_off : Nat)
    (eh : Ehdr) (swap : Bool) (dyn : List DynEntryInfo64) (r : Patched)
    (heh : eh = decode_ehdr ((file.drop pos).take 64))
    (hsw : swap = decide ((eh.e_ident.drop EI_DATA).head? ≠ some ELFDATA2LSB))
    (hseg : find_dynamic_segment file eh swap = some (dyn_off, dyn_size))
    (hdyn : collect_dyn_entries file dyn_off dyn_size swap = some dyn)
    (hoff : vaddr_to_offset file eh (last_val DT_STRTAB dyn 0) swap = (strtab_off : Int))
    (hextra : total_extra file strtab_off pfx dyn ≠ 0)
    (hp : patch64 file pos pfx = some r) (hret : r.ret = true) :
    strtab_off + last_val DT_STRSZ dyn 0 ≤ file.length ∧
    r.file.length =
      file.length + (last_val DT_STRSZ dyn 0 + total_extra file strtab_off pfx dyn) ∧
    (∃ old g, read_at file strtab_off (last_val DT_STRSZ dyn 0) = some old ∧
      grow_loop old pfx dyn
        ⟨old ++ List.replicate (total_extra file strtab_off pfx dyn) 0,
          last_val DT_STRSZ dyn 0, [], false⟩ = some g ∧
      r.file.drop file.length = g.newtab) ∧
    (∀ d ∈ dyn, d.tag = DT_STRTAB →
      (r.file.drop d.val_offset).take 4 =
        leBytes 4 (to_file64
          ((last_val DT_STRTAB dyn 0 + (file.length - strtab_off)) % 2 ^ 32) swap)) ∧
    (∀ d ∈ dyn, d.tag = DT_STRSZ →
      (r.file.drop d.val_offset).take 4 =
        leBytes 4 (to_file64
          ((last_val DT_STRSZ dyn 0 + total_extra file strtab_off pfx dyn) % 2 ^ 32) swap)) := by
  subst heh
  subst hsw
  unfold patch64 at hp
  simp only [hseg, hdyn, hoff, Int.toNat_ofNat] at hp
  split at hp
  · cases hp; cases hret
  split at hp
  · cases hp; cases hret
  split at hp
  · cases hp; cases hret
  try rw [if_neg hextra] at hp
  cases hold : read_at file strtab_off (last_val DT_STRSZ dyn 0) with
  | none => rw [hold] at hp; cases hp
  | some old =>
    rw [hold] at hp
    simp only at hp
    cases hg : grow_loop old pfx dyn
        ⟨old ++ List.replicate (total_extra file strtab_off pfx dyn) 0,
          last_val DT_STRSZ dyn 0, [], false⟩ with
    | none => rw [hg] at hp; cases hp
    | some g =>
      rw [hg] at hp
      simp only [Option.some.injEq] at hp
      subst hp
      simp only
      -- the old table
      have hfit : strtab_off + last_val DT_STRSZ dyn 0 ≤ file.length := by
        unfold read_at at hold
        split at hold
        · rename_i hc; exact hc.2
        · cases hold
      have holdlen : old.length = last_val DT_STRSZ dyn 0 := by
        unfold read_at at hold
        split at hold
        · simp only [Option.some.injEq] at hold
          subst hold
          simp
          omega
        · cases hold
      -- the new table and the entries
      obtain ⟨hnl, ds', hds, hrel⟩ := grow_loop_spec old pfx dyn _ g hg
      simp only [List.nil_append, List.length_append, List.length_replicate] at hnl hds
      -- the collected entries
      obtain ⟨hcb, hcp⟩ := collect_loop_spec file dyn_off dyn_size _ _ _ [] dyn hdyn
        (fun d hd => absurd hd (List.not_mem_nil _)) List.Pairwise.nil
      have hmap := forall2_val_offset dyn ds' hrel
      have hpw : List.Pairwise (fun a b => a.val_offset + 4 ≤ b.val_offset) g.dyn := by
        rw [hds]
        have h1 : List.Pairwise (fun a b => a + 4 ≤ b) (dyn.map DynEntryInfo64.val_offset) :=
          List.pairwise_map.mpr hcp
        rw [← hmap] at h1
        exact List.pairwise_map.mp h1
      have hbd : ∀ d ∈ g.dyn, d.val_offset + 8 ≤ file.length := by
        intro d hd
        rw [hds] at hd
        have h1 : d.val_offset ∈ ds'.map DynEntryInfo64.val_offset := List.mem_map_of_mem _ hd
        rw [hmap] at h1
        obtain ⟨e, he, hev⟩ := List.mem_map.mp h1
        have := hcb e he
        omega
      rw [write_at_end]
      obtain ⟨w1, w2, w3⟩ := write_back_spec
        ((((last_val DT_STRTAB dyn 0 : Nat) : Int) +
          ((file.length : Int) - (strtab_off : Int))) % 2 ^ 32).toNat
        (last_val DT_STRSZ dyn 0 + total_extra file strtab_off pfx dyn) _ g.dyn
        (file ++ g.newtab) hpw
        (fun d hd => by have := hbd d hd; simp only [List.length_append]; omega)
      rw [new_vaddr_eq _ _ _ (by omega)] at w1 w2 w3
      refine ⟨hfit, ?_, ⟨old, g, rfl, hg, ?_⟩, ?_, ?_⟩
      · rw [new_vaddr_eq _ _ _ (by omega), w1, List.length_append, hnl, holdlen]
      · rw [new_vaddr_eq _ _ _ (by omega)]
        have h3 := w3 file.length g.newtab.length
          (fun d hd => Or.inr (by have := hbd d hd; omega))
        rw [List.drop_left, List.take_length] at h3
        refine (List.take_of_length_le ?_).symm.trans h3
        rw [List.length_drop, w1, List.length_append]
        omega
      · intro d hd htag
        obtain ⟨d', hd', ht, hv⟩ := forall2_mem dyn ds' hrel d hd
        rw [← hds] at hd'
        rw [new_vaddr_eq _ _ _ (by omega), hv, w2 d' hd']
        rw [← ht, htag]
        simp [DT_STRTAB, DT_STRSZ]
      · intro d hd htag
        obtain ⟨d', hd', ht, hv⟩ := forall2_mem dyn ds' hrel d hd
        rw [← hds] at hd'
        rw [new_vaddr_eq _ _ _ (by omega), hv, w2 d' hd']
        rw [← ht, htag]
        simp

end ElfPatcher

namespace ElfMod

/-! ## elf_save: the buffer of an image -/

theorem section_loop_frame :
    ∀ (fuel i : Nat) (ctx ctx' : ElfContext), section_loop fuel i ctx = some ctx' →
      without_views ctx' = without_views ctx := by
  intro fuel
  induction fuel with
  | zero =>
    intro i ctx ctx' h
    simp only [section_loop, Option.some.injEq] at h
    subst h
    rfl
  | succ fuel ih =>
    intro i ctx ctx' h
    unfold section_loop at h
    simp only [Option.bind_eq_some] at h
    obtain ⟨nm, _, ty, _, off, _, sz, _, h⟩ := h
    have h1 : without_views
        (if ty = SHT_DYNAMIC then
          { ctx with dyn := ctx.mapped_data + off,
                     dyn_count := sz / (layout ctx.is_64bit).dyn_size,
                     dyn_section_idx := i }
        else ctx) = without_views ctx := by
      split <;> rfl
    split at h
    · simp only [Option.bind_eq_some] at h
      obtain ⟨same, _, h⟩ := h
      split at h
      · exact (ih _ _ _ h).trans h1
      · exact (ih _ _ _ h).trans h1
    · exact (ih _ _ _ h).trans h1

/-- `elf_load` is the test for an empty file, the magic check, the header part,
the loop over the section headers and the final test. -/
theorem elf_load_unfold (file : List Nat) (base : Nat) :
    elf_load file base =
      if file.length = 0 then
        some ⟨-1, { zeroed with file_size := file.length, original_size := file.length,
                                mapped_data := MAP_FAILED }, some "Failed to map file: %s"⟩
      else
        (magic_differs
            { zeroed with file_size := file.length, original_size := file.length,
                          mapped_data := base, mapped := file, e_ident := base }
            ELFMAG 0).bind fun bad =>
        if bad then some ⟨-1, zeroed, some "Not a valid ELF file"⟩
        else
          (elf_load_headers file base).bind fun ctx4 =>
          (section_loop ctx4.section_count 0 ctx4).bind fun ctx5 =>
          if ctx5.dynstr = 0 ∨ ctx5.dyn = 0 ∨ ctx5.dyn_count = 0 then
            some ⟨-1, zeroed, some "Could not find dynamic section or dynamic string table"⟩
          else some ⟨0, ctx5, none⟩ := by
  unfold elf_load elf_load_headers
  by_cases hlen : file.length = 0
  · rw [if_pos hlen, if_pos hlen]
  · simp only [hlen, if_false]
    congr 1
    funext bad
    cases bad
    · simp only [Bool.false_eq_true, if_false, Option.some_bind, Option.bind_assoc]
    · rfl

/-- What a successful `elf_load` leaves in the fields of the mapping. -/
theorem elf_load_frame {file : List Nat} {base : Nat} {o : Outcome}
    (h : elf_load file base = some o) (hret : o.ret = 0) :
    o.ctx.is_expanded = false ∧ o.ctx.mapped = file ∧ o.ctx.mapped_data = base ∧
    o.ctx.file_size = file.length ∧ file.length ≠ 0 := by
  rw [elf_load_unfold] at h
  split at h
  · cases h
    simp at hret
  · rename_i hlen
    cases hb : magic_differs
        { zeroed with file_size := file.length, original_size := file.length,
                      mapped_data := base, mapped := file, e_ident := base } ELFMAG 0 with
    | none => rw [hb] at h; cases h
    | some bad =>
      rw [hb] at h
      simp only [Option.some_bind] at h
      split at h
      · cases h
        simp at hret
      · cases hh : elf_load_headers file base with
        | none => rw [hh] at h; cases h
        | some ctx4 =>
          rw [hh] at h
          simp only [Option.some_bind] at h
          cases hl : section_loop ctx4.section_count 0 ctx4 with
          | none => rw [hl] at h; cases h
          | some ctx5 =>
            rw [hl] at h
            simp only [Option.some_bind] at h
            have hw := section_loop_frame _ _ _ _ hl
            obtain ⟨_, _, _, i4, i5, i6, i7⟩ := elf_load_headers_init hh
            split at h
            · cases h
              simp at hret
            · cases h
              have e1 : ctx5.is_expanded = ctx4.is_expanded := by
                have e := congrArg ElfContext.is_expanded hw; exact e
              have e2 : ctx5.mapped = ctx4.mapped := by
                have e := congrArg ElfContext.mapped hw; exact e
              have e3 : ctx5.mapped_data = ctx4.mapped_data := by
                have e := congrArg ElfContext.mapped_data hw; exact e
              have e4 : ctx5.file_size = ctx4.file_size := by
                have e := congrArg ElfContext.file_size hw; exact e
              exact ⟨e1.trans i6, e2.trans i4, e3.trans i5, e4.trans i7, hlen⟩

theorem consistent_of_scalars {c c' : ElfContext} (hs : scalars c' = scalars c)
    (hl : c'.mapped.length = c.mapped.length ∧ c'.extended.length = c.extended.length)
    (h : Consistent c) : Consistent c' := by
  have h1 : c'.is_expanded = c.is_expanded := by
    have e := congrArg ElfContext.is_expanded hs; exact e
  have h2 : c'.extended_size = c.extended_size := by
    have e := congrArg ElfContext.extended_size hs; exact e
  have h3 : c'.file_size = c.file_size := by
    have e := congrArg ElfContext.file_size hs; exact e
  unfold Consistent at h ⊢
  rw [h1, h2, h3, hl.1, hl.2]
  exact h

theorem expand_dynstr_consistent {ctx : ElfContext} {add : Nat} {alloc : Option Nat}
    {e : Outcome} (h : expand_dynstr ctx add alloc = some e) (hc : Consistent ctx) :
    Consistent e.ctx := by
  unfold expand_dynstr at h
  split at h
  · cases h
    exact hc
  · rename_i hadd
    simp only [Option.bind_eq_some] at h
    obtain ⟨_, _, _, _, _, _, h⟩ := h
    cases alloc with
    | none =>
      cases h
      exact hc
    | some new_data =>
      simp only [Option.bind_eq_some] at h
      obtain ⟨content, hcont, ctx2, h2, size, _, ctx3, h3, h4⟩ := h
      obtain ⟨e1, p1, s1, d1, st1, ds1, hfr⟩ := relocate_pointers_frame h2
      have hs := writeBytes_scalars h3
      have hl := writeBytes_lengths h3
      have hcl := readBytes_length hcont
      have hexp : ctx3.is_expanded = true := by
        have e := congrArg ElfContext.is_expanded hs
        rw [hfr] at e
        exact e
      have hsz : ctx3.extended_size = ctx.file_size + padding ctx.file_size + add := by
        have e := congrArg ElfContext.extended_size hs
        rw [hfr] at e
        exact e
      have hel : ctx3.extended.length = ctx.file_size + padding ctx.file_size + add := by
        have e2 : ctx2.extended = content ++
            List.replicate (ctx.file_size + padding ctx.file_size + add - ctx.file_size) 0 := by
          rw [hfr]
        rw [hl.2, e2, List.length_append, List.length_replicate, hcl]
        omega
      cases h4
      unfold Consistent
      simp only [hexp, if_true]
      rw [hsz, hel]
      omega

theorem replace_consistent {ctx : ElfContext} {old new : List Nat} {alloc : Option Nat}
    {o : Outcome} (h : elf_replace_needed_lib ctx old new alloc = some o)
    (hc : Consistent ctx) : Consistent o.ctx := by
  unfold elf_replace_needed_lib at h
  simp only [Option.bind_eq_some] at h
  obtain ⟨found, _, h⟩ := h
  cases found with
  | none =>
    cases h
    exact hc
  | some kv =>
    obtain ⟨k, v⟩ := kv
    simp only at h
    split at h
    · simp only [Option.bind_eq_some] at h
      obtain ⟨ctx1, hw, h⟩ := h
      cases h
      exact consistent_of_scalars (writeBytes_scalars hw) (writeBytes_lengths hw) hc
    · simp only [Option.bind_eq_some] at h
      obtain ⟨e, he, h⟩ := h
      have hce := expand_dynstr_consistent he hc
      split at h
      · cases h
        exact hce
      · simp only [Option.bind_eq_some] at h
        obtain ⟨_, _, h⟩ := h
        split at h
        · cases h
          exact hce
        · simp only [Option.bind_eq_some] at h
          obtain ⟨ctx2, hw2, ctx3, hw3, h⟩ := h
          cases h
          have c2 := consistent_of_scalars (writeBytes_scalars hw2) (writeBytes_lengths hw2) hce
          exact consistent_of_scalars (writeBytes_scalars hw3) (writeBytes_lengths hw3) c2

/-- Every image is consistent. -/
theorem image_consistent {ctx : ElfContext} (h : Image ctx) : Consistent ctx := by
  induction h with
  | load file base o hl hret =>
    obtain ⟨h1, h2, _, h4, h5⟩ := elf_load_frame hl hret
    unfold Consistent
    rw [h1]
    simp only [Bool.false_eq_true, if_false]
    rw [h2, h4]
    exact ⟨rfl, by omega⟩
  | replace ctx old new alloc o _ hr ih => exact replace_consistent hr ih

/-- `elf_save` writes the whole buffer of a consistent image. -/
theorem elf_save_consistent {ctx : ElfContext} (h : Consistent ctx) :
    elf_save ctx = some (image_buffer ctx) ∧ (image_buffer ctx).length = ctx.file_size := by
  unfold Consistent at h
  unfold elf_save data_to_write size_to_write image_buffer
  by_cases hx : ctx.is_expanded = true
  · rw [if_pos hx] at h
    simp only [hx, if_true]
    have := readBytes_extended ctx 0 ctx.extended_size hx (by omega) (by omega)
    rw [Nat.add_zero] at this
    rw [this, h.1]
    simp [h.2.1, h.1]
  · rw [if_neg hx] at h
    have hx' : ctx.is_expanded = false := by simpa using hx
    simp only [hx', Bool.false_eq_true, if_false]
    have := readBytes_mapped ctx 0 ctx.file_size hx' (by omega) (by omega)
    rw [Nat.add_zero] at this
    rw [this, h.1]
    simp [h.1]

end ElfMod

namespace Sample

open ElfMod ElfPatcher

/-- `loaded` is the context of the outcome whenever `elf_load` returns 0. -/
theorem loaded_image (file : List Nat) (base : Nat)
    (h : (elf_load file base).map Outcome.ret = some 0) :
    ∃ o, elf_load file base = some o ∧ o.ret = 0 ∧ o.ctx = loaded file base := by
  unfold loaded
  cases hr : elf_load file base with
  | none => rw [hr] at h; cases h
  | some o =>
    rw [hr] at h
    simp only [Option.map_some', Option.some.injEq] at h
    exact ⟨o, rfl, h, rfl⟩

/-- What `elf_load` returns with status 0 is an image. -/
theorem loaded_is_image (file : List Nat) (base : Nat)
    (h : (elf_load file base).map Outcome.ret = some 0) : Image (loaded file base) := by
  obtain ⟨o, ho, hr, hc⟩ := loaded_image file base h
  rw [← hc]
  exact Image.load file base o ho hr

/-- What `elf_replace_needed_lib` leaves of an image is an image. -/
theorem replaced_is_image (ctx : ElfContext) (old new : List Nat) (alloc : Option Nat)
    (hi : Image ctx) (h : (elf_replace_needed_lib ctx old new alloc).isSome = true) :
    Image (replaced ctx old new alloc).ctx :=
  Image.replace ctx old new alloc _ hi (replaced_eq ctx old new alloc h)

/-- `headers` is the header context whenever the model yields one. -/
theorem headers_eq (file : List Nat) (base : Nat)
    (h : (elf_load_headers file base).isSome = true) :
    elf_load_headers file base = some (headers file base) := by
  unfold headers
  cases hr : elf_load_headers file base with
  | none => rw [hr] at h; cases h
  | some o => rfl

/-- `patched` is what `patch64` leaves whenever the model yields a result. -/
theorem patched_eq (file : List Nat) (pos : Nat) (pfx : List Nat)
    (h : (patch64 file pos pfx).isSome = true) :
    patch64 file pos pfx = some (patched file pos pfx) := by
  unfold patched
  cases hr : patch64 file pos pfx with
  | none => rw [hr] at h; cases h
  | some o => rfl

end Sample
namespace ElfMod

/-! ## The size that elf_save writes -/

/-- The size `elf_save` passes to `write` never shrinks: if `extended_size =
file_size` once the image is expanded, then after a call of
`elf_replace_needed_lib` the size is at least what it was, and at least
`len(new) - len(old)` more after a call that returns 0 with `new` longer than
`old`. -/
theorem replace_size_to_write (ctx : ElfContext) (old new : List Nat) (alloc : Option Nat)
    (o : Outcome) (hinv : ctx.is_expanded = true → ctx.extended_size = ctx.file_size)
    (h : elf_replace_needed_lib ctx old new alloc = some o) :
    size_to_write ctx ≤ size_to_write o.ctx ∧
    (o.ret = 0 → old.length < new.length →
      size_to_write ctx + (new.length - old.length) ≤ size_to_write o.ctx) ∧
    (o.ctx.is_expanded = true → o.ctx.extended_size = o.ctx.file_size) := by
  have hsame : ∀ c : ElfContext, scalars c = scalars ctx →
      size_to_write ctx ≤ size_to_write c ∧
      (c.is_expanded = true → c.extended_size = c.file_size) := by
    intro c hc
    have h1 : c.is_expanded = ctx.is_expanded := by
      have e := congrArg ElfContext.is_expanded hc; exact e
    have h2 : c.extended_size = ctx.extended_size := by
      have e := congrArg ElfContext.extended_size hc; exact e
    have h3 : c.file_size = ctx.file_size := by
      have e := congrArg ElfContext.file_size hc; exact e
    refine ⟨le_of_eq (size_to_write_congr hc).symm, ?_⟩
    rw [h1, h2, h3]
    exact hinv
  have hold_size : size_to_write ctx = ctx.file_size := by
    unfold size_to_write
    split
    · rename_i hx
      exact hinv hx
    · rfl
  have hgrown : ∀ c : ElfContext, c.is_expanded = true →
      c.extended_size = ctx.file_size + padding ctx.file_size + (new.length + 1) →
      c.file_size = ctx.file_size + padding ctx.file_size + (new.length + 1) →
      size_to_write ctx ≤ size_to_write c ∧
      (size_to_write ctx + (new.length - old.length) ≤ size_to_write c) ∧
      (c.is_expanded = true → c.extended_size = c.file_size) := by
    intro c h1 h2 h3
    have hc : size_to_write c = ctx.file_size + padding ctx.file_size + (new.length + 1) := by
      simp [size_to_write, h1, h2]
    rw [hc, hold_size]
    refine ⟨by omega, by omega, ?_⟩
    intro _
    rw [h2, h3]
  unfold elf_replace_needed_lib at h
  simp only [Option.bind_eq_some] at h
  obtain ⟨found, _, h⟩ := h
  cases found with
  | none =>
    cases h
    exact ⟨le_refl _, by intro hr; simp at hr, hinv⟩
  | some kv =>
    obtain ⟨k, v⟩ := kv
    simp only at h
    split at h
    · rename_i hle
      simp only [Option.bind_eq_some] at h
      obtain ⟨ctx1, hw, h⟩ := h
      cases h
      obtain ⟨h1, h2⟩ := hsame ctx1 (writeBytes_scalars hw)
      exact ⟨h1, by intro _ hlt; omega, h2⟩
    · simp only [Option.bind_eq_some] at h
      obtain ⟨e, he, h⟩ := h
      rcases expand_dynstr_sizes he with ⟨hret, hctx⟩ | ⟨hret, hexp, hes, hfs⟩
      · rw [if_pos (by rw [hret]; decide)] at h
        cases h
        rw [hctx]
        exact ⟨le_refl _, by intro hr; simp at hr, hinv⟩
      · rw [if_neg (by rw [hret]; decide)] at h
        simp only [Option.bind_eq_some] at h
        obtain ⟨_, _, h⟩ := h
        split at h
        · cases h
          obtain ⟨h1, _, h3⟩ := hgrown e.ctx hexp hes hfs
          exact ⟨h1, by intro hr; simp at hr, h3⟩
        · simp only [Option.bind_eq_some] at h
          obtain ⟨ctx2, hw2, ctx3, hw3, h⟩ := h
          cases h
          have hs3 : scalars ctx3 = scalars e.ctx :=
            (writeBytes_scalars hw3).trans (writeBytes_scalars hw2)
          have g1 : ctx3.is_expanded = true := by
            have e1 := congrArg ElfContext.is_expanded hs3
            exact e1.trans hexp
          have g2 : ctx3.extended_size =
              ctx.file_size + padding ctx.file_size + (new.length + 1) := by
            have e1 := congrArg ElfContext.extended_size hs3
            exact e1.trans hes
          have g3 : ctx3.file_size =
              ctx.file_size + padding ctx.file_size + (new.length + 1) := by
            have e1 := congrArg ElfContext.file_size hs3
            exact e1.trans hfs
          obtain ⟨h1, h2, h3⟩ := hgrown ctx3 g1 g2 g3
          exact ⟨h1, fun _ _ => h2, h3⟩

end ElfMod


namespace ElfMod

/-! ## The same file mapped at two addresses -/

theorem region_at (c : ElfContext) (hx : c.is_expanded = false) (k : Nat) :
    region c (c.mapped_data + k) =
      if k < c.mapped.length then some (c.mapped.drop k) else none := by
  unfold region
  rw [if_neg (by simp [hx])]
  by_cases hk : k < c.mapped.length
  · rw [if_pos ⟨by omega, by omega⟩, if_pos hk, Nat.add_sub_cancel_left]
  · rw [if_neg (by omega), if_neg hk]

theorem region_low (c : ElfContext) (hx : c.is_expanded = false) (a : Nat)
    (ha : a < c.mapped_data) : region c a = none := by
  unfold region
  rw [if_neg (by simp [hx]), if_neg (by omega)]

theorem readLE_at (c : ElfContext) (hx : c.is_expanded = false) (k n : Nat) :
    readLE c (c.mapped_data + k) n = file_le c.mapped k n := by
  unfold readLE readBytes file_le
  rw [region_at c hx]
  by_cases hk : k < c.mapped.length
  · rw [if_pos hk]
    simp only [Option.some_bind, List.length_drop]
    by_cases hn : k + n ≤ c.mapped.length
    · rw [if_pos (by omega), if_pos ⟨hk, hn⟩]
      rfl
    · rw [if_neg (by omega), if_neg (by omega)]
      rfl
  · rw [if_neg hk, if_neg (by omega)]
    rfl

theorem leNat_lt : ∀ (l : List Nat), (∀ b ∈ l, b < 256) → leNat l < 256 ^ l.length := by
  intro l
  induction l with
  | nil => intro _; simp [leNat]
  | cons x xs ih =>
    intro h
    have h1 := h x (List.mem_cons_self _ _)
    have h2 := ih (fun b hb => h b (List.mem_cons_of_mem _ hb))
    simp only [leNat, List.length_cons, pow_succ]
    omega

theorem file_le_lt {file : List Nat} {k n v : Nat} (h : file_le file k n = some v)
    (hb : ∀ b ∈ file, b < 256) : v < 256 ^ n := by
  unfold file_le at h
  split at h
  · rename_i hc
    simp only [Option.some.injEq] at h
    subst h
    have hl : ((file.drop k).take n).length = n := by
      simp only [List.length_take, List.length_drop]
      omega
    have := leNat_lt ((file.drop k).take n)
      (fun b hb' => hb b (List.mem_of_mem_drop (List.mem_of_mem_take hb')))
    rwa [hl] at this
  · cases h

theorem region_same_pointer {c c' : ElfContext} (hx : c.is_expanded = false)
    (hx' : c'.is_expanded = false) (hm : c'.mapped = c.mapped) {p p' : Nat}
    (hp : same_pointer c.mapped_data c'.mapped_data p p') (j : Nat)
    (hj : j < c.mapped_data ∧ j < c'.mapped_data) :
    region c' (p' + j) = region c (p + j) := by
  rcases hp with ⟨rfl, rfl⟩ | ⟨k, rfl, rfl⟩
  · rw [Nat.zero_add, region_low c hx j hj.1, region_low c' hx' j hj.2]
  · rw [Nat.add_assoc, Nat.add_assoc, region_at c hx, region_at c' hx', hm]

theorem region_same_pointer_ne {c c' : ElfContext} (hx : c.is_expanded = false)
    (hx' : c'.is_expanded = false) (hm : c'.mapped = c.mapped) {p p' : Nat}
    (hp : same_pointer c.mapped_data c'.mapped_data p p') (hne : p ≠ 0) (j : Nat) :
    region c' (p' + j) = region c (p + j) := by
  rcases hp with ⟨rfl, rfl⟩ | ⟨k, rfl, rfl⟩
  · exact absurd rfl hne
  · rw [Nat.add_assoc, Nat.add_assoc, region_at c hx, region_at c' hx', hm]

theorem magic_differs_rebase {c c' : ElfContext} (hx : c.is_expanded = false)
    (hx' : c'.is_expanded = false) (hm : c'.mapped = c.mapped)
    (he : c.e_ident = c.mapped_data) (he' : c'.e_ident = c'.mapped_data) :
    ∀ (ms : List Nat) (k : Nat), magic_differs c' ms k = magic_differs c ms k := by
  intro ms
  induction ms with
  | nil => intro k; rfl
  | cons m ms ih =>
    intro k
    unfold magic_differs
    rw [he, he', readLE_at c hx, readLE_at c' hx', hm]
    cases file_le c.mapped k 1 with
    | none => rfl
    | some b =>
      simp only [Option.some_bind]
      split
      · rfl
      · exact ih (k + 1)

/-! ### The header part of elf_load -/

theorem readLE_at_base (c : ElfContext) (b k n : Nat)
    (hb : c.mapped_data = b) (hx : c.is_expanded = false) :
    readLE c (b + k) n = file_le c.mapped k n := by
  rw [← hb]
  exact readLE_at c hx k n

theorem elf_load_headers_of_fields (file : List Nat) (b cls phoff shoff shnum phnum : Nat)
    (st : Option Nat) (h : header_fields file cls phoff shoff shnum phnum st) :
    elf_load_headers file b = some (header_context file b cls phoff shoff shnum phnum st) := by
  obtain ⟨h1, h2, h3, h4, h5, strndx, h6, h7⟩ := h
  unfold elf_load_headers
  simp only [e_phoff, e_shoff, e_shnum, e_phnum, e_shstrndx, sh_offset, shdr_addr, Nat.add_assoc]
  rw [readLE_at_base _ b _ _ rfl rfl]
  simp only [h1, Option.some_bind]
  rw [readLE_at_base _ b _ _ rfl rfl]
  simp only [h2, Option.some_bind]
  rw [readLE_at_base _ b _ _ rfl rfl]
  simp only [h3, Option.some_bind]
  rw [readLE_at_base _ b _ _ rfl rfl]
  simp only [h4, Option.some_bind]
  rw [readLE_at_base _ b _ _ rfl rfl]
  simp only [h5, Option.some_bind]
  rw [readLE_at_base _ b _ _ rfl rfl]
  simp only [h6, Option.some_bind]
  by_cases hs : strndx ≠ SHN_UNDEF
  · rw [if_pos hs] at h7 ⊢
    obtain ⟨o, rfl, h8⟩ := h7
    rw [readLE_at_base _ b _ _ rfl rfl]
    simp only [h8, Option.map_some']
    rfl
  · rw [if_neg hs] at h7 ⊢
    subst h7
    rfl

theorem elf_load_headers_fields {file : List Nat} {b : Nat} {hc : ElfContext}
    (h : elf_load_headers file b = some hc) :
    ∃ cls phoff shoff shnum phnum st, header_fields file cls phoff shoff shnum phnum st ∧
      hc = header_context file b cls phoff shoff shnum phnum st := by
  unfold elf_load_headers at h
  simp only [Option.bind_eq_some] at h
  obtain ⟨cls, h1, phoff, h2, shoff, h3, shnum, h4, phnum, h5, strndx, h6, h⟩ := h
  simp only [e_phoff, e_shoff, e_shnum, e_phnum, e_shstrndx] at h2 h3 h4 h5 h6
  rw [readLE_at_base _ b _ _ rfl rfl] at h1 h2 h3 h4 h5 h6
  by_cases hs : strndx ≠ SHN_UNDEF
  · rw [if_pos hs] at h
    simp only [Option.map_eq_some'] at h
    obtain ⟨o, h7, rfl⟩ := h
    simp only [sh_offset, shdr_addr, Nat.add_assoc] at h7
    rw [readLE_at_base _ b _ _ rfl rfl] at h7
    refine ⟨cls, phoff, shoff, shnum, phnum, some o,
      ⟨h1, h2, h3, h4, h5, strndx, h6, ?_⟩, rfl⟩
    rw [if_pos hs]
    exact ⟨o, rfl, h7⟩
  · rw [if_neg hs] at h
    cases h
    refine ⟨cls, phoff, shoff, shnum, phnum, none,
      ⟨h1, h2, h3, h4, h5, strndx, h6, ?_⟩, rfl⟩
    rw [if_neg hs]

end ElfMod

namespace ElfMod

/-! ### The loop over the section headers in two mappings -/

theorem sh_field_rebased {c c' : ElfContext} (h : Rebased c c') (i off n : Nat) :
    readLE c' (shdr_addr c' i + off) n = readLE c (shdr_addr c i + off) n := by
  obtain ⟨r1, r2, r3, r4, _, _, _, ⟨k, hk, hk'⟩, _⟩ := h
  unfold shdr_addr
  rw [hk, hk', r4, Nat.add_assoc, Nat.add_assoc, Nat.add_assoc, Nat.add_assoc,
    readLE_at c r1, readLE_at c' r2, r3]

theorem sh_name_rebased {c c' : ElfContext} (h : Rebased c c') (i : Nat) :
    sh_name c' i = sh_name c i := by
  unfold sh_name
  rw [h.2.2.2.1]
  exact sh_field_rebased h i _ _

theorem sh_type_rebased {c c' : ElfContext} (h : Rebased c c') (i : Nat) :
    sh_type c' i = sh_type c i := by
  unfold sh_type
  rw [h.2.2.2.1]
  exact sh_field_rebased h i _ _

theorem sh_offset_rebased {c c' : ElfContext} (h : Rebased c c') (i : Nat) :
    sh_offset c' i = sh_offset c i := by
  unfold sh_offset
  rw [h.2.2.2.1]
  exact sh_field_rebased h i _ _

theorem sh_size_rebased {c c' : ElfContext} (h : Rebased c c') (i : Nat) :
    sh_size c' i = sh_size c i := by
  unfold sh_size
  rw [h.2.2.2.1]
  exact sh_field_rebased h i _ _

theorem sh_name_lt {c c' : ElfContext} (h : Rebased c c') (hb : ∀ x ∈ c.mapped, x < 256)
    {i nm : Nat} (hn : sh_name c i = some nm) : nm < 2 ^ 32 := by
  obtain ⟨r1, _, _, _, _, _, _, ⟨k, hk, _⟩, _⟩ := h
  unfold sh_name shdr_addr at hn
  rw [hk, Nat.add_assoc, Nat.add_assoc, readLE_at c r1] at hn
  have := file_le_lt hn hb
  omega

theorem strcmp_name_rebased {c c' : ElfContext} (h : Rebased c c')
    (hb : 2 ^ 32 ≤ c.mapped_data) (hb' : 2 ^ 32 ≤ c'.mapped_data) (nm : Nat)
    (hnm : nm < 2 ^ 32) (s : List Nat) :
    strcmp_eq c' (c'.shstrtab + nm) s = strcmp_eq c (c.shstrtab + nm) s := by
  obtain ⟨r1, r2, r3, _, _, _, _, _, r9, _⟩ := h
  unfold strcmp_eq
  rw [region_same_pointer r1 r2 r3 r9 nm ⟨by omega, by omega⟩]

theorem section_loop_rebased :
    ∀ (fuel i : Nat) (c c' d : ElfContext), Rebased c c' →
      2 ^ 32 ≤ c.mapped_data → 2 ^ 32 ≤ c'.mapped_data → (∀ x ∈ c.mapped, x < 256) →
      section_loop fuel i c = some d →
      ∃ d', section_loop fuel i c' = some d' ∧ Rebased d d' ∧
        d.mapped_data = c.mapped_data ∧ d'.mapped_data = c'.mapped_data := by
  intro fuel
  induction fuel with
  | zero =>
    intro i c c' d hR _ _ _ h
    simp only [section_loop, Option.some.injEq] at h
    subst h
    exact ⟨c', rfl, hR, rfl, rfl⟩
  | succ fuel ih =>
    intro i c c' d hR hb hb' hbytes h
    unfold section_loop at h ⊢
    simp only [Option.bind_eq_some] at h
    obtain ⟨nm, hnm, ty, hty, off, hoff, sz, hsz, h⟩ := h
    rw [sh_name_rebased hR, sh_type_rebased hR, sh_offset_rebased hR, sh_size_rebased hR,
      hnm, hty, hoff, hsz]
    simp only [Option.some_bind]
    have hnmlt := sh_name_lt hR hbytes hnm
    obtain ⟨r1, r2, r3, r4, r5, r6, r7, r8, r9, r10, r11⟩ := hR
    -- the contexts after the test for SHT_DYNAMIC
    have hR1 : Rebased
        (if ty = SHT_DYNAMIC then
          { c with dyn := c.mapped_data + off,
                   dyn_count := sz / (layout c.is_64bit).dyn_size, dyn_section_idx := i }
        else c)
        (if ty = SHT_DYNAMIC then
          { c' with dyn := c'.mapped_data + off,
                    dyn_count := sz / (layout c'.is_64bit).dyn_size, dyn_section_idx := i }
        else c') := by
      by_cases hdy : ty = SHT_DYNAMIC
      · rw [if_pos hdy, if_pos hdy]
        exact ⟨r1, r2, r3, r4, r5, by rw [r4], r7, r8, r9, Or.inr ⟨off, rfl, rfl⟩, r11⟩
      · rw [if_neg hdy, if_neg hdy]
        exact ⟨r1, r2, r3, r4, r5, r6, r7, r8, r9, r10, r11⟩
    have e1 : (if ty = SHT_DYNAMIC then
          { c with dyn := c.mapped_data + off,
                   dyn_count := sz / (layout c.is_64bit).dyn_size, dyn_section_idx := i }
        else c).mapped_data = c.mapped_data ∧
        (if ty = SHT_DYNAMIC then
          { c with dyn := c.mapped_data + off,
                   dyn_count := sz / (layout c.is_64bit).dyn_size, dyn_section_idx := i }
        else c).shstrtab = c.shstrtab ∧
        (if ty = SHT_DYNAMIC then
          { c with dyn := c.mapped_data + off,
                   dyn_count := sz / (layout c.is_64bit).dyn_size, dyn_section_idx := i }
        else c).mapped = c.mapped := by
      split <;> exact ⟨rfl, rfl, rfl⟩
    have e1' : (if ty = SHT_DYNAMIC then
          { c' with dyn := c'.mapped_data + off,
                    dyn_count := sz / (layout c'.is_64bit).dyn_size, dyn_section_idx := i }
        else c').mapped_data = c'.mapped_data ∧
        (if ty = SHT_DYNAMIC then
          { c' with dyn := c'.mapped_data + off,
                    dyn_count := sz / (layout c'.is_64bit).dyn_size, dyn_section_idx := i }
        else c').shstrtab = c'.shstrtab := by
      split <;> exact ⟨rfl, rfl⟩
    generalize (if ty = SHT_DYNAMIC then
          { c with dyn := c.mapped_data + off,
                   dyn_count := sz / (layout c.is_64bit).dyn_size, dyn_section_idx := i }
        else c) = c1 at h hR1 e1
    generalize (if ty = SHT_DYNAMIC then
          { c' with dyn := c'.mapped_data + off,
                    dyn_count := sz / (layout c'.is_64bit).dyn_size, dyn_section_idx := i }
        else c') = c1' at hR1 e1' ⊢
    have hb1 : 2 ^ 32 ≤ c1.mapped_data := by rw [e1.1]; exact hb
    have hb1' : 2 ^ 32 ≤ c1'.mapped_data := by rw [e1'.1]; exact hb'
    have hbytes1 : ∀ x ∈ c1.mapped, x < 256 := by rw [e1.2.2]; exact hbytes
    by_cases hstr : ty = SHT_STRTAB
    · rw [if_pos hstr] at h ⊢
      simp only [Option.bind_eq_some] at h
      obtain ⟨same, hsame, h⟩ := h
      rw [← e1'.2, strcmp_name_rebased hR1 hb1 hb1' nm hnmlt, e1.2.1, hsame]
      simp only [Option.some_bind]
      cases same with
      | true =>
        simp only [if_true] at h ⊢
        obtain ⟨q1, q2, q3, q4, q5, q6, q7, q8, q9, q10, q11⟩ := hR1
        obtain ⟨d', hd', hRd, m1, m2⟩ := ih (i + 1)
          { c1 with dynstr := c1.mapped_data + off, dynstr_size := sz, dynstr_idx := i }
          { c1' with dynstr := c1'.mapped_data + off, dynstr_size := sz, dynstr_idx := i } d
          ⟨q1, q2, q3, q4, q5, q6, rfl, q8, q9, q10, Or.inr ⟨off, rfl, rfl⟩⟩
          hb1 hb1' hbytes1 h
        exact ⟨d', hd', hRd, m1.trans e1.1, m2.trans e1'.1⟩
      | false =>
        simp only [Bool.false_eq_true, if_false] at h ⊢
        obtain ⟨d', hd', hRd, m1, m2⟩ := ih (i + 1) c1 c1' d hR1 hb1 hb1' hbytes1 h
        exact ⟨d', hd', hRd, m1.trans e1.1, m2.trans e1'.1⟩
    · rw [if_neg hstr] at h ⊢
      obtain ⟨d', hd', hRd, m1, m2⟩ := ih (i + 1) c1 c1' d hR1 hb1 hb1' hbytes1 h
      exact ⟨d', hd', hRd, m1.trans e1.1, m2.trans e1'.1⟩

end ElfMod

namespace ElfMod

/-! ### elf_load and elf_get_needed_libs in two mappings -/

theorem dyn_tag_rebased {c c' : ElfContext} (h : Rebased c c') (hne : c.dyn ≠ 0) (i : Nat) :
    dyn_tag c' i = dyn_tag c i := by
  obtain ⟨r1, r2, r3, r4, _, _, _, _, _, r10, _⟩ := h
  rcases r10 with ⟨h0, _⟩ | ⟨k, hk, hk'⟩
  · exact absurd h0 hne
  · unfold dyn_tag dyn_addr
    rw [hk, hk', r4, Nat.add_assoc, Nat.add_assoc, readLE_at c r1, readLE_at c' r2, r3]

theorem dyn_val_rebased {c c' : ElfContext} (h : Rebased c c') (hne : c.dyn ≠ 0) (i : Nat) :
    dyn_val c' i = dyn_val c i := by
  obtain ⟨r1, r2, r3, r4, _, _, _, _, _, r10, _⟩ := h
  rcases r10 with ⟨h0, _⟩ | ⟨k, hk, hk'⟩
  · exact absurd h0 hne
  · unfold dyn_val dyn_addr
    rw [hk, hk', r4, Nat.add_assoc, Nat.add_assoc, Nat.add_assoc, Nat.add_assoc,
      readLE_at c r1, readLE_at c' r2, r3]

theorem cstr_dynstr_rebased {c c' : ElfContext} (h : Rebased c c') (hne : c.dynstr ≠ 0)
    (v : Nat) : cstr c' (c'.dynstr + v) = cstr c (c.dynstr + v) := by
  obtain ⟨r1, r2, r3, _, _, _, _, _, _, _, r11⟩ := h
  unfold cstr
  rw [region_same_pointer_ne r1 r2 r3 r11 hne v]

theorem count_loop_congr {c c' : ElfContext} (ht : ∀ i, dyn_tag c' i = dyn_tag c i) :
    ∀ (fuel i n : Nat), count_loop c' fuel i n = count_loop c fuel i n := by
  intro fuel
  induction fuel with
  | zero => intro i n; rfl
  | succ fuel ih =>
    intro i n
    unfold count_loop
    rw [ht i]
    cases dyn_tag c i with
    | none => rfl
    | some tag =>
      simp only [Option.some_bind]
      split
      · exact ih _ _
      · split
        · rfl
        · exact ih _ _

theorem fill_loop_congr {c c' : ElfContext} (ht : ∀ i, dyn_tag c' i = dyn_tag c i)
    (hv : ∀ i, dyn_val c' i = dyn_val c i)
    (hs : ∀ v, cstr c' (c'.dynstr + v) = cstr c (c.dynstr + v)) (nc : Nat) :
    ∀ (fuel i : Nat) (acc : List (List Nat)),
      fill_loop c' nc fuel i acc = fill_loop c nc fuel i acc := by
  intro fuel
  induction fuel with
  | zero => intro i acc; rfl
  | succ fuel ih =>
    intro i acc
    unfold fill_loop
    split
    · rw [ht i]
      cases dyn_tag c i with
      | none => rfl
      | some tag =>
        simp only [Option.some_bind]
        split
        · rw [hv i]
          cases dyn_val c i with
          | none => rfl
          | some v =>
            simp only [Option.some_bind]
            rw [hs v]
            cases cstr c (c.dynstr + v) with
            | none => rfl
            | some s =>
              simp only [Option.some_bind]
              exact ih _ _
        · split
          · rfl
          · exact ih _ _
    · rfl

theorem elf_get_needed_libs_rebased {c c' : ElfContext} (h : Rebased c c')
    (hd : c.dyn ≠ 0) (hs : c.dynstr ≠ 0) :
    elf_get_needed_libs c' = elf_get_needed_libs c := by
  unfold elf_get_needed_libs
  rw [h.2.2.2.2.2.1, count_loop_congr (dyn_tag_rebased h hd)]
  cases count_loop c c.dyn_count 0 0 with
  | none => rfl
  | some nc =>
    simp only [Option.some_bind]
    split
    · rfl
    · rw [fill_loop_congr (dyn_tag_rebased h hd) (dyn_val_rebased h hd)
        (cstr_dynstr_rebased h hs)]

theorem header_context_rebased (file : List Nat) (b b' cls phoff shoff shnum phnum : Nat)
    (st : Option Nat) :
    Rebased (header_context file b cls phoff shoff shnum phnum st)
      (header_context file b' cls phoff shoff shnum phnum st) := by
  refine ⟨rfl, rfl, rfl, rfl, rfl, rfl, rfl, ⟨shoff, rfl, rfl⟩, ?_, Or.inl ⟨rfl, rfl⟩,
    Or.inl ⟨rfl, rfl⟩⟩
  cases st with
  | none => exact Or.inl ⟨rfl, rfl⟩
  | some o => exact Or.inr ⟨o, rfl, rfl⟩

theorem magic_rebase (file : List Nat) (b b' : Nat) :
    magic_differs
        { zeroed with file_size := file.length, original_size := file.length,
                      mapped_data := b', mapped := file, e_ident := b' } ELFMAG 0 =
      magic_differs
        { zeroed with file_size := file.length, original_size := file.length,
                      mapped_data := b, mapped := file, e_ident := b } ELFMAG 0 := by
  apply magic_differs_rebase <;> rfl

/-- A file that `elf_load` accepts when it is mapped at `b` is accepted when
it is mapped at `b'`, with the same views and the same needed libraries. -/
theorem elf_load_rebase {file : List Nat} {b : Nat} (b' : Nat) {o : Outcome}
    (hb : 2 ^ 32 ≤ b) (hb' : 2 ^ 32 ≤ b') (hbytes : ∀ x ∈ file, x < 256)
    (h : elf_load file b = some o) (hret : o.ret = 0) :
    ∃ o', elf_load file b' = some o' ∧ o'.ret = 0 ∧ Rebased o.ctx o'.ctx ∧
      elf_get_needed_libs o'.ctx = elf_get_needed_libs o.ctx := by
  rw [elf_load_unfold] at h ⊢
  split at h
  · cases h
    simp at hret
  · rename_i hlen
    rw [if_neg hlen]
    rw [magic_rebase file b b']
    cases hm : magic_differs
        { zeroed with file_size := file.length, original_size := file.length,
                      mapped_data := b, mapped := file, e_ident := b } ELFMAG 0 with
    | none => rw [hm] at h; cases h
    | some bad =>
      rw [hm] at h
      simp only [Option.some_bind] at h ⊢
      cases bad with
      | true =>
        simp only [if_true] at h
        cases h
        simp at hret
      | false =>
        simp only [Bool.false_eq_true, if_false] at h ⊢
        cases hh : elf_load_headers file b with
        | none => rw [hh] at h; cases h
        | some hc =>
          rw [hh] at h
          simp only [Option.some_bind] at h
          obtain ⟨cls, phoff, shoff, shnum, phnum, st, hf, rfl⟩ := elf_load_headers_fields hh
          rw [elf_load_headers_of_fields file b' cls phoff shoff shnum phnum st hf]
          simp only [Option.some_bind]
          cases hl : section_loop (header_context file b cls phoff shoff shnum phnum st).section_count
              0 (header_context file b cls phoff shoff shnum phnum st) with
          | none => rw [hl] at h; cases h
          | some c5 =>
            rw [hl] at h
            simp only [Option.some_bind] at h
            obtain ⟨d', hd', hR, m1, m2⟩ := section_loop_rebased _ 0 _ _ c5
              (header_context_rebased file b b' cls phoff shoff shnum phnum st) hb hb' hbytes hl
            have hsc : (header_context file b' cls phoff shoff shnum phnum st).section_count =
                (header_context file b cls phoff shoff shnum phnum st).section_count := rfl
            rw [hsc, hd']
            simp only [Option.some_bind]
            split at h
            · cases h
              simp at hret
            · rename_i hok
              cases h
              have hne : c5.dynstr ≠ 0 ∧ c5.dyn ≠ 0 ∧ c5.dyn_count ≠ 0 :=
                ⟨fun e => hok (Or.inl e), fun e => hok (Or.inr (Or.inl e)),
                  fun e => hok (Or.inr (Or.inr e))⟩
              have hmd' : d'.mapped_data = b' := m2
              have hne' : ¬ (d'.dynstr = 0 ∨ d'.dyn = 0 ∨ d'.dyn_count = 0) := by
                obtain ⟨_, _, _, _, _, r6, _, _, _, r10, r11⟩ := hR
                intro hor
                rcases hor with e | e | e
                · rcases r11 with ⟨e0, _⟩ | ⟨k, _, hk'⟩
                  · exact hne.1 e0
                  · rw [hk', hmd'] at e
                    omega
                · rcases r10 with ⟨e0, _⟩ | ⟨k, _, hk'⟩
                  · exact hne.2.1 e0
                  · rw [hk', hmd'] at e
                    omega
                · rw [r6] at e
                  exact hne.2.2 e
              rw [if_neg hne']
              exact ⟨_, rfl, rfl, hR, elf_get_needed_libs_rebased hR hne.2.1 hne.1⟩

end ElfMod
namespace ElfMod

/-! ## The bytes of a slot after a shorter string has been copied into it -/

theorem take_drop_splice_head (l : List Nat) (o : Nat) (bs : List Nat) (n : Nat)
    (h : o + n ≤ l.length) (hn : bs.length ≤ n) :
    ((splice l o bs).drop o).take n = bs ++ ((l.drop o).take n).drop bs.length := by
  unfold splice
  have h1 : (l.take o).length = o := by simp; omega
  rw [List.append_assoc, List.drop_append_of_le_length (by omega), List.drop_of_length_le (by omega),
    List.nil_append, List.take_append_eq_append_take, List.take_of_length_le hn,
    List.drop_take, List.drop_drop]

/-- A read of a range into whose beginning `bs` has been written: `bs`, then
the bytes that were there. -/
theorem readBytes_writeBytes_head {ctx ctx' : ElfContext} {a : Nat} {bs : List Nat}
    (h : writeBytes ctx a bs = some ctx') {n : Nat} {l : List Nat}
    (hr : readBytes ctx a n = some l) (hn : bs.length ≤ n) :
    readBytes ctx' a n = some (bs ++ l.drop bs.length) := by
  unfold writeBytes at h
  unfold readBytes region at hr
  split at h
  · rename_i hin
    split at h
    · rename_i hfit
      cases h
      rw [if_pos hin] at hr
      simp only [Option.some_bind, List.length_drop] at hr
      split at hr
      · rename_i hfit2
        simp only [Option.some.injEq] at hr
        subst hr
        have hl : (splice ctx.extended (a - ctx.extended_data) bs).length = ctx.extended.length :=
          splice_length _ _ _ (by omega)
        simp only [readBytes, region, hl, hin, and_self, if_true, Option.some_bind,
          List.length_drop]
        rw [if_pos (by omega), take_drop_splice_head _ _ _ _ (by omega) hn]
      · cases hr
    · cases h
  · rename_i hout
    split at h
    · rename_i hin
      split at h
      · rename_i hfit
        cases h
        rw [if_neg hout, if_pos hin] at hr
        simp only [Option.some_bind, List.length_drop] at hr
        split at hr
        · rename_i hfit2
          simp only [Option.some.injEq] at hr
          subst hr
          have hl : (splice ctx.mapped (a - ctx.mapped_data) bs).length = ctx.mapped.length :=
            splice_length _ _ _ (by omega)
          simp only [readBytes, region, hl, hin, hout, and_self, if_true, if_false,
            Option.some_bind, List.length_drop]
          rw [if_pos (by omega), take_drop_splice_head _ _ _ _ (by omega) hn]
        · cases hr
      · cases h
    · cases h

end ElfMod

namespace ElfPatcher

open ElfMod (leNat leBytes DT_NULL DT_NEEDED DT_STRTAB DT_STRSZ)
open Sample

/-! ## The byte swap of a 32-bit value through `be64toh` -/

/-- The upper four bytes of a value below `2 ^ 32` are zero, so that its
64-bit byte swap is a multiple of `2 ^ 32`. -/
theorem bswap8_low (y : Nat) (h : y < 2 ^ 32) : bswap 8 y % 2 ^ 32 = 0 := by
  have h4 : y / 256 / 256 / 256 / 256 = 0 := by omega
  unfold bswap
  simp only [leBytes, List.reverse_cons, List.reverse_nil, List.nil_append, List.cons_append,
    leNat, h4, Nat.zero_div, Nat.zero_mod, Nat.zero_add]
  generalize y / 256 / 256 / 256 % 256 +
    256 * (y / 256 / 256 % 256 + 256 * (y / 256 % 256 + 256 * (y % 256 + 256 * 0))) = r
  omega

theorem to_host64_swap (x : Nat) : to_host64 x true = 0 := by
  unfold to_host64 be64toh
  simp only [if_true]
  rw [Nat.mod_eq_of_lt (a := x % 2 ^ 32) (by omega)]
  exact bswap8_low _ (Nat.mod_lt _ (by decide))

theorem to_file64_swap (x : Nat) : to_file64 x true = 0 := by
  unfold to_file64 be64toh
  simp only [if_true]
  rw [Nat.mod_eq_of_lt (a := x % 2 ^ 32) (by omega)]
  exact bswap8_low _ (Nat.mod_lt _ (by decide))

end ElfPatcher
namespace ElfPatcher

open ElfMod (leNat leBytes splice DT_NULL DT_NEEDED DT_STRTAB DT_STRSZ ELFMAG)

/-! ## What the grow path of patch64 leaves below the old end of the file -/

theorem leNat_append : ∀ (a b : List Nat), leNat (a ++ b) = leNat a + 256 ^ a.length * leNat b := by
  intro a
  induction a with
  | nil => intro b; simp [leNat]
  | cons x xs ih =>
    intro b
    have e : leNat (x :: xs ++ b) = x + 256 * leNat (xs ++ b) := rfl
    rw [e, ih]
    simp only [leNat, List.length_cons, Nat.pow_succ]
    ring

/-- The value of every collected entry is read from the eight bytes at its
`val_offset`, and the entries are 16 bytes apart. -/
theorem collect_loop_vals (file : List Nat) (dyn_off dyn_size : Nat) (swap : Bool) :
    ∀ (fuel cur : Nat) (arr res : List DynEntryInfo64),
      collect_loop file dyn_off dyn_size swap fuel cur arr = some res →
      (∀ d ∈ arr, d.val_offset + 8 ≤ cur ∧ 8 ≤ d.val_offset ∧
        d.val = to_host64 (leNat ((file.drop d.val_offset).take 8)) swap) →
      List.Pairwise (fun a b => a.val_offset + 16 ≤ b.val_offset) arr →
      (∀ d ∈ res, 8 ≤ d.val_offset ∧
        d.val = to_host64 (leNat ((file.drop d.val_offset).take 8)) swap) ∧
      List.Pairwise (fun a b => a.val_offset + 16 ≤ b.val_offset) res := by
  intro fuel
  induction fuel with
  | zero =>
    intro cur arr res h ha hp
    simp only [collect_loop, Option.some.injEq] at h
    subst h
    exact ⟨fun d hd => (ha d hd).2, hp⟩
  | succ fuel ih =>
    intro cur arr res h ha hp
    unfold collect_loop at h
    split at h
    · cases hr : read_at file cur 16 with
      | none => rw [hr] at h; cases h
      | some d =>
        rw [hr] at h
        simp only at h
        have hd : d = (file.drop cur).take 16 := by
          unfold read_at at hr
          split at hr
          · simp only [Option.some.injEq] at hr
            exact hr.symm
          · cases hr
        have hval : d.drop 8 = (file.drop (cur + 8)).take 8 := by
          rw [hd, List.drop_take, List.drop_drop]
        have ha' : ∀ e ∈ arr ++ [(⟨to_host64 (leNat (d.take 8)) swap,
            to_host64 (leNat (d.drop 8)) swap, cur + 8⟩ : DynEntryInfo64)],
            e.val_offset + 8 ≤ cur + 16 ∧ 8 ≤ e.val_offset ∧
              e.val = to_host64 (leNat ((file.drop e.val_offset).take 8)) swap := by
          intro e he
          rcases List.mem_append.mp he with h1 | h1
          · have := ha e h1
            exact ⟨by omega, this.2⟩
          · simp only [List.mem_singleton] at h1
            subst h1
            exact ⟨by simp, by simp, by simp only [hval]⟩
        have hp' : List.Pairwise (fun a b => a.val_offset + 16 ≤ b.val_offset)
            (arr ++ [(⟨to_host64 (leNat (d.take 8)) swap,
              to_host64 (leNat (d.drop 8)) swap, cur + 8⟩ : DynEntryInfo64)]) := by
          rw [List.pairwise_append]
          refine ⟨hp, List.pairwise_singleton _ _, ?_⟩
          intro a ha1 b hb
          simp only [List.mem_singleton] at hb
          subst hb
          have := ha a ha1
          simp only
          omega
        split at h
        · simp only [Option.some.injEq] at h
          subst h
          exact ⟨fun e he => (ha' e he).2, hp'⟩
        · exact ih _ _ _ h ha' hp'
    · simp only [Option.some.injEq] at h
      subst h
      exact ⟨fun d hd => (ha d hd).2, hp⟩

/-- The loop that fills `newtab` changes the `val` of entries tagged
`DT_NEEDED` only. -/
theorem grow_loop_vals (old pfx : List Nat) :
    ∀ (ds : List DynEntryInfo64) (g g' : Grow), grow_loop old pfx ds g = some g' →
      ∃ ds', g'.dyn = g.dyn ++ ds' ∧
        List.Forall₂ (fun a b => a.tag = b.tag ∧ a.val_offset = b.val_offset ∧
          (a.tag ≠ DT_NEEDED → b.val = a.val)) ds ds' := by
  intro ds
  induction ds with
  | nil =>
    intro g g' h
    simp only [grow_loop, Option.some.injEq] at h
    subst h
    exact ⟨[], by simp, List.Forall₂.nil⟩
  | cons d ds ih =>
    intro g g' h
    unfold grow_loop at h
    split at h
    · obtain ⟨ds', h2, h3⟩ := ih _ _ h
      refine ⟨d :: ds', ?_, List.Forall₂.cons ⟨rfl, rfl, fun _ => rfl⟩ h3⟩
      rw [h2]
      simp
    · rename_i hneeded
      have hn : d.tag = DT_NEEDED := by
        by_contra hc
        exact hneeded hc
      split at h
      · cases h
      · simp only at h
        split at h
        · obtain ⟨ds', h2, h3⟩ := ih _ _ h
          refine ⟨d :: ds', ?_, List.Forall₂.cons ⟨rfl, rfl, fun _ => rfl⟩ h3⟩
          rw [h2]
          simp
        · obtain ⟨ds', h2, h3⟩ := ih _ _ h
          refine ⟨{ d with val := g.write_ptr % 2 ^ 32 } :: ds', ?_,
            List.Forall₂.cons ⟨rfl, rfl, fun hc => absurd hn hc⟩ h3⟩
          rw [h2]
          simp

theorem forall2_mem_right {R : DynEntryInfo64 → DynEntryInfo64 → Prop} :
    ∀ (ds ds' : List DynEntryInfo64), List.Forall₂ R ds ds' →
      ∀ d' ∈ ds', ∃ d ∈ ds, R d d' := by
  intro ds ds' h
  induction h with
  | nil => intro d hd; cases hd
  | cons hab _ ih =>
    intro d hd
    rcases List.mem_cons.mp hd with rfl | hd'
    · exact ⟨_, List.mem_cons_self _ _, hab⟩
    · obtain ⟨e, h1, h2⟩ := ih d hd'
      exact ⟨e, List.mem_cons_of_mem _ h1, h2⟩

end ElfPatcher
namespace ElfPatcher

open ElfMod (leNat leBytes splice DT_NULL DT_NEEDED DT_STRTAB DT_STRSZ ELFMAG)

/-- The file the grow path of `patch64` leaves: the new table appended to the
file, then the values written back. -/
theorem patch64_grow_file (file pfx : List Nat) (pos dyn_off dyn_size strtab_off : Nat)
    (eh : Ehdr) (swap : Bool) (dyn : List DynEntryInfo64) (r : Patched)
    (heh : eh = decode_ehdr ((file.drop pos).take 64))
    (hsw : swap = decide ((eh.e_ident.drop EI_DATA).head? ≠ some ELFDATA2LSB))
    (hseg : find_dynamic_segment file eh swap = some (dyn_off, dyn_size))
    (hdyn : collect_dyn_entries file dyn_off dyn_size swap = some dyn)
    (hoff : vaddr_to_offset file eh (last_val DT_STRTAB dyn 0) swap = (strtab_off : Int))
    (hextra : total_extra file strtab_off pfx dyn ≠ 0)
    (hp : patch64 file pos pfx = some r) (hret : r.ret = true) :
    ∃ old g, read_at file strtab_off (last_val DT_STRSZ dyn 0) = some old ∧
      grow_loop old pfx dyn
        ⟨old ++ List.replicate (total_extra file strtab_off pfx dyn) 0,
          last_val DT_STRSZ dyn 0, [], false⟩ = some g ∧
      r.file = write_back
        ((((last_val DT_STRTAB dyn 0 : Nat) : Int) +
          ((file.length : Int) - (strtab_off : Int))) % 2 ^ 32).toNat
        (last_val DT_STRSZ dyn 0 + total_extra file strtab_off pfx dyn) swap g.dyn
        (file ++ g.newtab) := by
  subst heh
  subst hsw
  unfold patch64 at hp
  simp only [hseg, hdyn, hoff, Int.toNat_ofNat] at hp
  split at hp
  · cases hp; cases hret
  split at hp
  · cases hp; cases hret
  split at hp
  · cases hp; cases hret
  try rw [if_neg hextra] at hp
  cases hold : read_at file strtab_off (last_val DT_STRSZ dyn 0) with
  | none => rw [hold] at hp; cases hp
  | some old =>
    rw [hold] at hp
    simp only at hp
    cases hg : grow_loop old pfx dyn
        ⟨old ++ List.replicate (total_extra file strtab_off pfx dyn) 0,
          last_val DT_STRSZ dyn 0, [], false⟩ with
    | none => rw [hg] at hp; cases hp
    | some g =>
      rw [hg] at hp
      simp only [Option.some.injEq] at hp
      subst hp
      exact ⟨old, g, rfl, hg, by rw [write_at_end]⟩

end ElfPatcher
namespace ElfPatcher

open ElfMod (leNat leBytes cstrFrom splice DT_NULL DT_NEEDED DT_STRTAB DT_STRSZ ELFMAG)

/-! ## The number of entries collect_dyn_entries stores -/

/-- The loop of `collect_dyn_entries` stores one entry per 16 bytes of the
segment that lie behind `cur`, the last of them also when fewer than 16 bytes
are left. -/
theorem collect_loop_length (file : List Nat) (dyn_off dyn_size : Nat) (swap : Bool) :
    ∀ (fuel cur : Nat) (arr res : List DynEntryInfo64),
      collect_loop file dyn_off dyn_size swap fuel cur arr = some res →
      res.length ≤ arr.length + (dyn_off + dyn_size - cur + 15) / 16 := by
  intro fuel
  induction fuel with
  | zero =>
    intro cur arr res h
    simp only [collect_loop, Option.some.injEq] at h
    subst h
    omega
  | succ fuel ih =>
    intro cur arr res h
    unfold collect_loop at h
    split at h
    · rename_i hlt
      cases hr : read_at file cur 16 with
      | none => rw [hr] at h; cases h
      | some d =>
        rw [hr] at h
        simp only at h
        split at h
        · simp only [Option.some.injEq] at h
          subst h
          simp only [List.length_append, List.length_singleton]
          omega
        · have := ih _ _ _ h
          simp only [List.length_append, List.length_singleton] at this
          omega
    · simp only [Option.some.injEq] at h
      subst h
      omega

/-- `collect_dyn_entries` stays inside its array when `dyn_size` is a multiple
of the entry size, and stores at most one entry behind its end otherwise. -/
theorem collect_dyn_entries_length (file : List Nat) (dyn_off dyn_size : Nat) (swap : Bool)
    (res : List DynEntryInfo64) (h : collect_dyn_entries file dyn_off dyn_size swap = some res) :
    res.length ≤ max_entries dyn_size + 1 ∧
    (dyn_size % 16 = 0 → res.length ≤ max_entries dyn_size) := by
  have := collect_loop_length file dyn_off dyn_size swap _ _ _ _ h
  simp only [List.length_nil] at this
  unfold max_entries
  constructor
  · omega
  · intro hm
    omega

/-! ## patch64 with the empty prefix -/

theorem total_extra_nil (file : List Nat) (strtab_off : Nat) :
    ∀ dyn : List DynEntryInfo64, total_extra file strtab_off [] dyn = 0 := by
  intro dyn
  induction dyn with
  | nil => rfl
  | cons d ds ih =>
    unfold total_extra
    split
    · exact ih
    · simp [ih]

theorem cstrFrom_split {l s : List Nat} (h : cstrFrom l = some s) :
    l = s ++ 0 :: l.drop (s.length + 1) ∧ (∀ b ∈ s, b ≠ 0) ∧ s.length + 1 ≤ l.length := by
  obtain ⟨h1, h2⟩ := ElfMod.cstrFrom_take l s h
  have hl : s.length + 1 ≤ l.length := by
    have := congrArg List.length h1
    simp only [List.length_take, List.length_append, List.length_singleton] at this
    omega
  refine ⟨?_, h2, hl⟩
  conv_lhs => rw [← List.take_append_drop (s.length + 1) l, h1]
  simp

/-- A terminated name of at most 255 bytes is what the read loop of `patch64`
collects. -/
theorem read_name_of_cstr (file : List Nat) (o : Nat) (s : List Nat)
    (h : cstrFrom (file.drop o) = some s) (hs : s.length ≤ 255) : read_name file o = s := by
  obtain ⟨h1, h2, _⟩ := cstrFrom_split h
  unfold read_name
  rw [h1, List.take_append_eq_append_take, List.take_of_length_le hs,
    List.takeWhile_append_of_pos (by simpa using h2)]
  cases hk : 255 - s.length with
  | zero => simp
  | succ k => simp [List.take_succ_cons]

/-- Writing a terminated name, as it was read, over itself. -/
theorem write_at_name (file : List Nat) (o : Nat) (s : List Nat)
    (h : cstrFrom (file.drop o) = some s) : write_at file o (s ++ [0]) = file := by
  obtain ⟨h1, h2⟩ := ElfMod.cstrFrom_take _ s h
  have hl : o + (s.length + 1) ≤ file.length := by
    have := congrArg List.length h1
    simp only [List.length_take, List.length_append, List.length_singleton,
      List.length_drop] at this
    omega
  rw [write_at_inside _ _ _ (by simpa using hl)]
  exact ElfMod.splice_self file o (s ++ [0]) (by simpa using h1) (by simpa using hl)

/-- The in-place branch with the empty prefix leaves a file whose names fit
the buffer as it is. -/
theorem patch_in_place_nil (strtab_off : Nat) :
    ∀ (dyn : List DynEntryInfo64) (file : List Nat),
      (∀ d ∈ dyn, d.tag = DT_NEEDED → name_within file (strtab_off + d.val) 255) →
      patch_in_place strtab_off [] dyn file = file := by
  intro dyn
  induction dyn with
  | nil => intro file _; rfl
  | cons d ds ih =>
    intro file h
    have hrest := ih file (fun e he => h e (List.mem_cons_of_mem _ he))
    unfold patch_in_place
    split
    · exact hrest
    · rename_i ht
      have ht' : d.tag = DT_NEEDED := by
        by_contra hc
        exact ht hc
      have hn := h d (List.mem_cons_self _ _) ht'
      unfold name_within at hn
      cases hc : cstrFrom (file.drop (strtab_off + d.val)) with
      | none => rw [hc] at hn; exact absurd hn id
      | some s =>
        rw [hc] at hn
        simp only at hn
        have hr := read_name_of_cstr file _ s hc hn
        simp only [hr, snprintf512, List.nil_append]
        rw [List.take_of_length_le (by omega)]
        simp only [Nat.lt_irrefl, if_false, List.replicate_zero, List.append_nil]
        rw [write_at_name file _ s hc]
        exact hrest

end ElfPatcher
namespace ElfPatcher

open ElfMod (leNat leBytes splice DT_NULL DT_NEEDED DT_STRTAB DT_STRSZ ELFMAG)

/-! ## The grow path of patch64: byte order, and the fields it writes -/

/-- A copy that `memcpy_into` does not flag is the whole `memcpy`: all bytes of
`bs` are in the block, from `pos` on. -/
theorem memcpy_into_exact (newtab : List Nat) (pos : Nat) (bs : List Nat)
    (h : (memcpy_into newtab pos bs).2 = false) :
    (memcpy_into newtab pos bs).1 = newtab.take pos ++ bs ++ newtab.drop (pos + bs.length) := by
  unfold memcpy_into at h ⊢
  simp only [decide_eq_false_iff_not, Nat.not_lt] at h
  have e : bs.take (newtab.length - pos) = bs := List.take_of_length_le (by omega)
  simp only [e]

/-- With `swap` set, `to_host64` reads every tag and value as 0: the first
entry collected is a `DT_NULL` entry, and no value is found among the
entries. -/
theorem collect_swap_last_val (file : List Nat) (dyn_off dyn_size : Nat)
    (dyn : List DynEntryInfo64)
    (h : collect_dyn_entries file dyn_off dyn_size true = some dyn) (tag : Nat) :
    last_val tag dyn 0 = 0 := by
  unfold collect_dyn_entries at h
  unfold collect_loop at h
  split at h
  · cases hr : read_at file dyn_off 16 with
    | none => rw [hr] at h; cases h
    | some d =>
      rw [hr] at h
      simp only [to_host64_swap] at h
      rw [if_pos (by rfl)] at h
      simp only [Option.some.injEq] at h
      subst h
      simp [last_val]
  · simp only [Option.some.injEq] at h
    subst h
    rfl

/-- When `patch64` returns TRUE, the entries hold a `DT_STRTAB` value that is
not 0. -/
theorem patch64_true_strtab (file pfx : List Nat) (pos dyn_off dyn_size : Nat)
    (eh : Ehdr) (swap : Bool) (dyn : List DynEntryInfo64) (r : Patched)
    (heh : eh = decode_ehdr ((file.drop pos).take 64))
    (hsw : swap = decide ((eh.e_ident.drop EI_DATA).head? ≠ some ELFDATA2LSB))
    (hseg : find_dynamic_segment file eh swap = some (dyn_off, dyn_size))
    (hdyn : collect_dyn_entries file dyn_off dyn_size swap = some dyn)
    (hp : patch64 file pos pfx = some r) (hret : r.ret = true) :
    last_val DT_STRTAB dyn 0 ≠ 0 := by
  subst heh
  subst hsw
  unfold patch64 at hp
  simp only [hseg, hdyn] at hp
  split at hp
  · cases hp; cases hret
  split at hp
  · cases hp; cases hret
  rename_i h2
  exact fun hc => h2 (Or.inl hc)

/-- `patch64` returns TRUE for files marked little-endian only. -/
theorem patch64_true_little_endian (file pfx : List Nat) (pos dyn_off dyn_size : Nat)
    (eh : Ehdr) (swap : Bool) (dyn : List DynEntryInfo64) (r : Patched)
    (heh : eh = decode_ehdr ((file.drop pos).take 64))
    (hsw : swap = decide ((eh.e_ident.drop EI_DATA).head? ≠ some ELFDATA2LSB))
    (hseg : find_dynamic_segment file eh swap = some (dyn_off, dyn_size))
    (hdyn : collect_dyn_entries file dyn_off dyn_size swap = some dyn)
    (hp : patch64 file pos pfx = some r) (hret : r.ret = true) :
    swap = false := by
  have hne := patch64_true_strtab file pfx pos dyn_off dyn_size eh swap dyn r heh hsw hseg hdyn
    hp hret
  cases swap with
  | false => rfl
  | true => exact absurd (collect_swap_last_val file dyn_off dyn_size dyn hdyn DT_STRTAB) hne

/-- The grow path of `patch64` reports the flag of the loop that fills
`newtab`. -/
theorem patch64_grow_flag (file pfx : List Nat) (pos dyn_off dyn_size strtab_off : Nat)
    (eh : Ehdr) (swap : Bool) (dyn : List DynEntryInfo64) (r : Patched)
    (heh : eh = decode_ehdr ((file.drop pos).take 64))
    (hsw : swap = decide ((eh.e_ident.drop EI_DATA).head? ≠ some ELFDATA2LSB))
    (hseg : find_dynamic_segment file eh swap = some (dyn_off, dyn_size))
    (hdyn : collect_dyn_entries file dyn_off dyn_size swap = some dyn)
    (hoff : vaddr_to_offset file eh (last_val DT_STRTAB dyn 0) swap = (strtab_off : Int))
    (hextra : total_extra file strtab_off pfx dyn ≠ 0)
    (hp : patch64 file pos pfx = some r) (hret : r.ret = true)
    (old : List Nat) (g : Grow)
    (hold : read_at file strtab_off (last_val DT_STRSZ dyn 0) = some old)
    (hg : grow_loop old pfx dyn
      ⟨old ++ List.replicate (total_extra file strtab_off pfx dyn) 0,
        last_val DT_STRSZ dyn 0, [], false⟩ = some g) :
    r.overflow = g.overflow := by
  subst heh
  subst hsw
  unfold patch64 at hp
  simp only [hseg, hdyn, hoff, Int.toNat_ofNat] at hp
  split at hp
  · cases hp; cases hret
  split at hp
  · cases hp; cases hret
  split at hp
  · cases hp; cases hret
  try rw [if_neg hextra] at hp
  rw [hold] at hp
  simp only at hp
  rw [hg] at hp
  simp only [Option.some.injEq] at hp
  subst hp
  rfl

/-- Below the old end of the file, the grow path of `patch64` changes no byte
outside the low four bytes of the `d_val` fields of the collected entries. -/
theorem patch64_grow_outside (file pfx : List Nat) (pos dyn_off dyn_size strtab_off : Nat)
    (eh : Ehdr) (swap : Bool) (dyn : List DynEntryInfo64) (r : Patched)
    (heh : eh = decode_ehdr ((file.drop pos).take 64))
    (hsw : swap = decide ((eh.e_ident.drop EI_DATA).head? ≠ some ELFDATA2LSB))
    (hseg : find_dynamic_segment file eh swap = some (dyn_off, dyn_size))
    (hdyn : collect_dyn_entries file dyn_off dyn_size swap = some dyn)
    (hoff : vaddr_to_offset file eh (last_val DT_STRTAB dyn 0) swap = (strtab_off : Int))
    (hextra : total_extra file strtab_off pfx dyn ≠ 0)
    (hp : patch64 file pos pfx = some r) (hret : r.ret = true)
    (off n : Nat) (hfit : off + n ≤ file.length)
    (hout : ∀ d ∈ dyn, off + n ≤ d.val_offset ∨ d.val_offset + 4 ≤ off) :
    (r.file.drop off).take n = (file.drop off).take n := by
  obtain ⟨old, g, hold, hg, hfile⟩ := patch64_grow_file file pfx pos dyn_off dyn_size strtab_off
    eh swap dyn r heh hsw hseg hdyn hoff hextra hp hret
  obtain ⟨ds', hds, hrel⟩ := grow_loop_vals old pfx dyn _ g hg
  simp only [List.nil_append] at hds
  obtain ⟨hcb, hcp⟩ := collect_loop_spec file dyn_off dyn_size _ _ _ [] dyn hdyn
    (fun d hd => absurd hd (List.not_mem_nil _)) List.Pairwise.nil
  have hrel2 : List.Forall₂ (fun a b => a.tag = b.tag ∧ a.val_offset = b.val_offset) dyn ds' :=
    List.Forall₂.imp (fun _ _ h => ⟨h.1, h.2.1⟩) hrel
  have hmap := forall2_val_offset dyn ds' hrel2
  have hpw : List.Pairwise (fun a b => a.val_offset + 4 ≤ b.val_offset) g.dyn := by
    rw [hds]
    have h1 : List.Pairwise (fun a b => a + 4 ≤ b) (dyn.map DynEntryInfo64.val_offset) :=
      List.pairwise_map.mpr hcp
    rw [← hmap] at h1
    exact List.pairwise_map.mp h1
  have hbd : ∀ d ∈ g.dyn, d.val_offset + 8 ≤ file.length := by
    intro d hd
    rw [hds] at hd
    obtain ⟨e, he, hev⟩ := forall2_mem_right dyn ds' hrel d hd
    have := hcb e he
    omega
  obtain ⟨_, _, w3⟩ := write_back_spec
    ((((last_val DT_STRTAB dyn 0 : Nat) : Int) +
      ((file.length : Int) - (strtab_off : Int))) % 2 ^ 32).toNat
    (last_val DT_STRSZ dyn 0 + total_extra file strtab_off pfx dyn) swap g.dyn
    (file ++ g.newtab) hpw
    (fun d hd => by have := hbd d hd; simp only [List.length_append]; omega)
  rw [← hfile] at w3
  have hdis : ∀ d' ∈ g.dyn, off + n ≤ d'.val_offset ∨ d'.val_offset + 4 ≤ off := by
    intro d' hd'
    rw [hds] at hd'
    obtain ⟨e, he, hev⟩ := forall2_mem_right dyn ds' hrel d' hd'
    have := hout e he
    omega
  rw [w3 off n hdis]
  exact ElfMod.take_drop_append_left file g.newtab off n hfit

/-- The grow path of `patch64` leaves the upper four bytes of every `d_val`
field as they are. -/
theorem patch64_grow_upper (file pfx : List Nat) (pos dyn_off dyn_size strtab_off : Nat)
    (eh : Ehdr) (swap : Bool) (dyn : List DynEntryInfo64) (r : Patched)
    (heh : eh = decode_ehdr ((file.drop pos).take 64))
    (hsw : swap = decide ((eh.e_ident.drop EI_DATA).head? ≠ some ELFDATA2LSB))
    (hseg : find_dynamic_segment file eh swap = some (dyn_off, dyn_size))
    (hdyn : collect_dyn_entries file dyn_off dyn_size swap = some dyn)
    (hoff : vaddr_to_offset file eh (last_val DT_STRTAB dyn 0) swap = (strtab_off : Int))
    (hextra : total_extra file strtab_off pfx dyn ≠ 0)
    (hp : patch64 file pos pfx = some r) (hret : r.ret = true)
    (d : DynEntryInfo64) (hd : d ∈ dyn) :
    (r.file.drop (d.val_offset + 4)).take 4 = (file.drop (d.val_offset + 4)).take 4 := by
  obtain ⟨hcb, _⟩ := collect_loop_spec file dyn_off dyn_size _ _ _ [] dyn hdyn
    (fun d hd => absurd hd (List.not_mem_nil _)) List.Pairwise.nil
  obtain ⟨_, hcp⟩ := collect_loop_vals file dyn_off dyn_size _ _ _ [] dyn hdyn
    (fun d hd => absurd hd (List.not_mem_nil _)) List.Pairwise.nil
  apply patch64_grow_outside file pfx pos dyn_off dyn_size strtab_off eh swap dyn r heh hsw hseg
    hdyn hoff hextra hp hret (d.val_offset + 4) 4 (by have := hcb d hd; omega)
  intro e he
  by_cases hne : e = d
  · rw [hne]
    exact Or.inr (le_refl _)
  · have hsym : List.Pairwise (fun a b : DynEntryInfo64 =>
        a.val_offset + 16 ≤ b.val_offset ∨ b.val_offset + 16 ≤ a.val_offset) dyn :=
      hcp.imp (fun h => Or.inl h)
    have := hsym.forall (fun a b h => h.symm) he hd hne
    omega

/-- A field of eight bytes as an integer, from its two halves. -/
theorem leNat_field (l : List Nat) (o v : Nat) (hi : List Nat)
    (h1 : (l.drop o).take 4 = leBytes 4 v) (h2 : (l.drop (o + 4)).take 4 = hi) :
    leNat ((l.drop o).take 8) = v % 2 ^ 32 + 2 ^ 32 * leNat hi := by
  have e : (l.drop o).take 8 = (l.drop o).take 4 ++ ((l.drop o).drop 4).take 4 := by
    rw [show 8 = 4 + 4 from rfl, List.take_add]
  rw [e, List.drop_drop, h1, leNat_append, ElfMod.leNat_leBytes, ElfMod.leBytes_length]
  rw [h2]
  norm_num

end ElfPatcher


/-! ## The claims about the in-memory library -/

namespace ElfMod

open Sample

/-- C1: on an image whose dynamic table `es` can be read, `elf_get_needed_libs`
returns what the enumerator of the specification returns: the strings at
`dynstr + d_val` of the entries tagged `DT_NEEDED` that precede the first
`DT_NULL` entry (all entries when there is none), in table order and with
duplicates kept, never an entry after the first `DT_NULL`; the count is the
number of names; and when there is no such entry the result is `NULL` with
count 0 and no call of `set_error`. -/
theorem elf_get_needed_libs_spec (ctx : ElfContext) (es : List (Nat × Nat))
    (h : dyn_table ctx = some es) :
    elf_get_needed_libs ctx = spec_needed_libs ctx es := by
  unfold elf_get_needed_libs spec_needed_libs
  rw [count_loop_eq ctx ctx.dyn_count 0 0 es h]
  simp only [Nat.zero_add, Option.some_bind]
  split
  · rename_i hz
    have hnil : spec_needed_offsets es = [] := List.eq_nil_of_length_eq_zero hz
    simp [hnil, resolve_all]
  · rename_i hnz
    rw [fill_loop_eq ctx _ ctx.dyn_count 0 [] es h (by simp)]
    cases hr : resolve_all ctx (spec_needed_offsets es) with
    | none => simp
    | some names =>
      have hl := resolve_all_length ctx _ names hr
      cases names with
      | nil => simp at hl; omega
      | cons n ns => simp [← hl]

set_option maxRecDepth 100000 in
/-- C1, at an image whose table is `NEEDED libc.so.6, STRTAB, STRSZ, NULL,
NEEDED libm.so.6`: only `libc.so.6` is returned. -/
theorem elf_get_needed_libs_spec_witness :
    dyn_table ctx_after_null = some [(DT_NEEDED, 1), (DT_STRTAB, 176), (DT_STRSZ, 24), (DT_NULL, 0), (DT_NEEDED, 11)] ∧
    elf_get_needed_libs ctx_after_null =
      spec_needed_libs ctx_after_null [(DT_NEEDED, 1), (DT_STRTAB, 176), (DT_STRSZ, 24), (DT_NULL, 0), (DT_NEEDED, 11)] ∧
    elf_get_needed_libs ctx_after_null = some ⟨some [libc], 1, none⟩ :=
  ⟨by decide, elf_get_needed_libs_spec _ _ (by decide), by decide⟩

/-- C7: when `old` is not among the names of the `DT_NEEDED` entries before the
terminator, `elf_replace_needed_lib` returns -1 and the context it leaves is the
context it was given, whatever `new` is: same bytes in both blocks, same
`file_size`, same pointers, same expansion state. -/
theorem replace_absent_unmodified (ctx : ElfContext) (old new : List Nat) (alloc : Option Nat)
    (es : List (Nat × Nat)) (names : List (List Nat)) (hold : CStr old)
    (ht : dyn_table ctx = some es)
    (hn : resolve_all ctx (spec_needed_offsets es) = some names)
    (habs : old ∉ names) :
    elf_replace_needed_lib ctx old new alloc =
      some ⟨-1, ctx, some "Library not found in DT_NEEDED: %s"⟩ := by
  unfold elf_replace_needed_lib
  rw [find_loop_none ctx old hold.nonzero ctx.dyn_count 0 es ht]
  · rfl
  · intro v hv _
    obtain ⟨t, htn, hc⟩ := resolve_all_mem ctx _ names hn v hv
    refine ⟨t, hc, ?_⟩
    intro heq
    exact habs (heq ▸ htn)

set_option maxRecDepth 100000 in
/-- C7, at the image with `libc.so.6` and `libm.so.6`, for the absent name
`libcustom.so` and a longer and a shorter new name. -/
theorem replace_absent_unmodified_witness :
    elf_replace_needed_lib ctx_text_first libcustom (libcustom ++ libc) (some 0x20000) =
      some ⟨-1, ctx_text_first, some "Library not found in DT_NEEDED: %s"⟩ ∧
    elf_replace_needed_lib ctx_text_first libcustom ld_so none =
      some ⟨-1, ctx_text_first, some "Library not found in DT_NEEDED: %s"⟩ :=
  ⟨replace_absent_unmodified ctx_text_first libcustom (libcustom ++ libc) (some 0x20000)
      [(DT_NEEDED, 1), (DT_NEEDED, 11), (DT_STRTAB, 176), (DT_STRSZ, 24), (DT_NULL, 0)] [libc, libm]
      (by decide) (by decide) (by decide) (by decide),
   replace_absent_unmodified ctx_text_first libcustom ld_so none
      [(DT_NEEDED, 1), (DT_NEEDED, 11), (DT_STRTAB, 176), (DT_STRSZ, 24), (DT_NULL, 0)] [libc, libm]
      (by decide) (by decide) (by decide) (by decide)⟩

set_option maxRecDepth 100000 in
/-- C6 as stated fails: in this loaded image the second `DT_NEEDED` entry has
`d_val = 11 = dynstr_size`; `elf_get_needed_libs` resolves it to `libm.so.6`,
but the search of `elf_replace_needed_lib` skips it (`str_idx < dynstr_size`
is false), so replacing `libm.so.6` by itself returns -1, not 0. -/
theorem replace_same_name_outside_table :
    (elf_load file_outside 0x10000).map (fun o => o.ret) = some 0 ∧
    ctx_outside.dynstr_size = 11 ∧
    dyn_table ctx_outside = some [(DT_NEEDED, 1), (DT_NEEDED, 11), (DT_STRTAB, 176), (DT_STRSZ, 11), (DT_NULL, 0)] ∧
    elf_get_needed_libs ctx_outside = some ⟨some [libc, libm], 2, none⟩ ∧
    (elf_replace_needed_lib ctx_outside libm libm none).isSome = true ∧
    (replaced ctx_outside libm libm none).ret = -1 ∧
    (replaced ctx_outside libm libm none).err = some "Library not found in DT_NEEDED: %s" := by
  decide

/-- C6, amended: when `n` is the name of a `DT_NEEDED` entry before the
terminator whose `d_val` lies inside the string table (`d_val < dynstr_size`),
`elf_replace_needed_lib(ctx, n, n)` returns 0, records no error and leaves the
context exactly as it was: same bytes in both blocks, same sizes, same
dynamic entries. -/
theorem replace_same_name_identity (ctx : ElfContext) (n : List Nat) (alloc : Option Nat)
    (es : List (Nat × Nat)) (names : List (List Nat)) (hn : CStr n)
    (ht : dyn_table ctx = some es)
    (hr : resolve_all ctx (spec_needed_offsets es) = some names)
    (hex : ∃ v ∈ spec_needed_offsets es, v < ctx.dynstr_size ∧
      cstr ctx (ctx.dynstr + v) = some n) :
    elf_replace_needed_lib ctx n n alloc = some ⟨0, ctx, none⟩ := by
  have hall : ∀ v ∈ spec_needed_offsets es, v < ctx.dynstr_size →
      ∃ t, cstr ctx (ctx.dynstr + v) = some t := by
    intro v hv _
    obtain ⟨t, _, hc⟩ := resolve_all_mem ctx _ names hr v hv
    exact ⟨t, hc⟩
  obtain ⟨k, v, hf⟩ := find_loop_exists ctx n hn.nonzero ctx.dyn_count 0 es ht hall hex
  obtain ⟨_, _, _, _, _, hc⟩ := find_loop_some ctx n hn.nonzero ctx.dyn_count 0 k v hf
  have hrd := (cstr_iff_readBytes ctx (ctx.dynstr + v) n hn.nonzero).1 hc
  have hw : writeBytes ctx (ctx.dynstr + v) (n ++ [0]) = some ctx :=
    writeBytes_self (by simpa using hrd)
  unfold elf_replace_needed_lib
  simp [hf, strcpy, hw]

set_option maxRecDepth 100000 in
/-- C6 amended, at the image with `libc.so.6` and `libm.so.6`, for `libm.so.6`. -/
theorem replace_same_name_identity_witness :
    elf_replace_needed_lib ctx_text_first libm libm none = some ⟨0, ctx_text_first, none⟩ :=
  replace_same_name_identity ctx_text_first libm none
    [(DT_NEEDED, 1), (DT_NEEDED, 11), (DT_STRTAB, 176), (DT_STRSZ, 24), (DT_NULL, 0)] [libc, libm]
    (by decide) (by decide) (by decide) ⟨11, by decide, by decide, by decide⟩

/-- C5: on a well-formed image, replacing the name `old` of a `DT_NEEDED` entry by
a name `new` that is not longer returns 0 without an error; the entry `k` the
search stops at keeps its tag and its `d_val`, and the string at that offset is
now `new`; no scalar field of the context changes, so the image is not expanded
(`is_expanded` is as before) and `elf_save` writes as many bytes as before the
call. -/
theorem replace_in_place (ctx : ElfContext) (old new : List Nat) (alloc : Option Nat)
    (es : List (Nat × Nat)) (hwf : WellFormed ctx) (hold : CStr old) (hnew : CStr new)
    (hlen : new.length ≤ old.length) (ht : dyn_table ctx = some es)
    (hex : ∃ v ∈ spec_needed_offsets es, cstr ctx (ctx.dynstr + v) = some old) :
    ∃ k v ctx', find_loop ctx old ctx.dyn_count 0 = some (some (k, v)) ∧
      elf_replace_needed_lib ctx old new alloc = some ⟨0, ctx', none⟩ ∧
      dyn_tag ctx' k = some DT_NEEDED ∧
      dyn_val ctx k = some v ∧ dyn_val ctx' k = some v ∧
      cstr ctx (ctx.dynstr + v) = some old ∧
      cstr ctx' (ctx'.dynstr + v) = some new ∧
      scalars ctx' = scalars ctx ∧
      ctx'.is_expanded = ctx.is_expanded ∧
      size_to_write ctx' = size_to_write ctx ∧
      (elf_save ctx').map List.length = (elf_save ctx).map List.length := by
  obtain ⟨hdis, es', ht', hin⟩ := hwf.elim
  rw [ht] at ht'
  cases ht'
  have hall : ∀ v ∈ spec_needed_offsets es, v < ctx.dynstr_size →
      ∃ t, cstr ctx (ctx.dynstr + v) = some t := by
    intro v hv _
    obtain ⟨s, hs, _⟩ := string_inside_elim (hin v hv)
    exact ⟨s, hs⟩
  have hex' : ∃ v ∈ spec_needed_offsets es, v < ctx.dynstr_size ∧
      cstr ctx (ctx.dynstr + v) = some old := by
    obtain ⟨v, hv, hc⟩ := hex
    obtain ⟨s, hs, hlt⟩ := string_inside_elim (hin v hv)
    exact ⟨v, hv, by omega, hc⟩
  obtain ⟨k, v, hf⟩ := find_loop_exists ctx old hold.nonzero ctx.dyn_count 0 es ht hall hex'
  obtain ⟨_, hk, htag, hval, _, hc⟩ := find_loop_some ctx old hold.nonzero ctx.dyn_count 0 k v hf
  have hmem := find_loop_mem ctx old ctx.dyn_count 0 k v es ht hf
  obtain ⟨s, hs, hfit⟩ := string_inside_elim (hin v hmem)
  rw [hc] at hs
  cases hs
  have hrd := (cstr_iff_readBytes ctx (ctx.dynstr + v) old hold.nonzero).1 hc
  obtain ⟨ctx', hw⟩ := writeBytes_of_readBytes hrd (new ++ [0]) (by simp; omega)
  have hsc := writeBytes_scalars hw
  have hlens := writeBytes_lengths hw
  have hdynstr : ctx'.dynstr = ctx.dynstr := by
    have e := congrArg ElfContext.dynstr hsc; exact e
  have hfld := dyn_field_after_write hw hdis (by omega) (by simp; omega) k (by omega)
  refine ⟨k, v, ctx', hf, ?_, ?_, hval, ?_, hc, ?_, hsc, ?_, size_to_write_congr hsc, ?_⟩
  · unfold elf_replace_needed_lib
    simp [hf, hlen, strcpy, hw]
  · rw [hfld.1, htag]
  · rw [hfld.2, hval]
  · rw [hdynstr, cstr_iff_readBytes ctx' _ new hnew.nonzero]
    have := readBytes_writeBytes_same hw
    simpa using this
  · have e := congrArg ElfContext.is_expanded hsc; exact e
  · unfold elf_save
    rw [data_to_write_congr hsc, size_to_write_congr hsc]
    exact readBytes_length_congr hsc hlens.1 hlens.2 _ _

set_option maxRecDepth 100000 in
/-- C5, at the image with `libc.so.6` and `libm.so.6` (650 bytes): replacing
`libm.so.6` by `ld.so`; the image before the call is well-formed and names
`libm.so.6`; afterwards the names are `libc.so.6`, `ld.so` and `elf_save`
writes 650 bytes. -/
theorem replace_in_place_witness :
    WellFormed ctx_text_first ∧ ld_so.length ≤ libm.length ∧
    file_text_first.length = 650 ∧
    (elf_save (replaced ctx_text_first libm ld_so none).ctx).map List.length = some 650 ∧
    elf_get_needed_libs (replaced ctx_text_first libm ld_so none).ctx =
      some ⟨some [libc, ld_so], 2, none⟩ ∧
    ∃ k v ctx', find_loop ctx_text_first libm ctx_text_first.dyn_count 0 = some (some (k, v)) ∧
      elf_replace_needed_lib ctx_text_first libm ld_so none = some ⟨0, ctx', none⟩ ∧
      dyn_tag ctx' k = some DT_NEEDED ∧
      dyn_val ctx_text_first k = some v ∧ dyn_val ctx' k = some v ∧
      cstr ctx_text_first (ctx_text_first.dynstr + v) = some libm ∧
      cstr ctx' (ctx'.dynstr + v) = some ld_so ∧
      scalars ctx' = scalars ctx_text_first ∧
      ctx'.is_expanded = ctx_text_first.is_expanded ∧
      size_to_write ctx' = size_to_write ctx_text_first ∧
      (elf_save ctx').map List.length = (elf_save ctx_text_first).map List.length :=
  ⟨by decide, by decide, by decide, by decide, by decide,
   replace_in_place ctx_text_first libm ld_so none
    [(DT_NEEDED, 1), (DT_NEEDED, 11), (DT_STRTAB, 176), (DT_STRSZ, 24), (DT_NULL, 0)]
    (by decide) (by decide) (by decide) (by decide) (by decide) ⟨11, by decide, by decide⟩⟩

/-- C9: let `ctx` be an image (what `elf_load` returns with status 0, and what
calls of `elf_replace_needed_lib` make of it) and let a call of
`elf_replace_needed_lib` on it return. Then `elf_save` writes a buffer `before`
for `ctx` and a buffer `after` for the context the call leaves, `after` is at
least as long as `before`, and when the call returns 0 with `new` longer than
`old`, `after` is at least `len(new) - len(old)` bytes longer than `before`. -/
theorem replace_size_monotone (ctx : ElfContext) (old new : List Nat) (alloc : Option Nat)
    (o : Outcome) (hi : Image ctx)
    (h : elf_replace_needed_lib ctx old new alloc = some o) :
    ∃ before after, elf_save ctx = some before ∧ elf_save o.ctx = some after ∧
      before.length ≤ after.length ∧
      (o.ret = 0 → old.length < new.length →
        before.length + (new.length - old.length) ≤ after.length) := by
  have hc := image_consistent hi
  have hc2 := replace_consistent h hc
  obtain ⟨s1, l1⟩ := elf_save_consistent hc
  obtain ⟨s2, l2⟩ := elf_save_consistent hc2
  have hinv : ctx.is_expanded = true → ctx.extended_size = ctx.file_size := by
    intro hx
    unfold Consistent at hc
    rw [if_pos hx] at hc
    exact hc.2.1.symm
  obtain ⟨m1, m2, m3⟩ := replace_size_to_write ctx old new alloc o hinv h
  have e1 : size_to_write ctx = ctx.file_size := by
    unfold size_to_write
    split
    · rename_i hx
      exact hinv hx
    · rfl
  have e2 : size_to_write o.ctx = o.ctx.file_size := by
    unfold size_to_write
    split
    · rename_i hx
      exact m3 hx
    · rfl
  rw [e1, e2] at m1 m2
  refine ⟨image_buffer ctx, image_buffer o.ctx, s1, s2, ?_, ?_⟩
  · rw [l1, l2]
    exact m1
  · intro hr hl
    rw [l1, l2]
    exact m2 hr hl

set_option maxRecDepth 100000 in
/-- C9, at the image with `libc.so.6` and `libm.so.6` (650 bytes): replacing
`libc.so.6` (9 bytes) by `libcustom.so` (12 bytes) returns 0; `elf_save` wrote
650 bytes before the call and writes 669 bytes after it. -/
theorem replace_size_monotone_witness :
    Image ctx_text_first ∧
    (replaced ctx_text_first libc libcustom (some 0x20000)).ret = 0 ∧
    libc.length = 9 ∧ libcustom.length = 12 ∧
    (elf_save ctx_text_first).map List.length = some 650 ∧
    (elf_save (replaced ctx_text_first libc libcustom (some 0x20000)).ctx).map List.length =
      some 669 ∧
    ∃ before after, elf_save ctx_text_first = some before ∧
      elf_save (replaced ctx_text_first libc libcustom (some 0x20000)).ctx = some after ∧
      before.length ≤ after.length ∧
      ((replaced ctx_text_first libc libcustom (some 0x20000)).ret = 0 →
        libc.length < libcustom.length →
        before.length + (libcustom.length - libc.length) ≤ after.length) :=
  ⟨loaded_is_image file_text_first 0x10000 (by decide), by decide, by decide, by decide,
   by decide, by decide,
   replace_size_monotone ctx_text_first libc libcustom (some 0x20000)
     (replaced ctx_text_first libc libcustom (some 0x20000))
     (loaded_is_image file_text_first 0x10000 (by decide))
     (replaced_eq _ _ _ _ (by decide))⟩

set_option maxRecDepth 100000 in
/-- C2 fails on the code. In `file_dynamic_first` the section `.dynamic` (file
offset 200) directly follows `.dynstr` (file offset 176, 24 bytes); the image
is loaded, well-formed and names `libc.so.6`, `libm.so.6`. Replacing
`libc.so.6` by the longer `libcustom.so` returns 0, but afterwards
`elf_get_needed_libs` returns `libm.so.6` alone: `strcpy` wrote the new name at
`dynstr + 24`, over the first dynamic entry, whose tag is no longer
`DT_NEEDED`. -/
theorem replace_longer_overwrites_dynamic :
    (elf_load file_dynamic_first 0x10000).map (fun o => o.ret) = some 0 ∧
    WellFormed ctx_dynamic_first ∧
    ctx_dynamic_first.dynstr = 0x10000 + 176 ∧ ctx_dynamic_first.dynstr_size = 24 ∧
    ctx_dynamic_first.dyn = 0x10000 + 200 ∧
    elf_get_needed_libs ctx_dynamic_first = some ⟨some [libc, libm], 2, none⟩ ∧
    (replaced ctx_dynamic_first libc libcustom (some 0x20000)).ret = 0 ∧
    (elf_replace_needed_lib ctx_dynamic_first libc libcustom (some 0x20000)).isSome = true ∧
    dyn_tag (replaced ctx_dynamic_first libc libcustom (some 0x20000)).ctx 0 =
      some (leNat (libcustom.take 8)) ∧
    elf_get_needed_libs (replaced ctx_dynamic_first libc libcustom (some 0x20000)).ctx =
      some ⟨some [libm], 1, none⟩ := by
  decide

set_option maxRecDepth 100000 in
/-- C3 fails on the code. In `file_text_first` (650 bytes) `.dynstr` occupies the
file offsets 176 to 199 and the section `.text` the offsets 200 to 215. After
`libc.so.6` is replaced by `libcustom.so` (return value 0, image grown to 669
bytes) the first 650 bytes differ from the original at the offsets 200 to 212
(the new name and its terminator, written over `.text`), 224 (the `d_val` of
the entry) and 426 (the `sh_size` of `.dynstr`); the 19 bytes at and beyond the
original end of the file are all zero. -/
theorem replace_longer_writes_inside_file :
    (elf_load file_text_first 0x10000).map (fun o => o.ret) = some 0 ∧
    WellFormed ctx_text_first ∧
    ctx_text_first.mapped.length = 650 ∧
    (replaced ctx_text_first libc libcustom (some 0x20000)).ret = 0 ∧
    (elf_replace_needed_lib ctx_text_first libc libcustom (some 0x20000)).isSome = true ∧
    (elf_save (replaced ctx_text_first libc libcustom (some 0x20000)).ctx).map List.length =
      some 669 ∧
    (replaced ctx_text_first libc libcustom (some 0x20000)).ctx.extended.length = 669 ∧
    differing (replaced ctx_text_first libc libcustom (some 0x20000)).ctx.extended
        ctx_text_first.mapped 0 =
      [200, 201, 202, 203, 204, 205, 206, 207, 208, 209, 210, 211, 212, 224, 426] ∧
    ((replaced ctx_text_first libc libcustom (some 0x20000)).ctx.extended.drop 200).take 13 =
      libcustom ++ [0] ∧
    (ctx_text_first.mapped.drop 200).take 13 = List.replicate 13 0x90 ∧
    (replaced ctx_text_first libc libcustom (some 0x20000)).ctx.extended.drop 650 =
      List.replicate 19 0 := by
  decide

set_option maxRecDepth 100000 in
/-- C4 fails on the code. In the well-formed image `file_dynamic_first`, whose
`.dynamic` directly follows `.dynstr`, replacing `libm.so.6` (second entry) by
the longer `libmath.so.6` returns 0; the first entry, which named `libc.so.6`
and was not the one repointed, has lost its `DT_NEEDED` tag to the bytes of the
new name, and `elf_get_needed_libs` returns `libmath.so.6` alone. -/
theorem replace_longer_loses_other_entry :
    WellFormed ctx_dynamic_first ∧
    elf_get_needed_libs ctx_dynamic_first = some ⟨some [libc, libm], 2, none⟩ ∧
    find_loop ctx_dynamic_first libm ctx_dynamic_first.dyn_count 0 = some (some (1, 11)) ∧
    dyn_tag ctx_dynamic_first 0 = some DT_NEEDED ∧
    cstr ctx_dynamic_first (ctx_dynamic_first.dynstr + 1) = some libc ∧
    (elf_replace_needed_lib ctx_dynamic_first libm libmath (some 0x20000)).isSome = true ∧
    (replaced ctx_dynamic_first libm libmath (some 0x20000)).ret = 0 ∧
    dyn_tag (replaced ctx_dynamic_first libm libmath (some 0x20000)).ctx 0 =
      some (leNat (libmath.take 8)) ∧
    elf_get_needed_libs (replaced ctx_dynamic_first libm libmath (some 0x20000)).ctx =
      some ⟨some [libmath], 1, none⟩ := by
  decide

set_option maxRecDepth 100000 in
/-- C8 as stated fails: in `file_duplicates` three `DT_NEEDED` entries name
`libc.so.6` (offsets 1, 11, 1). Replacing `libc.so.6` by `ld.so` (in place)
returns 0 and the second entry still resolves to `libc.so.6`; replacing it by
the longer `libcustom.so` returns 0 and the second and the third entry still
resolve to `libc.so.6`. -/
theorem replace_leaves_other_matches :
    (elf_load file_duplicates 0x10000).map (fun o => o.ret) = some 0 ∧
    WellFormed ctx_duplicates ∧
    dyn_table ctx_duplicates =
      some [(DT_NEEDED, 1), (DT_NEEDED, 11), (DT_NEEDED, 1), (DT_STRTAB, 176), (DT_STRSZ, 24),
        (DT_NULL, 0)] ∧
    elf_get_needed_libs ctx_duplicates = some ⟨some [libc, libc, libc], 3, none⟩ ∧
    (replaced ctx_duplicates libc ld_so none).ret = 0 ∧
    elf_get_needed_libs (replaced ctx_duplicates libc ld_so none).ctx =
      some ⟨some [ld_so, libc, ld_so], 3, none⟩ ∧
    (replaced ctx_duplicates libc libcustom (some 0x20000)).ret = 0 ∧
    elf_get_needed_libs (replaced ctx_duplicates libc libcustom (some 0x20000)).ctx =
      some ⟨some [libcustom, libc, libc], 3, none⟩ := by
  decide

end ElfMod

namespace ElfMod

open Sample

/-- C8, amended: on a well-formed image that names `old`, the call with
`old ≠ new` returns 0 (for a longer `new`, provided the image can grow: it has
not grown before and its dynamic table is hit neither by the `len(new)+1`
bytes behind the string table nor by the `sh_size` field of the header of
`.dynstr`). It retargets one entry, the first `DT_NEEDED` entry `k` whose name
was `old`: no earlier entry named `old`, entry `k` keeps its tag and now
resolves to `new`, every other dynamic entry keeps its tag and `d_val`, and a
name `old` stored at another string offset still reads `old`; on the grow
path the bytes at the old offset of entry `k` still read `old` as well, so
entries that shared this offset still resolve to `old`. -/
theorem replace_first_match_only (ctx : ElfContext) (old new : List Nat) (alloc : Option Nat)
    (es : List (Nat × Nat)) (hwf : WellFormed ctx) (hold : CStr old) (hnew : CStr new)
    (ht : dyn_table ctx = some es)
    (hex : ∃ v ∈ spec_needed_offsets es, cstr ctx (ctx.dynstr + v) = some old)
    (hgrow : old.length < new.length →
      ∃ nd, alloc = some nd ∧ Growable ctx (new.length + 1) nd) :
    ∃ k v ctx', find_loop ctx old ctx.dyn_count 0 = some (some (k, v)) ∧
      elf_replace_needed_lib ctx old new alloc = some ⟨0, ctx', none⟩ ∧
      k < ctx.dyn_count ∧
      dyn_tag ctx k = some DT_NEEDED ∧ dyn_val ctx k = some v ∧
      cstr ctx (ctx.dynstr + v) = some old ∧
      (∀ j, j < k → ∀ w, dyn_tag ctx j = some DT_NEEDED → dyn_val ctx j = some w →
        w < ctx.dynstr_size → cstr ctx (ctx.dynstr + w) ≠ some old) ∧
      dyn_tag ctx' k = some DT_NEEDED ∧
      (∃ v', dyn_val ctx' k = some v' ∧ cstr ctx' (ctx'.dynstr + v') = some new) ∧
      (∀ j, j < ctx.dyn_count → j ≠ k →
        dyn_tag ctx' j = dyn_tag ctx j ∧ dyn_val ctx' j = dyn_val ctx j) ∧
      (∀ w, w ≠ v → w + old.length < ctx.dynstr_size →
        cstr ctx (ctx.dynstr + w) = some old → cstr ctx' (ctx'.dynstr + w) = some old) ∧
      (old.length < new.length → cstr ctx' (ctx'.dynstr + v) = some old) := by
  have hblocks : blocks_apart ctx := hwf.1
  obtain ⟨hdis, es', ht', hin⟩ := hwf.elim
  rw [ht] at ht'
  cases ht'
  have hall : ∀ v ∈ spec_needed_offsets es, v < ctx.dynstr_size →
      ∃ t, cstr ctx (ctx.dynstr + v) = some t := by
    intro v hv _
    obtain ⟨s, hs, _⟩ := string_inside_elim (hin v hv)
    exact ⟨s, hs⟩
  have hex' : ∃ v ∈ spec_needed_offsets es, v < ctx.dynstr_size ∧
      cstr ctx (ctx.dynstr + v) = some old := by
    obtain ⟨v, hv, hc⟩ := hex
    obtain ⟨s, hs, hlt⟩ := string_inside_elim (hin v hv)
    exact ⟨v, hv, by omega, hc⟩
  obtain ⟨k, v, hf⟩ := find_loop_exists ctx old hold.nonzero ctx.dyn_count 0 es ht hall hex'
  obtain ⟨_, hk0, htag, hval, _, hc⟩ :=
    find_loop_some ctx old hold.nonzero ctx.dyn_count 0 k v hf
  have hk : k < ctx.dyn_count := by omega
  have hfirst := find_loop_first ctx old hold.nonzero ctx.dyn_count 0 k v hf
  have hmem := find_loop_mem ctx old ctx.dyn_count 0 k v es ht hf
  obtain ⟨s, hs, hfit⟩ := string_inside_elim (hin v hmem)
  rw [hc] at hs
  cases hs
  have hrd := (cstr_iff_readBytes ctx (ctx.dynstr + v) old hold.nonzero).1 hc
  by_cases hlen : new.length ≤ old.length
  · -- in place
    obtain ⟨ctx', hw⟩ := writeBytes_of_readBytes hrd (new ++ [0]) (by simp; omega)
    have hsc := writeBytes_scalars hw
    have hdynstr : ctx'.dynstr = ctx.dynstr := by
      have e := congrArg ElfContext.dynstr hsc; exact e
    refine ⟨k, v, ctx', hf, ?_, hk, htag, hval, hc,
      fun j hj w h1 h2 h3 => hfirst j (Nat.zero_le _) hj w h1 h2 h3, ?_, ⟨v, ?_, ?_⟩, ?_, ?_,
      fun h => absurd hlen (by omega)⟩
    · unfold elf_replace_needed_lib
      simp [hf, hlen, strcpy, hw]
    · rw [(dyn_field_after_write hw hdis (by omega) (by simp; omega) k hk).1, htag]
    · rw [(dyn_field_after_write hw hdis (by omega) (by simp; omega) k hk).2, hval]
    · rw [hdynstr, cstr_iff_readBytes ctx' _ new hnew.nonzero]
      have := readBytes_writeBytes_same hw
      simpa using this
    · intro j hj _
      exact dyn_field_after_write hw hdis (by omega) (by simp; omega) j hj
    · intro w hwv _ hcw
      have hap := cstr_same_apart hblocks hc hcw (by omega)
      rw [hdynstr, cstr_iff_readBytes ctx' _ old hold.nonzero,
        readBytes_writeBytes_disjoint hw _ _ (by simp; omega)]
      exact (cstr_iff_readBytes ctx _ old hold.nonzero).1 hcw
  · -- grow
    have hlt : old.length < new.length := by omega
    obtain ⟨nd, rfl, hg⟩ := hgrow hlt
    obtain ⟨ctx', hret, _, _, _, c_dynstr, _, htag', hval', hnewstr, hothers, htable⟩ :=
      replace_grow hg hdis hf hold.nonzero hnew.nonzero hlt
    have keep : ∀ w, w + old.length < ctx.dynstr_size →
        cstr ctx (ctx.dynstr + w) = some old → cstr ctx' (ctx'.dynstr + w) = some old := by
      intro w hw hcw
      rw [cstr_iff_readBytes ctx' _ old hold.nonzero,
        htable w (old.length + 1) (Nat.succ_pos _) (by omega)]
      exact (cstr_iff_readBytes ctx _ old hold.nonzero).1 hcw
    exact ⟨k, v, ctx', hf, hret, hk, htag, hval, hc,
      fun j hj w h1 h2 h3 => hfirst j (Nat.zero_le _) hj w h1 h2 h3, htag',
      ⟨ctx.dynstr_size, hval', hnewstr⟩, hothers,
      fun w _ hw hcw => keep w hw hcw, fun _ => keep v hfit hc⟩

set_option maxRecDepth 100000 in
/-- C8 amended, at the image whose three entries name `libc.so.6` through the
offsets 1, 11, 1: once with the shorter `ld.so`, once with the longer
`libcustom.so` and a buffer at `0x20000`. -/
theorem replace_first_match_only_witness :
    WellFormed ctx_duplicates ∧ Growable ctx_duplicates (libcustom.length + 1) 0x20000 ∧
    (∃ k v ctx', find_loop ctx_duplicates libc ctx_duplicates.dyn_count 0 = some (some (k, v)) ∧
      elf_replace_needed_lib ctx_duplicates libc ld_so none = some ⟨0, ctx', none⟩ ∧
      k < ctx_duplicates.dyn_count ∧
      dyn_tag ctx_duplicates k = some DT_NEEDED ∧ dyn_val ctx_duplicates k = some v ∧
      cstr ctx_duplicates (ctx_duplicates.dynstr + v) = some libc ∧
      (∀ j, j < k → ∀ w, dyn_tag ctx_duplicates j = some DT_NEEDED →
        dyn_val ctx_duplicates j = some w → w < ctx_duplicates.dynstr_size →
        cstr ctx_duplicates (ctx_duplicates.dynstr + w) ≠ some libc) ∧
      dyn_tag ctx' k = some DT_NEEDED ∧
      (∃ v', dyn_val ctx' k = some v' ∧ cstr ctx' (ctx'.dynstr + v') = some ld_so) ∧
      (∀ j, j < ctx_duplicates.dyn_count → j ≠ k →
        dyn_tag ctx' j = dyn_tag ctx_duplicates j ∧
        dyn_val ctx' j = dyn_val ctx_duplicates j) ∧
      (∀ w, w ≠ v → w + libc.length < ctx_duplicates.dynstr_size →
        cstr ctx_duplicates (ctx_duplicates.dynstr + w) = some libc →
        cstr ctx' (ctx'.dynstr + w) = some libc) ∧
      (libc.length < ld_so.length → cstr ctx' (ctx'.dynstr + v) = some libc)) ∧
    (∃ k v ctx', find_loop ctx_duplicates libc ctx_duplicates.dyn_count 0 = some (some (k, v)) ∧
      elf_replace_needed_lib ctx_duplicates libc libcustom (some 0x20000) =
        some ⟨0, ctx', none⟩ ∧
      k < ctx_duplicates.dyn_count ∧
      dyn_tag ctx_duplicates k = some DT_NEEDED ∧ dyn_val ctx_duplicates k = some v ∧
      cstr ctx_duplicates (ctx_duplicates.dynstr + v) = some libc ∧
      (∀ j, j < k → ∀ w, dyn_tag ctx_duplicates j = some DT_NEEDED →
        dyn_val ctx_duplicates j = some w → w < ctx_duplicates.dynstr_size →
        cstr ctx_duplicates (ctx_duplicates.dynstr + w) ≠ some libc) ∧
      dyn_tag ctx' k = some DT_NEEDED ∧
      (∃ v', dyn_val ctx' k = some v' ∧ cstr ctx' (ctx'.dynstr + v') = some libcustom) ∧
      (∀ j, j < ctx_duplicates.dyn_count → j ≠ k →
        dyn_tag ctx' j = dyn_tag ctx_duplicates j ∧
        dyn_val ctx' j = dyn_val ctx_duplicates j) ∧
      (∀ w, w ≠ v → w + libc.length < ctx_duplicates.dynstr_size →
        cstr ctx_duplicates (ctx_duplicates.dynstr + w) = some libc →
        cstr ctx' (ctx'.dynstr + w) = some libc) ∧
      (libc.length < libcustom.length → cstr ctx' (ctx'.dynstr + v) = some libc)) :=
  ⟨by decide, by decide,
   replace_first_match_only ctx_duplicates libc ld_so none
    [(DT_NEEDED, 1), (DT_NEEDED, 11), (DT_NEEDED, 1), (DT_STRTAB, 176), (DT_STRSZ, 24),
      (DT_NULL, 0)]
    (by decide) (by decide) (by decide) (by decide) ⟨1, by decide, by decide⟩
    (fun h => absurd h (by decide)),
   replace_first_match_only ctx_duplicates libc libcustom (some 0x20000)
    [(DT_NEEDED, 1), (DT_NEEDED, 11), (DT_NEEDED, 1), (DT_STRTAB, 176), (DT_STRSZ, 24),
      (DT_NULL, 0)]
    (by decide) (by decide) (by decide) (by decide) ⟨1, by decide, by decide⟩
    (fun _ => ⟨0x20000, rfl, by decide⟩)⟩

end ElfMod

/-! ## The claims about the file-descriptor based patcher -/

namespace ElfPatcher

open ElfMod (cstrFrom DT_NULL DT_NEEDED DT_STRTAB DT_STRSZ)
open Sample

set_option maxRecDepth 100000 in
/-- C10 fails on the code. `file_three` (674 bytes, little-endian, 64-bit) has a
`PT_LOAD` and a `PT_DYNAMIC` header, the string table at offset 176 (32 bytes)
and, at offset 224, the entries `NEEDED libc.so.6, NEEDED libm.so.6, NEEDED
libdl.so.2, STRTAB, STRSZ, NULL`. `patch64` with the descriptor at offset 0 and
the prefix `/opt/libs/` returns TRUE after a `memcpy` past the end of `newtab`;
below offset 674 it changes the `d_val` of the five entries only; the table it
appends at offset 674 is 62 bytes long (`DT_STRSZ`) and ends with
`/opt/libs/libc.so.6\0/opt/libs/`: the second entry (`d_val` 52) has no
terminated string in the file, the third (`d_val` 72) points past the end of
the table and of the file. -/
theorem patch64_truncates_names :
    file_three.length = 674 ∧
    find_dynamic_segment file_three (decode_ehdr (file_three.take 64)) false = some (224, 96) ∧
    collect_dyn_entries file_three 224 96 false =
      some [⟨DT_NEEDED, 1, 232⟩, ⟨DT_NEEDED, 11, 248⟩, ⟨DT_NEEDED, 21, 264⟩,
        ⟨DT_STRTAB, 176, 280⟩, ⟨DT_STRSZ, 32, 296⟩, ⟨DT_NULL, 0, 312⟩] ∧
    (patch64 file_three 0 opt_libs).isSome = true ∧
    (patched file_three 0 opt_libs).ret = true ∧
    (patched file_three 0 opt_libs).overflow = true ∧
    collect_dyn_entries (patched file_three 0 opt_libs).file 224 96 false =
      some [⟨DT_NEEDED, 32, 232⟩, ⟨DT_NEEDED, 52, 248⟩, ⟨DT_NEEDED, 72, 264⟩,
        ⟨DT_STRTAB, 674, 280⟩, ⟨DT_STRSZ, 62, 296⟩, ⟨DT_NULL, 0, 312⟩] ∧
    differing (patched file_three 0 opt_libs).file file_three 0 =
      [232, 248, 264, 280, 281, 296] ∧
    (patched file_three 0 opt_libs).file.drop 674 =
      strtab_cmd ++ opt_libs ++ libc ++ [0] ++ opt_libs ∧
    cstrFrom ((patched file_three 0 opt_libs).file.drop (674 + 32)) = some (opt_libs ++ libc) ∧
    cstrFrom ((patched file_three 0 opt_libs).file.drop (674 + 52)) = none ∧
    (patched file_three 0 opt_libs).file.drop (674 + 72) = [] := by
  decide

end ElfPatcher

/-! ## The claims about the dispatcher and the address translation -/

namespace ElfPatcher

open ElfMod (ELFMAG EI_CLASS ELFCLASS32 ELFCLASS64 DT_NULL DT_NEEDED DT_STRTAB DT_STRSZ)
open Sample

set_option maxRecDepth 100000 in
/-- C11 fails on the code. `file_three` (674 bytes) is a 64-bit shared object:
it starts with the magic, its class byte is `ELFCLASS64`, and `patch64` with
the descriptor at offset 0 and the prefix `/opt/libs/` returns TRUE and
rewrites it (736 bytes afterwards). `patch_auto` with the same prefix returns
FALSE and leaves the file as it is: it has read the 52 bytes of an
`Elf32_Ehdr` and hands the descriptor to `patch64` without rewinding it, so
that `patch64` looks for the magic at offset 52, where a 64-bit header holds
`e_ehsize` and `e_phentsize` (the bytes 64, 0, 56, 0). -/
theorem patch_auto_elf64_returns_false :
    file_three.take 4 = ELFMAG ∧
    (file_three.drop EI_CLASS).head? = some ELFCLASS64 ∧
    (patch64 file_three 0 opt_libs).isSome = true ∧
    (patched file_three 0 opt_libs).ret = true ∧
    (patched file_three 0 opt_libs).file.length = 736 ∧
    (file_three.drop 52).take 4 = [64, 0, 56, 0] ∧
    patch_auto file_three opt_libs = patch64 file_three 52 opt_libs ∧
    patch_auto file_three opt_libs = some ⟨false, file_three, false⟩ := by
  refine ⟨by decide, by decide, by decide, by decide, by decide, by decide, ?_, ?_⟩
  · exact patch_auto_class64 _ _ (by decide) (by decide) (by decide)
  · rw [patch_auto_class64 _ _ (by decide) (by decide) (by decide)]
    exact patch64_no_magic _ _ _ (by decide)

set_option maxRecDepth 100000 in
/-- C13 fails on the code. `file32_paddr` is a 32-bit executable whose
`PT_LOAD` header maps the file at `p_vaddr = 0x08048000` and has `p_paddr = 0`;
its `DT_STRTAB` entry holds the address `0x08048074`, which lies in the range
`[p_vaddr, p_vaddr + p_memsz)` of that header, and the string table is at the
file offset `p_offset + (0x08048074 - p_vaddr) = 116`. The loop of
`collect_dt_needed` and `write_dt_neededs` tests the address against
`[p_paddr, p_paddr + p_memsz)`: it finds no segment and leaves
`string_table_offset` at 0, on which both functions fail. With two `PT_LOAD`
headers whose physical and virtual ranges are exchanged, the loop takes the
first header and returns the offset `0x2100` for the address `0x2100`, which
the second header maps at file offset `0x1100`. -/
theorem string_table_offset_tests_paddr :
    read_program_tables file32_paddr 52 2 =
      some [⟨PT_LOAD, 0, 0x08048000, 0, 374, 374⟩,
        ⟨PT_DYNAMIC, 140, 0x0804808c, 140, 40, 40⟩] ∧
    (file32_paddr.drop (140 + 16)).take 8 = dyn32 DT_STRTAB 0x08048074 ∧
    (0x08048000 ≤ 0x08048074 ∧ 0x08048074 < 0x08048000 + 374) ∧
    (file32_paddr.drop (0 + (0x08048074 - 0x08048000))).take 24 = dynstr_cm ∧
    string_table_offset 0x08048074
      [⟨PT_LOAD, 0, 0x08048000, 0, 374, 374⟩, ⟨PT_DYNAMIC, 140, 0x0804808c, 140, 40, 40⟩] = 0 ∧
    string_table_offset 0x2100
      [⟨PT_LOAD, 0, 0, 0x2000, 0x1000, 0x1000⟩, ⟨PT_LOAD, 0x1000, 0x2000, 0, 0x1000, 0x1000⟩] =
        0x2100 := by
  decide

end ElfPatcher

/-! ## The claims about loading -/

namespace ElfMod

open Sample
open ElfPatcher (find_dynamic_segment collect_dyn_entries decode_ehdr)

set_option maxRecDepth 100000 in
/-- C17 fails on the code. `file32 0` and `file32 7` are 32-bit objects whose
class byte is 0 (`ELFCLASSNONE`) and 7 (no class at all) instead of
`ELFCLASS32`. `elf_load` returns 0 for both and `elf_get_needed_libs` lists
`libc.so.6` and `libm.so.6`: the code only tests whether the class byte is
`ELFCLASS64` and reads every other file as a 32-bit file. -/
theorem elf_load_accepts_unknown_class :
    (file32 0).take 4 = ELFMAG ∧ ((file32 0).drop EI_CLASS).head? = some 0 ∧
    (elf_load (file32 0) 0x10000).map Outcome.ret = some 0 ∧
    (loaded (file32 0) 0x10000).is_64bit = false ∧
    elf_get_needed_libs (loaded (file32 0) 0x10000) = some ⟨some [libc, libm], 2, none⟩ ∧
    (file32 7).take 4 = ELFMAG ∧ ((file32 7).drop EI_CLASS).head? = some 7 ∧
    (elf_load (file32 7) 0x10000).map Outcome.ret = some 0 ∧
    elf_get_needed_libs (loaded (file32 7) 0x10000) = some ⟨some [libc, libm], 2, none⟩ := by
  decide

set_option maxRecDepth 100000 in
/-- C18 as stated fails. `file_no_sections` is a 64-bit shared object without
section header table (`e_shoff`, `e_shnum` and `e_shstrndx` are 0) whose
`PT_DYNAMIC` segment (offset 200, 80 bytes) holds `NEEDED, NEEDED, STRTAB,
STRSZ, NULL`. `elf_load` returns -1 with the message `Could not find dynamic
section or dynamic string table` and a zeroed context: it looks for the
dynamic table and the string table in the section headers only. -/
theorem elf_load_needs_section_headers :
    file_no_sections.take 4 = ELFMAG ∧
    (file_no_sections.drop 40).take 8 = List.replicate 8 0 ∧
    (file_no_sections.drop 60).take 4 = List.replicate 4 0 ∧
    find_dynamic_segment file_no_sections (decode_ehdr (file_no_sections.take 64)) false =
      some (200, 80) ∧
    collect_dyn_entries file_no_sections 200 80 false =
      some [⟨DT_NEEDED, 1, 208⟩, ⟨DT_NEEDED, 11, 224⟩, ⟨DT_STRTAB, 176, 240⟩,
        ⟨DT_STRSZ, 24, 256⟩, ⟨DT_NULL, 0, 272⟩] ∧
    elf_load file_no_sections 0x10000 =
      some ⟨-1, zeroed, some "Could not find dynamic section or dynamic string table"⟩ := by
  decide

/-- C18, amended: a file that starts with the magic and whose header says
that there is no section header table (`e_shnum` is 0 and `e_shstrndx` is
`SHN_UNDEF`; `cls`, `phoff`, `shoff`, `phnum` are the other header fields that
`elf_load` reads) is rejected, whatever its program headers and its
`PT_DYNAMIC` segment hold: `elf_load` returns -1 with the message `Could not
find dynamic section or dynamic string table` and leaves the context zeroed. -/
theorem elf_load_without_section_headers (file : List Nat)
    (base cls phoff shoff phnum : Nat) (hm : file.take 4 = ELFMAG)
    (hf : header_fields file cls phoff shoff 0 phnum none) :
    elf_load file base =
      some ⟨-1, zeroed, some "Could not find dynamic section or dynamic string table"⟩ :=
  elf_load_no_sections file base (header_context file base cls phoff shoff 0 phnum none) hm
    (elf_load_headers_of_fields file base cls phoff shoff 0 phnum none hf) rfl

set_option maxRecDepth 100000 in
/-- C18 amended, at `file_no_sections` (class `ELFCLASS64`, two program
headers at offset 64, `e_shoff`, `e_shnum` and `e_shstrndx` 0), mapped at
`0x7f0000000000`. -/
theorem elf_load_without_section_headers_witness :
    file_no_sections.take 4 = ELFMAG ∧
    header_fields file_no_sections ELFCLASS64 64 0 0 2 none ∧
    elf_load file_no_sections 0x7f0000000000 =
      some ⟨-1, zeroed, some "Could not find dynamic section or dynamic string table"⟩ :=
  ⟨by decide,
   ⟨by decide, by decide, by decide, by decide, by decide, 0, by decide, by decide⟩,
   elf_load_without_section_headers file_no_sections 0x7f0000000000 ELFCLASS64 64 0 2
     (by decide)
     ⟨by decide, by decide, by decide, by decide, by decide, 0, by decide, by decide⟩⟩

set_option maxRecDepth 100000 in
/-- C20 fails on the code. In the image `ctx_outside` the string table has 11
bytes and the second `DT_NEEDED` entry has `d_val = 11`, the first offset
outside the table. `elf_get_needed_libs` reports no error: it returns two
names, the second one read from the bytes that follow the string table. -/
theorem elf_get_needed_libs_reads_outside_table :
    ctx_outside.dynstr_size = 11 ∧
    dyn_table ctx_outside =
      some [(DT_NEEDED, 1), (DT_NEEDED, 11), (DT_STRTAB, 176), (DT_STRSZ, 11), (DT_NULL, 0)] ∧
    elf_get_needed_libs ctx_outside = some ⟨some [libc, libm], 2, none⟩ := by
  decide

end ElfMod

namespace ElfMod

open Sample

/-- C16 as stated fails on the empty file. Its first four bytes are not the magic;
`elf_load` returns -1 with the message `Failed to map file: %s` at the failure
of `mmap`, before it reaches the magic check, and it returns without calling
`elf_close`: the context holds `mapped_data = MAP_FAILED` and is not the zeroed
context. `patch_auto` returns FALSE and leaves the file empty. -/
theorem elf_load_empty_file_not_zeroed :
    ([] : List Nat).take 4 ≠ ELFMAG ∧
    elf_load [] 0x10000 =
      some ⟨-1, { zeroed with mapped_data := MAP_FAILED }, some "Failed to map file: %s"⟩ ∧
    ({ zeroed with mapped_data := MAP_FAILED } : ElfContext) ≠ zeroed ∧
    ElfPatcher.patch_auto [] opt_libs = some ⟨false, [], false⟩ := by
  decide

/-- C16, amended: for every file whose first four bytes are not `0x7F 'E' 'L'
'F'`, `patch_auto` returns FALSE and leaves the file as it is; `elf_load`
returns -1 with the message `Not a valid ELF file` and leaves the context
zeroed when one of the bytes of the file at an offset below four differs from
the byte of the magic at that offset, and so whenever the file has at least
four bytes. -/
theorem no_magic_rejected (file pfx : List Nat) (base : Nat) (hm : file.take 4 ≠ ELFMAG) :
    ElfPatcher.patch_auto file pfx = some ⟨false, file, false⟩ ∧
    (∀ i b, i < 4 → file[i]? = some b → ELFMAG[i]? ≠ some b →
      elf_load file base = some ⟨-1, zeroed, some "Not a valid ELF file"⟩) ∧
    (4 ≤ file.length →
      elf_load file base = some ⟨-1, zeroed, some "Not a valid ELF file"⟩) := by
  refine ⟨ElfPatcher.patch_auto_no_magic file pfx hm, ?_, ?_⟩
  · intro i b hi hb hne
    exact elf_load_mismatch file base i b hi hb hne
  · intro hlen
    obtain ⟨i, b, hi, hb, hne⟩ := mismatch_of_take file hlen hm
    exact elf_load_mismatch file base i b hi hb hne

/-- C16 amended, at a shell script of 68 bytes, and at the file of the one byte
`#`. -/
theorem no_magic_rejected_witness :
    not_elf.length = 68 ∧ not_elf.take 4 ≠ ELFMAG ∧
    ElfPatcher.patch_auto not_elf opt_libs = some ⟨false, not_elf, false⟩ ∧
    elf_load not_elf 0x10000 = some ⟨-1, zeroed, some "Not a valid ELF file"⟩ ∧
    elf_load [0x23] 0x10000 = some ⟨-1, zeroed, some "Not a valid ELF file"⟩ :=
  ⟨by decide, by decide,
   (no_magic_rejected not_elf opt_libs 0x10000 (by decide)).1,
   (no_magic_rejected not_elf opt_libs 0x10000 (by decide)).2.2 (by decide),
   (no_magic_rejected [0x23] opt_libs 0x10000 (by decide)).2.1 0 0x23 (by decide) rfl
     (by decide)⟩

/-- C19: let a file start with the magic and let `hc` be the context that the
header part of `elf_load` sets up. Whenever `elf_load` returns,
* if it returns 0, the dynamic-entry view is the content of a section `i` of
  type `SHT_DYNAMIC` (`dyn = base + sh_offset`, `dyn_count = sh_size` divided by
  the entry size, at least one entry), namely the last such section, and the
  string-table view is the content of a section `j` of type `SHT_STRTAB` whose
  name is exactly `.dynstr` (`dynstr = base + sh_offset`, `dynstr_size =
  sh_size`), namely the last such section;
* if no section of type `SHT_DYNAMIC` has an entry, or no section of type
  `SHT_STRTAB` is named `.dynstr`, it returns -1 and leaves the context zeroed.
And `elf_load` does return when the section headers and the names of the
sections of type `SHT_STRTAB` lie inside the file. -/
theorem elf_load_selects_sections (file : List Nat) (base : Nat) (hc : ElfContext)
    (hm : file.take 4 = ELFMAG) (hh : elf_load_headers file base = some hc) :
    (∀ o, elf_load file base = some o →
      (o.ret = 0 →
        o.ctx.mapped = file ∧ o.ctx.mapped_data = base ∧
        (∃ i off size, i < hc.section_count ∧ sh_type hc i = some SHT_DYNAMIC ∧
          sh_offset hc i = some off ∧ sh_size hc i = some size ∧
          o.ctx.dyn = base + off ∧
          o.ctx.dyn_count = size / (layout hc.is_64bit).dyn_size ∧ 0 < o.ctx.dyn_count ∧
          ∀ m, i < m → m < hc.section_count → sh_type hc m ≠ some SHT_DYNAMIC) ∧
        (∃ j off size, j < hc.section_count ∧ is_dynstr hc j ∧
          sh_offset hc j = some off ∧ sh_size hc j = some size ∧
          o.ctx.dynstr = base + off ∧ o.ctx.dynstr_size = size ∧
          ∀ m, j < m → m < hc.section_count → ¬ is_dynstr hc m)) ∧
      (((∀ i < hc.section_count,
            sh_type hc i = some SHT_DYNAMIC → section_entries hc i = some 0) ∨
          (∀ j < hc.section_count, ¬ is_dynstr hc j)) →
        o.ret = -1 ∧ o.ctx = zeroed)) ∧
    (sections_readable hc → ∃ o, elf_load file base = some o) := by
  obtain ⟨hd0, hc0, hs0, hmap, hbase, _, _⟩ := elf_load_headers_init hh
  rw [elf_load_eq file base hm, hh]
  simp only [Option.some_bind]
  constructor
  · intro o ho
    cases hl : section_loop hc.section_count 0 hc with
    | none => rw [hl] at ho; cases ho
    | some ctx5 =>
      rw [hl] at ho
      simp only [Option.some_bind] at ho
      obtain ⟨hw, hsd, hss⟩ := section_loop_spec hc hc.section_count 0 hc ctx5 (by omega) rfl hl
      by_cases hfail : ctx5.dynstr = 0 ∨ ctx5.dyn = 0 ∨ ctx5.dyn_count = 0
      · rw [if_pos hfail] at ho
        cases ho
        refine ⟨?_, fun _ => ⟨rfl, rfl⟩⟩
        intro h
        exact absurd h (by decide)
      · rw [if_neg hfail] at ho
        cases ho
        have hne : ctx5.dynstr ≠ 0 ∧ ctx5.dyn ≠ 0 ∧ ctx5.dyn_count ≠ 0 := by
          refine ⟨fun h => hfail (Or.inl h), fun h => hfail (Or.inr (Or.inl h)),
            fun h => hfail (Or.inr (Or.inr h))⟩
        have hdyn : ∃ i off size, i < hc.section_count ∧ sh_type hc i = some SHT_DYNAMIC ∧
            sh_offset hc i = some off ∧ sh_size hc i = some size ∧
            ctx5.dyn = base + off ∧
            ctx5.dyn_count = size / (layout hc.is_64bit).dyn_size ∧ 0 < ctx5.dyn_count ∧
            ∀ m, i < m → m < hc.section_count → sh_type hc m ≠ some SHT_DYNAMIC := by
          rcases hsd with ⟨e1, _, _, _⟩ | ⟨k, off, size, _, hk, h1, h2, h3, h4, h5, _, h7⟩
          · exact absurd (e1.trans hd0) hne.2.1
          · exact ⟨k, off, size, hk, h1, h2, h3, by rw [h4, hbase], h5,
              Nat.pos_of_ne_zero hne.2.2, h7⟩
        have hstr : ∃ j off size, j < hc.section_count ∧ is_dynstr hc j ∧
            sh_offset hc j = some off ∧ sh_size hc j = some size ∧
            ctx5.dynstr = base + off ∧ ctx5.dynstr_size = size ∧
            ∀ m, j < m → m < hc.section_count → ¬ is_dynstr hc m := by
          rcases hss with ⟨e1, _, _, _⟩ | ⟨k, off, size, _, hk, h1, h2, h3, h4, h5, _, h7⟩
          · exact absurd (e1.trans hs0) hne.1
          · exact ⟨k, off, size, hk, h1, h2, h3, by rw [h4, hbase], h5, h7⟩
        have hm5 : ctx5.mapped = file := by
          have e := congrArg ElfContext.mapped hw
          exact e.trans hmap
        have hb5 : ctx5.mapped_data = base := by
          have e := congrArg ElfContext.mapped_data hw
          exact e.trans hbase
        refine ⟨fun _ => ⟨hm5, hb5, hdyn, hstr⟩, ?_⟩
        intro hno
        exfalso
        rcases hno with hno | hno
        · obtain ⟨i, off, size, hi, h1, _, h3, _, h5, h6, _⟩ := hdyn
          have := hno i hi h1
          unfold section_entries at this
          rw [h3] at this
          simp only [Option.map_some', Option.some.injEq] at this
          omega
        · obtain ⟨j, _, _, hj, h1, _⟩ := hstr
          exact hno j hj h1
  · intro hr
    obtain ⟨ctx5, hl⟩ := section_loop_total hc hr hc.section_count 0 hc (by omega) rfl
    rw [hl]
    simp only [Option.some_bind]
    split
    · exact ⟨_, rfl⟩
    · exact ⟨_, rfl⟩

set_option maxRecDepth 100000 in
/-- C19, at the file with the sections `.dynstr` (index 1), `.text`, `.dynamic`
(index 3) and `.shstrtab`, mapped at `0x10000`: `elf_load` returns 0, the
dynamic table is at offset 216 with 5 entries, the string table at offset 176
with 24 bytes. -/
theorem elf_load_selects_sections_witness :
    file_text_first.take 4 = ELFMAG ∧
    sections_readable (headers file_text_first 0x10000) ∧
    (headers file_text_first 0x10000).section_count = 5 ∧
    sh_type (headers file_text_first 0x10000) 3 = some SHT_DYNAMIC ∧
    is_dynstr (headers file_text_first 0x10000) 1 ∧
    (elf_load file_text_first 0x10000).map Outcome.ret = some 0 ∧
    ctx_text_first.dyn = 0x10000 + 216 ∧ ctx_text_first.dyn_count = 5 ∧
    ctx_text_first.dynstr = 0x10000 + 176 ∧ ctx_text_first.dynstr_size = 24 ∧
    (∃ o, elf_load file_text_first 0x10000 = some o) ∧
    ∀ o, elf_load file_text_first 0x10000 = some o →
      (o.ret = 0 →
        o.ctx.mapped = file_text_first ∧ o.ctx.mapped_data = 0x10000 ∧
        (∃ i off size, i < (headers file_text_first 0x10000).section_count ∧
          sh_type (headers file_text_first 0x10000) i = some SHT_DYNAMIC ∧
          sh_offset (headers file_text_first 0x10000) i = some off ∧
          sh_size (headers file_text_first 0x10000) i = some size ∧
          o.ctx.dyn = 0x10000 + off ∧
          o.ctx.dyn_count =
            size / (layout (headers file_text_first 0x10000).is_64bit).dyn_size ∧
          0 < o.ctx.dyn_count ∧
          ∀ m, i < m → m < (headers file_text_first 0x10000).section_count →
            sh_type (headers file_text_first 0x10000) m ≠ some SHT_DYNAMIC) ∧
        (∃ j off size, j < (headers file_text_first 0x10000).section_count ∧
          is_dynstr (headers file_text_first 0x10000) j ∧
          sh_offset (headers file_text_first 0x10000) j = some off ∧
          sh_size (headers file_text_first 0x10000) j = some size ∧
          o.ctx.dynstr = 0x10000 + off ∧ o.ctx.dynstr_size = size ∧
          ∀ m, j < m → m < (headers file_text_first 0x10000).section_count →
            ¬ is_dynstr (headers file_text_first 0x10000) m)) ∧
      (((∀ i < (headers file_text_first 0x10000).section_count,
            sh_type (headers file_text_first 0x10000) i = some SHT_DYNAMIC →
            section_entries (headers file_text_first 0x10000) i = some 0) ∨
          (∀ j < (headers file_text_first 0x10000).section_count,
            ¬ is_dynstr (headers file_text_first 0x10000) j)) →
        o.ret = -1 ∧ o.ctx = zeroed) :=
  ⟨by decide, by decide, by decide, by decide, by decide, by decide, by decide, by decide,
   by decide, by decide,
   (elf_load_selects_sections file_text_first 0x10000 (headers file_text_first 0x10000)
    (by decide) (headers_eq _ _ (by decide))).2 (by decide),
   (elf_load_selects_sections file_text_first 0x10000 (headers file_text_first 0x10000)
    (by decide) (headers_eq _ _ (by decide))).1⟩

end ElfMod

/-! ## The claims about the address translation and the grow path of patch64 -/

namespace ElfPatcher

open ElfMod (leNat leBytes ELFMAG DT_NULL DT_NEEDED DT_STRTAB DT_STRSZ)
open Sample

set_option maxRecDepth 100000 in
/-- C12 as stated fails, in four ways.
* The parameter `vaddr` is a `uint32_t`. In `file_segment_high` the `PT_LOAD`
  header holds the addresses `[0x100000000, 0x100001000)` at offset `0x1000`;
  the address `0x100000010` is in it, at offset `0x1010`, and
  `vaddr_to_offset` returns -1: it looks for the address `0x10`.
* The sum `p_vaddr + p_memsz` wraps at 64 bits. In `file_segment_wraps` the
  `PT_LOAD` header has `p_vaddr = 0x1000` and `p_memsz = 2 ^ 64 - 0x800`; the
  address `0x1800` is in it, at offset `0x800`, and `vaddr_to_offset`
  returns -1.
* The result is an `off_t`. In `file_segment_far` the `PT_LOAD` header for the
  addresses `[0, 674)` has `p_offset = 2 ^ 64 - 177`; the address 176 is in it
  and `vaddr_to_offset` returns -1, the value that stands for no header.
* In the big-endian file `file_big_endian` the first program header is a
  `PT_LOAD` header for the addresses `[0, 264)` at offset 0; `vaddr_to_offset`
  (called with `swap` set, as `patch64` calls it) returns -1 for the
  address 176. -/
theorem vaddr_to_offset_misses_segment :
    (phdr_table file_segment_high (decode_ehdr (file_segment_high.take 64)) false =
        some [⟨PT_LOAD, 0x1000, 0x100000000, 0x1000⟩, ⟨PT_DYNAMIC, 0, 0, 0⟩] ∧
      loads 0x100000010 ⟨PT_LOAD, 0x1000, 0x100000000, 0x1000⟩ ∧
      spec_vaddr_to_offset [⟨PT_LOAD, 0x1000, 0x100000000, 0x1000⟩, ⟨PT_DYNAMIC, 0, 0, 0⟩]
        0x100000010 = 0x1010 ∧
      vaddr_to_offset file_segment_high (decode_ehdr (file_segment_high.take 64))
        0x100000010 false = -1) ∧
    (phdr_table file_segment_wraps (decode_ehdr (file_segment_wraps.take 64)) false =
        some [⟨PT_LOAD, 0, 0x1000, 2 ^ 64 - 0x800⟩, ⟨PT_DYNAMIC, 0, 0, 0⟩] ∧
      loads 0x1800 ⟨PT_LOAD, 0, 0x1000, 2 ^ 64 - 0x800⟩ ∧
      spec_vaddr_to_offset [⟨PT_LOAD, 0, 0x1000, 2 ^ 64 - 0x800⟩, ⟨PT_DYNAMIC, 0, 0, 0⟩]
        0x1800 = 0x800 ∧
      vaddr_to_offset file_segment_wraps (decode_ehdr (file_segment_wraps.take 64))
        0x1800 false = -1) ∧
    (phdr_table file_segment_far (decode_ehdr (file_segment_far.take 64)) false =
        some [⟨PT_LOAD, 2 ^ 64 - 177, 0, 674⟩, ⟨PT_DYNAMIC, 0, 0, 0⟩] ∧
      loads 176 ⟨PT_LOAD, 2 ^ 64 - 177, 0, 674⟩ ∧
      spec_vaddr_to_offset [⟨PT_LOAD, 2 ^ 64 - 177, 0, 674⟩, ⟨PT_DYNAMIC, 0, 0, 0⟩] 176 =
        2 ^ 64 - 1 ∧
      vaddr_to_offset file_segment_far (decode_ehdr (file_segment_far.take 64))
        176 false = -1) ∧
    ((file_big_endian.drop 64).take 56 = phdr64_be PT_LOAD 0 0 264 ∧
      (file_big_endian.drop EI_DATA).head? ≠ some ELFDATA2LSB ∧
      vaddr_to_offset file_big_endian (decode_ehdr (file_big_endian.take 64)) 176 true = -1) := by
  decide

/-- C12, amended: let `phs` be the program header table of a little-endian
file (`e_phnum` headers at `e_phoff`, as `vaddr_to_offset` reads them with
`swap` 0), in which every `PT_LOAD` header has its address range inside the
64-bit address space (`p_vaddr + p_memsz < 2 ^ 64`) and its file range inside
the range of `off_t` (`p_offset + p_memsz < 2 ^ 63`). Then, for the address
`vaddr mod 2 ^ 32` that the `uint32_t` parameter holds, and so for every
`vaddr` below `2 ^ 32`, `vaddr_to_offset` returns `p_offset + (vaddr -
p_vaddr)` of the first `PT_LOAD` header with `p_vaddr <= vaddr < p_vaddr +
p_memsz` (headers before it that are of another type or do not contain `vaddr`
are passed over), and it returns -1 exactly when no `PT_LOAD` header contains
`vaddr`. -/
theorem vaddr_to_offset_spec (file : List Nat) (eh : Ehdr) (vaddr : Nat)
    (phs : List Phdr) (ht : phdr_table file eh false = some phs)
    (hr : ∀ ph ∈ phs, ph.p_type = PT_LOAD →
      ph.p_vaddr + ph.p_memsz < 2 ^ 64 ∧ ph.p_offset + ph.p_memsz < 2 ^ 63) :
    vaddr_to_offset file eh vaddr false = spec_vaddr_to_offset phs (vaddr % 2 ^ 32) ∧
    (vaddr < 2 ^ 32 →
      vaddr_to_offset file eh vaddr false = spec_vaddr_to_offset phs vaddr ∧
      (∀ pre ph post, phs = pre ++ ph :: post → (∀ q ∈ pre, ¬ loads vaddr q) →
        loads vaddr ph →
        vaddr_to_offset file eh vaddr false =
          ((ph.p_offset + (vaddr - ph.p_vaddr) : Nat) : Int)) ∧
      (vaddr_to_offset file eh vaddr false = -1 ↔ ∀ ph ∈ phs, ¬ loads vaddr ph)) := by
  have h : vaddr_to_offset file eh vaddr false = spec_vaddr_to_offset phs (vaddr % 2 ^ 32) :=
    vaddr_loop_spec file eh (vaddr % 2 ^ 32) false eh.e_phnum 0 phs ht hr
  refine ⟨h, ?_⟩
  intro hv
  rw [Nat.mod_eq_of_lt hv] at h
  refine ⟨h, ?_, ?_⟩
  · intro pre ph post hphs hpre hph
    rw [h, hphs]
    exact spec_vaddr_to_offset_first vaddr pre ph post hpre hph
  · rw [h]
    exact spec_vaddr_to_offset_none vaddr phs

set_option maxRecDepth 100000 in
/-- C12 amended, at the file whose program headers are a `PT_LOAD` header for
the addresses `[0, 674)` at offset 0 and a `PT_DYNAMIC` header: the address 176
is at offset 176, the address 700 is in no `PT_LOAD` segment. -/
theorem vaddr_to_offset_spec_witness :
    phdr_table file_three (decode_ehdr (file_three.take 64)) false =
      some [⟨PT_LOAD, 0, 0, 674⟩, ⟨PT_DYNAMIC, 224, 224, 96⟩] ∧
    vaddr_to_offset file_three (decode_ehdr (file_three.take 64)) 176 false =
      ((0 + (176 - 0) : Nat) : Int) ∧
    vaddr_to_offset file_three (decode_ehdr (file_three.take 64)) 700 false = -1 :=
  ⟨by decide,
   ((vaddr_to_offset_spec file_three (decode_ehdr (file_three.take 64)) 176
      [⟨PT_LOAD, 0, 0, 674⟩, ⟨PT_DYNAMIC, 224, 224, 96⟩] (by decide) (by decide)).2
      (by decide)).2.1
      [] ⟨PT_LOAD, 0, 0, 674⟩ [⟨PT_DYNAMIC, 224, 224, 96⟩] rfl (by decide) (by decide),
   ((vaddr_to_offset_spec file_three (decode_ehdr (file_three.take 64)) 700
      [⟨PT_LOAD, 0, 0, 674⟩, ⟨PT_DYNAMIC, 224, 224, 96⟩] (by decide) (by decide)).2
      (by decide)).2.2.mpr
      (by decide)⟩

set_option maxRecDepth 100000 in
/-- C14 as stated fails. `file_high_address` (264 bytes) is linked just below
4 GiB: its `DT_STRTAB` value is `0xFFFFFFB0`, the address of the string table
at file offset 176, and its `DT_STRSZ` value is 24. With the prefix `long_dir`
of 512 bytes `total_extra` is 512, `patch64` takes the grow path, every copy
stays inside the new table and the file grows by `24 + 512` bytes. The value
of `DT_STRTAB` after the call is 8 and not `0xFFFFFFB0 + (264 - 176)`, which is
`0x100000008`: `new_strtab_vaddr` is a `uint32_t`. -/
theorem patch64_grow_truncates_address :
    file_high_address.length = 264 ∧
    find_dynamic_segment file_high_address (decode_ehdr (file_high_address.take 64)) false =
      some (200, 64) ∧
    collect_dyn_entries file_high_address 200 64 false =
      some [⟨DT_NEEDED, 1, 208⟩, ⟨DT_STRTAB, 0xFFFFFFB0, 224⟩, ⟨DT_STRSZ, 24, 240⟩,
        ⟨DT_NULL, 0, 256⟩] ∧
    leNat ((file_high_address.drop 224).take 8) = 0xFFFFFFB0 ∧
    vaddr_to_offset file_high_address (decode_ehdr (file_high_address.take 64))
      0xFFFFFFB0 false = 176 ∧
    total_extra file_high_address 176 long_dir
      [⟨DT_NEEDED, 1, 208⟩, ⟨DT_STRTAB, 0xFFFFFFB0, 224⟩, ⟨DT_STRSZ, 24, 240⟩,
        ⟨DT_NULL, 0, 256⟩] = 512 ∧
    (patch64 file_high_address 0 long_dir).isSome = true ∧
    (patched file_high_address 0 long_dir).ret = true ∧
    (patched file_high_address 0 long_dir).overflow = false ∧
    (patched file_high_address 0 long_dir).file.length = 264 + (24 + 512) ∧
    leNat (((patched file_high_address 0 long_dir).file.drop 240).take 8) = 24 + 512 ∧
    leNat (((patched file_high_address 0 long_dir).file.drop 224).take 8) = 8 ∧
    0xFFFFFFB0 + (264 - 176) = 0x100000008 ∧
    leNat (((patched file_high_address 0 long_dir).file.drop 224).take 8) ≠
      0xFFFFFFB0 + (264 - 176) := by
  decide

/-- C14, amended: let `patch64` return TRUE on the grow path (`total_extra` is
not 0) in a run in which no copy passes the end of `newtab` (`overflow` is
false; the other runs have undefined behaviour). Let `strtab_off` be the
file offset of the old string table, `eof` the length of the file before the
call, `strtab_vaddr` and `strtab_size` the last `DT_STRTAB` and `DT_STRSZ`
values among the entries, which are the low 32 bits of the `d_val` fields of
the file. Then
* the file is marked little-endian (`swap` is 0);
* the old table lies inside the file, and the file grows by `strtab_size +
  total_extra` bytes, the buffer `newtab` that the loop has filled without
  leaving it, written at offset `eof`;
* the `d_val` of every `DT_STRTAB` entry holds `(strtab_vaddr + (eof -
  strtab_off)) mod 2 ^ 32` in its four low bytes and keeps its four upper
  bytes, and the `d_val` of every `DT_STRSZ` entry holds `(strtab_size +
  total_extra) mod 2 ^ 32` in its four low bytes and keeps its four upper
  bytes;
* so the new value of `DT_STRTAB` is `strtab_vaddr + (eof - strtab_off)` and
  the new value of `DT_STRSZ` is `strtab_size + total_extra` whenever the sum
  is below `2 ^ 32` and the upper four bytes of the field are 0. -/
theorem patch64_grow_values (file pfx : List Nat) (pos dyn_off dyn_size strtab_off : Nat)
    (eh : Ehdr) (swap : Bool) (dyn : List DynEntryInfo64) (r : Patched)
    (heh : eh = decode_ehdr ((file.drop pos).take 64))
    (hsw : swap = decide ((eh.e_ident.drop EI_DATA).head? ≠ some ELFDATA2LSB))
    (hseg : find_dynamic_segment file eh swap = some (dyn_off, dyn_size))
    (hdyn : collect_dyn_entries file dyn_off dyn_size swap = some dyn)
    (hoff : vaddr_to_offset file eh (last_val DT_STRTAB dyn 0) swap = (strtab_off : Int))
    (hextra : total_extra file strtab_off pfx dyn ≠ 0)
    (hp : patch64 file pos pfx = some r) (hret : r.ret = true)
    (hov : r.overflow = false) :
    swap = false ∧
    (∀ d ∈ dyn, d.val = leNat ((file.drop d.val_offset).take 8) % 2 ^ 32) ∧
    strtab_off + last_val DT_STRSZ dyn 0 ≤ file.length ∧
    r.file.length =
      file.length + (last_val DT_STRSZ dyn 0 + total_extra file strtab_off pfx dyn) ∧
    (r.file.drop file.length).length =
      last_val DT_STRSZ dyn 0 + total_extra file strtab_off pfx dyn ∧
    (∃ old g, read_at file strtab_off (last_val DT_STRSZ dyn 0) = some old ∧
      grow_loop old pfx dyn
        ⟨old ++ List.replicate (total_extra file strtab_off pfx dyn) 0,
          last_val DT_STRSZ dyn 0, [], false⟩ = some g ∧
      g.overflow = false ∧ r.file.drop file.length = g.newtab) ∧
    (∀ d ∈ dyn, d.tag = DT_STRTAB →
      leNat ((r.file.drop d.val_offset).take 8) =
        (last_val DT_STRTAB dyn 0 + (file.length - strtab_off)) % 2 ^ 32 +
          2 ^ 32 * leNat ((file.drop (d.val_offset + 4)).take 4)) ∧
    (∀ d ∈ dyn, d.tag = DT_STRSZ →
      leNat ((r.file.drop d.val_offset).take 8) =
        (last_val DT_STRSZ dyn 0 + total_extra file strtab_off pfx dyn) % 2 ^ 32 +
          2 ^ 32 * leNat ((file.drop (d.val_offset + 4)).take 4)) ∧
    (∀ d ∈ dyn, d.tag = DT_STRTAB →
      last_val DT_STRTAB dyn 0 + (file.length - strtab_off) < 2 ^ 32 →
      leNat ((file.drop (d.val_offset + 4)).take 4) = 0 →
      leNat ((r.file.drop d.val_offset).take 8) =
        last_val DT_STRTAB dyn 0 + (file.length - strtab_off)) ∧
    (∀ d ∈ dyn, d.tag = DT_STRSZ →
      last_val DT_STRSZ dyn 0 + total_extra file strtab_off pfx dyn < 2 ^ 32 →
      leNat ((file.drop (d.val_offset + 4)).take 4) = 0 →
      leNat ((r.file.drop d.val_offset).take 8) =
        last_val DT_STRSZ dyn 0 + total_extra file strtab_off pfx dyn) := by
  have hfalse : swap = false := patch64_true_little_endian file pfx pos dyn_off dyn_size eh
    swap dyn r heh hsw hseg hdyn hp hret
  obtain ⟨g0, g1, g2, g3, g4⟩ := patch64_grow file pfx pos dyn_off dyn_size strtab_off eh swap
    dyn r heh hsw hseg hdyn hoff hextra hp hret
  have hup := patch64_grow_upper file pfx pos dyn_off dyn_size strtab_off eh swap dyn r heh hsw
    hseg hdyn hoff hextra hp hret
  obtain ⟨hcv, _⟩ := collect_loop_vals file dyn_off dyn_size _ _ _ [] dyn hdyn
    (fun d hd => absurd hd (List.not_mem_nil _)) List.Pairwise.nil
  have hmod : ∀ x, to_host64 x false = x % 2 ^ 32 := by
    intro x
    unfold to_host64
    simp only [Bool.false_eq_true, if_false]
    omega
  have hfile : ∀ x, to_file64 x false % 2 ^ 32 = x % 2 ^ 32 := by
    intro x
    unfold to_file64
    simp only [Bool.false_eq_true, if_false]
    omega
  have htab : ∀ d ∈ dyn, d.tag = DT_STRTAB →
      leNat ((r.file.drop d.val_offset).take 8) =
        (last_val DT_STRTAB dyn 0 + (file.length - strtab_off)) % 2 ^ 32 +
          2 ^ 32 * leNat ((file.drop (d.val_offset + 4)).take 4) := by
    intro d hd ht
    have e := leNat_field r.file d.val_offset _ _ (g3 d hd ht) (hup d hd)
    rw [hfalse, hfile] at e
    rw [e]
    omega
  have hsz : ∀ d ∈ dyn, d.tag = DT_STRSZ →
      leNat ((r.file.drop d.val_offset).take 8) =
        (last_val DT_STRSZ dyn 0 + total_extra file strtab_off pfx dyn) % 2 ^ 32 +
          2 ^ 32 * leNat ((file.drop (d.val_offset + 4)).take 4) := by
    intro d hd ht
    have e := leNat_field r.file d.val_offset _ _ (g4 d hd ht) (hup d hd)
    rw [hfalse, hfile] at e
    rw [e]
    omega
  have g2' : ∃ old g, read_at file strtab_off (last_val DT_STRSZ dyn 0) = some old ∧
      grow_loop old pfx dyn
        ⟨old ++ List.replicate (total_extra file strtab_off pfx dyn) 0,
          last_val DT_STRSZ dyn 0, [], false⟩ = some g ∧
      g.overflow = false ∧ r.file.drop file.length = g.newtab := by
    obtain ⟨old, g, hold, hg, hnew⟩ := g2
    have hfl := patch64_grow_flag file pfx pos dyn_off dyn_size strtab_off eh swap dyn r heh
      hsw hseg hdyn hoff hextra hp hret old g hold hg
    exact ⟨old, g, hold, hg, by rw [← hfl]; exact hov, hnew⟩
  refine ⟨hfalse, ?_, g0, g1, ?_, g2', htab, hsz, ?_, ?_⟩
  · intro d hd
    have e := (hcv d hd).2
    rw [hfalse, hmod] at e
    exact e
  · rw [List.length_drop, g1]
    omega
  · intro d hd ht hlt hz
    rw [htab d hd ht, hz, Nat.mod_eq_of_lt hlt, Nat.mul_zero, Nat.add_zero]
  · intro d hd ht hlt hz
    rw [hsz d hd ht, hz, Nat.mod_eq_of_lt hlt, Nat.mul_zero, Nat.add_zero]

set_option maxRecDepth 100000 in
/-- C14 amended, at the file `file_one_needed` (264 bytes, the string table
of 24 bytes at offset 176 and address 176, one `DT_NEEDED` entry) and the
prefix `long_dir` of 512 bytes: `total_extra` is 512, the new name of 511
bytes with its terminator fills the new table behind the copy of the old one,
no copy passes its end, the file grows to `264 + 536` bytes, `DT_STRTAB`
becomes `176 + (264 - 176)` and `DT_STRSZ` becomes `24 + 512`. -/
theorem patch64_grow_values_witness :
    last_val DT_STRTAB
      [⟨DT_NEEDED, 1, 208⟩, ⟨DT_STRTAB, 176, 224⟩, ⟨DT_STRSZ, 24, 240⟩, ⟨DT_NULL, 0, 256⟩] 0 =
      176 ∧
    last_val DT_STRSZ
      [⟨DT_NEEDED, 1, 208⟩, ⟨DT_STRTAB, 176, 224⟩, ⟨DT_STRSZ, 24, 240⟩, ⟨DT_NULL, 0, 256⟩] 0 =
      24 ∧
    total_extra file_one_needed 176 long_dir
      [⟨DT_NEEDED, 1, 208⟩, ⟨DT_STRTAB, 176, 224⟩, ⟨DT_STRSZ, 24, 240⟩, ⟨DT_NULL, 0, 256⟩] =
      512 ∧
    file_one_needed.length = 264 ∧
    (patched file_one_needed 0 long_dir).overflow = false ∧
    (patched file_one_needed 0 long_dir).file.length = 264 + (24 + 512) ∧
    leNat (((patched file_one_needed 0 long_dir).file.drop 224).take 8) = 176 + (264 - 176) ∧
    leNat (((patched file_one_needed 0 long_dir).file.drop 240).take 8) = 24 + 512 ∧
    (∀ d ∈ [(⟨DT_NEEDED, 1, 208⟩ : DynEntryInfo64), ⟨DT_STRTAB, 176, 224⟩,
        ⟨DT_STRSZ, 24, 240⟩, ⟨DT_NULL, 0, 256⟩],
      d.tag = DT_STRTAB →
      last_val DT_STRTAB
          [⟨DT_NEEDED, 1, 208⟩, ⟨DT_STRTAB, 176, 224⟩, ⟨DT_STRSZ, 24, 240⟩,
            ⟨DT_NULL, 0, 256⟩] 0 +
        (file_one_needed.length - 176) < 2 ^ 32 →
      leNat ((file_one_needed.drop (d.val_offset + 4)).take 4) = 0 →
      leNat (((patched file_one_needed 0 long_dir).file.drop d.val_offset).take 8) =
        last_val DT_STRTAB
            [⟨DT_NEEDED, 1, 208⟩, ⟨DT_STRTAB, 176, 224⟩, ⟨DT_STRSZ, 24, 240⟩,
              ⟨DT_NULL, 0, 256⟩] 0 +
          (file_one_needed.length - 176)) :=
  ⟨by decide, by decide, by decide, by decide, by decide, by decide, by decide, by decide,
   (patch64_grow_values file_one_needed long_dir 0 200 64 176
      (decode_ehdr ((file_one_needed.drop 0).take 64)) false
      [⟨DT_NEEDED, 1, 208⟩, ⟨DT_STRTAB, 176, 224⟩, ⟨DT_STRSZ, 24, 240⟩, ⟨DT_NULL, 0, 256⟩]
      (patched file_one_needed 0 long_dir) rfl (by decide) (by decide) (by decide) (by decide)
      (by decide) (patched_eq file_one_needed 0 long_dir (by decide)) (by decide)
      (by decide)).2.2.2.2.2.2.2.2.1⟩

end ElfPatcher

/-! ## The claims about elf_save and the section headers -/

namespace ElfMod

open Sample

/-- C15: for every image (what `elf_load` returns with status 0, and what calls
of `elf_replace_needed_lib` make of it), `elf_save` writes exactly the buffer of
the image, the mapping when the image is not expanded and the grown buffer when
it is, and the length of that buffer is `file_size`. When the image is the
unmodified result of loading `file`, the bytes written are `file`, and loading
them again, at the same address or with both mappings above 4 GiB, succeeds and
yields the same list of needed libraries. -/
theorem elf_save_writes_image (ctx : ElfContext) (h : Image ctx) :
    elf_save ctx = some (image_buffer ctx) ∧ (image_buffer ctx).length = ctx.file_size ∧
    ∀ (file : List Nat) (base : Nat) (o : Outcome), elf_load file base = some o → o.ret = 0 →
      o.ctx = ctx →
      elf_save ctx = some file ∧
      ∀ saved base2, elf_save ctx = some saved →
        (base2 = base ∨ (2 ^ 32 ≤ base ∧ 2 ^ 32 ≤ base2 ∧ ∀ x ∈ file, x < 256)) →
        ∃ o2, elf_load saved base2 = some o2 ∧ o2.ret = 0 ∧
          elf_get_needed_libs o2.ctx = elf_get_needed_libs ctx := by
  obtain ⟨h1, h2⟩ := elf_save_consistent (image_consistent h)
  refine ⟨h1, h2, ?_⟩
  intro file base o ho hret hctx
  obtain ⟨f1, f2, _, _, _⟩ := elf_load_frame ho hret
  have hbuf : image_buffer ctx = file := by
    unfold image_buffer
    rw [← hctx, f1, f2]
    rfl
  have hs : elf_save ctx = some file := by rw [h1, hbuf]
  refine ⟨hs, ?_⟩
  intro saved base2 hsaved hb
  rw [hs] at hsaved
  cases hsaved
  rcases hb with rfl | ⟨hb1, hb2, hbytes⟩
  · exact ⟨o, ho, hret, by rw [hctx]⟩
  · obtain ⟨o2, h3, h4, _, h5⟩ := elf_load_rebase base2 hb1 hb2 hbytes ho hret
    exact ⟨o2, h3, h4, by rw [h5, hctx]⟩

set_option maxRecDepth 100000 in
/-- C15, at the image of the 650-byte file mapped at `0x7f0000000000`, which is
saved as the file itself and loaded again at `0x7f0000100000` with the same
needed libraries, and at the image grown to 669 bytes by a longer name. -/
theorem elf_save_writes_image_witness :
    Image ctx_high ∧ Image ctx_grown ∧
    ctx_grown.is_expanded = true ∧ ctx_grown.file_size = 669 ∧
    elf_save ctx_grown = some (image_buffer ctx_grown) ∧
    (image_buffer ctx_grown).length = ctx_grown.file_size ∧
    elf_save ctx_high = some file_text_first ∧
    ∃ o2, elf_load file_text_first 0x7f0000100000 = some o2 ∧ o2.ret = 0 ∧
      elf_get_needed_libs o2.ctx = elf_get_needed_libs ctx_high := by
  have hi : Image ctx_high := loaded_is_image _ _ (by decide)
  have hg : Image ctx_grown :=
    replaced_is_image _ _ _ _ (loaded_is_image file_text_first 0x10000 (by decide)) (by decide)
  obtain ⟨o, ho, hr, hc⟩ := loaded_image file_text_first 0x7f0000000000 (by decide)
  have t := (elf_save_writes_image ctx_high hi).2.2 file_text_first _ o ho hr hc
  have g := elf_save_writes_image ctx_grown hg
  exact ⟨hi, hg, by decide, by decide, g.1, g.2.1, t.1,
    t.2 file_text_first 0x7f0000100000 t.1 (Or.inr ⟨by decide, by decide, by decide⟩)⟩

end ElfMod
/-! ## The claims about failures and side effects of elf_replace_needed_lib -/

namespace ElfMod

open Sample

/-- C21: when the search of `elf_replace_needed_lib` stops at an entry and the
new name is longer than the old one, so that the image has to grow (the
section header of `.dynstr` lies inside the image), and `calloc` returns
`NULL`, the call returns -1 and the context it leaves is the context it was
given: same bytes in the mapping and in the grown buffer, same `file_size`,
same `sh_size` of `.dynstr`, same `dynstr_size`, same dynamic entries, same
expansion state; the image is enumerated and saved as before the call. -/
theorem replace_alloc_failure (ctx : ElfContext) (old new : List Nat) (k v : Nat)
    (hf : find_loop ctx old ctx.dyn_count 0 = some (some (k, v)))
    (hlen : old.length < new.length)
    (hs : (sh_offset ctx ctx.dynstr_idx).isSome = true ∧
      (sh_size ctx ctx.dynstr_idx).isSome = true ∧ (sh_addr ctx ctx.dynstr_idx).isSome = true) :
    elf_replace_needed_lib ctx old new none =
      some ⟨-1, ctx, some "Failed to expand dynamic string table"⟩ ∧
    ∀ o, elf_replace_needed_lib ctx old new none = some o →
      o.ret ≠ 0 ∧ o.ctx.mapped = ctx.mapped ∧ o.ctx.extended = ctx.extended ∧
      image_buffer o.ctx = image_buffer ctx ∧ o.ctx.file_size = ctx.file_size ∧
      sh_size o.ctx o.ctx.dynstr_idx = sh_size ctx ctx.dynstr_idx ∧
      o.ctx.dynstr_size = ctx.dynstr_size ∧ dyn_table o.ctx = dyn_table ctx ∧
      o.ctx.is_expanded = ctx.is_expanded ∧
      elf_get_needed_libs o.ctx = elf_get_needed_libs ctx ∧ elf_save o.ctx = elf_save ctx := by
  have h : elf_replace_needed_lib ctx old new none =
      some ⟨-1, ctx, some "Failed to expand dynamic string table"⟩ := by
    obtain ⟨h1, h2, h3⟩ := hs
    obtain ⟨a, ha⟩ := Option.isSome_iff_exists.mp h1
    obtain ⟨b, hb⟩ := Option.isSome_iff_exists.mp h2
    obtain ⟨c, hc⟩ := Option.isSome_iff_exists.mp h3
    unfold elf_replace_needed_lib
    simp only [hf, Option.some_bind]
    rw [if_neg (by omega)]
    unfold expand_dynstr
    rw [if_neg (by omega)]
    simp only [ha, hb, hc, Option.some_bind]
    rfl
  refine ⟨h, ?_⟩
  intro o ho
  rw [h] at ho
  cases ho
  exact ⟨by simp, rfl, rfl, rfl, rfl, rfl, rfl, rfl, rfl, rfl, rfl⟩

set_option maxRecDepth 100000 in
/-- C21, at the image with `libc.so.6` and `libm.so.6`, for the longer name
`libcustom.so`, and at the image that has grown once, for `libmath.so.6`. -/
theorem replace_alloc_failure_witness :
    elf_replace_needed_lib ctx_text_first libc libcustom none =
      some ⟨-1, ctx_text_first, some "Failed to expand dynamic string table"⟩ ∧
    elf_replace_needed_lib ctx_grown libm libmath none =
      some ⟨-1, ctx_grown, some "Failed to expand dynamic string table"⟩ :=
  ⟨(replace_alloc_failure ctx_text_first libc libcustom 0 1 (by decide) (by decide)
      (by decide)).1,
   (replace_alloc_failure ctx_grown libm libmath 1 11 (by decide) (by decide) (by decide)).1⟩

set_option maxRecDepth 100000 in
/-- C22 as stated fails: replacing `libc.so.6` (string offset 1) by the shorter
`ld.so` returns 0 and leaves the ten bytes `ld.so\0o.6\0` in the slot. The
slot positions 6, 7 and 8 hold the end `o.6` of the old name, not NUL: `strcpy`
writes the new name and one terminator and nothing behind it. -/
theorem replace_shorter_keeps_old_tail :
    ld_so.length < libc.length ∧
    (elf_replace_needed_lib ctx_text_first libc ld_so none).map Outcome.ret = some 0 ∧
    readBytes ctx_text_first (ctx_text_first.dynstr + 1) (libc.length + 1) = some (libc ++ [0]) ∧
    readBytes (replaced ctx_text_first libc ld_so none).ctx (ctx_text_first.dynstr + 1)
        (libc.length + 1) = some (ld_so ++ [0] ++ ascii "o.6" ++ [0]) ∧
    ¬ ∀ j, ld_so.length + 1 ≤ j → j ≤ libc.length →
      readLE (replaced ctx_text_first libc ld_so none).ctx (ctx_text_first.dynstr + 1 + j) 1 =
        some 0 :=
  ⟨by decide, by decide, by decide, by decide,
   fun h => absurd (h 6 (by decide) (by decide)) (by decide)⟩

/-- C22, amended: when the search of `elf_replace_needed_lib` stops at the
entry with string offset `v` and `new` is strictly shorter than `old`, the
call returns 0 and the slot of `len(old) + 1` bytes at that offset, which held
`old` and its terminator, holds `new`, one terminator, and then the bytes it
held before: the end of the old name from position `len(new) + 1` on, none of
which is NUL, and the old terminator at position `len(old)`. Every byte behind
the new terminator keeps its value. -/
theorem replace_shorter_slot (ctx : ElfContext) (old new : List Nat) (alloc : Option Nat)
    (k v : Nat) (hold : CStr old)
    (hf : find_loop ctx old ctx.dyn_count 0 = some (some (k, v)))
    (hlen : new.length < old.length) :
    ∃ ctx', elf_replace_needed_lib ctx old new alloc = some ⟨0, ctx', none⟩ ∧
      readBytes ctx (ctx.dynstr + v) (old.length + 1) = some (old ++ [0]) ∧
      readBytes ctx' (ctx.dynstr + v) (old.length + 1) =
        some (new ++ [0] ++ old.drop (new.length + 1) ++ [0]) ∧
      (∀ b ∈ old.drop (new.length + 1), b ≠ 0) ∧
      ∀ j n, new.length + 1 ≤ j →
        readBytes ctx' (ctx.dynstr + v + j) n = readBytes ctx (ctx.dynstr + v + j) n := by
  obtain ⟨_, _, _, _, _, hc⟩ := find_loop_some ctx old hold.nonzero ctx.dyn_count 0 k v hf
  have hrd := (cstr_iff_readBytes ctx (ctx.dynstr + v) old hold.nonzero).1 hc
  obtain ⟨ctx', hw⟩ := writeBytes_of_readBytes hrd (new ++ [0]) (by simp; omega)
  refine ⟨ctx', ?_, hrd, ?_, ?_, ?_⟩
  · unfold elf_replace_needed_lib
    simp [hf, Nat.le_of_lt hlen, strcpy, hw]
  · rw [readBytes_writeBytes_head hw hrd (by simp; omega)]
    simp only [List.length_append, List.length_singleton, List.append_assoc, Option.some.injEq,
      List.append_cancel_left_eq]
    rw [List.drop_append_of_le_length (by omega)]
  · intro b hb
    exact hold.nonzero b (List.mem_of_mem_drop hb)
  · intro j n hj
    exact readBytes_writeBytes_disjoint hw _ _ (Or.inr (by simp; omega))

set_option maxRecDepth 100000 in
/-- C22 amended, at the image with `libc.so.6` and `libm.so.6`, for `libc.so.6`
and the shorter `ld.so`: the slot holds `ld.so\0` and then `o.6\0`. -/
theorem replace_shorter_slot_witness :
    libc.drop (ld_so.length + 1) = ascii "o.6" ∧
    ∃ ctx', elf_replace_needed_lib ctx_text_first libc ld_so none = some ⟨0, ctx', none⟩ ∧
      readBytes ctx_text_first (ctx_text_first.dynstr + 1) (libc.length + 1) =
        some (libc ++ [0]) ∧
      readBytes ctx' (ctx_text_first.dynstr + 1) (libc.length + 1) =
        some (ld_so ++ [0] ++ libc.drop (ld_so.length + 1) ++ [0]) ∧
      (∀ b ∈ libc.drop (ld_so.length + 1), b ≠ 0) ∧
      ∀ j n, ld_so.length + 1 ≤ j →
        readBytes ctx' (ctx_text_first.dynstr + 1 + j) n =
          readBytes ctx_text_first (ctx_text_first.dynstr + 1 + j) n :=
  ⟨by decide,
   replace_shorter_slot ctx_text_first libc ld_so none 0 1 (by decide) (by decide) (by decide)⟩

set_option maxRecDepth 100000 in
/-- C27 fails on the code. In the image `ctx_duplicates` the first and the
third `DT_NEEDED` entry share the string offset 1 (`libc.so.6`), the second
has the same name at offset 11. Replacing `libc.so.6` by the shorter `ld.so`
returns 0 and changes no dynamic entry: `strcpy` overwrites the shared bytes,
so that the third entry, which the search never reached, resolves to `ld.so`
as well, while the second keeps `libc.so.6`. Replacing the name by the longer
`libcustom.so` takes the other path, which points the first entry to a new
string and leaves the third entry with `libc.so.6`. -/
theorem replace_in_place_overwrites_shared_string :
    dyn_table ctx_duplicates =
      some [(DT_NEEDED, 1), (DT_NEEDED, 11), (DT_NEEDED, 1), (DT_STRTAB, 176), (DT_STRSZ, 24),
        (DT_NULL, 0)] ∧
    elf_get_needed_libs ctx_duplicates = some ⟨some [libc, libc, libc], 3, none⟩ ∧
    find_loop ctx_duplicates libc ctx_duplicates.dyn_count 0 = some (some (0, 1)) ∧
    ld_so.length ≤ libc.length ∧ ld_so ≠ libc ∧
    (elf_replace_needed_lib ctx_duplicates libc ld_so none).map Outcome.ret = some 0 ∧
    dyn_table (replaced ctx_duplicates libc ld_so none).ctx = dyn_table ctx_duplicates ∧
    elf_get_needed_libs (replaced ctx_duplicates libc ld_so none).ctx =
      some ⟨some [ld_so, libc, ld_so], 3, none⟩ ∧
    (elf_replace_needed_lib ctx_duplicates libc libcustom (some 0x20000)).map Outcome.ret =
      some 0 ∧
    elf_get_needed_libs (replaced ctx_duplicates libc libcustom (some 0x20000)).ctx =
      some ⟨some [libcustom, libc, libc], 3, none⟩ := by
  decide

set_option maxRecDepth 100000 in
/-- C28 fails on the code. `ctx_grown` is an image that has grown once: the
mapping is at `0x10000`, the buffer at `0x20000`, and the views point into the
buffer (dynamic table at offset 216, string table at 176, section names at
296). A second `expand_dynstr` with the new buffer at `0x30000` returns 0;
`shdr` is computed from the new header (offset 330), but the three views are
moved by `new_data - mapped_data` instead of `new_data - extended_data`: they
hold `0x40000 + offset`, addresses in neither block, so that the second longer
replacement writes through a pointer outside the image (no result in the
model). With the first buffer below the mapping (`ctx_low`: mapping at
`0x30000`, buffers at `0x20000` and `0x40000`) the stale views fall into the
old mapping: the second replacement returns 0, `elf_get_needed_libs` then
lists `libmath.so.6` alone, and the buffer that `elf_save` writes lists
`libcustom.so` and `libm.so.6`: neither shows both new names. -/
theorem expand_dynstr_twice_stale_views :
    ctx_grown.is_expanded = true ∧ ctx_grown.mapped_data = 0x10000 ∧
    ctx_grown.extended_data = 0x20000 ∧
    (ctx_grown.dyn, ctx_grown.dynstr, ctx_grown.shstrtab, ctx_grown.shdr) =
      (0x20000 + 216, 0x20000 + 176, 0x20000 + 296, 0x20000 + 330) ∧
    elf_get_needed_libs ctx_grown = some ⟨some [libcustom, libm], 2, none⟩ ∧
    (expand_dynstr ctx_grown 13 (some 0x30000)).map
        (fun o => (o.ret, o.ctx.extended_data, o.ctx.extended.length)) =
      some (0, 0x30000, 685) ∧
    (expand_dynstr ctx_grown 13 (some 0x30000)).map
        (fun o => (o.ctx.dyn, o.ctx.dynstr, o.ctx.shstrtab, o.ctx.shdr)) =
      some (0x40000 + 216, 0x40000 + 176, 0x40000 + 296, 0x30000 + 330) ∧
    (expand_dynstr ctx_grown 13 (some 0x30000)).map
        (fun o => (region o.ctx o.ctx.dyn, region o.ctx o.ctx.dynstr)) = some (none, none) ∧
    (expand_dynstr ctx_grown 13 (some 0x30000)).map (fun o => elf_get_needed_libs o.ctx) =
      some none ∧
    elf_replace_needed_lib ctx_grown libm libmath (some 0x30000) = none ∧
    elf_get_needed_libs ctx_low = some ⟨some [libcustom, libm], 2, none⟩ ∧
    (elf_replace_needed_lib ctx_low libm libmath (some 0x40000)).map
        (fun o => (o.ret, o.ctx.extended_data, o.ctx.dyn, o.ctx.dynstr)) =
      some (0, 0x40000, 0x30000 + 216, 0x30000 + 176) ∧
    elf_get_needed_libs (replaced ctx_low libm libmath (some 0x40000)).ctx =
      some ⟨some [libmath], 1, none⟩ ∧
    (elf_save (replaced ctx_low libm libmath (some 0x40000)).ctx).map
        (fun f => (elf_load f 0x50000).map fun o => (o.ret, elf_get_needed_libs o.ctx)) =
      some (some (0, some ⟨some [libcustom, libm], 2, none⟩)) := by
  decide

end ElfMod
/-! ## The claims about the byte order, the grow path of patch64 and the 32-bit loops -/

namespace ElfPatcher

open ElfMod (leNat leBytes cstrFrom ELFMAG DT_NULL DT_NEEDED DT_STRTAB DT_STRSZ)
open Sample

set_option maxRecDepth 100000 in
/-- C23 fails on the code. With the swap flag set, `to_host64` and `to_file64`
return 0 for every argument: the 32-bit argument is widened to 64 bits,
`be64toh` moves its four bytes into the upper half, and the conversion of the
result to `uint32_t` keeps the lower half. So `to_file64(to_host64(1, 1), 1)`
is 0, not 1, and the 32-bit pattern `0x01000000`, which is the value 1 stored
in big-endian order (`be32toh` yields 1), is read as 0. In the dynamic segment
`NEEDED 1, STRTAB 176, STRSZ 24, NULL` of the big-endian file
`file_big_endian`, `collect_dyn_entries` reads the first entry as `DT_NULL`
with value 0 and stops. `patch64` does not get that far on this file: it uses
the header fields `e_phoff`, `e_phentsize` and `e_phnum` as they are stored (64,
56 and 2 are read as `2 ^ 62`, 14336 and 512), finds no program header and
returns FALSE. Without the swap flag the round trip is the identity on 32-bit
values. -/
theorem to_host64_swap_is_zero :
    (∀ x, to_host64 x true = 0) ∧ (∀ x, to_file64 x true = 0) ∧
    to_file64 (to_host64 1 true) true ≠ 1 ∧
    be32toh 0x01000000 = 1 ∧ to_host64 0x01000000 true = 0 ∧
    (file_big_endian.drop EI_DATA).head? = some ELFDATA2MSB ∧
    (file_big_endian.drop 200).take 16 = [0, 0, 0, 0, 0, 0, 0, 1, 0, 0, 0, 0, 0, 0, 0, 1] ∧
    collect_dyn_entries file_big_endian 200 64 true = some [⟨DT_NULL, 0, 208⟩] ∧
    decode_ehdr (file_big_endian.take 64) =
      ⟨file_big_endian.take 16, 2 ^ 62, 14336, 512⟩ ∧
    find_dynamic_segment file_big_endian (decode_ehdr (file_big_endian.take 64)) true = none ∧
    (patch64 file_big_endian 0 opt_libs).map Patched.ret = some false ∧
    (∀ x, to_file64 (to_host64 x false) false = x % 2 ^ 32) := by
  refine ⟨to_host64_swap, to_file64_swap, by decide, by decide, by decide, by decide, by decide,
    by decide, by decide, by decide, by decide, ?_⟩
  intro x
  unfold to_file64 to_host64
  simp only [Bool.false_eq_true, if_false]
  omega

set_option maxRecDepth 100000 in
/-- C24 fails on the code, by the defect of C10. For `file_three` and the prefix
`/opt/libs/`, step 6 computes `total_extra = 30` (ten bytes for each of the
three names), so that `newtab` has `new_size = 32 + 30 = 62` bytes. The loop
of the grow path copies `/opt/libs/libc.so.6\0` (20 bytes) to position 32,
`/opt/libs/libm.so.6\0` (20 bytes) to position 52, of which 10 bytes lie
inside `newtab`, and `/opt/libs/libdl.so.2\0` (21 bytes) to position 72,
behind the end of `newtab`: the write position ends at 93, the `d_val`
assigned are 32, 52 and 72, and the `DT_STRSZ` written to the file is 62. -/
theorem patch64_write_position_exceeds_new_size :
    read_at file_three 176 32 = some strtab_cmd ∧
    total_extra file_three 176 opt_libs
      [⟨DT_NEEDED, 1, 232⟩, ⟨DT_NEEDED, 11, 248⟩, ⟨DT_NEEDED, 21, 264⟩,
        ⟨DT_STRTAB, 176, 280⟩, ⟨DT_STRSZ, 32, 296⟩, ⟨DT_NULL, 0, 312⟩] = 30 ∧
    (grow_loop strtab_cmd opt_libs
      [⟨DT_NEEDED, 1, 232⟩, ⟨DT_NEEDED, 11, 248⟩, ⟨DT_NEEDED, 21, 264⟩,
        ⟨DT_STRTAB, 176, 280⟩, ⟨DT_STRSZ, 32, 296⟩, ⟨DT_NULL, 0, 312⟩]
      ⟨strtab_cmd ++ List.replicate 30 0, 32, [], false⟩).map
        (fun g => (g.newtab.length, g.write_ptr, g.overflow, g.dyn.map DynEntryInfo64.val)) =
      some (62, 93, true, [32, 52, 72, 176, 32, 0]) ∧
    (opt_libs ++ libm ++ [0]).length = 20 ∧ 62 < 52 + 20 ∧ 62 < 72 ∧
    (patched file_three 0 opt_libs).ret = true ∧
    ((patched file_three 0 opt_libs).file.drop 296).take 4 = leBytes 4 62 ∧
    ((patched file_three 0 opt_libs).file.drop 248).take 4 = leBytes 4 52 ∧
    ((patched file_three 0 opt_libs).file.drop 264).take 4 = leBytes 4 72 := by
  decide

set_option maxRecDepth 100000 in
/-- C25 fails on the code. `file_three` (674 bytes) has one `PT_LOAD` header,
for the addresses `[0, 674)` at offset 0; its string table is at address and
offset 176. `patch64` with the prefix `/opt/libs/` appends the new table at
offset 674 and writes `DT_STRTAB = 176 + (674 - 176) = 674`. The program
headers of the patched file are those of the input: no `PT_LOAD` header
contains the address 674, `vaddr_to_offset` returns -1 for it, and `patch64`
applied to the patched file returns FALSE. -/
theorem patch64_grown_strtab_unmapped :
    phdr_table file_three (decode_ehdr (file_three.take 64)) false =
      some [⟨PT_LOAD, 0, 0, 674⟩, ⟨PT_DYNAMIC, 224, 224, 96⟩] ∧
    vaddr_to_offset file_three (decode_ehdr (file_three.take 64)) 176 false = 176 ∧
    (patched file_three 0 opt_libs).ret = true ∧
    (patched file_three 0 opt_libs).file.length = 736 ∧
    ((patched file_three 0 opt_libs).file.drop 280).take 8 = leBytes 8 674 ∧
    phdr_table (patched file_three 0 opt_libs).file
        (decode_ehdr ((patched file_three 0 opt_libs).file.take 64)) false =
      some [⟨PT_LOAD, 0, 0, 674⟩, ⟨PT_DYNAMIC, 224, 224, 96⟩] ∧
    vaddr_to_offset (patched file_three 0 opt_libs).file
        (decode_ehdr ((patched file_three 0 opt_libs).file.take 64)) 674 false = -1 ∧
    patch64 (patched file_three 0 opt_libs).file 0 opt_libs =
      some ⟨false, (patched file_three 0 opt_libs).file, false⟩ := by
  refine ⟨by decide, by decide, by decide, by decide, by decide, by decide, by decide, ?_⟩
  have h : (patch64 (patched file_three 0 opt_libs).file 0 opt_libs).isSome = true := by decide
  rw [patched_eq _ _ _ h]
  have h1 : (patched (patched file_three 0 opt_libs).file 0 opt_libs).ret = false := by decide
  have h2 : (patched (patched file_three 0 opt_libs).file 0 opt_libs).overflow = false := by
    decide
  have h3 : (patched (patched file_three 0 opt_libs).file 0 opt_libs).file =
      (patched file_three 0 opt_libs).file := by decide
  cases hq : patched (patched file_three 0 opt_libs).file 0 opt_libs with
  | mk ret f ov =>
    rw [hq] at h1 h2 h3
    simp only at h1 h2 h3
    rw [h1, h2, h3]


set_option maxRecDepth 100000 in
/-- C29 fails on the code. The `PT_DYNAMIC` segment of `file32_after_null`
(offset 140, 40 bytes) holds `NEEDED 1, STRTAB, STRSZ, NULL, NEEDED 11`. The
loops of `collect_dt_needed` run over all `40 / 8 = 5` entries of the array and
have no case for `DT_NULL`: the count is 2 and the array returned holds
`libc.so.6` and `libm.so.6`, the second from the entry behind the terminator.
The 64-bit collector `collect_dyn_entries` stops at the terminator of the
64-bit file with the same table, and so does `elf_get_needed_libs`. -/
theorem collect_dt_needed_passes_terminator :
    read_program_tables file32_after_null 52 2 =
      some [⟨PT_LOAD, 0, 0, 0, 374, 374⟩, ⟨PT_DYNAMIC, 140, 140, 140, 40, 40⟩] ∧
    pt_dynamic_locinfo [⟨PT_LOAD, 0, 0, 0, 374, 374⟩, ⟨PT_DYNAMIC, 140, 140, 140, 40, 40⟩] =
      (140, 40) ∧
    dynamic_entries file32_after_null 140 40 =
      some [⟨DT_NEEDED, 1⟩, ⟨DT_STRTAB, 116⟩, ⟨DT_STRSZ, 24⟩, ⟨DT_NULL, 0⟩, ⟨DT_NEEDED, 11⟩] ∧
    locate_loop [⟨DT_NEEDED, 1⟩, ⟨DT_STRTAB, 116⟩, ⟨DT_STRSZ, 24⟩, ⟨DT_NULL, 0⟩, ⟨DT_NEEDED, 11⟩]
      ⟨0, 0, 0⟩ = ⟨2, 116, 24⟩ ∧
    collect_dt_needed file32_after_null
      [⟨PT_LOAD, 0, 0, 0, 374, 374⟩, ⟨PT_DYNAMIC, 140, 140, 140, 40, 40⟩]
      [⟨DT_NEEDED, 1⟩, ⟨DT_STRTAB, 116⟩, ⟨DT_STRSZ, 24⟩, ⟨DT_NULL, 0⟩, ⟨DT_NEEDED, 11⟩] =
      some (some [⟨⟨DT_NEEDED, 1⟩, libc⟩, ⟨⟨DT_NEEDED, 11⟩, libm⟩]) ∧
    collect_dyn_entries file_after_null 216 80 false =
      some [⟨DT_NEEDED, 1, 224⟩, ⟨DT_STRTAB, 176, 240⟩, ⟨DT_STRSZ, 24, 256⟩,
        ⟨DT_NULL, 0, 272⟩] ∧
    ElfMod.elf_get_needed_libs ctx_after_null = some ⟨some [libc], 1, none⟩ := by
  decide

set_option maxRecDepth 100000 in
/-- C30 fails on the code. The dynamic table of `file32_init_first` is
`INIT 0x100, NEEDED 1, STRTAB 116, STRSZ 24, NULL`, and `collect_dt_needed`
returns the one name `libc.so.6`. Called with that array (what `patch32` passes
for an empty prefix), the loop of `write_dt_neededs` assigns the new value to
`dynamic_entries[0]`, the entry at the index of the name in `dt_neededs`: the
array written back has `INIT 139` (`116 + (24 - 10 + 9)`) and the `DT_NEEDED`
entry as it was. With the name `/l/libc.so.6` the `DT_INIT` entry is written back
with the value 136. -/
theorem write_dt_neededs_changes_other_entry :
    read_program_tables file32_init_first 52 2 =
      some [⟨PT_LOAD, 0, 0, 0, 374, 374⟩, ⟨PT_DYNAMIC, 140, 140, 140, 40, 40⟩] ∧
    dynamic_entries file32_init_first 140 40 =
      some [⟨DT_INIT, 0x100⟩, ⟨DT_NEEDED, 1⟩, ⟨DT_STRTAB, 116⟩, ⟨DT_STRSZ, 24⟩, ⟨DT_NULL, 0⟩] ∧
    collect_dt_needed file32_init_first
      [⟨PT_LOAD, 0, 0, 0, 374, 374⟩, ⟨PT_DYNAMIC, 140, 140, 140, 40, 40⟩]
      [⟨DT_INIT, 0x100⟩, ⟨DT_NEEDED, 1⟩, ⟨DT_STRTAB, 116⟩, ⟨DT_STRSZ, 24⟩, ⟨DT_NULL, 0⟩] =
      some (some [⟨⟨DT_NEEDED, 1⟩, libc⟩]) ∧
    write_dt_neededs_entries file32_init_first
      [⟨PT_LOAD, 0, 0, 0, 374, 374⟩, ⟨PT_DYNAMIC, 140, 140, 140, 40, 40⟩]
      [⟨DT_INIT, 0x100⟩, ⟨DT_NEEDED, 1⟩, ⟨DT_STRTAB, 116⟩, ⟨DT_STRSZ, 24⟩, ⟨DT_NULL, 0⟩]
      [⟨⟨DT_NEEDED, 1⟩, libc⟩] =
      some (some [⟨DT_INIT, 139⟩, ⟨DT_NEEDED, 1⟩, ⟨DT_STRTAB, 116⟩, ⟨DT_STRSZ, 34⟩,
        ⟨DT_NULL, 0⟩]) ∧
    write_dt_neededs_entries file32_init_first
      [⟨PT_LOAD, 0, 0, 0, 374, 374⟩, ⟨PT_DYNAMIC, 140, 140, 140, 40, 40⟩]
      [⟨DT_INIT, 0x100⟩, ⟨DT_NEEDED, 1⟩, ⟨DT_STRTAB, 116⟩, ⟨DT_STRSZ, 24⟩, ⟨DT_NULL, 0⟩]
      [⟨⟨DT_NEEDED, 1⟩, ascii "/l/" ++ libc⟩] =
      some (some [⟨DT_INIT, 136⟩, ⟨DT_NEEDED, 1⟩, ⟨DT_STRTAB, 116⟩, ⟨DT_STRSZ, 37⟩,
        ⟨DT_NULL, 0⟩]) := by
  decide

end ElfPatcher
/-! ## The claims about the entry array of collect_dyn_entries and the empty prefix -/

namespace ElfPatcher

open ElfMod (leNat leBytes cstrFrom ELFMAG EI_CLASS ELFCLASS64 DT_NULL DT_NEEDED DT_STRTAB
  DT_STRSZ)
open Sample

set_option maxRecDepth 100000 in
/-- C31 fails on the code. The `PT_DYNAMIC` header of `file_short_dynamic` has
the offset 200 and the size 72, which is not a multiple of
`sizeof(Elf64_Dyn) = 16`: `calloc` allocates `max = 72 / 16 = 4` elements, the
loop runs while `cur < dyn_off + dyn_size`, that is for `cur` = 200, 216, 232,
248 and 264, and stores five entries, the fifth (the terminator at offset
264) behind the end of the array; the count reported is 5. With the size 8 the
array has no element and one entry is stored. With the size 80 the five
entries fit the five elements. -/
theorem collect_dyn_entries_exceeds_array :
    find_dynamic_segment file_short_dynamic (decode_ehdr (file_short_dynamic.take 64)) false =
      some (200, 72) ∧
    max_entries 72 = 4 ∧
    collect_dyn_entries file_short_dynamic 200 72 false =
      some [⟨DT_NEEDED, 1, 208⟩, ⟨DT_NEEDED, 11, 224⟩, ⟨DT_STRTAB, 176, 240⟩,
        ⟨DT_STRSZ, 24, 256⟩, ⟨DT_NULL, 0, 272⟩] ∧
    (collect_dyn_entries file_short_dynamic 200 72 false).map List.length = some 5 ∧
    max_entries 8 = 0 ∧
    (collect_dyn_entries file_short_dynamic 200 8 false).map List.length = some 1 ∧
    max_entries 80 = 5 ∧
    (collect_dyn_entries file_short_dynamic 200 80 false).map List.length = some 5 := by
  decide

set_option maxRecDepth 100000 in
/-- C32 as stated fails: `file_long_name` is a well-formed 64-bit little-endian
shared object (914 bytes; `elf_load` accepts it and `elf_get_needed_libs` lists
its one library) whose `DT_NEEDED` name at offset 177 is 300 bytes long.
`patch64` with the empty prefix returns TRUE and keeps the length of the file,
but it writes a NUL at offset 432, the position 255 of the name: the read loop
stops after 255 bytes, the size of the buffer `orig` less one, and the name is
written back with its terminator there. The file then names a library of 255
bytes. -/
theorem patch64_empty_cuts_long_name :
    long_name.length = 300 ∧
    file_long_name.take 4 = ELFMAG ∧
    (file_long_name.drop EI_CLASS).head? = some ELFCLASS64 ∧
    (file_long_name.drop EI_DATA).head? = some ELFDATA2LSB ∧
    (ElfMod.elf_load file_long_name 0x10000).map ElfMod.Outcome.ret = some 0 ∧
    ElfMod.elf_get_needed_libs (loaded file_long_name 0x10000) =
      some ⟨some [long_name], 1, none⟩ ∧
    find_dynamic_segment file_long_name (decode_ehdr (file_long_name.take 64)) false =
      some (496, 64) ∧
    collect_dyn_entries file_long_name 496 64 false =
      some [⟨DT_NEEDED, 1, 504⟩, ⟨DT_STRTAB, 176, 520⟩, ⟨DT_STRSZ, 304, 536⟩,
        ⟨DT_NULL, 0, 552⟩] ∧
    vaddr_to_offset file_long_name (decode_ehdr (file_long_name.take 64)) 176 false = 176 ∧
    cstrFrom (file_long_name.drop 177) = some long_name ∧
    (patch64 file_long_name 0 []).isSome = true ∧
    (patched file_long_name 0 []).ret = true ∧
    (patched file_long_name 0 []).file.length = file_long_name.length ∧
    differing (patched file_long_name 0 []).file file_long_name 0 = [432] ∧
    file_long_name[432]? = some 0x61 ∧ (patched file_long_name 0 []).file[432]? = some 0 ∧
    cstrFrom ((patched file_long_name 0 []).file.drop 177) = some (long_name.take 255) ∧
    (patched file_long_name 0 []).file ≠ file_long_name := by
  decide

/-- C32, amended: let `file` be a little-endian file that starts with an ELF
header of 64 bytes, in which `find_dynamic_segment` finds the `PT_DYNAMIC`
segment, `collect_dyn_entries` reads the entries `dyn` with a `DT_STRTAB` and a
`DT_STRSZ` value that are not 0, and `vaddr_to_offset` finds the string table
at offset `strtab_off`. If the name of every `DT_NEEDED` entry is terminated
inside the file and at most 255 bytes long, `patch64` with the empty prefix
returns TRUE and leaves the file as it is, byte for byte. -/
theorem patch64_empty_identity (file : List Nat) (dyn_off dyn_size strtab_off : Nat)
    (eh : Ehdr) (dyn : List DynEntryInfo64)
    (hlen : 64 ≤ file.length) (hmagic : file.take 4 = ELFMAG)
    (heh : eh = decode_ehdr (file.take 64))
    (hle : (eh.e_ident.drop EI_DATA).head? = some ELFDATA2LSB)
    (hseg : find_dynamic_segment file eh false = some (dyn_off, dyn_size))
    (hdyn : collect_dyn_entries file dyn_off dyn_size false = some dyn)
    (hva : last_val DT_STRTAB dyn 0 ≠ 0) (hsz : last_val DT_STRSZ dyn 0 ≠ 0)
    (hoff : vaddr_to_offset file eh (last_val DT_STRTAB dyn 0) false = (strtab_off : Int))
    (hnames : ∀ d ∈ dyn, d.tag = DT_NEEDED → name_within file (strtab_off + d.val) 255) :
    patch64 file 0 [] = some ⟨true, file, false⟩ := by
  subst heh
  have hsw : decide (((decode_ehdr (file.take 64)).e_ident.drop EI_DATA).head? ≠
      some ELFDATA2LSB) = false := by
    simp [hle]
  have h64 : (file.take 64).length = 64 := by
    simp only [List.length_take]
    omega
  have h4 : (file.take 64).take 4 = ELFMAG := by
    rw [List.take_take]
    exact hmagic
  unfold patch64
  simp only [List.drop_zero]
  rw [if_neg (by simp [h64, h4])]
  simp only [hsw, hseg, hdyn]
  rw [if_neg (by simp [hva, hsz])]
  simp only [hoff]
  rw [if_neg (by omega)]
  simp only [Int.toNat_ofNat, total_extra_nil, if_true]
  rw [patch_in_place_nil _ _ _ hnames]

set_option maxRecDepth 100000 in
/-- C32 amended, at the file with the three names `libc.so.6`, `libm.so.6` and
`libdl.so.2`. -/
theorem patch64_empty_identity_witness :
    patch64 file_three 0 [] = some ⟨true, file_three, false⟩ :=
  patch64_empty_identity file_three 224 96 176 (decode_ehdr (file_three.take 64))
    [⟨DT_NEEDED, 1, 232⟩, ⟨DT_NEEDED, 11, 248⟩, ⟨DT_NEEDED, 21, 264⟩,
      ⟨DT_STRTAB, 176, 280⟩, ⟨DT_STRSZ, 32, 296⟩, ⟨DT_NULL, 0, 312⟩]
    (by decide) (by decide) rfl (by decide) (by decide) (by decide) (by decide) (by decide)
    (by decide) (by decide)

end ElfPatcher
